import Mathlib

/-!
# OTLP → Elastic APM translation: a shallow embedding

The definitions below follow `input/otlp/metrics.go`, `input/otlp/traces.go` and the function
`ToHTTPHeaders` of `model/modelpb/http.pb.json.go`.

Conventions of the embedding

* Go `float64` is the type `F64`: a finite value carried as a rational, or one of the three
  special values NaN, +Inf, -Inf.  The operations `+`, `-` and `/ 2` of `histogramSample`
  round their exact result to the nearest `float64` (ties to even) and overflow to an
  infinity, as IEEE-754 binary64 does; the special values follow IEEE-754.  The two zeros are
  one value, and the quotient `1 / probability` of the Jaeger sampler is kept exact.
* Go `uint64`/`int64` are `Nat`/`Int`; conversions between them are written out with
  explicit wrap-around.
* A Go run-time panic (index out of range, nil dereference) is the value `none` of an `Option`.
* Go maps are association lists without duplicate keys; their iteration order is the order of
  first insertion (Go leaves it unspecified, so statements about emitted events are made up to
  order, or about membership).
-/

namespace Otlp

/-! ## Numbers -/

/-- A `float64`: a finite value is carried as the rational it stands for. -/
inductive F64 where
  | finite (q : ℚ)
  | nan
  | posInf
  | negInf
  deriving DecidableEq, Repr

namespace F64

/-- The Go function `math.IsNaN`. -/
def isNaN : F64 → Bool
  | nan => true
  | _ => false

/-- The Go function `math.IsInf(v, 0)`. -/
def isInf : F64 → Bool
  | posInf => true
  | negInf => true
  | _ => false

/-- The comparison `v > 0`. -/
def gtZero : F64 → Bool
  | finite q => decide (0 < q)
  | posInf => true
  | _ => false

end F64

/-! ## Rounding to `float64`

The results of `+`, `-` and `/ 2` on finite `float64` values are the exact results rounded to
the nearest value that a `float64` can hold (IEEE-754 binary64: 53 significant bits, the
smallest spacing `2^-1074`, ties to the even significand), and an infinity when the rounded
magnitude reaches `2^1024`. -/

/-- The number of binary digits of `n` (`fuel` bounds the recursion; `n` itself is enough). -/
def binaryDigits : Nat → Nat → Nat
  | 0, _ => 0
  | fuel + 1, n => if n = 0 then 0 else binaryDigits fuel (n / 2) + 1

/-- The binary exponent of a rational `x ≠ 0`: the integer `e` with `2^e ≤ |x| < 2^(e+1)`. -/
def floorLog2 (x : ℚ) : Int :=
  let n := x.num.natAbs
  let d := x.den
  let e0 : Int := (binaryDigits n n : Int) - (binaryDigits d d : Int)
  if d * 2 ^ binaryDigits n n ≤ n * 2 ^ binaryDigits d d then e0 else e0 - 1

/-- The integer nearest to `z`, the even one of the two when `z` lies half-way. -/
def roundHalfEven (z : ℚ) : Int :=
  let f := ⌊z⌋
  if z - f < 1 / 2 then f
  else if 1 / 2 < z - f then f + 1
  else if f % 2 = 0 then f else f + 1

/-- The exponent of the spacing of the `float64` values around `x`: 52 below the binary
exponent of `x`, and never below `-1074` (the subnormal values). -/
def float64Quantum (x : ℚ) : Int := max (floorLog2 x - 52) (-1074)

/-- The magnitude `x ≥ 0` rounded to a multiple of the spacing around it. -/
def roundMagnitude (x : ℚ) : ℚ :=
  (roundHalfEven (x / 2 ^ float64Quantum x) : ℚ) * 2 ^ float64Quantum x

namespace F64

/-- The negation of a `float64`. -/
def neg : F64 → F64
  | finite q => finite (-q)
  | nan => nan
  | posInf => negInf
  | negInf => posInf

/-- The `float64` that an operation with the exact result `x ≥ 0` returns. -/
def ofMagnitude (x : ℚ) : F64 :=
  if 2 ^ 1024 ≤ roundMagnitude x then posInf else finite (roundMagnitude x)

/-- The `float64` that an operation with the exact result `x` returns: `x` rounded to the
nearest `float64`, ties to even, or an infinity on overflow.  (The sign of a zero is not
kept: the two zeros of IEEE-754 compare equal.) -/
def ofRat (x : ℚ) : F64 :=
  if x < 0 then neg (ofMagnitude (-x)) else ofMagnitude x

/-- The value is one that a `float64` can hold: NaN, an infinity, or a rational that rounding
leaves as it is. -/
def isFloat64 : F64 → Bool
  | finite q => decide (ofRat q = finite q)
  | _ => true

/-- The division `v / 2` (written `value /= 2` and `x / 2.0` in the source). -/
def half : F64 → F64
  | finite q => ofRat (q / 2)
  | v => v

/-- Addition of two `float64`. -/
def add : F64 → F64 → F64
  | finite a, finite b => ofRat (a + b)
  | nan, _ => nan
  | _, nan => nan
  | posInf, negInf => nan
  | negInf, posInf => nan
  | posInf, _ => posInf
  | _, posInf => posInf
  | negInf, _ => negInf
  | _, negInf => negInf

/-- Subtraction of two `float64`. -/
def sub : F64 → F64 → F64
  | finite a, finite b => ofRat (a - b)
  | nan, _ => nan
  | _, nan => nan
  | posInf, posInf => nan
  | negInf, negInf => nan
  | posInf, _ => posInf
  | _, negInf => posInf
  | negInf, _ => negInf
  | _, posInf => negInf

end F64

/-- The Go conversion `int64(x)` of a `uint64`: the same 64 bits read as two's complement. -/
def int64OfUint64 (n : Nat) : Int :=
  if n % 2 ^ 64 < 2 ^ 63 then ((n % 2 ^ 64 : Nat) : Int) else ((n % 2 ^ 64 : Nat) : Int) - 2 ^ 64


/-! ## Time

`time.Time` values are integers: nanoseconds since the Unix epoch (the translators only build
times with `time.Unix`/`AsTime` and `time.Now`, and only read them back through
`timestamppb.New`, so the representable range of `time.Time`, which is far larger than that
of an `int64` of nanoseconds, is never exceeded).  `time.Duration` is an `int64` of
nanoseconds. -/

/-- The largest `time.Duration`, `1<<63 - 1` nanoseconds. -/
def maxDuration : Int := 2 ^ 63 - 1

/-- The smallest `time.Duration`, `-1 << 63` nanoseconds. -/
def minDuration : Int := -(2 ^ 63)

/-- The method `Time.Sub`: the difference `t - u`, or the largest (smallest) duration when
the difference does not fit a `Duration`. -/
def timeSub (t u : Int) : Int :=
  if t - u > maxDuration then maxDuration
  else if t - u < minDuration then minDuration
  else t - u

/-- The method `Time.Add`. -/
def timeAdd (t d : Int) : Int := t + d

/-- The method `pcommon.Timestamp.AsTime`: `time.Unix(0, int64(ts))`. -/
def asTime (ts : Nat) : Int := int64OfUint64 ts

/-! ## Input model (OTLP pdata) -/

/-- The type `pcommon.Value` (a tagged union; `empty` is `ValueTypeEmpty`). -/
inductive Value where
  | empty
  | str (s : String)
  | int (i : Int)
  | double (d : F64)
  | bool (b : Bool)
  | map (m : List (String × Value))
  | slice (l : List Value)
  | bytes (b : List Nat)

/-- The type `pcommon.Map`: key/value entries in their stored order (the order of `Range`). -/
abbrev Attributes := List (String × Value)

namespace Value

/-- The accessor `Value.Str`: the empty string for a value of another type. -/
def Str : Value → String
  | str s => s
  | _ => ""

/-- The accessor `Value.Int` (named `Int_` here): zero for a value of another type. -/
def Int_ : Value → Int
  | int i => i
  | _ => 0

end Value

/-- The value of a `pmetric.NumberDataPoint`: its `ValueType` is `Empty`, `Int` or `Double`. -/
inductive NumberValue where
  | empty
  | int (i : Int)
  | double (d : F64)

/-- The type `pmetric.NumberDataPoint`. -/
structure NumberDataPoint where
  Timestamp : Nat
  Attributes : Attributes
  Value : NumberValue

/-- The type `pmetric.HistogramDataPoint`. -/
structure HistogramDataPoint where
  Timestamp : Nat
  Attributes : Attributes
  BucketCounts : List Nat
  ExplicitBounds : List F64

/-- The type `pmetric.SummaryDataPoint` (quantile values are never read). -/
structure SummaryDataPoint where
  Timestamp : Nat
  Attributes : Attributes
  Count : Nat
  Sum : F64

/-- The data of a `pmetric.Metric`, by `metric.Type()`. -/
inductive MetricData where
  | empty
  | gauge (dps : List NumberDataPoint)
  | sum (dps : List NumberDataPoint)
  | histogram (dps : List HistogramDataPoint)
  | exponentialHistogram
  | summary (dps : List SummaryDataPoint)

/-- The type `pmetric.Metric`. -/
structure Metric where
  Name : String
  Data : MetricData

/-- The type `pcommon.Resource`. -/
structure Resource where
  Attributes : Attributes

/-- The type `pcommon.InstrumentationScope`. -/
structure InstrumentationScope where
  Name : String
  Version : String

/-- The type `pmetric.ScopeMetrics`. -/
structure ScopeMetrics where
  Scope : InstrumentationScope
  Metrics : List Metric

/-- The type `pmetric.ResourceMetrics`. -/
structure ResourceMetrics where
  Resource : Resource
  ScopeMetrics : List ScopeMetrics

/-! ## Output model: metric samples -/

/-- The enumeration `modelpb.MetricType`. -/
inductive MetricType where
  | unspecified
  | gauge
  | counter
  | histogram
  | summary
  deriving DecidableEq, Repr

/-- The record `modelpb.Histogram`. -/
structure Histogram where
  Values : List F64
  Counts : List Int
  deriving DecidableEq, Repr

/-- The record `modelpb.SummaryMetric`. -/
structure SummaryMetric where
  Count : Int
  Sum : F64
  deriving DecidableEq, Repr

/-- The record `modelpb.MetricsetSample` (field `Type_` is the Go field `Type`). -/
structure MetricsetSample where
  Type_ : MetricType
  Name : String
  Histogram : Option Histogram
  Summary : Option SummaryMetric
  Value : F64
  deriving DecidableEq, Repr

/-- The Go zero value `modelpb.MetricsetSample{}`. -/
def emptySample : MetricsetSample :=
  { Type_ := MetricType.unspecified, Name := "", Histogram := none, Summary := none,
    Value := F64.finite 0 }

/-! ## Output model: events

Only the fields that the translators read or write are kept.  A pointer field is an `Option`
(`none` is the nil pointer); a string field defaults to the empty string. -/

/-- Modelled from the spec: the constructors `modelpb.TransactionProcessor()`,
`SpanProcessor()`, `ErrorProcessor()`, `LogProcessor()` and `MetricsetProcessor()` are not
among the sources.  `Processor` is a tag discriminating transaction, span, error, log and
metricset events. -/
inductive Processor where
  | transaction
  | span
  | error
  | log
  | metricset
  deriving DecidableEq, Repr

/-- The record `modelpb.Event`; times are nanoseconds. -/
structure Event where
  Received : Option Int := none
  Duration : Option Int := none
  Outcome : String := ""
  deriving DecidableEq, Repr

/-- The record `modelpb.Trace`. -/
structure Trace where
  Id : String := ""
  deriving DecidableEq, Repr

/-- The record `modelpb.LabelValue`. -/
structure LabelValue where
  Value : String := ""
  Values : List String := []
  Global : Bool := false
  deriving DecidableEq, Repr

/-- The record `modelpb.NumericLabelValue`. -/
structure NumericLabelValue where
  Value : F64 := F64.finite 0
  Values : List F64 := []
  Global : Bool := false
  deriving DecidableEq, Repr

/-- The map type `modelpb.Labels` (a Go map as an association list). -/
abbrev Labels := List (String × LabelValue)

/-- The map type `modelpb.NumericLabels`. -/
abbrev NumericLabels := List (String × NumericLabelValue)

/-- The record `modelpb.HTTPRequest`. -/
structure HTTPRequest where
  Method : String := ""
  deriving DecidableEq, Repr

/-- The record `modelpb.HTTPResponse`. -/
structure HTTPResponse where
  StatusCode : Int := 0
  deriving DecidableEq, Repr

/-- The record `modelpb.HTTP`. -/
structure HTTP where
  Version : String := ""
  Request : Option HTTPRequest := none
  Response : Option HTTPResponse := none
  deriving DecidableEq, Repr

/-- The record `modelpb.URL`. -/
structure URL where
  Original : String := ""
  Scheme : String := ""
  Full : String := ""
  Domain : String := ""
  Path : String := ""
  Query : String := ""
  Fragment : String := ""
  Port : Nat := 0
  deriving DecidableEq, Repr

/-- The record `modelpb.Source`. -/
structure Source where
  Ip : String := ""
  Port : Nat := 0
  Domain : String := ""
  deriving DecidableEq, Repr

/-- The record `modelpb.Client`. -/
structure Client where
  Ip : String := ""
  Port : Nat := 0
  Domain : String := ""
  deriving DecidableEq, Repr

/-- The record `modelpb.Destination`. -/
structure Destination where
  Address : String := ""
  Port : Nat := 0
  deriving DecidableEq, Repr

/-- The record `modelpb.Session`. -/
structure Session where
  Id : String := ""
  deriving DecidableEq, Repr

/-- The record `modelpb.UserAgent`. -/
structure UserAgent where
  Original : String := ""
  deriving DecidableEq, Repr

/-- The record `modelpb.NetworkConnection` (field `Type_` is the Go field `Type`). -/
structure NetworkConnection where
  Type_ : String := ""
  Subtype : String := ""
  deriving DecidableEq, Repr

/-- The record `modelpb.NetworkCarrier`. -/
structure NetworkCarrier where
  Mcc : String := ""
  Mnc : String := ""
  Name : String := ""
  Icc : String := ""
  deriving DecidableEq, Repr

/-- The record `modelpb.Network`. -/
structure Network where
  Connection : Option NetworkConnection := none
  Carrier : Option NetworkCarrier := none
  deriving DecidableEq, Repr

/-- The record `modelpb.Message`. -/
structure Message where
  QueueName : String := ""
  deriving DecidableEq, Repr

/-- The record `modelpb.Framework`. -/
structure Framework where
  Name : String := ""
  Version : String := ""
  deriving DecidableEq, Repr

/-- The record `modelpb.Language`. -/
structure Language where
  Name : String := ""
  Version : String := ""
  deriving DecidableEq, Repr

/-- The record `modelpb.ServiceTarget` (field `Type_` is the Go field `Type`). -/
structure ServiceTarget where
  Name : String := ""
  Type_ : String := ""
  deriving DecidableEq, Repr

/-- The record `modelpb.Service`. -/
structure Service where
  Name : String := ""
  Version : String := ""
  Language : Option Language := none
  Framework : Option Framework := none
  Target : Option ServiceTarget := none
  deriving DecidableEq, Repr

/-- The record `modelpb.Agent`. -/
structure Agent where
  Name : String := ""
  Version : String := ""
  deriving DecidableEq, Repr

/-- The record `modelpb.Host`. -/
structure Host where
  Hostname : String := ""
  deriving DecidableEq, Repr

/-- The record `modelpb.DB` (field `Type_` is the Go field `Type`). -/
structure DB where
  Type_ : String := ""
  Statement : String := ""
  Instance : String := ""
  UserName : String := ""
  deriving DecidableEq, Repr

/-- The record `modelpb.DestinationService` (field `Type_` is the Go field `Type`). -/
structure DestinationService where
  Type_ : String := ""
  Name : String := ""
  Resource : String := ""
  deriving DecidableEq, Repr

/-- The record `modelpb.SpanLink`. -/
structure SpanLink where
  TraceId : String := ""
  SpanId : String := ""
  deriving DecidableEq, Repr

/-- The record `modelpb.Transaction` (field `Type_` is the Go field `Type`); the field
`Custom` is never written by the translators and is kept as an opaque string. -/
structure Transaction where
  Id : String := ""
  Name : String := ""
  Type_ : String := ""
  Result : String := ""
  Sampled : Bool := false
  RepresentativeCount : F64 := F64.finite 0
  Message : Option Message := none
  Custom : Option String := none
  deriving DecidableEq, Repr

/-- The record `modelpb.Span` (field `Type_` is the Go field `Type`). -/
structure Span where
  Id : String := ""
  Name : String := ""
  Type_ : String := ""
  Subtype : String := ""
  Action : String := ""
  RepresentativeCount : F64 := F64.finite 0
  Db : Option DB := none
  Message : Option Message := none
  DestinationService : Option DestinationService := none
  Links : List SpanLink := []
  deriving DecidableEq, Repr

/-- The record `modelpb.ErrorLog`. -/
structure ErrorLog where
  Message : String := ""
  deriving DecidableEq, Repr

/-- The record `modelpb.Exception` (field `Type_` is the Go field `Type`). -/
structure Exception where
  Message : String := ""
  Type_ : String := ""
  Handled : Option Bool := none
  Stacktrace : String := ""
  deriving DecidableEq, Repr

/-- The record `modelpb.Error`. -/
structure Error where
  Id : String := ""
  Log : Option ErrorLog := none
  Exception : Option Exception := none
  Custom : Option String := none
  deriving DecidableEq, Repr

/-- The record `modelpb.Metricset`. -/
structure Metricset where
  Name : String := ""
  Samples : List MetricsetSample := []
  deriving DecidableEq, Repr

/-- The record `modelpb.APMEvent`, the envelope of every emitted event.  `Timestamp` is in
nanoseconds since the epoch; `Labels`/`NumericLabels` are `none` for a nil map. -/
structure APMEvent where
  Timestamp : Option Int := none
  Event : Option Event := none
  Processor : Option Processor := none
  Trace : Option Trace := none
  ParentId : String := ""
  Message : String := ""
  Labels : Option Labels := none
  NumericLabels : Option NumericLabels := none
  Transaction : Option Transaction := none
  Span : Option Span := none
  Error : Option Error := none
  Metricset : Option Metricset := none
  Http : Option HTTP := none
  Url : Option URL := none
  Service : Option Service := none
  Agent : Option Agent := none
  Host : Option Host := none
  Client : Option Client := none
  Source : Option Source := none
  Destination : Option Destination := none
  Session : Option Session := none
  Network : Option Network := none
  UserAgent : Option UserAgent := none
  deriving DecidableEq, Repr

/-- The type `modelpb.Batch`: the ordered events handed to the processor. -/
abbrev Batch := List APMEvent

/-! ## `histogramSample` -/

/-- The value that `histogramSample` assigns to bucket `i` (the `switch i` of the loop body);
`n` is `bucketCounts.Len()`.  `explicitBounds.At(j)` panics when `j` is out of range. -/
def bucketValue (explicitBounds : List F64) (n i : Nat) : Option F64 :=
  if i = 0 then do
    let value ← explicitBounds.get? i
    if value.gtZero then pure value.half else pure value
  else if i = n - 1 then
    explicitBounds.get? (i - 1)
  else do
    let lo ← explicitBounds.get? (i - 1)
    let hi ← explicitBounds.get? i
    pure (F64.add lo (F64.half (F64.sub hi lo)))

/-- One iteration of the loop of `histogramSample`, at index `i`, on the accumulators
`(values, counts)`. -/
def histogramStep (bucketCounts : List Nat) (explicitBounds : List F64)
    (acc : List F64 × List Int) (i : Nat) : Option (List F64 × List Int) := do
  let count ← bucketCounts.get? i
  if count = 0 then
    pure acc
  else do
    let value ← bucketValue explicitBounds bucketCounts.length i
    pure (acc.1 ++ [value], acc.2 ++ [int64OfUint64 count])

/-- The function `histogramSample`: `none` is a panic, otherwise the returned sample and the
`ok` flag. -/
def histogramSample (bucketCounts : List Nat) (explicitBounds : List F64) :
    Option (MetricsetSample × Bool) :=
  if bucketCounts.length ≠ explicitBounds.length + 1 ∨ explicitBounds.length = 0 then
    some (emptySample, false)
  else do
    let acc ← (List.range bucketCounts.length).foldlM
      (histogramStep bucketCounts explicitBounds) ([], [])
    pure ({ emptySample with
            Type_ := MetricType.histogram,
            Histogram := some { Counts := acc.2, Values := acc.1 } }, true)

/-- The representative value of bucket `i` as the specification words it, over exact
rationals: `b0/2` (or `b0` when `b0 ≤ 0`) for the first bucket, the last bound for the last
bucket, the midpoint of the two neighbouring bounds otherwise.  `n` is the number of buckets. -/
def specBucketValue (b : List ℚ) (n i : Nat) : ℚ :=
  if i = 0 then (if 0 < b.getD 0 0 then b.getD 0 0 / 2 else b.getD 0 0)
  else if i = n - 1 then b.getD (n - 2) 0
  else (b.getD (i - 1) 0 + b.getD i 0) / 2

/-- The representative value of bucket `i` in `float64` arithmetic, for `n` buckets: half the
first bound (or the first bound when it is not positive) for the first bucket, the last bound
for the last bucket, and `b[i-1] + (b[i] - b[i-1]) / 2` otherwise, every operation rounded. -/
def float64BucketValue (b : List F64) (n i : Nat) : F64 :=
  if i = 0 then
    (if (b.getD 0 (F64.finite 0)).gtZero then (b.getD 0 (F64.finite 0)).half
     else b.getD 0 (F64.finite 0))
  else if i = n - 1 then b.getD (n - 2) (F64.finite 0)
  else F64.add (b.getD (i - 1) (F64.finite 0))
    (F64.half (F64.sub (b.getD i (F64.finite 0)) (b.getD (i - 1) (F64.finite 0))))

/-- No operation on the way to the value of bucket `i` rounds: for the first bucket the bound
is not positive or its half is a `float64`; for an interior bucket the difference of the two
bounds, its half and the midpoint are `float64` values. -/
def exactBucket (b : List ℚ) (n i : Nat) : Bool :=
  if i = 0 then decide (b.getD 0 0 ≤ 0) || (F64.finite (b.getD 0 0 / 2)).isFloat64
  else if i = n - 1 then true
  else (F64.finite (b.getD i 0 - b.getD (i - 1) 0)).isFloat64 &&
    (F64.finite ((b.getD i 0 - b.getD (i - 1) 0) / 2)).isFloat64 &&
    (F64.finite ((b.getD (i - 1) 0 + b.getD i 0) / 2)).isFloat64

/-- The indices of the non-empty buckets, in increasing order. -/
def nonEmptyBuckets (c : List Nat) : List Nat :=
  (List.range c.length).filter (fun i => decide (c.getD i 0 ≠ 0))

/-! ## Helpers that are not part of the translated sources -/

/-- A Go `interface{}` as the attribute helpers pass it to `setLabel`. -/
inductive Iface where
  | null
  | str (s : String)
  | bool (b : Bool)
  | float (d : F64)
  | int (i : Int)
  | slice (l : List Iface)

/-- The type `url.URL`: the scheme and the host, which the translators read and write, and
the remaining components as one opaque value. -/
structure GoURL where
  Scheme : String := ""
  Host : String := ""
  Rest : String := ""
  deriving DecidableEq, Repr

/-- The functions of other packages and files that the translators call and whose results
they only pass on.  Every definition below takes them as a parameter, so every theorem holds
for any implementation of them. -/
structure Env where
  /-- The method `pcommon.Value.AsString`. -/
  asString : Value → String
  /-- The helper `ifaceAttributeValue`. -/
  ifaceAttributeValue : Value → Iface
  /-- The helper `ifaceAttributeValueSlice`. -/
  ifaceAttributeValueSlice : List Value → Iface
  /-- The helper `setLabel(key, event, value)`, which stores a string or a numeric label: its
  effect on the two label maps of the event. -/
  setLabel : String → Iface → Option Labels × Option NumericLabels →
    Option Labels × Option NumericLabels
  /-- The helper `translateResourceMetadata(resource, &baseEvent)`. -/
  translateResourceMetadata : Resource → APMEvent → APMEvent
  /-- The helper `convertOpenTelemetryExceptionSpanEvent(type, message, stacktrace, escaped,
  language)`, which builds the error of an exception span event. -/
  convertOpenTelemetryExceptionSpanEvent : String → String → String → Bool → String → Error
  /-- The function `modelpb.ParseURL(original, defaultHostname, defaultScheme)`. -/
  parseURL : String → String → String → Option URL
  /-- The method `codes.Code.String` of a gRPC status code (a `uint32`). -/
  grpcCodeString : Nat → String
  /-- The function `strconv.Atoi`: the returned integer, and whether the error is nil. -/
  atoi : String → Int × Bool
  /-- The function `netip.ParseAddr` followed by `Addr.String`; `none` is an error. -/
  parseAddr : String → Option String
  /-- The test `net.ParseIP(s) != nil`. -/
  parseIP : String → Bool
  /-- The function `url.Parse`; `none` is an error. -/
  urlParse : String → Option GoURL
  /-- The method `URL.String`. -/
  urlString : GoURL → String
  /-- The method `URL.Port`. -/
  urlPort : GoURL → String
  /-- The method `URL.Hostname`. -/
  urlHostname : GoURL → String
  /-- Whether `Value.Double` panics on a zero-initialized `pcommon.Value` (its documentation
  says so; otherwise it returns zero). -/
  zeroValueDoublePanics : Bool
  /-- Whether `Value.Type` panics on a zero-initialized `pcommon.Value` (its documentation
  says so; otherwise it returns `ValueTypeEmpty`). -/
  zeroValueTypePanics : Bool
  /-- Storing a label never turns an initialized label map into a nil map. -/
  setLabel_isSome : ∀ key value maps, maps.1.isSome = true → maps.2.isSome = true →
    (setLabel key value maps).1.isSome = true ∧ (setLabel key value maps).2.isSome = true

/-- The call `setLabel(key, event, value)`. -/
def setLabel (E : Env) (key : String) (event : APMEvent) (value : Iface) : APMEvent :=
  let r := E.setLabel key value (event.Labels, event.NumericLabels)
  { event with Labels := r.1, NumericLabels := r.2 }

/-- Modelled from the spec: `initEventLabels` is not among the sources.  It makes both label
maps of the event present: a copy of the existing entries, or an empty map. -/
def initEventLabels (event : APMEvent) : APMEvent :=
  { event with Labels := some (event.Labels.getD []),
               NumericLabels := some (event.NumericLabels.getD []) }

/-- The statements `if len(m) == 0 { m = nil }` on a label map. -/
def nilIfEmpty {α : Type} (m : Option (List α)) : Option (List α) :=
  match m with
  | some [] => none
  | m => m

/-- The method `pcommon.Map.Get`: the value of the first entry with the key. -/
def Attributes.Get : Attributes → String → Option Value
  | [], _ => none
  | (k, v) :: rest, key => if k = key then some v else Attributes.Get rest key

/-- Modelled from the spec: `exportTimestamp` is not among the sources.  The resource
attribute `telemetry.sdk.elastic_export_timestamp`, when present, holds the export time as
integer nanoseconds since the epoch. -/
def exportTimestamp (resource : Resource) : Option Int :=
  match resource.Attributes.Get "telemetry.sdk.elastic_export_timestamp" with
  | some attr => some attr.Int_
  | none => none

/-! ## Go maps -/

/-- The lookup `m[k]` of a Go map. -/
def mapGet? {κ ν : Type} [DecidableEq κ] : List (κ × ν) → κ → Option ν
  | [], _ => none
  | (k', v') :: m, k => if k' = k then some v' else mapGet? m k

/-- The assignment `m[k] = v` of a Go map: an existing entry is overwritten, a new one is
added. -/
def mapSet {κ ν : Type} [DecidableEq κ] : List (κ × ν) → κ → ν → List (κ × ν)
  | [], k, v => [(k, v)]
  | (k', v') :: m, k, v => if k' = k then (k, v) :: m else (k', v') :: mapSet m k v

/-! ## Metrics (`metrics.go`) -/

/-- The conversion `float64(i)` of an `int64`: exact below `2^53` in magnitude, otherwise
rounded to 53 significant bits, ties to even. -/
def float64OfInt64 (i : Int) : F64 :=
  let a := i.natAbs
  if a < 2 ^ 53 then F64.finite i
  else
    let e := Nat.log2 a - 52
    let q := a / 2 ^ e
    let r := a % 2 ^ e
    let h := 2 ^ (e - 1)
    let q' := if r > h ∨ (r = h ∧ q % 2 = 1) then q + 1 else q
    F64.finite ((if i < 0 then -1 else 1) * ((q' * 2 ^ e : Nat) : ℚ))

/-- The function `numberSample`. -/
def numberSample (dp : NumberDataPoint) (metricType : MetricType) : MetricsetSample × Bool :=
  match dp.Value with
  | NumberValue.int i =>
    ({ emptySample with Type_ := metricType, Value := float64OfInt64 i }, true)
  | NumberValue.double value =>
    if value.isNaN || value.isInf then (emptySample, false)
    else ({ emptySample with Type_ := metricType, Value := value }, true)
  | NumberValue.empty => (emptySample, false)

/-- The function `summarySample`. -/
def summarySample (dp : SummaryDataPoint) : MetricsetSample :=
  { emptySample with
    Type_ := MetricType.summary,
    Summary := some { Count := int64OfUint64 dp.Count, Sum := dp.Sum } }

/-- The type `metricsetKey`. -/
structure metricsetKey where
  timestamp : Int
  signature : String
  deriving DecidableEq, Repr

/-- The type `metricset`; `samples` is a Go map from metric name to sample. -/
structure metricset where
  attributes : Attributes
  samples : List (String × MetricsetSample)

/-- The type `metricsets`, a Go map. -/
abbrev metricsets := List (metricsetKey × metricset)

/-- The signature that `upsertOne` builds with its `strings.Builder`. -/
def attributeSignature (E : Env) (attributes : Attributes) : String :=
  attributes.foldl (fun signatureBuilder kv => signatureBuilder ++ kv.1 ++ E.asString kv.2) ""

/-- The method `metricsets.upsertOne`. -/
def upsertOne (E : Env) (ms : metricsets) (timestamp : Int) (attributes : Attributes)
    (sample : MetricsetSample) : metricsets :=
  let key : metricsetKey :=
    { timestamp := timestamp, signature := attributeSignature E attributes }
  let m : metricset :=
    match mapGet? ms key with
    | some m => m
    | none => { attributes := attributes, samples := [] }
  mapSet ms key { m with samples := mapSet m.samples sample.Name sample }

/-- The method `metricsets.upsert`. -/
def upsert (E : Env) (ms : metricsets) (timestamp : Int) (attributes : Attributes)
    (sample : MetricsetSample) : metricsets :=
  upsertOne E ms timestamp attributes sample

/-- The body of the gauge and sum loops of `addMetric`, on the state `(ms, anyDropped)`. -/
def addNumberDataPoint (E : Env) (name : String) (metricType : MetricType)
    (st : metricsets × Bool) (dp : NumberDataPoint) : metricsets × Bool :=
  match numberSample dp metricType with
  | (sample, true) =>
    (upsert E st.1 (asTime dp.Timestamp) dp.Attributes { sample with Name := name }, st.2)
  | (_, false) => (st.1, true)

/-- The body of the histogram loop of `addMetric`; `none` is a panic. -/
def addHistogramDataPoint (E : Env) (name : String)
    (st : metricsets × Bool) (dp : HistogramDataPoint) : Option (metricsets × Bool) :=
  match histogramSample dp.BucketCounts dp.ExplicitBounds with
  | none => none
  | some (sample, true) =>
    some (upsert E st.1 (asTime dp.Timestamp) dp.Attributes { sample with Name := name }, st.2)
  | some (_, false) => some (st.1, true)

/-- The body of the summary loop of `addMetric`. -/
def addSummaryDataPoint (E : Env) (name : String)
    (st : metricsets × Bool) (dp : SummaryDataPoint) : metricsets × Bool :=
  (upsert E st.1 (asTime dp.Timestamp) dp.Attributes { summarySample dp with Name := name },
   st.2)

/-- The method `addMetric`: the updated metricsets and the returned flag (`false` when a
datapoint, or the whole metric, was dropped); `none` is a panic. -/
def addMetric (E : Env) (metric : Metric) (ms : metricsets) : Option (metricsets × Bool) :=
  match metric.Data with
  | MetricData.gauge dps =>
    let st := dps.foldl (addNumberDataPoint E metric.Name MetricType.gauge) (ms, false)
    some (st.1, !st.2)
  | MetricData.sum dps =>
    let st := dps.foldl (addNumberDataPoint E metric.Name MetricType.counter) (ms, false)
    some (st.1, !st.2)
  | MetricData.histogram dps => do
    let st ← dps.foldlM (addHistogramDataPoint E metric.Name) (ms, false)
    pure (st.1, !st.2)
  | MetricData.summary dps =>
    let st := dps.foldl (addSummaryDataPoint E metric.Name) (ms, false)
    some (st.1, !st.2)
  | _ => some (ms, false)

/-- The body of the first loop of `convertScopeMetrics`, on the state `(ms, unsupported)`. -/
def addMetricsStep (E : Env) (st : metricsets × Int) (metric : Metric) :
    Option (metricsets × Int) := do
  let r ← addMetric E metric st.1
  pure (r.1, if r.2 then st.2 else st.2 + 1)

/-- The first loop of `convertScopeMetrics`, from an empty map and `unsupported = 0`. -/
def addMetrics (E : Env) (otelMetrics : List Metric) : Option (metricsets × Int) :=
  otelMetrics.foldlM (addMetricsStep E) ([], 0)

/-- The body of the second loop of `convertScopeMetrics`: the event of one metricset. -/
def metricsetEvent (E : Env) (baseEvent : APMEvent) (timeDelta : Int)
    (key : metricsetKey) (ms : metricset) : APMEvent :=
  let event : APMEvent :=
    { baseEvent with
      Processor := some Processor.metricset,
      Timestamp := some (timeAdd key.timestamp timeDelta),
      Metricset := some { Samples := ms.samples.map (fun s => s.2), Name := "app" } }
  if ms.attributes.length > 0 then
    let event := initEventLabels event
    let event := ms.attributes.foldl
      (fun event kv => setLabel E kv.1 event (E.ifaceAttributeValue kv.2)) event
    { event with Labels := nilIfEmpty event.Labels,
                 NumericLabels := nilIfEmpty event.NumericLabels }
  else event

/-- The method `convertScopeMetrics`: the batch after the events of the scope were appended,
and the new value of the counter `unsupportedMetricsDropped`; `none` is a panic. -/
def convertScopeMetrics (E : Env) (in_ : ScopeMetrics) (baseEvent : APMEvent)
    (timeDelta : Int) (out : Batch) (unsupportedMetricsDropped : Int) :
    Option (Batch × Int) := do
  let (ms, unsupported) ← addMetrics E in_.Metrics
  let out := out ++ ms.map (fun kv => metricsetEvent E baseEvent timeDelta kv.1 kv.2)
  pure (out, if unsupported > 0 then unsupportedMetricsDropped + unsupported
             else unsupportedMetricsDropped)

/-- The time delta that `convertResourceMetrics` and `convertResourceSpans` compute. -/
def resourceTimeDelta (resource : Resource) (receiveTimestamp : Int) : Int :=
  match exportTimestamp resource with
  | some exportTimestamp => timeSub receiveTimestamp exportTimestamp
  | none => 0

/-- The base event that `convertResourceMetrics` and `convertResourceSpans` build. -/
def resourceBaseEvent (E : Env) (resource : Resource) (receiveTimestamp : Int) : APMEvent :=
  E.translateResourceMetadata resource { Event := some { Received := some receiveTimestamp } }

/-- The method `convertResourceMetrics`. -/
def convertResourceMetrics (E : Env) (resourceMetrics : ResourceMetrics)
    (receiveTimestamp : Int) (out : Batch) (unsupportedMetricsDropped : Int) :
    Option (Batch × Int) :=
  let baseEvent := resourceBaseEvent E resourceMetrics.Resource receiveTimestamp
  let timeDelta := resourceTimeDelta resourceMetrics.Resource receiveTimestamp
  resourceMetrics.ScopeMetrics.foldlM
    (fun (st : Batch × Int) scopeMetrics =>
      convertScopeMetrics E scopeMetrics baseEvent timeDelta st.1 st.2)
    (out, unsupportedMetricsDropped)

/-- The method `convertMetrics`: the batch, and the new value of the counter. -/
def convertMetrics (E : Env) (metrics : List ResourceMetrics) (receiveTimestamp : Int)
    (unsupportedMetricsDropped : Int) : Option (Batch × Int) :=
  metrics.foldlM
    (fun (st : Batch × Int) resourceMetrics =>
      convertResourceMetrics E resourceMetrics receiveTimestamp st.1 st.2)
    ([], unsupportedMetricsDropped)

/-! ## Traces: input model (`ptrace`) -/

/-- The type `pcommon.SpanID`: eight bytes. -/
structure SpanID where
  bytes : List (Fin 256)
  size : bytes.length = 8
  deriving DecidableEq

/-- The type `pcommon.TraceID`: sixteen bytes. -/
structure TraceID where
  bytes : List (Fin 256)
  size : bytes.length = 16
  deriving DecidableEq

/-- The method `SpanID.IsEmpty`: all bytes are zero. -/
def SpanID.IsEmpty (id : SpanID) : Bool := id.bytes.all (fun b => decide (b = 0))

/-- The method `TraceID.IsEmpty`: all bytes are zero. -/
def TraceID.IsEmpty (id : TraceID) : Bool := id.bytes.all (fun b => decide (b = 0))

namespace ptrace

/-- The enumeration `ptrace.SpanKind`. -/
inductive SpanKind where
  | Unspecified
  | Internal
  | Server
  | Client
  | Producer
  | Consumer
  deriving DecidableEq, Repr

/-- The enumeration `ptrace.StatusCode`. -/
inductive StatusCode where
  | Unset
  | Ok
  | Error
  deriving DecidableEq, Repr

/-- The type `ptrace.Status`. -/
structure Status where
  Code : StatusCode
  Message : String

/-- The type `ptrace.SpanEvent`. -/
structure SpanEvent where
  Timestamp : Nat
  Name : String
  Attributes : Attributes

/-- The type `ptrace.SpanLink`. -/
structure SpanLink where
  TraceID : Otlp.TraceID
  SpanID : Otlp.SpanID

/-- The type `ptrace.Span`; `TraceState` is the raw header (`TraceState().AsRaw()`). -/
structure Span where
  TraceID : Otlp.TraceID
  SpanID : Otlp.SpanID
  ParentSpanID : Otlp.SpanID
  TraceState : String
  Name : String
  Kind : SpanKind
  StartTimestamp : Nat
  EndTimestamp : Nat
  Attributes : Attributes
  Events : List SpanEvent
  Links : List SpanLink
  Status : Status

/-- The type `ptrace.ScopeSpans`. -/
structure ScopeSpans where
  Scope : InstrumentationScope
  Spans : List Span

/-- The type `ptrace.ResourceSpans`. -/
structure ResourceSpans where
  Resource : Resource
  ScopeSpans : List ScopeSpans

end ptrace

/-! ## Traces: small helpers of `traces.go` -/

/-- The constant `keywordLength`. -/
def keywordLength : Nat := 1024

/-- The constant `outcomeSuccess`. -/
def outcomeSuccess : String := "success"

/-- The constant `outcomeFailure`. -/
def outcomeFailure : String := "failure"

/-- The constant `outcomeUnknown`. -/
def outcomeUnknown : String := "unknown"

/-- The digit of `hex.EncodeToString` for a value below sixteen. -/
def hexDigit (n : Nat) : Char := "0123456789abcdef".data.getD n '0'

/-- The function `hex.EncodeToString`: two lowercase digits per byte. -/
def hexEncodeToString (bytes : List (Fin 256)) : String :=
  String.mk (bytes.foldr (fun b acc => hexDigit (b.val / 16) :: hexDigit (b.val % 16) :: acc) [])

/-- The function `hexSpanID`. -/
def hexSpanID (id : SpanID) : String :=
  if id.IsEmpty then "" else hexEncodeToString id.bytes

/-- The function `hexTraceID`. -/
def hexTraceID (id : TraceID) : String :=
  if id.IsEmpty then "" else hexEncodeToString id.bytes

/-- The function `replaceDots`: `strings.ReplaceAll(s, ".", "_")`. -/
def replaceDots (s : String) : String :=
  String.mk (s.data.map (fun c => if c = '.' then '_' else c))

/-- The loop of `truncate` over the runes of the string: `j` counts the runes seen and `pre`
is the part of the string before the current rune (`s[:i]`). -/
def truncateLoop : List Char → Nat → List Char → List Char
  | [], _, pre => pre
  | c :: rest, j, pre =>
    if j = keywordLength then pre else truncateLoop rest (j + 1) (pre ++ [c])

/-- The function `truncate`. -/
def truncate (s : String) : String := String.mk (truncateLoop s.data 0 [])

/-- The function `spanStatusOutcome`. -/
def spanStatusOutcome (status : ptrace.Status) : String :=
  match status.Code with
  | ptrace.StatusCode.Ok => outcomeSuccess
  | ptrace.StatusCode.Error => outcomeFailure
  | _ => outcomeUnknown

/-- The function `spanStatusResult`. -/
def spanStatusResult (status : ptrace.Status) : String :=
  match status.Code with
  | ptrace.StatusCode.Ok => "Success"
  | ptrace.StatusCode.Error => "Error"
  | _ => ""

/-- The function `strconv.Itoa`. -/
def itoa (i : Int) : String := toString i

/-- The table `standardStatusCodeResults`. -/
def standardStatusCodeResults : List String :=
  ["HTTP 1xx", "HTTP 2xx", "HTTP 3xx", "HTTP 4xx", "HTTP 5xx"]

/-- The function `httpStatusCodeResult`; Go integer division truncates toward zero. -/
def httpStatusCodeResult (statusCode : Int) : String :=
  let i := Int.tdiv statusCode 100
  if i = 1 ∨ i = 2 ∨ i = 3 ∨ i = 4 ∨ i = 5 then
    standardStatusCodeResults.getD (i - 1).toNat ""
  else "HTTP " ++ itoa statusCode

/-- The function `serverHTTPStatusCodeOutcome`. -/
def serverHTTPStatusCodeOutcome (statusCode : Int) : String :=
  if statusCode ≥ 500 then outcomeFailure else outcomeSuccess

/-- The function `clientHTTPStatusCodeOutcome`. -/
def clientHTTPStatusCodeOutcome (statusCode : Int) : String :=
  if statusCode ≥ 400 then outcomeFailure else outcomeSuccess

/-- The function `schemeDefaultPort`. -/
def schemeDefaultPort (scheme : String) : Int :=
  match scheme with
  | "http" => 80
  | "https" => 443
  | _ => 0

/-- The predicate `unicode.IsSpace`. -/
def isSpace (c : Char) : Bool :=
  c = '\t' || c = '\n' || c.toNat = 0x0B || c.toNat = 0x0C || c = '\r' || c = ' ' ||
  c.toNat = 0x85 || c.toNat = 0xA0 || c.toNat = 0x1680 ||
  (0x2000 ≤ c.toNat && c.toNat ≤ 0x200A) || c.toNat = 0x2028 || c.toNat = 0x2029 ||
  c.toNat = 0x202F || c.toNat = 0x205F || c.toNat = 0x3000

/-- The function `strings.TrimSpace`, on the runes of the string. -/
def trimSpace (s : List Char) : List Char :=
  ((s.dropWhile isSpace).reverse.dropWhile isSpace).reverse

/-- The loop of `getValueForKeyInString`; every iteration shortens `str`, so a fuel of
`len(str) + 1` iterations reaches the `break`. -/
def getValueForKeyLoop (key : List Char) (separator assignChar : Char) :
    Nat → List Char → List Char
  | 0, _ => []
  | fuel + 1, str =>
    let str := trimSpace str
    if str = [] then []
    else
      let hasSep := str.contains separator
      let kv := if hasSep then trimSpace (str.takeWhile (fun c => c ≠ separator)) else str
      let str := if hasSep then (str.dropWhile (fun c => c ≠ separator)).drop 1 else []
      if kv.contains assignChar ∧ kv.takeWhile (fun c => c ≠ assignChar) = key then
        (kv.dropWhile (fun c => c ≠ assignChar)).drop 1
      else getValueForKeyLoop key separator assignChar fuel str

/-- The function `getValueForKeyInString`. -/
def getValueForKeyInString (str key : String) (separator assignChar : Char) : String :=
  String.mk (getValueForKeyLoop key.data separator assignChar (str.data.length + 1) str.data)

/-- The digit loop of `strconv.ParseUint(s, 10, bitSize)` with `maxVal = 1<<bitSize - 1`,
for `bitSize < 64`: the value left in `p` by `p, _ = strconv.ParseUint(...)`, that is the
parsed number, `0` after a syntax error, `maxVal` after a range error. -/
def parseUintLoop (maxVal : Nat) : List Char → Nat → Nat
  | [], n => n
  | c :: cs, n =>
    if '0' ≤ c ∧ c ≤ '9' then
      let n1 := n * 10 + (c.toNat - '0'.toNat)
      if n1 > maxVal then maxVal else parseUintLoop maxVal cs n1
    else 0

/-- The function `getRepresentativeCountFromTracestateHeader`. -/
def getRepresentativeCountFromTracestateHeader (tracestace : String) : F64 :=
  let otValue := getValueForKeyInString tracestace "ot" ',' '='
  let p : Nat :=
    if otValue ≠ "" then
      let pValue := getValueForKeyInString otValue "p" ';' ':'
      if pValue ≠ "" then parseUintLoop 63 pValue.data 0 else 0
    else 0
  if p > 62 then F64.finite 0 else F64.finite (2 ^ p)

/-! ## Traces: `TranslateTransaction`

The attribute keys are written out: they are the values of the constants of the package
`semconv/v1.5.0` (OpenTelemetry semantic conventions v1.5) and of the constants declared at
the top of `traces.go`. -/

/-- Modelled from the spec: the generic helper `populateNil` is not among the sources.  It
returns the pointer itself when it is not nil, and a new zero value otherwise. -/
def populateNil {α : Type} (zero : α) (x : Option α) : α := x.getD zero

/-- Modelled from the spec: the method `modelpb.Labels.Set` is not among the sources.  It
stores the string label `v` under the key `k`: a Go map assignment, which panics on a nil
map. -/
def labelsSet (event : APMEvent) (k v : String) : Option APMEvent :=
  match event.Labels with
  | some labels => some { event with Labels := some (mapSet labels k { Value := v }) }
  | none => none

/-- Modelled from the spec: the method `modelpb.NumericLabels.Set` is not among the sources.
It stores the numeric label `v` under the key `k`: a Go map assignment, which panics on a
nil map. -/
def numericLabelsSet (event : APMEvent) (k : String) (v : F64) : Option APMEvent :=
  match event.NumericLabels with
  | some labels => some { event with NumericLabels := some (mapSet labels k { Value := v }) }
  | none => none

/-- The function `strings.HasPrefix`. -/
def hasPrefix (s pre : String) : Bool := pre.data.isPrefixOf s.data

/-- The function `strings.TrimPrefix`. -/
def trimPrefix (s pre : String) : String :=
  if hasPrefix s pre then String.mk (s.data.drop pre.data.length) else s

/-- The function `net.JoinHostPort`. -/
def joinHostPort (host port : String) : String :=
  if host.data.contains ':' then "[" ++ host ++ "]:" ++ port else host ++ ":" ++ port

/-- The conversion `int32(x)` of an `int64`. -/
def int32OfInt (i : Int) : Int := (i + 2 ^ 31) % 2 ^ 32 - 2 ^ 31

/-- The conversion `uint32(x)` of an `int64`. -/
def uint32OfInt (i : Int) : Nat := (i % 2 ^ 32).toNat

/-- The division `1 / probability` of `parseSamplerAttributes`. -/
def F64.inv : F64 → F64
  | F64.finite q => if q = 0 then F64.posInf else F64.finite (1 / q)
  | F64.nan => F64.nan
  | _ => F64.finite 0

/-- The test `0 < probability && probability <= 1`. -/
def F64.inUnitInterval : F64 → Bool
  | F64.finite q => decide (0 < q ∧ q ≤ 1)
  | _ => false

/-- The accessor `Value.Double`: zero for a value of another type. -/
def Value.Double : Value → F64
  | Value.double d => d
  | _ => F64.finite 0

/-- The accessor `Value.Bool` (named `Bool_` here): false for a value of another type. -/
def Value.Bool_ : Value → Bool
  | Value.bool b => b
  | _ => false

/-- The function `strconv.FormatBool`. -/
def formatBool (b : Bool) : String := if b then "true" else "false"

/-- The statements `if event.Span != nil { event.Span.RepresentativeCount = count }` and
`if event.Transaction != nil { event.Transaction.RepresentativeCount = count }`. -/
def setRepresentativeCount (event : APMEvent) (count : F64) : APMEvent :=
  let span := event.Span.map (fun span => { span with RepresentativeCount := count })
  let tx := event.Transaction.map (fun tx => { tx with RepresentativeCount := count })
  { event with Span := span, Transaction := tx }

/-- The function `parseSamplerAttributes`; `samplerParam` is `none` for the zero-initialized
`pcommon.Value{}` (no `sampler.param` attribute was seen). -/
def parseSamplerAttributes (E : Env) (samplerType : Value) (samplerParam : Option Value)
    (event : APMEvent) : Option APMEvent :=
  match samplerType.Str with
  | "probabilistic" =>
    match samplerParam, E.zeroValueDoublePanics with
    | none, true => none
    | _, _ =>
      let probability := (samplerParam.map Value.Double).getD (F64.finite 0)
      if probability.inUnitInterval then
        some (setRepresentativeCount event (F64.inv probability))
      else some event
  | samplerType => do
    let event := setRepresentativeCount event (F64.finite 0)
    let event ← labelsSet event "sampler_type" samplerType
    match samplerParam with
    | none => if E.zeroValueTypePanics then none else some event
    | some (Value.bool b) => labelsSet event "sampler_param" (formatBool b)
    | some (Value.double d) => numericLabelsSet event "sampler_param" d
    | some _ => some event

/-- The local variables of `TranslateTransaction` that its attribute loop updates, with the
event.  `http.Request` and `http.Response` point to `httpRequest` and `httpResponse`. -/
structure TransactionLocals where
  event : APMEvent
  netHostName : String := ""
  netHostPort : Int := 0
  httpScheme : String := ""
  httpURL : String := ""
  httpServerName : String := ""
  httpHost : String := ""
  http : HTTP := {}
  httpRequest : HTTPRequest := {}
  httpResponse : HTTPResponse := {}
  isHTTP : Bool := false
  isRPC : Bool := false
  isMessaging : Bool := false
  message : Message := {}
  samplerType : Option Value := none
  samplerParam : Option Value := none

/-- The statements `event.Network = populateNil(event.Network);
event.Network.Connection = populateNil(event.Network.Connection)` followed by an update of
the connection. -/
def updateNetworkConnection (event : APMEvent) (f : NetworkConnection → NetworkConnection) :
    APMEvent :=
  let network : Network := populateNil {} event.Network
  let connection : NetworkConnection := f (populateNil {} network.Connection)
  { event with Network := some { network with Connection := some connection } }

/-- The statements `event.Network = populateNil(event.Network);
event.Network.Carrier = populateNil(event.Network.Carrier)` followed by an update of the
carrier. -/
def updateNetworkCarrier (event : APMEvent) (f : NetworkCarrier → NetworkCarrier) :
    APMEvent :=
  let network : Network := populateNil {} event.Network
  let carrier : NetworkCarrier := f (populateNil {} network.Carrier)
  { event with Network := some { network with Carrier := some carrier } }

/-- The string-valued attributes of `TranslateTransaction` (the `case pcommon.ValueTypeStr`
of the loop body); `stringval` is the truncated value. -/
def translateTransactionStr (E : Env) (l : TransactionLocals) (kDots k stringval : String) :
    Option TransactionLocals :=
  let event := l.event
  match kDots with
  | "http.method" =>
    let httpRequest := { l.httpRequest with Method := stringval }
    some { l with isHTTP := true, httpRequest := httpRequest,
                  http := { l.http with Request := some httpRequest } }
  | "http.url" | "http.target" | "http.path" =>
    some { l with isHTTP := true, httpURL := stringval }
  | "http.host" => some { l with isHTTP := true, httpHost := stringval }
  | "http.scheme" => some { l with isHTTP := true, httpScheme := stringval }
  | "http.status_code" =>
    match E.atoi stringval with
    | (intv, true) =>
      let httpResponse := { l.httpResponse with StatusCode := int32OfInt intv }
      some { l with isHTTP := true, httpResponse := httpResponse,
                    http := { l.http with Response := some httpResponse } }
    | (_, false) => some l
  | "http.protocol" =>
    if !hasPrefix stringval "HTTP/" then do
      let event ← labelsSet event k stringval
      pure { l with event := event }
    else
      some { l with isHTTP := true,
                    http := { l.http with Version := trimPrefix stringval "HTTP/" } }
  | "http.flavor" => some { l with isHTTP := true, http := { l.http with Version := stringval } }
  | "http.server_name" => some { l with isHTTP := true, httpServerName := stringval }
  | "http.client_ip" =>
    match E.parseAddr stringval with
    | some ip =>
      let client : Client := { populateNil {} event.Client with Ip := ip }
      some { l with event := { event with Client := some client } }
    | none => some l
  | "http.user_agent" =>
    let userAgent : UserAgent := { populateNil {} event.UserAgent with Original := stringval }
    some { l with event := { event with UserAgent := some userAgent } }
  | "net.peer.ip" =>
    match E.parseAddr stringval with
    | some ip =>
      let source : Source := { populateNil {} event.Source with Ip := ip }
      some { l with event := { event with Source := some source } }
    | none => some { l with event := { event with Source := some (populateNil {} event.Source) } }
  | "net.peer.name" =>
    let source : Source := { populateNil {} event.Source with Domain := stringval }
    some { l with event := { event with Source := some source } }
  | "net.host.name" => some { l with netHostName := stringval }
  | "net.host.connection.type" =>
    some { l with event := updateNetworkConnection event (fun c => { c with Type_ := stringval }) }
  | "net.host.connection.subtype" =>
    let event := updateNetworkConnection event (fun c => { c with Subtype := stringval })
    some { l with event := event }
  | "net.host.carrier.mcc" =>
    some { l with event := updateNetworkCarrier event (fun c => { c with Mcc := stringval }) }
  | "net.host.carrier.mnc" =>
    some { l with event := updateNetworkCarrier event (fun c => { c with Mnc := stringval }) }
  | "net.host.carrier.name" =>
    some { l with event := updateNetworkCarrier event (fun c => { c with Name := stringval }) }
  | "net.host.carrier.icc" =>
    some { l with event := updateNetworkCarrier event (fun c => { c with Icc := stringval }) }
  | "message_bus.destination" | "messaging.destination" =>
    some { l with message := { l.message with QueueName := stringval }, isMessaging := true }
  | "rpc.system" => some { l with isRPC := true }
  | "rpc.grpc.status_code" => some { l with isRPC := true }
  | "rpc.service" => some l
  | "rpc.method" => some l
  | "type" =>
    match event.Transaction with
    | some tx =>
      some { l with event := { event with Transaction := some { tx with Type_ := stringval } } }
    | none => none
  | "session.id" =>
    let session : Session := { populateNil {} event.Session with Id := stringval }
    some { l with event := { event with Session := some session } }
  | "service.version" =>
    match event.Service with
    | some service =>
      some { l with event := { event with Service := some { service with Version := stringval } } }
    | none => none
  | _ => do
    let event ← labelsSet event k stringval
    pure { l with event := event }

/-- The integer-valued attributes of `TranslateTransaction` (the `case pcommon.ValueTypeInt`
of the loop body). -/
def translateTransactionInt (E : Env) (l : TransactionLocals) (kDots k : String) (v : Value) :
    Option TransactionLocals :=
  let event := l.event
  match kDots with
  | "http.status_code" =>
    let httpResponse := { l.httpResponse with StatusCode := int32OfInt v.Int_ }
    some { l with isHTTP := true, httpResponse := httpResponse,
                  http := { l.http with Response := some httpResponse } }
  | "net.peer.port" =>
    let source : Source := { populateNil {} event.Source with Port := uint32OfInt v.Int_ }
    some { l with event := { event with Source := some source } }
  | "net.host.port" => some { l with netHostPort := v.Int_ }
  | "rpc.grpc.status_code" =>
    match event.Transaction with
    | some tx =>
      let tx := { tx with Result := E.grpcCodeString (uint32OfInt v.Int_) }
      some { l with isRPC := true, event := { event with Transaction := some tx } }
    | none => none
  | _ => some { l with event := setLabel E k event (E.ifaceAttributeValue v) }

/-- The body of the attribute loop of `TranslateTransaction`. -/
def translateTransactionAttribute (E : Env) (isJaeger : Bool) (l : TransactionLocals)
    (kv : String × Value) : Option TransactionLocals :=
  let kDots := kv.1
  let v := kv.2
  if isJaeger ∧ kDots = "sampler.type" then some { l with samplerType := some v }
  else if isJaeger ∧ kDots = "sampler.param" then some { l with samplerParam := some v }
  else
    let k := replaceDots kDots
    match v with
    | Value.slice _ => some { l with event := setLabel E k l.event (E.ifaceAttributeValue v) }
    | Value.bool _ => some { l with event := setLabel E k l.event (E.ifaceAttributeValue v) }
    | Value.double _ => some { l with event := setLabel E k l.event (E.ifaceAttributeValue v) }
    | Value.int _ => translateTransactionInt E l kDots k v
    | Value.str s => translateTransactionStr E l kDots k (truncate s)
    | _ => some l

/-- The statements of `TranslateTransaction` that set `event.Transaction.Type` when the
attributes did not. -/
def setTransactionType (l : TransactionLocals) (event : APMEvent) : Option APMEvent :=
  match event.Transaction with
  | some tx =>
    if tx.Type_ = "" then
      let type : String :=
        if l.isMessaging then "messaging"
        else if l.isHTTP || l.isRPC then "request"
        else "unknown"
      some { event with Transaction := some { tx with Type_ := type } }
    else some event
  | none => none

/-- The statements of `TranslateTransaction` that set the outcome and the result from the
HTTP status code (the block `if statusCode := httpResponse.StatusCode; statusCode > 0`). -/
def setTransactionHTTPStatus (l : TransactionLocals) (event : APMEvent) : Option APMEvent :=
  if l.httpResponse.StatusCode > 0 then
    match event.Event, event.Transaction with
    | some ev, some tx =>
      let ev : Event :=
        if ev.Outcome = outcomeUnknown then
          { ev with Outcome := serverHTTPStatusCodeOutcome l.httpResponse.StatusCode }
        else ev
      let tx : Transaction :=
        if tx.Result = "" then
          { tx with Result := httpStatusCodeResult l.httpResponse.StatusCode }
        else tx
      some { event with Event := some ev, Transaction := some tx }
    | _, _ => none
  else some event

/-- The host that `TranslateTransaction` passes to `modelpb.ParseURL`. -/
def transactionHTTPHost (l : TransactionLocals) (event : APMEvent) : String :=
  if l.httpHost = "" then
    let httpHost :=
      if l.httpServerName = "" then
        (if l.netHostName = "" then (event.Host.map (fun h => h.Hostname)).getD ""
         else l.netHostName)
      else l.httpServerName
    if httpHost ≠ "" ∧ l.netHostPort > 0 then joinHostPort httpHost (itoa l.netHostPort)
    else httpHost
  else l.httpHost

/-- The block `if isHTTP { ... }` of `TranslateTransaction`. -/
def translateTransactionHTTP (E : Env) (l : TransactionLocals) (event : APMEvent) :
    Option APMEvent := do
  let event := if l.http ≠ {} then { event with Http := some l.http } else event
  let event ← setTransactionHTTPStatus l event
  pure { event with Url := E.parseURL l.httpURL (transactionHTTPHost l event) l.httpScheme }

/-- The statement `event.Transaction.Message = &message`. -/
def setTransactionMessage (l : TransactionLocals) (event : APMEvent) : Option APMEvent :=
  match event.Transaction with
  | some tx => some { event with Transaction := some { tx with Message := some l.message } }
  | none => none

/-- The block `if event.Source != nil { ... }` of `TranslateTransaction`. -/
def setClientFromSource (E : Env) (event : APMEvent) : APMEvent :=
  match event.Source with
  | some source =>
    match E.parseAddr ((event.Client.map (fun c => c.Ip)).getD "") with
    | some _ => event
    | none =>
      { event with Client := some { Ip := source.Ip, Port := source.Port,
                                    Domain := source.Domain } }
  | none => event

/-- The statements of `TranslateTransaction` that set `event.Transaction.Result` from the
span status when it is still empty. -/
def setTransactionResult (spanStatus : ptrace.Status) (event : APMEvent) : Option APMEvent :=
  match event.Transaction with
  | some tx =>
    if tx.Result = "" then
      some { event with Transaction := some { tx with Result := spanStatusResult spanStatus } }
    else some event
  | none => none

/-- The block `if name := library.Name(); name != "" { ... }` of `TranslateTransaction`. -/
def setFramework (library : InstrumentationScope) (event : APMEvent) : APMEvent :=
  if library.Name ≠ "" then
    let service : Service := populateNil {} event.Service
    let framework : Framework := { Name := library.Name, Version := library.Version }
    { event with Service := some { service with Framework := some framework } }
  else event

/-- The call of `parseSamplerAttributes` guarded by `samplerType != (pcommon.Value{})`. -/
def applySampler (E : Env) (samplerType samplerParam : Option Value) (event : APMEvent) :
    Option APMEvent :=
  match samplerType with
  | some samplerType => parseSamplerAttributes E samplerType samplerParam event
  | none => some event

/-- The function `TranslateTransaction`; `none` is a panic. -/
def TranslateTransaction (E : Env) (attributes : Attributes) (spanStatus : ptrace.Status)
    (library : InstrumentationScope) (event : APMEvent) : Option APMEvent := do
  let agent ← event.Agent
  let isJaeger := hasPrefix agent.Name "Jaeger"
  let l ← attributes.foldlM (translateTransactionAttribute E isJaeger) { event := event }
  let event ← setTransactionType l l.event
  let event ← (if l.isHTTP then translateTransactionHTTP E l event else some event)
  let event ← (if l.isMessaging then setTransactionMessage l event else some event)
  let event := setClientFromSource E event
  let event ← applySampler E l.samplerType l.samplerParam event
  let event ← setTransactionResult spanStatus event
  pure (setFramework library event)

/-! ## Traces: `TranslateSpan` -/

/-- The local variables of `TranslateSpan`, with the event.  `http.Request` and
`http.Response` point to `httpRequest` and `httpResponse`. -/
structure SpanLocals where
  event : APMEvent
  netPeerName : String := ""
  netPeerIP : String := ""
  netPeerPort : Int := 0
  peerService : String := ""
  peerAddress : String := ""
  httpURL : String := ""
  httpHost : String := ""
  httpTarget : String := ""
  httpScheme : String := "http"
  messageSystem : String := ""
  messageOperation : String := ""
  messageTempDestination : Bool := false
  rpcSystem : String := ""
  rpcService : String := ""
  http : HTTP := {}
  httpRequest : HTTPRequest := {}
  httpResponse : HTTPResponse := {}
  message : Message := {}
  db : DB := {}
  isHTTP : Bool := false
  isDatabase : Bool := false
  isRPC : Bool := false
  isMessaging : Bool := false
  samplerType : Option Value := none
  samplerParam : Option Value := none

/-- The string-valued attributes of `TranslateSpan` (the `case pcommon.ValueTypeStr` of the
loop body); `stringval` is the truncated value and `raw` the original one. -/
def translateSpanStr (l : SpanLocals) (kDots k stringval raw : String) : Option SpanLocals :=
  let event := l.event
  match kDots with
  | "http.host" => some { l with httpHost := stringval, isHTTP := true }
  | "http.scheme" => some { l with httpScheme := stringval, isHTTP := true }
  | "http.target" => some { l with httpTarget := stringval, isHTTP := true }
  | "http.url" => some { l with httpURL := stringval, isHTTP := true }
  | "http.method" =>
    let httpRequest := { l.httpRequest with Method := stringval }
    some { l with httpRequest := httpRequest, isHTTP := true,
                  http := { l.http with Request := some httpRequest } }
  | "sql.query" =>
    let db := if l.db.Type_ = "" then { l.db with Type_ := "sql" } else l.db
    some { l with db := { db with Statement := raw }, isDatabase := true }
  | "db.statement" => some { l with db := { l.db with Statement := raw }, isDatabase := true }
  | "db.name" | "db.instance" =>
    some { l with db := { l.db with Instance := stringval }, isDatabase := true }
  | "db.system" | "db.type" =>
    some { l with db := { l.db with Type_ := stringval }, isDatabase := true }
  | "db.user" => some { l with db := { l.db with UserName := stringval }, isDatabase := true }
  | "net.peer.name" | "peer.hostname" => some { l with netPeerName := stringval }
  | "net.peer.ip" | "peer.ipv4" | "peer.ipv6" => some { l with netPeerIP := stringval }
  | "peer.address" => some { l with peerAddress := stringval }
  | "net.host.connection.type" =>
    some { l with event := updateNetworkConnection event (fun c => { c with Type_ := stringval }) }
  | "net.host.connection.subtype" =>
    let event := updateNetworkConnection event (fun c => { c with Subtype := stringval })
    some { l with event := event }
  | "net.host.carrier.mcc" =>
    some { l with event := updateNetworkCarrier event (fun c => { c with Mcc := stringval }) }
  | "net.host.carrier.mnc" =>
    some { l with event := updateNetworkCarrier event (fun c => { c with Mnc := stringval }) }
  | "net.host.carrier.name" =>
    some { l with event := updateNetworkCarrier event (fun c => { c with Name := stringval }) }
  | "net.host.carrier.icc" =>
    some { l with event := updateNetworkCarrier event (fun c => { c with Icc := stringval }) }
  | "session.id" =>
    let session : Session := { populateNil {} event.Session with Id := stringval }
    some { l with event := { event with Session := some session } }
  | "message_bus.destination" | "messaging.destination" =>
    some { l with message := { l.message with QueueName := stringval }, isMessaging := true }
  | "messaging.operation" => some { l with messageOperation := stringval, isMessaging := true }
  | "messaging.system" => some { l with messageSystem := stringval, isMessaging := true }
  | "rpc.system" => some { l with rpcSystem := stringval, isRPC := true }
  | "rpc.service" => some { l with rpcService := stringval, isRPC := true }
  | "rpc.grpc.status_code" => some { l with rpcSystem := "grpc", isRPC := true }
  | "rpc.method" => some l
  | "span.kind" => some l
  | "peer.service" => some { l with peerService := stringval }
  | _ => do
    let event ← labelsSet event k stringval
    pure { l with event := event }

/-- The integer-valued attributes of `TranslateSpan` (the `case pcommon.ValueTypeInt` of the
loop body). -/
def translateSpanInt (E : Env) (l : SpanLocals) (kDots k : String) (i : Int) : SpanLocals :=
  match kDots with
  | "http.status_code" =>
    let httpResponse := { l.httpResponse with StatusCode := int32OfInt i }
    { l with httpResponse := httpResponse, isHTTP := true,
             http := { l.http with Response := some httpResponse } }
  | "net.peer.port" | "peer.port" => { l with netPeerPort := i }
  | "rpc.grpc.status_code" => { l with rpcSystem := "grpc", isRPC := true }
  | _ => { l with event := setLabel E k l.event (Iface.int i) }

/-- The body of the attribute loop of `TranslateSpan`. -/
def translateSpanAttribute (E : Env) (isJaeger : Bool) (l : SpanLocals)
    (kv : String × Value) : Option SpanLocals :=
  let kDots := kv.1
  let v := kv.2
  if isJaeger ∧ kDots = "sampler.type" then some { l with samplerType := some v }
  else if isJaeger ∧ kDots = "sampler.param" then some { l with samplerParam := some v }
  else
    let k := replaceDots kDots
    match v with
    | Value.slice sl =>
      some { l with event := setLabel E k l.event (E.ifaceAttributeValueSlice sl) }
    | Value.bool b =>
      let l := if kDots = "messaging.temp_destination" then
        { l with messageTempDestination := b } else l
      some { l with event := setLabel E k l.event (Iface.str (formatBool b)) }
    | Value.double d => some { l with event := setLabel E k l.event (Iface.float d) }
    | Value.int i => some (translateSpanInt E l kDots k i)
    | Value.str s => translateSpanStr l kDots k (truncate s) s
    | _ => some l

/-- The destination address, the destination port and the full URL that `TranslateSpan`
derives from the peer and HTTP attributes, with the possibly rebuilt `httpURL`. -/
structure SpanDestination where
  destAddr : String
  destPort : Int
  fullURL : Option GoURL
  httpURL : String

/-- The statements of `TranslateSpan` from `if netPeerName == ""` to the end of the block
`if fullURL != nil`. -/
def spanDestination (E : Env) (l : SpanLocals) : SpanDestination :=
  let netPeerName :=
    if l.netPeerName = "" ∧ (!l.peerAddress.data.contains ':' || E.parseIP l.peerAddress) then
      l.peerAddress
    else l.netPeerName
  let destPort := l.netPeerPort
  let destAddr := if netPeerName = "" then l.netPeerIP else netPeerName
  let built : Option GoURL × String :=
    if l.httpURL ≠ "" then (E.urlParse l.httpURL, l.httpURL)
    else if l.httpTarget ≠ "" then
      match E.urlParse l.httpTarget with
      | some u =>
        let httpHost :=
          if l.httpHost = "" then
            (if destPort > 0 then joinHostPort destAddr (itoa destPort) else destAddr)
          else l.httpHost
        let fullURL : GoURL := { u with Scheme := l.httpScheme, Host := httpHost }
        (some fullURL, E.urlString fullURL)
      | none => (none, l.httpURL)
    else (none, l.httpURL)
  match built.1 with
  | some fullURL =>
    let portString := E.urlPort fullURL
    let port := if portString ≠ "" then (E.atoi portString).1
                else schemeDefaultPort fullURL.Scheme
    { destAddr := truncate (E.urlHostname fullURL),
      destPort := if port > 0 then port else destPort,
      fullURL := some fullURL, httpURL := built.2 }
  | none => { destAddr := destAddr, destPort := destPort, fullURL := none, httpURL := built.2 }

/-- The statement of `TranslateSpan` that sets the outcome from the HTTP status code. -/
def setSpanHTTPOutcome (l : SpanLocals) (event : APMEvent) : Option APMEvent :=
  if l.httpResponse.StatusCode > 0 then
    match event.Event with
    | some ev =>
      if ev.Outcome = outcomeUnknown then
        let outcome := clientHTTPStatusCodeOutcome l.httpResponse.StatusCode
        some { event with Event := some { ev with Outcome := outcome } }
      else some event
    | none => none
  else some event

/-- The block `if isHTTP { ... }` of `TranslateSpan`. -/
def translateSpanHTTP (l : SpanLocals) (httpURL : String) (event : APMEvent) :
    Option APMEvent := do
  let event ← setSpanHTTPOutcome l event
  let event := if l.http ≠ {} then { event with Http := some l.http } else event
  let url : URL := { populateNil {} event.Url with Original := httpURL }
  pure { event with Url := some url }

/-- The span, the service target and the destination service, as the `switch` of
`TranslateSpan` updates them. -/
structure SpanClassification where
  span : Span
  serviceTarget : ServiceTarget
  destinationService : DestinationService

/-- The `switch` of `TranslateSpan` over `isDatabase`, `isMessaging`, `isRPC`, `isHTTP`. -/
def classifySpan (E : Env) (spanKind : ptrace.SpanKind) (l : SpanLocals) (d : SpanDestination)
    (c : SpanClassification) : SpanClassification :=
  if l.isDatabase then
    let span := { c.span with Type_ := "db", Subtype := l.db.Type_ }
    let serviceTarget := { c.serviceTarget with Type_ := span.Type_ }
    let c : SpanClassification :=
      if span.Subtype ≠ "" then
        let serviceTarget := { serviceTarget with Type_ := span.Subtype }
        if c.destinationService.Name = "" then
          { span := span, serviceTarget := serviceTarget,
            destinationService := { c.destinationService with
              Name := span.Subtype, Resource := span.Subtype } }
        else { c with span := span, serviceTarget := serviceTarget }
      else { c with span := span, serviceTarget := serviceTarget }
    if l.db.Instance ≠ "" then
      { c with serviceTarget := { c.serviceTarget with Name := l.db.Instance } }
    else c
  else if l.isMessaging then
    let messageOperation :=
      if l.messageOperation = "" ∧ spanKind = ptrace.SpanKind.Producer then "send"
      else l.messageOperation
    let span := { c.span with Type_ := "messaging", Subtype := l.messageSystem,
                              Action := messageOperation }
    let serviceTarget := { c.serviceTarget with Type_ := span.Type_ }
    let c : SpanClassification :=
      if span.Subtype ≠ "" then
        let serviceTarget := { serviceTarget with Type_ := span.Subtype }
        if c.destinationService.Name = "" then
          { span := span, serviceTarget := serviceTarget,
            destinationService := { c.destinationService with
              Name := span.Subtype, Resource := span.Subtype } }
        else { c with span := span, serviceTarget := serviceTarget }
      else { c with span := span, serviceTarget := serviceTarget }
    let c : SpanClassification :=
      if c.destinationService.Resource ≠ "" ∧ l.message.QueueName ≠ "" then
        { c with destinationService := { c.destinationService with
            Resource := c.destinationService.Resource ++ "/" ++ l.message.QueueName } }
      else c
    if l.message.QueueName ≠ "" ∧ l.messageTempDestination = false then
      { c with serviceTarget := { c.serviceTarget with Name := l.message.QueueName } }
    else c
  else if l.isRPC then
    let span := { c.span with Type_ := "external", Subtype := l.rpcSystem }
    let serviceTarget := { c.serviceTarget with Type_ := span.Type_ }
    let serviceTarget :=
      if span.Subtype ≠ "" then { serviceTarget with Type_ := span.Subtype } else serviceTarget
    let destinationService :=
      if c.destinationService.Name = "" then
        let destHostPort := joinHostPort d.destAddr (itoa d.destPort)
        { c.destinationService with Name := destHostPort, Resource := destHostPort }
      else c.destinationService
    let serviceTarget :=
      if l.rpcService ≠ "" then { serviceTarget with Name := l.rpcService } else serviceTarget
    { span := span, serviceTarget := serviceTarget, destinationService := destinationService }
  else if l.isHTTP then
    let span := { c.span with Type_ := "external", Subtype := "http" }
    let serviceTarget := { c.serviceTarget with Type_ := span.Subtype }
    match d.fullURL with
    | some fullURL =>
      let url : GoURL := { Scheme := fullURL.Scheme, Host := fullURL.Host }
      let resource := url.Host
      let adjusted : GoURL × String :=
        if d.destPort = schemeDefaultPort url.Scheme then
          (if E.urlPort fullURL ≠ "" then ({ url with Host := d.destAddr }, resource)
           else (url, resource ++ ":" ++ itoa d.destPort))
        else (url, resource)
      let serviceTarget := { serviceTarget with Name := adjusted.2 }
      let destinationService :=
        if c.destinationService.Name = "" then
          { c.destinationService with Name := E.urlString adjusted.1, Resource := adjusted.2 }
        else c.destinationService
      { span := span, serviceTarget := serviceTarget, destinationService := destinationService }
    | none => { c with span := span, serviceTarget := serviceTarget }
  else if c.span.Type_ = "" then
    match spanKind with
    | ptrace.SpanKind.Internal =>
      { c with span := { c.span with Type_ := "app", Subtype := "internal" } }
    | _ => { c with span := { c.span with Type_ := "unknown" } }
  else c

/-- The span, the service target and the destination service before the `switch` of
`TranslateSpan`: `event.Span.Db` and `event.Span.Message` are set for a database and a
messaging span, and the names come from `peer.service` and `peer.address`. -/
def initialClassification (l : SpanLocals) (span : Span) : SpanClassification :=
  let span := if l.isDatabase then { span with Db := some l.db } else span
  let span := if l.isMessaging then { span with Message := some l.message } else span
  let resource := if l.peerAddress ≠ "" then l.peerAddress else l.peerService
  { span := span,
    serviceTarget := { Name := l.peerService },
    destinationService := { Name := l.peerService, Resource := resource } }

/-- The block `if !proto.Equal(&destinationService, &modelpb.DestinationService{})` of
`TranslateSpan`. -/
def spanWithDestinationService (c : SpanClassification) : Span :=
  if c.destinationService ≠ {} then
    let destinationService :=
      if c.destinationService.Type_ = "" then
        { c.destinationService with Type_ := c.span.Type_ }
      else c.destinationService
    { c.span with DestinationService := some destinationService }
  else c.span

/-- The block `if !proto.Equal(&serviceTarget, &modelpb.ServiceTarget{})` of
`TranslateSpan`. -/
def setServiceTarget (serviceTarget : ServiceTarget) (event : APMEvent) : Option APMEvent :=
  if serviceTarget ≠ {} then
    match event.Service with
    | some service =>
      some { event with Service := some { service with Target := some serviceTarget } }
    | none => none
  else some event

/-- The statements of `TranslateSpan` after its attribute loop, up to the sampler. -/
def finishSpan (E : Env) (spanKind : ptrace.SpanKind) (l : SpanLocals) : Option APMEvent := do
  let d := spanDestination E l
  let event ← (if l.isHTTP then translateSpanHTTP l d.httpURL l.event else some l.event)
  let span ← event.Span
  let c := classifySpan E spanKind l d (initialClassification l span)
  let destination : Destination := { Address := d.destAddr, Port := uint32OfInt d.destPort }
  let event := if d.destAddr ≠ "" then { event with Destination := some destination } else event
  setServiceTarget c.serviceTarget { event with Span := some (spanWithDestinationService c) }

/-- The function `TranslateSpan`; `none` is a panic. -/
def TranslateSpan (E : Env) (spanKind : ptrace.SpanKind) (attributes : Attributes)
    (event : APMEvent) : Option APMEvent := do
  let isJaeger := hasPrefix ((event.Agent.map (fun a => a.Name)).getD "") "Jaeger"
  let l ← attributes.foldlM (translateSpanAttribute E isJaeger) { event := event }
  let event ← finishSpan E spanKind l
  applySampler E l.samplerType l.samplerParam event

/-! ## Traces: span events and `convertSpan` -/

/-- The function `translateSpanLinks`. -/
def translateSpanLinks (out : APMEvent) (links : List ptrace.SpanLink) : APMEvent :=
  if links.length = 0 then out
  else
    let span : Span := populateNil {} out.Span
    let spanLinks : List SpanLink := links.map
      (fun link => { SpanId := hexSpanID link.SpanID, TraceId := hexTraceID link.TraceID })
    { out with Span := some { span with Links := spanLinks } }

/-- The local variables of `convertJaegerErrorSpanEvent`, with the event that `setLabel`
updates. -/
structure JaegerLocals where
  apmEvent : APMEvent
  isError : Bool
  exMessage : String := ""
  exType : String := ""
  logMessage : String

/-- The body of the attribute loop of `convertJaegerErrorSpanEvent`. -/
def jaegerErrorAttribute (E : Env) (l : JaegerLocals) (kv : String × Value) : JaegerLocals :=
  match kv.2 with
  | Value.str s =>
    let stringval := truncate s
    match kv.1 with
    | "error" | "error.object" => { l with exMessage := stringval, isError := true }
    | "error.kind" => { l with exType := stringval, isError := true }
    | "level" => { l with isError := decide (stringval = "error") }
    | "message" => { l with logMessage := stringval }
    | k => { l with apmEvent := setLabel E (replaceDots k) l.apmEvent (E.ifaceAttributeValue kv.2) }
  | _ => l

/-- The statements of `convertJaegerErrorSpanEvent` after its attribute loop: the returned
error, or nil. -/
def jaegerError (l : JaegerLocals) : Option Error :=
  if !l.isError then none
  else if l.logMessage = "" ∧ l.exMessage = "" ∧ l.exType = "" then none
  else
    let log : Option ErrorLog :=
      if l.logMessage ≠ "" then some { Message := l.logMessage } else none
    let exception : Option Exception :=
      if l.exMessage ≠ "" ∨ l.exType ≠ "" then some { Message := l.exMessage, Type_ := l.exType }
      else none
    some { Log := log, Exception := exception }

/-- The method `convertJaegerErrorSpanEvent`: the returned error (or nil) and the event after
the calls of `setLabel`. -/
def convertJaegerErrorSpanEvent (E : Env) (event : ptrace.SpanEvent) (apmEvent : APMEvent) :
    Option Error × APMEvent :=
  let name := truncate event.Name
  let init : JaegerLocals :=
    if name = "error" then { apmEvent := apmEvent, isError := true, logMessage := "" }
    else { apmEvent := apmEvent, isError := false, logMessage := name }
  let l := event.Attributes.foldl (jaegerErrorAttribute E) init
  (jaegerError l, l.apmEvent)

/-- The local variables of the exception branch of `convertSpanEvent`, with the event. -/
structure ExceptionLocals where
  event : APMEvent
  exceptionEscaped : Bool := false
  exceptionMessage : String := ""
  exceptionStacktrace : String := ""
  exceptionType : String := ""

/-- The body of the attribute loop of the exception branch of `convertSpanEvent`. -/
def exceptionAttribute (E : Env) (l : ExceptionLocals) (kv : String × Value) :
    ExceptionLocals :=
  match kv.1 with
  | "exception.message" => { l with exceptionMessage := kv.2.Str }
  | "exception.stacktrace" => { l with exceptionStacktrace := kv.2.Str }
  | "exception.type" => { l with exceptionType := kv.2.Str }
  | "exception.escaped" => { l with exceptionEscaped := kv.2.Bool_ }
  | k => { l with event := setLabel E (replaceDots k) l.event (E.ifaceAttributeValue kv.2) }

/-- The exception branch of `convertSpanEvent`: the event with `Error` set when the span
event carries a message or a type; `none` is a panic. -/
def convertExceptionSpanEvent (E : Env) (spanEvent : ptrace.SpanEvent)
    (parent event : APMEvent) : Option APMEvent :=
  let l := spanEvent.Attributes.foldl (exceptionAttribute E) { event := event }
  if l.exceptionMessage ≠ "" ∨ l.exceptionType ≠ "" then
    match parent.Service with
    | some service =>
      match service.Language with
      | some language =>
        let error := E.convertOpenTelemetryExceptionSpanEvent l.exceptionType
          l.exceptionMessage l.exceptionStacktrace l.exceptionEscaped language.Name
        some { l.event with Error := some error }
      | none => none
    | none => none
  else some l.event

/-- The function `setErrorContext`; `error` is `out.Error`, which the caller found non-nil. -/
def setErrorContext (out : APMEvent) (error : Error) (parent : APMEvent) : Option APMEvent :=
  match out.Trace, parent.Trace with
  | some outTrace, some parentTrace =>
    let out : APMEvent :=
      { out with Trace := some { outTrace with Id := parentTrace.Id },
                 Http := parent.Http, Url := parent.Url }
    let out : APMEvent :=
      match parent.Transaction with
      | some tx =>
        { out with Transaction := some { Id := tx.Id, Sampled := tx.Sampled, Type_ := tx.Type_ },
                   Error := some { error with Custom := tx.Custom },
                   ParentId := tx.Id }
      | none => out
    match parent.Span with
    | some span => some { out with ParentId := span.Id }
    | none => some out
  | _, _ => none

/-- The function `setLogContext`. -/
def setLogContext (out : APMEvent) (parent : APMEvent) : APMEvent :=
  let out : APMEvent :=
    match parent.Transaction with
    | some tx => { out with Transaction := some { Id := tx.Id } }
    | none => out
  match parent.Span with
  | some span => { out with Span := some { Id := span.Id } }
  | none => out

/-- The body of the attribute loop of the log branch of `convertSpanEvent`. -/
def logAttribute (E : Env) (isJaeger : Bool) (event : APMEvent) (kv : String × Value) :
    APMEvent :=
  let k := replaceDots kv.1
  if isJaeger ∧ k = "message" then { event with Message := truncate kv.2.Str }
  else setLabel E k event (E.ifaceAttributeValue kv.2)

/-- The statements of `convertSpanEvent` that set `event.Error`: for a Jaeger agent from
`convertJaegerErrorSpanEvent`, otherwise from an `exception` span event. -/
def spanEventError (E : Env) (isJaeger : Bool) (spanEvent : ptrace.SpanEvent)
    (parent event : APMEvent) : Option APMEvent :=
  if isJaeger then
    let r := convertJaegerErrorSpanEvent E spanEvent event
    some { r.2 with Error := r.1 }
  else if spanEvent.Name = "exception" then
    convertExceptionSpanEvent E spanEvent parent event
  else some event

/-- The method `convertSpanEvent`; `none` is a panic. -/
def convertSpanEvent (E : Env) (spanEvent : ptrace.SpanEvent) (parent : APMEvent)
    (timeDelta : Int) : Option APMEvent := do
  let event := initEventLabels parent
  let event : APMEvent :=
    { event with Transaction := none, Span := none,
                 Timestamp := some (timeAdd (asTime spanEvent.Timestamp) timeDelta) }
  let agent ← parent.Agent
  let isJaeger := hasPrefix agent.Name "Jaeger"
  let event ← spanEventError E isJaeger spanEvent parent event
  match event.Error with
  | some error =>
    setErrorContext { event with Processor := some Processor.error } error parent
  | none =>
    let event : APMEvent :=
      { event with Processor := some Processor.log, Message := spanEvent.Name }
    let event := setLogContext event parent
    some (spanEvent.Attributes.foldl (logAttribute E isJaeger) event)

/-- The `if root || ... { ... } else { ... }` of `convertSpan`: the event becomes a
transaction or a span and its attributes are translated. -/
def translateSpanOrTransaction (E : Env) (otelSpan : ptrace.Span)
    (otelLibrary : InstrumentationScope) (event : APMEvent) : Option APMEvent :=
  let root := otelSpan.ParentSpanID.IsEmpty
  let name := otelSpan.Name
  let spanID := hexSpanID otelSpan.SpanID
  let representativeCount := getRepresentativeCountFromTracestateHeader otelSpan.TraceState
  if root ∨ otelSpan.Kind = ptrace.SpanKind.Server ∨
      otelSpan.Kind = ptrace.SpanKind.Consumer then
    let tx : Transaction :=
      { Id := spanID, Name := name, Sampled := true,
        RepresentativeCount := representativeCount }
    TranslateTransaction E otelSpan.Attributes otelSpan.Status otelLibrary
      { event with Processor := some Processor.transaction, Transaction := some tx }
  else
    let span : Span :=
      { Id := spanID, Name := name, RepresentativeCount := representativeCount }
    TranslateSpan E otelSpan.Kind otelSpan.Attributes
      { event with Processor := some Processor.span, Span := some span }

/-- The event of `convertSpan` before it becomes a transaction or a span: a copy of the base
event with initialized labels, the timestamp, the trace id (when it is not empty), the
duration, the outcome and the parent id (when there is one). -/
def spanEnvelope (otelSpan : ptrace.Span) (baseEvent : APMEvent) (timeDelta : Int) :
    APMEvent :=
  let root := otelSpan.ParentSpanID.IsEmpty
  let parentID := if !root then hexSpanID otelSpan.ParentSpanID else ""
  let startTime := asTime otelSpan.StartTimestamp
  let endTime := asTime otelSpan.EndTimestamp
  let duration := timeSub endTime startTime
  let event := initEventLabels baseEvent
  let ev : Event := populateNil {} event.Event
  { event with
    Timestamp := some (timeAdd startTime timeDelta),
    Trace := if hexTraceID otelSpan.TraceID ≠ "" then some { Id := hexTraceID otelSpan.TraceID }
             else event.Trace,
    Event := some { ev with Duration := some duration,
                            Outcome := spanStatusOutcome otelSpan.Status },
    ParentId := if parentID ≠ "" then parentID else event.ParentId }

/-- The primary event of `convertSpan`: the statements up to the first `append`. -/
def convertSpanPrimary (E : Env) (otelSpan : ptrace.Span) (otelLibrary : InstrumentationScope)
    (baseEvent : APMEvent) (timeDelta : Int) : Option APMEvent := do
  let event ← translateSpanOrTransaction E otelSpan otelLibrary
    (spanEnvelope otelSpan baseEvent timeDelta)
  let event := translateSpanLinks event otelSpan.Links
  pure { event with Labels := nilIfEmpty event.Labels,
                    NumericLabels := nilIfEmpty event.NumericLabels }

/-- The parent event that `convertSpan` hands to `convertSpanEvent`: a copy of the primary
event with the labels of the base event, only `Event.Received` and no destination. -/
def spanEventParent (baseEvent event : APMEvent) : Option APMEvent :=
  match baseEvent.Event with
  | some baseEv =>
    some { event with Labels := baseEvent.Labels, NumericLabels := baseEvent.NumericLabels,
                      Event := some { Received := baseEv.Received }, Destination := none }
  | none => none

/-- The body of the loop of `convertSpan` over the span events. -/
def appendSpanEvent (E : Env) (parent : APMEvent) (timeDelta : Int) (out : Batch)
    (spanEvent : ptrace.SpanEvent) : Option Batch := do
  let event ← convertSpanEvent E spanEvent parent timeDelta
  pure (out ++ [event])

/-- The method `convertSpan`: the batch after the events of the span were appended; `none`
is a panic. -/
def convertSpan (E : Env) (otelSpan : ptrace.Span) (otelLibrary : InstrumentationScope)
    (baseEvent : APMEvent) (timeDelta : Int) (out : Batch) : Option Batch := do
  let event ← convertSpanPrimary E otelSpan otelLibrary baseEvent timeDelta
  let out := out ++ [event]
  let parent ← spanEventParent baseEvent event
  otelSpan.Events.foldlM (appendSpanEvent E parent timeDelta) out

/-- The method `convertScopeSpans`. -/
def convertScopeSpans (E : Env) (in_ : ptrace.ScopeSpans) (baseEvent : APMEvent)
    (timeDelta : Int) (out : Batch) : Option Batch :=
  in_.Spans.foldlM
    (fun out otelSpan => convertSpan E otelSpan in_.Scope baseEvent timeDelta out) out

/-- The method `convertResourceSpans`. -/
def convertResourceSpans (E : Env) (resourceSpans : ptrace.ResourceSpans)
    (receiveTimestamp : Int) (out : Batch) : Option Batch :=
  let baseEvent := resourceBaseEvent E resourceSpans.Resource receiveTimestamp
  let timeDelta := resourceTimeDelta resourceSpans.Resource receiveTimestamp
  resourceSpans.ScopeSpans.foldlM
    (fun out scopeSpans => convertScopeSpans E scopeSpans baseEvent timeDelta out) out

/-- The translation loop of `ConsumeTraces`: the batch handed to the processor. -/
def convertTraces (E : Env) (traces : List ptrace.ResourceSpans) (receiveTimestamp : Int) :
    Option Batch :=
  traces.foldlM
    (fun out resourceSpans => convertResourceSpans E resourceSpans receiveTimestamp out) []

/-! ## A concrete environment and concrete inputs

`sampleEnv` is one implementation of the helpers of `Env`; it is used to run the
translators on concrete inputs. -/

/-- A simple implementation of `setLabel`: strings and booleans become labels, numbers
numeric labels, anything else is ignored. -/
def sampleSetLabel (key : String) (value : Iface)
    (maps : Option Labels × Option NumericLabels) : Option Labels × Option NumericLabels :=
  match value with
  | Iface.str s => (maps.1.map (fun l => mapSet l key { Value := s }), maps.2)
  | Iface.bool b => (maps.1.map (fun l => mapSet l key { Value := formatBool b }), maps.2)
  | Iface.float d => (maps.1, maps.2.map (fun l => mapSet l key { Value := d }))
  | Iface.int i => (maps.1, maps.2.map (fun l => mapSet l key { Value := float64OfInt64 i }))
  | _ => maps

/-- A concrete environment: the resource metadata name an `otlp` agent and an `unknown`
service and language, attribute values are passed on unchanged, and no string parses as an
address. -/
def sampleEnv : Env where
  asString := fun v =>
    match v with
    | Value.str s => s
    | Value.bool b => formatBool b
    | _ => ""
  ifaceAttributeValue := fun v =>
    match v with
    | Value.str s => Iface.str (truncate s)
    | Value.int i => Iface.int i
    | Value.double d => Iface.float d
    | Value.bool b => Iface.bool b
    | _ => Iface.null
  ifaceAttributeValueSlice := fun _ => Iface.slice []
  setLabel := sampleSetLabel
  translateResourceMetadata := fun _ event =>
    { event with
      Agent := some { Name := "otlp" },
      Service := some { Name := "unknown", Language := some { Name := "unknown" } } }
  convertOpenTelemetryExceptionSpanEvent := fun type message stacktrace escaped _ =>
    { Exception := some { Message := if message = "" then "[EMPTY]" else message,
                          Type_ := type, Handled := some (!escaped),
                          Stacktrace := stacktrace } }
  parseURL := fun original host scheme =>
    some { Original := original, Domain := host, Scheme := scheme }
  grpcCodeString := fun n => toString n
  atoi := fun _ => (0, false)
  parseAddr := fun _ => none
  parseIP := fun _ => false
  urlParse := fun s => some { Rest := s }
  urlString := fun u => u.Scheme ++ "://" ++ u.Host ++ u.Rest
  urlPort := fun _ => ""
  urlHostname := fun u => u.Host
  zeroValueDoublePanics := false
  zeroValueTypePanics := true
  setLabel_isSome := by
    intro key value maps h1 h2
    obtain ⟨a, b⟩ := maps
    cases a with
    | none => cases h1
    | some a =>
      cases b with
      | none => cases h2
      | some b => cases value <;> exact ⟨rfl, rfl⟩

/-- The span id `0102030405060708`. -/
def sampleSpanID : SpanID := { bytes := [1, 2, 3, 4, 5, 6, 7, 8], size := rfl }

/-- The all-zero span id (no parent). -/
def zeroSpanID : SpanID := { bytes := [0, 0, 0, 0, 0, 0, 0, 0], size := rfl }

/-- The trace id `0a` repeated sixteen times. -/
def sampleTraceID : TraceID := { bytes := List.replicate 16 10, size := rfl }

/-- An exception span event with `exception.type = "E"` and `exception.message = "m"`. -/
def sampleException : ptrace.SpanEvent :=
  { Timestamp := 2000, Name := "exception",
    Attributes := [("exception.type", Value.str "E"), ("exception.message", Value.str "m")] }

/-- A root span with one exception span event and no links. -/
def sampleRootSpan : ptrace.Span :=
  { TraceID := sampleTraceID, SpanID := sampleSpanID, ParentSpanID := zeroSpanID,
    TraceState := "", Name := "root", Kind := ptrace.SpanKind.Internal,
    StartTimestamp := 1000, EndTimestamp := 3000, Attributes := [],
    Events := [sampleException], Links := [],
    Status := { Code := ptrace.StatusCode.Unset, Message := "" } }

/-- The root span `sampleRootSpan` with one span link added. -/
def linkedRootSpan : ptrace.Span :=
  { sampleRootSpan with Links := [{ TraceID := sampleTraceID, SpanID := sampleSpanID }] }

/-- A base event as `sampleEnv` builds it for any resource, received at time `0`. -/
def sampleBaseEvent : APMEvent := resourceBaseEvent sampleEnv { Attributes := [] } 0

/-! ## Specification-side definitions for the metric translator -/

/-- The key under which a datapoint with timestamp `ts` and attributes `attrs` is grouped:
its timestamp and its attribute signature. -/
def dataPointKey (E : Env) (ts : Nat) (attrs : Attributes) : metricsetKey :=
  { timestamp := asTime ts, signature := attributeSignature E attrs }

/-- A gauge or sum datapoint is accepted when its value is an integer or a finite double. -/
def numberAccepted (dp : NumberDataPoint) : Bool :=
  match dp.Value with
  | NumberValue.int _ => true
  | NumberValue.double d => !(d.isNaN || d.isInf)
  | NumberValue.empty => false

/-- A histogram datapoint is accepted when it has one more bucket count than bounds and at
least one bound. -/
def histogramAccepted (dp : HistogramDataPoint) : Bool :=
  decide (dp.BucketCounts.length = dp.ExplicitBounds.length + 1 ∧ dp.ExplicitBounds.length ≠ 0)

/-- The keys of the accepted datapoints of a metric, in input order. -/
def acceptedKeys (E : Env) (metric : Metric) : List metricsetKey :=
  match metric.Data with
  | MetricData.gauge dps =>
    (dps.filter numberAccepted).map (fun dp => dataPointKey E dp.Timestamp dp.Attributes)
  | MetricData.sum dps =>
    (dps.filter numberAccepted).map (fun dp => dataPointKey E dp.Timestamp dp.Attributes)
  | MetricData.histogram dps =>
    (dps.filter histogramAccepted).map (fun dp => dataPointKey E dp.Timestamp dp.Attributes)
  | MetricData.summary dps =>
    dps.map (fun dp => dataPointKey E dp.Timestamp dp.Attributes)
  | _ => []

/-- The keys of the accepted datapoints of the metrics of a scope, in input order. -/
def scopeAcceptedKeys (E : Env) : List Metric → List metricsetKey
  | [] => []
  | metric :: rest => acceptedKeys E metric ++ scopeAcceptedKeys E rest

/-- The set of keys of a metricsets map is `ks`, each key held once. -/
def KeysAre (ms : metricsets) (ks : List metricsetKey) : Prop :=
  (ms.map Prod.fst).Nodup ∧ ∀ k, k ∈ ms.map Prod.fst ↔ k ∈ ks

/-- A metric counts as dropped when one of its gauge, sum or histogram datapoints is not
accepted, or when its kind is not one of gauge, sum, histogram and summary. -/
def metricDropped (metric : Metric) : Bool :=
  match metric.Data with
  | MetricData.gauge dps => dps.any (fun dp => !numberAccepted dp)
  | MetricData.sum dps => dps.any (fun dp => !numberAccepted dp)
  | MetricData.histogram dps => dps.any (fun dp => !histogramAccepted dp)
  | MetricData.summary _ => false
  | _ => true

/-- One call of `upsert`: the timestamp, the attributes and the sample (with its name). -/
structure Upsert where
  timestamp : Int
  attributes : Attributes
  sample : MetricsetSample

/-- The metricsets map after a sequence of upserts into an empty map. -/
def applyUpserts (E : Env) (ups : List Upsert) : metricsets :=
  ups.foldl (fun ms u => upsert E ms u.timestamp u.attributes u.sample) []

/-- The key of an upsert. -/
def upsertKey (E : Env) (u : Upsert) : metricsetKey :=
  { timestamp := u.timestamp, signature := attributeSignature E u.attributes }

/-- The sample stored for a metric name in the metricset of a key, if any. -/
def lookupSample (ms : metricsets) (key : metricsetKey) (name : String) :
    Option MetricsetSample :=
  match mapGet? ms key with
  | some m => mapGet? m.samples name
  | none => none

/-- The sample of the last upsert, in input order, with the given key and metric name. -/
def lastUpsert (E : Env) (ups : List Upsert) (key : metricsetKey) (name : String) :
    Option MetricsetSample :=
  match ups.reverse.find? (fun u => decide (upsertKey E u = key ∧ u.sample.Name = name)) with
  | some u => some u.sample
  | none => none

/-- The invariant of a metricsets map built by upserts: keys are held once, and so are the
metric names inside every metricset. -/
def MetricsetsWF (ms : metricsets) : Prop :=
  (ms.map Prod.fst).Nodup ∧ ∀ key m, (key, m) ∈ ms → (m.samples.map Prod.fst).Nodup

/-- A gauge or sum datapoint whose double value is NaN, +Inf or -Inf. -/
def nonFiniteDouble (dp : NumberDataPoint) : Bool :=
  match dp.Value with
  | NumberValue.double d => d.isNaN || d.isInf
  | _ => false

/-- The number of gauge and sum datapoints of the metrics whose double value is NaN, +Inf or
-Inf. -/
def nonFiniteCount : List Metric → Nat
  | [] => 0
  | metric :: rest =>
    (match metric.Data with
     | MetricData.gauge dps => (dps.filter nonFiniteDouble).length
     | MetricData.sum dps => (dps.filter nonFiniteDouble).length
     | _ => 0) + nonFiniteCount rest

/-- A scope with one gauge metric that has two datapoints, NaN and +Inf. -/
def twoNonFiniteGauge : ScopeMetrics :=
  { Scope := { Name := "", Version := "" },
    Metrics := [{ Name := "gauge",
                  Data := MetricData.gauge
                    [{ Timestamp := 123, Attributes := [], Value := NumberValue.double F64.nan },
                     { Timestamp := 123, Attributes := [],
                       Value := NumberValue.double F64.posInf }] }] }

/-! ## Specification-side definitions for the trace translator -/

/-- The part of an event that the attribute translation of a span leaves as it is: the
timestamp, the processor tag, the trace, the parent id, the message, the error and metricset
records, the agent, the times of `Event`, and the id, name, sampling flag and custom
context of the transaction or the id, name and links of the span. -/
structure EventCore where
  Timestamp : Option Int
  Processor : Option Processor
  Trace : Option Trace
  ParentId : String
  Message : String
  Error : Option Error
  Metricset : Option Metricset
  Agent : Option Agent
  Times : Option (Option Int × Option Int)
  Transaction : Option (String × String × Bool × Option String)
  Span : Option (String × String × List SpanLink)

/-- The core of an event. -/
def APMEvent.core (e : APMEvent) : EventCore :=
  { Timestamp := e.Timestamp, Processor := e.Processor, Trace := e.Trace,
    ParentId := e.ParentId, Message := e.Message, Error := e.Error,
    Metricset := e.Metricset, Agent := e.Agent,
    Times := e.Event.map (fun ev => (ev.Received, ev.Duration)),
    Transaction := e.Transaction.map (fun t => (t.Id, t.Name, t.Sampled, t.Custom)),
    Span := e.Span.map (fun s => (s.Id, s.Name, s.Links)) }

/-- Both label maps of the event are initialized (not nil). -/
def LabelsReady (e : APMEvent) : Prop :=
  e.Labels.isSome = true ∧ e.NumericLabels.isSome = true

/-- The event `e'` keeps what the attribute translation must not change in `e`: the core,
initialized label maps, and the service with its language when there is one. -/
def Keeps (e e' : APMEvent) : Prop :=
  e'.core = e.core ∧ (LabelsReady e → LabelsReady e') ∧
    (∀ lang, e.Service.map (fun s => s.Language) = some lang →
      e'.Service.map (fun s => s.Language) = some lang)

/-- The event has what the translation of a transaction dereferences: initialized label
maps, the transaction, the service and the `Event` record. -/
def TxReady (e : APMEvent) : Prop :=
  LabelsReady e ∧ e.Transaction.isSome = true ∧ e.Service.isSome = true ∧
    e.Event.isSome = true

/-- The event has what the translation of a span dereferences: initialized label maps, the
span, the service and the `Event` record. -/
def SpanReady (e : APMEvent) : Prop :=
  LabelsReady e ∧ e.Span.isSome = true ∧ e.Service.isSome = true ∧ e.Event.isSome = true

/-- A span becomes a transaction when it has no parent, or is of kind SERVER or CONSUMER. -/
def isTransactionSpan (otelSpan : ptrace.Span) : Bool :=
  otelSpan.ParentSpanID.IsEmpty || decide (otelSpan.Kind = ptrace.SpanKind.Server) ||
    decide (otelSpan.Kind = ptrace.SpanKind.Consumer)

/-- The base event has what the translation of spans and span events dereferences: an agent
that is not a Jaeger agent, a service with its language, and the `Event` record. -/
def GoodBase (baseEvent : APMEvent) : Prop :=
  ∃ agent service language, baseEvent.Agent = some agent ∧
    hasPrefix agent.Name "Jaeger" = false ∧ baseEvent.Service = some service ∧
    service.Language = some language ∧ baseEvent.Event.isSome = true

/-- The spans of a list of scopes, in input order. -/
def scopeSpansList : List ptrace.ScopeSpans → List ptrace.Span
  | [] => []
  | scopeSpans :: rest => scopeSpans.Spans ++ scopeSpansList rest

/-- The spans of a trace input, over all resources and scopes, in input order. -/
def allSpans : List ptrace.ResourceSpans → List ptrace.Span
  | [] => []
  | resourceSpans :: rest => scopeSpansList resourceSpans.ScopeSpans ++ allSpans rest

/-- The total number of spans of a trace input. -/
def totalSpans (traces : List ptrace.ResourceSpans) : Nat := (allSpans traces).length

/-- The total number of span events of a trace input. -/
def totalSpanEvents (traces : List ptrace.ResourceSpans) : Nat :=
  ((allSpans traces).map (fun otelSpan => otelSpan.Events.length)).sum

/-- A trace input on which the translation dereferences no nil pointer: every resource gives
a base event with a non-Jaeger agent, a service with its language and the `Event` record, and
every span has a trace id that is not all zero. -/
def GoodTraces (E : Env) (traces : List ptrace.ResourceSpans) (receiveTimestamp : Int) :
    Prop :=
  ∀ resourceSpans, resourceSpans ∈ traces →
    GoodBase (resourceBaseEvent E resourceSpans.Resource receiveTimestamp) ∧
    ∀ otelSpan, otelSpan ∈ scopeSpansList resourceSpans.ScopeSpans →
      otelSpan.TraceID.IsEmpty = false

/-- A resource whose export timestamp lies more than 292 years before the receive time
`skewedReceiveTime`. -/
def skewedResource : Resource :=
  { Attributes := [("telemetry.sdk.elastic_export_timestamp",
                    Value.int (-9000000000000000000))] }

/-- A receive time in the year 2023, in nanoseconds since the epoch. -/
def skewedReceiveTime : Int := 1700000000000000000

/-- One integer gauge datapoint at time `1000` for the resource `skewedResource`. -/
def skewedMetrics : List ResourceMetrics :=
  [{ Resource := skewedResource,
     ScopeMetrics := [{ Scope := { Name := "", Version := "" },
                        Metrics := [{ Name := "int_gauge",
                                      Data := MetricData.gauge
                                        [{ Timestamp := 1000, Attributes := [],
                                           Value := NumberValue.int 1 }] }] }] }]

/-- A root span with an exception span event whose trace id is all zero. -/
def zeroTraceSpan : ptrace.Span :=
  { sampleRootSpan with TraceID := { bytes := List.replicate 16 0, size := rfl } }

/-- The characters that `strconv.ParseUint` reads as decimal digits. -/
def isDigit (c : Char) : Bool := decide ('0' ≤ c ∧ c ≤ '9')

/-- The number that a list of decimal digits denotes, continuing from the number `n`. -/
def decimalFrom (n : Nat) (digits : List Char) : Nat :=
  digits.foldl (fun n c => n * 10 + (c.toNat - '0'.toNat)) n

/-- The `p` value of a tracestate as `getRepresentativeCountFromTracestateHeader` reads it:
the value of the first `p` field of the first `ot` entry, and the empty string when there is
no such entry or field. -/
def tracestatePValue (tracestate : String) : String :=
  getValueForKeyInString (getValueForKeyInString tracestate "ot" ',' '=') "p" ';' ':'

/-! ## Specification-side definitions for span events -/

/-- The string that a list of attributes carries under `key`: the string value of the last
attribute with this key, and the empty string when there is none or when its value is not a
string. -/
def lastStr (attrs : Attributes) (key : String) : String :=
  match attrs.reverse.find? (fun kv => kv.1 = key) with
  | some kv => kv.2.Str
  | none => ""

/-- The span event is named `exception` and carries a non-empty `exception.message` or a
non-empty `exception.type`. -/
def carriesException (spanEvent : ptrace.SpanEvent) : Bool :=
  decide (spanEvent.Name = "exception" ∧
    (lastStr spanEvent.Attributes "exception.message" ≠ "" ∨
      lastStr spanEvent.Attributes "exception.type" ≠ ""))

/-- The error that a span event of a Jaeger agent denotes, if any: the result of
`convertJaegerErrorSpanEvent`, which does not depend on the event that receives the labels. -/
def jaegerSpanEventError (E : Env) (spanEvent : ptrace.SpanEvent) : Option Error :=
  (convertJaegerErrorSpanEvent E spanEvent {}).1

/-- The message of the Log event of a span event of a Jaeger agent: the truncated string
value of the last attribute `message`, and the name of the span event when there is none. -/
def jaegerLogMessage (spanEvent : ptrace.SpanEvent) : String :=
  match spanEvent.Attributes.reverse.find? (fun kv => replaceDots kv.1 = "message") with
  | some kv => truncate kv.2.Str
  | none => spanEvent.Name

/-- A span event named `exception` without attributes. -/
def bareException : ptrace.SpanEvent :=
  { Timestamp := 2000, Name := "exception", Attributes := [] }

/-- A root span whose only span event is `bareException`. -/
def bareExceptionSpan : ptrace.Span := { sampleRootSpan with Events := [bareException] }

/-! ## Specification-side definitions for the order of the batch -/

/-- The concatenation of the batches `g a` over the elements `a` of a list, in the order of
the list; a panic for one element is a panic of the whole. -/
def concatBatches {α : Type} (g : α → Option Batch) : List α → Option Batch
  | [] => some []
  | a :: rest =>
    match g a, concatBatches g rest with
    | some b, some bs => some (b ++ bs)
    | _, _ => none

/-- The events of one span: its primary event, followed by the events of its span events in
the order of the span events. -/
def spanEvents (E : Env) (otelSpan : ptrace.Span) (otelLibrary : InstrumentationScope)
    (baseEvent : APMEvent) (timeDelta : Int) : Option Batch :=
  match convertSpanPrimary E otelSpan otelLibrary baseEvent timeDelta with
  | some primary =>
    match spanEventParent baseEvent primary with
    | some parent =>
      (concatBatches
        (fun spanEvent => (convertSpanEvent E spanEvent parent timeDelta).map (fun e => [e]))
        otelSpan.Events).map (fun events => primary :: events)
    | none => none
  | none => none

/-- The batch of a trace input as the specification describes it: the concatenation, over
the resources, over the scopes of each resource and over the spans of each scope, of the
events of the span. -/
def tracesBatch (E : Env) (traces : List ptrace.ResourceSpans) (receiveTimestamp : Int) :
    Option Batch :=
  concatBatches
    (fun resourceSpans =>
      concatBatches
        (fun scopeSpans =>
          concatBatches
            (fun otelSpan =>
              spanEvents E otelSpan scopeSpans.Scope
                (resourceBaseEvent E resourceSpans.Resource receiveTimestamp)
                (resourceTimeDelta resourceSpans.Resource receiveTimestamp))
            scopeSpans.Spans)
        resourceSpans.ScopeSpans)
    traces

/-! ## Specification-side definitions for the classification of spans and transactions

The attributes that mark a span or a transaction as a database, messaging, RPC or HTTP
operation, by key and value type (semantic conventions v1.5 and the OpenTracing keys that
the translators also read). -/

/-- A database attribute of a span: a string attribute `sql.query`, `db.statement`,
`db.name`, `db.instance`, `db.system`, `db.type` or `db.user`. -/
def isDatabaseAttribute (kv : String × Value) : Bool :=
  match kv.2 with
  | Value.str _ =>
    decide (kv.1 = "sql.query" ∨ kv.1 = "db.statement" ∨ kv.1 = "db.name" ∨
      kv.1 = "db.instance" ∨ kv.1 = "db.system" ∨ kv.1 = "db.type" ∨ kv.1 = "db.user")
  | _ => false

/-- A messaging attribute of a span: a string attribute `message_bus.destination`,
`messaging.destination`, `messaging.operation` or `messaging.system`. -/
def isMessagingAttribute (kv : String × Value) : Bool :=
  match kv.2 with
  | Value.str _ =>
    decide (kv.1 = "message_bus.destination" ∨ kv.1 = "messaging.destination" ∨
      kv.1 = "messaging.operation" ∨ kv.1 = "messaging.system")
  | _ => false

/-- An RPC attribute of a span: a string attribute `rpc.system`, `rpc.service` or
`rpc.grpc.status_code`, or an integer attribute `rpc.grpc.status_code`. -/
def isRPCAttribute (kv : String × Value) : Bool :=
  match kv.2 with
  | Value.str _ =>
    decide (kv.1 = "rpc.system" ∨ kv.1 = "rpc.service" ∨ kv.1 = "rpc.grpc.status_code")
  | Value.int _ => decide (kv.1 = "rpc.grpc.status_code")
  | _ => false

/-- An HTTP attribute of a span: a string attribute `http.host`, `http.scheme`,
`http.target`, `http.url` or `http.method`, or an integer attribute `http.status_code`. -/
def isHTTPAttribute (kv : String × Value) : Bool :=
  match kv.2 with
  | Value.str _ =>
    decide (kv.1 = "http.host" ∨ kv.1 = "http.scheme" ∨ kv.1 = "http.target" ∨
      kv.1 = "http.url" ∨ kv.1 = "http.method")
  | Value.int _ => decide (kv.1 = "http.status_code")
  | _ => false

/-- The RPC system after one more attribute: the truncated value of a string attribute
`rpc.system`, and `grpc` for an attribute `rpc.grpc.status_code`. -/
def rpcSystemStep (rpcSystem : String) (kv : String × Value) : String :=
  match kv.2 with
  | Value.str s =>
    if kv.1 = "rpc.system" then truncate s
    else if kv.1 = "rpc.grpc.status_code" then "grpc"
    else rpcSystem
  | Value.int _ => if kv.1 = "rpc.grpc.status_code" then "grpc" else rpcSystem
  | _ => rpcSystem

/-- The RPC system of the attributes of a span. -/
def rpcSystemOf (attributes : Attributes) : String := attributes.foldl rpcSystemStep ""

/-- The HTTP status code of a span after one more attribute: the `int32` of an integer
attribute `http.status_code`. -/
def spanStatusCodeStep (code : Int) (kv : String × Value) : Int :=
  match kv.2 with
  | Value.int i => if kv.1 = "http.status_code" then int32OfInt i else code
  | _ => code

/-- The HTTP status code that the attributes of a span carry (`0` when there is none). -/
def spanStatusCodeOf (attributes : Attributes) : Int := attributes.foldl spanStatusCodeStep 0

/-- A messaging attribute of a transaction: a string attribute `message_bus.destination` or
`messaging.destination`. -/
def isTransactionMessagingAttribute (kv : String × Value) : Bool :=
  match kv.2 with
  | Value.str _ => decide (kv.1 = "message_bus.destination" ∨ kv.1 = "messaging.destination")
  | _ => false

/-- An RPC attribute of a transaction: a string attribute `rpc.system` or
`rpc.grpc.status_code`, or an integer attribute `rpc.grpc.status_code`. -/
def isTransactionRPCAttribute (kv : String × Value) : Bool :=
  match kv.2 with
  | Value.str _ => decide (kv.1 = "rpc.system" ∨ kv.1 = "rpc.grpc.status_code")
  | Value.int _ => decide (kv.1 = "rpc.grpc.status_code")
  | _ => false

/-- An HTTP attribute of a transaction: an integer attribute `http.status_code`; a string
attribute `http.method`, `http.url`, `http.target`, `http.path`, `http.host`, `http.scheme`,
`http.flavor` or `http.server_name`; a string attribute `http.status_code` whose truncated
value is a number; or a string attribute `http.protocol` whose truncated value begins with
`HTTP/`. -/
def isTransactionHTTPAttribute (E : Env) (kv : String × Value) : Bool :=
  match kv.2 with
  | Value.int _ => decide (kv.1 = "http.status_code")
  | Value.str s =>
    decide (kv.1 = "http.method" ∨ kv.1 = "http.url" ∨ kv.1 = "http.target" ∨
      kv.1 = "http.path" ∨ kv.1 = "http.host" ∨ kv.1 = "http.scheme" ∨
      kv.1 = "http.flavor" ∨ kv.1 = "http.server_name" ∨
      (kv.1 = "http.status_code" ∧ (E.atoi (truncate s)).2 = true) ∨
      (kv.1 = "http.protocol" ∧ hasPrefix (truncate s) "HTTP/" = true))
  | _ => false

/-- The HTTP status code of a transaction after one more attribute: the `int32` of an integer
attribute `http.status_code`, or of the number that a string attribute `http.status_code`
holds. -/
def transactionStatusCodeStep (E : Env) (code : Int) (kv : String × Value) : Int :=
  match kv.2 with
  | Value.int i => if kv.1 = "http.status_code" then int32OfInt i else code
  | Value.str s =>
    if kv.1 = "http.status_code" ∧ (E.atoi (truncate s)).2 = true then
      int32OfInt (E.atoi (truncate s)).1
    else code
  | _ => code

/-- The HTTP status code that the attributes of a transaction carry (`0` when there is
none). -/
def transactionStatusCodeOf (E : Env) (attributes : Attributes) : Int :=
  attributes.foldl (transactionStatusCodeStep E) 0

/-- The transaction type after one more attribute: the truncated value of a string attribute
`type`. -/
def explicitTypeStep (type : String) (kv : String × Value) : String :=
  match kv.2 with
  | Value.str s => if kv.1 = "type" then truncate s else type
  | _ => type

/-- The transaction type that the attributes set explicitly: the truncated value of the last
string attribute `type`, and `type` (the type of the incoming transaction) when there is
none. -/
def explicitType (type : String) (attributes : Attributes) : String :=
  attributes.foldl explicitTypeStep type

/-- The outcome, the transaction type and the span type and subtype of an event. -/
structure EventKind where
  Outcome : Option String
  TransactionType : Option String
  SpanType : Option (String × String)

/-- The kind of an event. -/
def APMEvent.kind (e : APMEvent) : EventKind :=
  { Outcome := e.Event.map (fun ev => ev.Outcome),
    TransactionType := e.Transaction.map (fun tx => tx.Type_),
    SpanType := e.Span.map (fun span => (span.Type_, span.Subtype)) }

/-- The transaction type that the attributes imply when no type is set explicitly:
`messaging` when a messaging attribute was seen, else `request` when an HTTP or an RPC
attribute was seen, else `unknown`. -/
def impliedTransactionType (E : Env) (attributes : Attributes) : String :=
  if attributes.any isTransactionMessagingAttribute then "messaging"
  else if attributes.any (isTransactionHTTPAttribute E) ||
      attributes.any isTransactionRPCAttribute then "request"
  else "unknown"

/-- The type and the subtype of the span `span'` are those that the classification of the
specification gives to a span of kind `spanKind` with the attributes `attributes` that came
in as `span`: Database before Messaging before RPC before HTTP before the default. -/
def SpanClassified (spanKind : ptrace.SpanKind) (attributes : Attributes) (span span' : Span) :
    Prop :=
  if attributes.any isDatabaseAttribute then span'.Type_ = "db"
  else if attributes.any isMessagingAttribute then span'.Type_ = "messaging"
  else if attributes.any isRPCAttribute then
    span'.Type_ = "external" ∧ span'.Subtype = rpcSystemOf attributes
  else if attributes.any isHTTPAttribute then
    span'.Type_ = "external" ∧ span'.Subtype = "http"
  else if span.Type_ = "" then
    (if spanKind = ptrace.SpanKind.Internal then
      span'.Type_ = "app" ∧ span'.Subtype = "internal"
     else span'.Type_ = "unknown" ∧ span'.Subtype = span.Subtype)
  else span'.Type_ = span.Type_ ∧ span'.Subtype = span.Subtype

/-! ## Concrete span events and spans -/

/-- An `exception` span event that carries only a stack trace. -/
def stacktraceException : ptrace.SpanEvent :=
  { Timestamp := 2000, Name := "exception",
    Attributes := [("exception.stacktrace", Value.str "at main")] }

/-- A span event named `retry` with the attribute `message`. -/
def messageSpanEvent : ptrace.SpanEvent :=
  { Timestamp := 2000, Name := "retry",
    Attributes := [("message", Value.str "connection reset")] }

/-- A root span with the span events `stacktraceException` and `messageSpanEvent`. -/
def spanEventsSpan : ptrace.Span :=
  { sampleRootSpan with Events := [stacktraceException, messageSpanEvent] }

/-- The base event `sampleBaseEvent` for a Jaeger agent. -/
def jaegerBaseEvent : APMEvent := { sampleBaseEvent with Agent := some { Name := "Jaeger/Go" } }

/-- A span event named `tick` without attributes. -/
def plainSpanEvent : ptrace.SpanEvent := { Timestamp := 2000, Name := "tick", Attributes := [] }

/-- A root span whose only span event is `plainSpanEvent`. -/
def plainEventSpan : ptrace.Span := { sampleRootSpan with Events := [plainSpanEvent] }

/-- A parent event as `convertSpan` hands it to `convertSpanEvent`: the base event with the
transaction `0102030405060708` and a trace id. -/
def sampleParent : APMEvent :=
  { sampleBaseEvent with
    Processor := some Processor.transaction,
    Trace := some { Id := hexTraceID sampleTraceID },
    Transaction := some { Id := "0102030405060708", Name := "root", Type_ := "unknown",
                          Sampled := true } }

/-- A client span with an HTTP status code, a database attribute and an HTTP attribute. -/
def sampleClientAttributes : Attributes :=
  [("http.status_code", Value.int 503), ("db.system", Value.str "mysql"),
   ("http.url", Value.str "http://db:3306/")]

/-- An event that is ready to become a span: the base event with initialized labels and an
empty span record. -/
def sampleSpanEvent : APMEvent :=
  { initEventLabels sampleBaseEvent with
    Processor := some Processor.span, Span := some { Id := "0102030405060708" } }

/-- An event that is ready to become a transaction: the base event with initialized labels
and a transaction record without a type. -/
def sampleTransactionEvent : APMEvent :=
  { initEventLabels sampleBaseEvent with
    Processor := some Processor.transaction,
    Transaction := some { Id := "0102030405060708", Sampled := true } }

/-- A server span (a transaction) with the HTTP status code 503 and an unset status. -/
def sampleServerSpan : ptrace.Span :=
  { sampleRootSpan with
    Kind := ptrace.SpanKind.Server, Events := [],
    Attributes := [("http.status_code", Value.int 503)] }

/-! ## Specification-side definitions for the attributes that a span carries

A `pcommon.Map` may hold a key several times; the translators visit the entries in order, so
the last entry with a key decides. -/

/-- A string attribute after one more entry: the truncated value of a string entry whose key
is among `keys`. -/
def strAttrStep (keys : List String) (cur : String) (kv : String × Value) : String :=
  match kv.2 with
  | Value.str s => if kv.1 ∈ keys then truncate s else cur
  | _ => cur

/-- The string attribute with one of the keys `keys`: the value of the last string entry with
such a key, truncated to 1024 code points, and `init` when there is none. -/
def strAttr (keys : List String) (init : String) (attributes : Attributes) : String :=
  attributes.foldl (strAttrStep keys) init

/-- An integer attribute after one more entry: the value of an integer entry whose key is
among `keys`. -/
def intAttrStep (keys : List String) (cur : Int) (kv : String × Value) : Int :=
  match kv.2 with
  | Value.int i => if kv.1 ∈ keys then i else cur
  | _ => cur

/-- The integer attribute with one of the keys `keys`: the value of the last integer entry
with such a key, and `init` when there is none. -/
def intAttr (keys : List String) (init : Int) (attributes : Attributes) : Int :=
  attributes.foldl (intAttrStep keys) init

/-- A boolean attribute after one more entry: the value of a boolean entry with the key. -/
def boolAttrStep (key : String) (cur : Bool) (kv : String × Value) : Bool :=
  match kv.2 with
  | Value.bool b => if kv.1 = key then b else cur
  | _ => cur

/-- The boolean attribute with the key `key`: the value of the last boolean entry with the
key, and `init` when there is none. -/
def boolAttr (key : String) (init : Bool) (attributes : Attributes) : Bool :=
  attributes.foldl (boolAttrStep key) init

/-- An attribute of any type after one more entry. -/
def lastAttrStep (key : String) (cur : Option Value) (kv : String × Value) : Option Value :=
  if kv.1 = key then some kv.2 else cur

/-- The attribute with the key `key`, of any type: the value of the last entry with the key,
and `init` when there is none. -/
def lastAttr (key : String) (init : Option Value) (attributes : Attributes) : Option Value :=
  attributes.foldl (lastAttrStep key) init

/-- The destination, the destination service of the span record and the target of the
service of an event. -/
structure EventTarget where
  Destination : Option Destination
  DestinationService : Option (Option DestinationService)
  ServiceTarget : Option (Option ServiceTarget)

/-- The target of an event. -/
def APMEvent.target (e : APMEvent) : EventTarget :=
  { Destination := e.Destination,
    DestinationService := e.Span.map (fun span => span.DestinationService),
    ServiceTarget := e.Service.map (fun service => service.Target) }

/-- The attribute `peer.service` of a span. -/
def peerServiceOf (attributes : Attributes) : String := strAttr ["peer.service"] "" attributes

/-- The attribute `peer.address` of a span. -/
def peerAddressOf (attributes : Attributes) : String := strAttr ["peer.address"] "" attributes

/-- The attribute `net.peer.name` (or `peer.hostname`) of a span. -/
def netPeerNameOf (attributes : Attributes) : String :=
  strAttr ["net.peer.name", "peer.hostname"] "" attributes

/-- The attribute `net.peer.ip` (or `peer.ipv4`, `peer.ipv6`) of a span. -/
def netPeerIPOf (attributes : Attributes) : String :=
  strAttr ["net.peer.ip", "peer.ipv4", "peer.ipv6"] "" attributes

/-- The attribute `net.peer.port` (or `peer.port`) of a span, `0` when there is none. -/
def netPeerPortOf (attributes : Attributes) : Int :=
  intAttr ["net.peer.port", "peer.port"] 0 attributes

/-- The attribute `http.url` of a span. -/
def httpURLOf (attributes : Attributes) : String := strAttr ["http.url"] "" attributes

/-- The attribute `http.target` of a span. -/
def httpTargetOf (attributes : Attributes) : String := strAttr ["http.target"] "" attributes

/-- The attribute `http.host` of a span. -/
def httpHostOf (attributes : Attributes) : String := strAttr ["http.host"] "" attributes

/-- The attribute `http.scheme` of a span, `http` when there is none. -/
def httpSchemeOf (attributes : Attributes) : String := strAttr ["http.scheme"] "http" attributes

/-- The attribute `messaging.system` of a span. -/
def messageSystemOf (attributes : Attributes) : String :=
  strAttr ["messaging.system"] "" attributes

/-- The messaging destination of a span: the attribute `messaging.destination` (or
`message_bus.destination`). -/
def queueNameOf (attributes : Attributes) : String :=
  strAttr ["message_bus.destination", "messaging.destination"] "" attributes

/-- The boolean attribute `messaging.temp_destination` of a span, false when there is
none. -/
def tempDestinationOf (attributes : Attributes) : Bool :=
  boolAttr "messaging.temp_destination" false attributes

/-- The attribute `db.name` (or `db.instance`) of a span. -/
def dbInstanceOf (attributes : Attributes) : String :=
  strAttr ["db.name", "db.instance"] "" attributes

/-- The attribute `rpc.service` of a span. -/
def rpcServiceOf (attributes : Attributes) : String := strAttr ["rpc.service"] "" attributes

/-- The destination address that the peer attributes of a span give, in the order of the
code: `net.peer.name` if it is not empty; otherwise `peer.address` if it is not empty and
either contains no colon or parses as an IP address; otherwise `net.peer.ip`. -/
def peerDestinationAddress (E : Env) (attributes : Attributes) : String :=
  if netPeerNameOf attributes ≠ "" then netPeerNameOf attributes
  else if peerAddressOf attributes ≠ "" ∧
      ((peerAddressOf attributes).data.contains ':' = false ∨
        E.parseIP (peerAddressOf attributes) = true) then
    peerAddressOf attributes
  else netPeerIPOf attributes

/-- The full URL of a span: the parsed `http.url`; without `http.url`, the parsed
`http.target` with the scheme `http.scheme` and the host `http.host`, or, without
`http.host`, the destination address of the peer attributes joined with the port
`net.peer.port` when that is positive; none without these attributes or when the parser
fails. -/
def spanURLOf (E : Env) (attributes : Attributes) : Option GoURL :=
  if httpURLOf attributes ≠ "" then E.urlParse (httpURLOf attributes)
  else if httpTargetOf attributes ≠ "" then
    (E.urlParse (httpTargetOf attributes)).map (fun u =>
      { u with
        Scheme := httpSchemeOf attributes,
        Host :=
          if httpHostOf attributes = "" then
            (if netPeerPortOf attributes > 0 then
              joinHostPort (peerDestinationAddress E attributes) (itoa (netPeerPortOf attributes))
             else peerDestinationAddress E attributes)
          else httpHostOf attributes })
  else none

/-- The port of a URL as the translators read it: the number that `strconv.Atoi` finds in
the port of the URL, or the default port of the scheme when the URL has no port. -/
def urlPortNumber (E : Env) (u : GoURL) : Int :=
  if E.urlPort u ≠ "" then (E.atoi (E.urlPort u)).1 else schemeDefaultPort u.Scheme

/-- The destination port of a span: the port of its full URL when that is positive, and
`net.peer.port` otherwise. -/
def spanDestPortOf (E : Env) (attributes : Attributes) : Int :=
  match spanURLOf E attributes with
  | some u => if urlPortNumber E u > 0 then urlPortNumber E u else netPeerPortOf attributes
  | none => netPeerPortOf attributes

/-- The destination address of a span: the host name of its full URL (truncated), and the
destination address of the peer attributes when it has no URL. -/
def spanDestAddrOf (E : Env) (attributes : Attributes) : String :=
  match spanURLOf E attributes with
  | some u => truncate (E.urlHostname u)
  | none => peerDestinationAddress E attributes

/-- The name and the resource of the destination service that the HTTP branch of
`TranslateSpan` derives from the full URL `u` and the destination port `destPort`: when
`destPort` is the default port of the scheme, the name is `scheme://hostname` if the URL has
a port and the resource gets `:destPort` appended if the URL has none; in every other case
the name is `scheme://host` and the resource `host`, with `host` as the URL has it. -/
def httpDestinationService (E : Env) (u : GoURL) (destPort : Int) : String × String :=
  if destPort = schemeDefaultPort u.Scheme then
    if E.urlPort u ≠ "" then
      (E.urlString { Scheme := u.Scheme, Host := truncate (E.urlHostname u) }, u.Host)
    else (E.urlString { Scheme := u.Scheme, Host := u.Host }, u.Host ++ ":" ++ itoa destPort)
  else (E.urlString { Scheme := u.Scheme, Host := u.Host }, u.Host)

/-- The resource of the destination service before the classification: `peer.address` when
it is not empty, and `peer.service` otherwise. -/
def peerResource (attributes : Attributes) : String :=
  if peerAddressOf attributes ≠ "" then peerAddressOf attributes else peerServiceOf attributes

/-- The resource of the destination service of a span with `peer.service`: the resource
`peerResource`, to which a messaging span (one without database attributes) with a messaging
destination appends `/` and the destination. -/
def peerServiceResource (attributes : Attributes) : String :=
  if attributes.any isDatabaseAttribute = false ∧ attributes.any isMessagingAttribute = true ∧
      queueNameOf attributes ≠ "" then
    peerResource attributes ++ "/" ++ queueNameOf attributes
  else peerResource attributes

/-- The name of the service target of a span with `peer.service`: `db.name` for a database
span that has it; the messaging destination for a messaging span that has one which is not
temporary; `rpc.service` for an RPC span that has it; the resource of the URL for an HTTP
span with a URL; and `peer.service` in every other case. -/
def peerServiceTargetName (E : Env) (attributes : Attributes) : String :=
  if attributes.any isDatabaseAttribute then
    (if dbInstanceOf attributes ≠ "" then dbInstanceOf attributes else peerServiceOf attributes)
  else if attributes.any isMessagingAttribute then
    (if queueNameOf attributes ≠ "" ∧ tempDestinationOf attributes = false then
      queueNameOf attributes
     else peerServiceOf attributes)
  else if attributes.any isRPCAttribute then
    (if rpcServiceOf attributes ≠ "" then rpcServiceOf attributes else peerServiceOf attributes)
  else if attributes.any isHTTPAttribute then
    (match spanURLOf E attributes with
     | some u => (httpDestinationService E u (spanDestPortOf E attributes)).2
     | none => peerServiceOf attributes)
  else peerServiceOf attributes

/-! ## Specification-side definitions for the sampler attributes of Jaeger -/

/-- The representative counts of the transaction and of the span record of an event. -/
def APMEvent.counts (e : APMEvent) : Option F64 × Option F64 :=
  (e.Transaction.map (fun tx => tx.RepresentativeCount),
    e.Span.map (fun span => span.RepresentativeCount))

/-- The representative count of the primary event of a span: that of its transaction for a
root, SERVER or CONSUMER span, and that of its span record for every other span. -/
def primaryCount (otelSpan : ptrace.Span) (primary : APMEvent) : Option F64 :=
  if isTransactionSpan otelSpan then primary.counts.1 else primary.counts.2

/-! ## Specification-side definitions for hexadecimal ids and truncation -/

/-- The value of a hexadecimal digit, as `hex.DecodeString` of the Go standard library reads
it (both cases are accepted); `none` for any other character. -/
def fromHexChar (c : Char) : Option Nat :=
  if '0' ≤ c ∧ c ≤ '9' then some (c.toNat - '0'.toNat)
  else if 'a' ≤ c ∧ c ≤ 'f' then some (c.toNat - 'a'.toNat + 10)
  else if 'A' ≤ c ∧ c ≤ 'F' then some (c.toNat - 'A'.toNat + 10)
  else none

/-- The function `hex.DecodeString` of the Go standard library (the `hex_decode` of the
specification): two digits per byte; `none` is an error (an odd length or a character that is
not a hexadecimal digit). -/
def hexDecode : List Char → Option (List (Fin 256))
  | [] => some []
  | [_] => none
  | hi :: lo :: rest =>
    match fromHexChar hi, fromHexChar lo, hexDecode rest with
    | some h, some l, some tail => some (⟨(h * 16 + l) % 256, Nat.mod_lt _ (by decide)⟩ :: tail)
    | _, _, _ => none

/-- The two digits of a byte, as the specification describes the rendering of an id: the
digit of the high half and the digit of the low half, from `0123456789abcdef`. -/
def byteDigits (b : Fin 256) : List Char := [hexDigit (b.val / 16), hexDigit (b.val % 16)]

/-- A string of `n` copies of the two-byte character `é`. -/
def accents (n : Nat) : String := String.mk (List.replicate n 'é')

/-! ## A concrete environment with URLs

`urlEnv` is `sampleEnv` with a model of the functions of `net/url` and `strconv` for URLs of
the form `scheme://host/path` or `scheme://host:port/path`, where `host` is a name without
brackets and without user information; it is used to run the translators on concrete spans
with such URLs. -/

/-- A model of `url.Parse` for URLs `scheme://authority/path`: the scheme is the text before
`://`, the host the text up to the next `/`, and the rest the path; anything else is an error
here. -/
def simpleURLParse (s : String) : Option GoURL :=
  let scheme := s.data.takeWhile (fun c => c ≠ ':')
  let rest := s.data.dropWhile (fun c => c ≠ ':')
  if "://".data.isPrefixOf rest then
    let after := rest.drop 3
    some { Scheme := String.mk scheme,
           Host := String.mk (after.takeWhile (fun c => c ≠ '/')),
           Rest := String.mk (after.dropWhile (fun c => c ≠ '/')) }
  else none

/-- The text after the last colon of a host. -/
def hostPortPart (host : String) : List Char :=
  (host.data.reverse.takeWhile (fun c => c ≠ ':')).reverse

/-- A model of `URL.Port` for hosts without brackets: the decimal digits after the last
colon of the host, and the empty string when there is no colon or something else follows
it. -/
def simpleURLPort (u : GoURL) : String :=
  if u.Host.data.contains ':' ∧ (hostPortPart u.Host).all isDigit then
    String.mk (hostPortPart u.Host)
  else ""

/-- A model of `URL.Hostname` for hosts without brackets: the host without the last colon
and the digits after it. -/
def simpleURLHostname (u : GoURL) : String :=
  if u.Host.data.contains ':' ∧ (hostPortPart u.Host).all isDigit then
    String.mk (u.Host.data.take (u.Host.data.length - (hostPortPart u.Host).length - 1))
  else u.Host

/-- A model of `strconv.Atoi` for strings of decimal digits that denote a number below
`2^63`; any other string is an error here. -/
def simpleAtoi (s : String) : Int × Bool :=
  if s.data ≠ [] ∧ s.data.all isDigit ∧ decimalFrom 0 s.data < 2 ^ 63 then
    ((decimalFrom 0 s.data : Nat), true)
  else (0, false)

/-- The environment `sampleEnv` with the model of URLs. -/
def urlEnv : Env :=
  { sampleEnv with
    urlParse := simpleURLParse, urlPort := simpleURLPort, urlHostname := simpleURLHostname,
    atoi := simpleAtoi }

/-- The attributes of an HTTP span whose URL has the explicit port `0`, with
`net.peer.port = 80`. -/
def portZeroAttributes : Attributes :=
  [("http.url", Value.str "http://h:0/x"), ("net.peer.port", Value.int 80)]

/-- The attributes of an HTTP span with the URL `url`. -/
def httpURLAttributes (url : String) : Attributes :=
  [("http.method", Value.str "GET"), ("http.url", Value.str url)]

/-- The name and the resource of the destination service of an event. -/
def APMEvent.destinationService (event : APMEvent) : Option (String × String) :=
  (event.Span.bind (fun span => span.DestinationService)).map (fun ds => (ds.Name, ds.Resource))

/-! ## Concrete spans for the names, the ids, the destination and the sampler -/

/-- A root span with a name of 1025 code points. -/
def longNameSpan : ptrace.Span :=
  { sampleRootSpan with Name := String.mk (List.replicate 1025 'a'), Events := [] }

/-- A non-root client span with a name of 1025 code points. -/
def longNameClientSpan : ptrace.Span :=
  { longNameSpan with ParentSpanID := sampleSpanID, Kind := ptrace.SpanKind.Client }

/-- A root span whose trace id is all zero. -/
def zeroIdsSpan : ptrace.Span :=
  { sampleRootSpan with TraceID := { bytes := List.replicate 16 0, size := rfl }, Events := [] }

/-- The attributes of a database span with `peer.service`, `peer.address` and
`db.instance`. -/
def peerServiceAttributes : Attributes :=
  [("peer.service", Value.str "svc"), ("peer.address", Value.str "10.1.2.3:5432"),
   ("db.instance", Value.str "orders")]

/-- The attributes of a span with `net.peer.ip` and `peer.address`, and no `net.peer.name`. -/
def peerFallbackAttributes : Attributes :=
  [("net.peer.ip", Value.str "10.0.0.1"), ("peer.address", Value.str "dbhost"),
   ("net.peer.port", Value.int 5432)]

/-- The attributes of a messaging span: a system, a destination and a database-free,
peer-free rest. -/
def messagingAttributes : Attributes :=
  [("messaging.system", Value.str "kafka"), ("messaging.destination", Value.str "orders"),
   ("messaging.operation", Value.str "send")]

/-- The attributes `sampler.type` and `sampler.param` of a span of a Jaeger agent. -/
def samplerAttributes (type : String) (param : Value) : Attributes :=
  [("sampler.type", Value.str type), ("sampler.param", param)]

/-- A root span (a transaction) with the sampler attributes, without tracestate and without
span events. -/
def jaegerRootSpan (type : String) (param : Value) : ptrace.Span :=
  { sampleRootSpan with Events := [], Attributes := samplerAttributes type param }

/-- A client span with a parent (it becomes a span, not a transaction) with the sampler
attributes, without tracestate. -/
def jaegerClientSpan (type : String) (param : Value) : ptrace.Span :=
  { jaegerRootSpan type param with
    ParentSpanID := sampleSpanID, Kind := ptrace.SpanKind.Client }

/-! ## The event that `TranslateSpan` receives -/

/-- The event that `convertSpan` passes to `TranslateSpan` for a span that does not become a
transaction: the envelope with the processor `span` and the new span record. -/
def spanInputEvent (otelSpan : ptrace.Span) (baseEvent : APMEvent) (timeDelta : Int) :
    APMEvent :=
  { spanEnvelope otelSpan baseEvent timeDelta with
    Processor := some Processor.span,
    Span := some { Id := hexSpanID otelSpan.SpanID, Name := otelSpan.Name,
                   RepresentativeCount :=
                     getRepresentativeCountFromTracestateHeader otelSpan.TraceState } }

/-! ## HTTP headers (`model/modelpb/http.pb.json.go`) -/

/-- The record `modelpb.HTTPHeader`: the name of a header and its values. -/
structure HTTPHeader where
  Key : String := ""
  Value : List String := []
  deriving DecidableEq, Repr

/-- The type `http.Header`, a Go map from the name of a header to its values. -/
abbrev HTTPHeaderMap := List (String × List String)

/-- The function `ToHTTPHeaders`: `none` is the nil map.  The elements of the slice are
records (a repeated message field of protobuf holds no nil element). -/
def ToHTTPHeaders (h : List HTTPHeader) : Option HTTPHeaderMap :=
  if h.length = 0 then none
  else some (h.foldl (fun headers v => mapSet headers v.Key v.Value) [])

/-- The values of the last header of the list with the key `k`, if there is one. -/
def lastHeaderValue (h : List HTTPHeader) (k : String) : Option (List String) :=
  (h.reverse.find? (fun v => decide (v.Key = k))).map (fun v => v.Value)

/-! ## Specification-side definitions for the order of histogram values and for counts -/

/-- The comparison `a <= b` of two `float64`: false when one of them is NaN. -/
def F64.le : F64 → F64 → Bool
  | .finite a, .finite b => decide (a ≤ b)
  | .nan, _ => false
  | _, .nan => false
  | .negInf, _ => true
  | _, .posInf => true
  | _, _ => false

/-- The comparison `a < b` of two `float64`: false when one of them is NaN. -/
def F64.lt : F64 → F64 → Bool
  | .finite a, .finite b => decide (a < b)
  | .nan, _ => false
  | _, .nan => false
  | .negInf, .negInf => false
  | .negInf, _ => true
  | .posInf, _ => false
  | _, .posInf => true
  | _, _ => false

/-- The value is neither NaN nor infinite. -/
def F64.isFinite : F64 → Bool
  | .finite _ => true
  | _ => false

/-- The difference of every bound and the bound before it is finite in `float64` arithmetic:
neither NaN nor an overflow to an infinity. -/
def differencesFinite : List F64 → Bool
  | a :: b :: rest => (F64.sub b a).isFinite && differencesFinite (b :: rest)
  | _ => true

/-- Every value of the list is less than or equal to the next one. -/
def nonDecreasing : List F64 → Bool
  | a :: b :: rest => F64.le a b && nonDecreasing (b :: rest)
  | _ => true

/-- Every value of the list is less than the next one. -/
def strictlyIncreasing : List F64 → Bool
  | a :: b :: rest => F64.lt a b && strictlyIncreasing (b :: rest)
  | _ => true

/-- The `Values` of the histogram that `histogramSample` returns (empty when it returns no
histogram). -/
def histogramValues (bucketCounts : List Nat) (explicitBounds : List F64) : List F64 :=
  match histogramSample bucketCounts explicitBounds with
  | some (sample, _) => (sample.Histogram.map (fun h => h.Values)).getD []
  | none => []

/-- The `Counts` of the histogram that `histogramSample` returns (empty when it returns no
histogram). -/
def histogramCounts (bucketCounts : List Nat) (explicitBounds : List F64) : List Int :=
  match histogramSample bucketCounts explicitBounds with
  | some (sample, _) => (sample.Histogram.map (fun h => h.Counts)).getD []
  | none => []

/-! ## The consumer (`ConsumeMetrics`, `ConsumeTraces`)

A call of the consumer talks to four collaborators: the semaphore, the clock, the logger and
the processor.  The answers of the collaborators are given to the call (`Collaborators`),
and the call reports what it did to them, in order (`Effect`). -/

/-- A Go `error` that is not nil. -/
structure GoError where
  message : String
  deriving DecidableEq, Repr

/-- One action of a call on a collaborator.  The argument of `processBatch` is the pointer
`*modelpb.Batch` that the processor receives, `none` for a nil pointer. -/
inductive Effect where
  | acquire
  | release
  | now
  | debug
  | processBatch (batch : Option Batch)
  deriving DecidableEq

/-- The answers of the collaborators during one call: the error of `c.sem.Acquire(ctx, 1)`
(`none` for nil), the time that `time.Now()` returns, and the error that
`Processor.ProcessBatch(ctx, batch)` returns for a batch. -/
structure Collaborators where
  acquire : Option GoError
  now : Int
  processBatch : Option Batch → Option GoError

/-- How a call ends: it returns an error (`none` for nil), or it panics. -/
inductive Outcome where
  | returned (err : Option GoError)
  | panicked
  deriving DecidableEq

/-- The observable behaviour of one call: how it ends, what it did to the collaborators, and
the value of the counter `unsupportedMetricsDropped` afterwards. -/
structure Call where
  outcome : Outcome
  effects : List Effect
  unsupportedMetricsDropped : Int
  deriving DecidableEq

/-- The method `ConsumeMetrics`.  The deferred `c.sem.Release(1)` runs when the function
returns and when it panics. -/
def ConsumeMetrics (E : Env) (W : Collaborators) (metrics : List ResourceMetrics)
    (unsupportedMetricsDropped : Int) : Call :=
  match W.acquire with
  | some err =>
    { outcome := Outcome.returned (some err), effects := [Effect.acquire],
      unsupportedMetricsDropped := unsupportedMetricsDropped }
  | none =>
    let receiveTimestamp := W.now
    match convertMetrics E metrics receiveTimestamp unsupportedMetricsDropped with
    | some (batch, dropped) =>
      { outcome := Outcome.returned (W.processBatch (some batch)),
        effects := [Effect.acquire, Effect.now, Effect.debug, Effect.processBatch (some batch),
                    Effect.release],
        unsupportedMetricsDropped := dropped }
    | none =>
      { outcome := Outcome.panicked,
        effects := [Effect.acquire, Effect.now, Effect.debug, Effect.release],
        unsupportedMetricsDropped := unsupportedMetricsDropped }

/-- The method `ConsumeTraces`.  The deferred `c.sem.Release(1)` runs when the function
returns and when it panics; the counter is not touched. -/
def ConsumeTraces (E : Env) (W : Collaborators) (traces : List ptrace.ResourceSpans)
    (unsupportedMetricsDropped : Int) : Call :=
  match W.acquire with
  | some err =>
    { outcome := Outcome.returned (some err), effects := [Effect.acquire],
      unsupportedMetricsDropped := unsupportedMetricsDropped }
  | none =>
    let receiveTimestamp := W.now
    match convertTraces E traces receiveTimestamp with
    | some batch =>
      { outcome := Outcome.returned (W.processBatch (some batch)),
        effects := [Effect.acquire, Effect.now, Effect.debug, Effect.processBatch (some batch),
                    Effect.release],
        unsupportedMetricsDropped := unsupportedMetricsDropped }
    | none =>
      { outcome := Outcome.panicked,
        effects := [Effect.acquire, Effect.now, Effect.debug, Effect.release],
        unsupportedMetricsDropped := unsupportedMetricsDropped }

/-- The number of calls of `ProcessBatch` among the effects of a call. -/
def processBatchCalls (effects : List Effect) : Nat :=
  (effects.filter (fun effect =>
    match effect with
    | Effect.processBatch _ => true
    | _ => false)).length

/-- Collaborators that let the call in at time `0` and whose processor returns the error
`downstream` for every batch. -/
def failingProcessor : Collaborators :=
  { acquire := none, now := 0, processBatch := fun _ => some { message := "downstream" } }

/-- A trace input with one resource, one scope and the span `zeroTraceSpan`. -/
def zeroTraceInput : List ptrace.ResourceSpans :=
  [{ Resource := { Attributes := [] },
     ScopeSpans := [{ Scope := { Name := "", Version := "" }, Spans := [zeroTraceSpan] }] }]

/-! ## Concurrent calls of the consumer

Several calls of `ConsumeTraces` and `ConsumeMetrics` run at the same time on one consumer.
Each call goes through the statements of the method: `c.sem.Acquire(ctx, 1)`, the
translation, `Processor.ProcessBatch` and the return, at which the deferred
`c.sem.Release(1)` runs.  The state below holds the semaphore and the phase of every call;
an action is one step of one call. -/

/-- Where a call of `ConsumeTraces` or `ConsumeMetrics` stands: inside
`c.sem.Acquire(ctx, 1)`, translating (after `Acquire` has returned nil), inside
`Processor.ProcessBatch`, returned with an error (`none` for nil), or ended by a panic. -/
inductive Phase where
  | waiting
  | translating
  | processing
  | returned (err : Option GoError)
  | panicked
  deriving DecidableEq, Repr

/-- A call holds a unit of the semaphore from the return of `Acquire` until it returns. -/
def Phase.holdsUnit : Phase → Bool
  | Phase.translating => true
  | Phase.processing => true
  | _ => false

/-- The call is inside `Processor.ProcessBatch`. -/
def Phase.inProcessBatch : Phase → Bool
  | Phase.processing => true
  | _ => false

/-- Modelled from the spec: the weighted semaphore (`golang.org/x/sync/semaphore`) is not
among the sources.  It has a fixed capacity and a number of units that are held;
`Acquire(ctx, 1)` returns nil only when a unit is free, and takes it; it returns the error
of the context when the context is done first.  The state of a consumer is the semaphore
and the calls made so far, each with its phase. -/
structure ConsumerState where
  capacity : Nat
  held : Nat
  calls : List Phase
  deriving DecidableEq, Repr

/-- One step of one call.  `call` starts a new call (it waits in `Acquire`); `acquired i`:
`Acquire` returns nil to call `i`; `expire i err`: the context of call `i` is done and
`Acquire` returns its error, which the call returns; `translated i`: call `i` has built its
batch and enters `ProcessBatch`; `processed i err`: `ProcessBatch` returns `err` to call `i`,
which returns it and releases its unit; `panic i`: call `i` panics during the translation or
inside `ProcessBatch`, and the deferred `Release` runs. -/
inductive Action where
  | call
  | acquired (i : Nat)
  | expire (i : Nat) (err : GoError)
  | translated (i : Nat)
  | processed (i : Nat) (err : Option GoError)
  | panic (i : Nat)

/-- The state after an action, or `none` when the action is not possible in the state. -/
def consumerStep (s : ConsumerState) : Action → Option ConsumerState
  | Action.call => some { s with calls := s.calls ++ [Phase.waiting] }
  | Action.acquired i =>
    if s.calls.get? i = some Phase.waiting ∧ s.held < s.capacity then
      some { s with held := s.held + 1, calls := s.calls.set i Phase.translating }
    else none
  | Action.expire i err =>
    if s.calls.get? i = some Phase.waiting then
      some { s with calls := s.calls.set i (Phase.returned (some err)) }
    else none
  | Action.translated i =>
    if s.calls.get? i = some Phase.translating then
      some { s with calls := s.calls.set i Phase.processing }
    else none
  | Action.processed i err =>
    if s.calls.get? i = some Phase.processing then
      some { s with held := s.held - 1, calls := s.calls.set i (Phase.returned err) }
    else none
  | Action.panic i =>
    if s.calls.get? i = some Phase.translating ∨ s.calls.get? i = some Phase.processing then
      some { s with held := s.held - 1, calls := s.calls.set i Phase.panicked }
    else none

/-- The state after a sequence of actions, or `none` when one of them is not possible. -/
def consumerRun (s : ConsumerState) : List Action → Option ConsumerState
  | [] => some s
  | a :: rest => (consumerStep s a).bind (fun s' => consumerRun s' rest)

/-- A new consumer with a semaphore of the given capacity. -/
def newConsumer (capacity : Nat) : ConsumerState := { capacity := capacity, held := 0, calls := [] }

/-- The number of calls that are admitted and have not returned. -/
def holdingCalls (s : ConsumerState) : Nat := s.calls.countP Phase.holdsUnit

/-- The number of calls that are inside `Processor.ProcessBatch`. -/
def processingCalls (s : ConsumerState) : Nat := s.calls.countP Phase.inProcessBatch

/-- The error `context.DeadlineExceeded`. -/
def deadlineExceeded : GoError := { message := "context deadline exceeded" }

/-- The first part of the semaphore scenario: call 0 is admitted and blocked in
`ProcessBatch`, call 1 waits in `Acquire`. -/
def blockedScenario : List Action :=
  [Action.call, Action.acquired 0, Action.translated 0, Action.call]

/-- The rest of the semaphore scenario: the deadline of call 1 expires, call 0 completes, and
a third call is made, admitted and completed. -/
def resumedScenario : List Action :=
  [Action.expire 1 deadlineExceeded, Action.processed 0 none, Action.call, Action.acquired 2,
   Action.translated 2, Action.processed 2 none]

/-! ## Specification-side definitions for the datapoints that a scope upserts -/

/-- The upsert of a gauge or sum datapoint, when `numberSample` accepts it. -/
def numberUpsert (name : String) (metricType : MetricType) (dp : NumberDataPoint) :
    Option Upsert :=
  match numberSample dp metricType with
  | (sample, true) =>
    some { timestamp := asTime dp.Timestamp, attributes := dp.Attributes,
           sample := { sample with Name := name } }
  | (_, false) => none

/-- The upsert of a histogram datapoint, when `histogramSample` accepts it. -/
def histogramUpsert (name : String) (dp : HistogramDataPoint) : Option Upsert :=
  match histogramSample dp.BucketCounts dp.ExplicitBounds with
  | some (sample, true) =>
    some { timestamp := asTime dp.Timestamp, attributes := dp.Attributes,
           sample := { sample with Name := name } }
  | _ => none

/-- The upsert of a summary datapoint. -/
def summaryUpsert (name : String) (dp : SummaryDataPoint) : Upsert :=
  { timestamp := asTime dp.Timestamp, attributes := dp.Attributes,
    sample := { summarySample dp with Name := name } }

/-- The upserts of the accepted datapoints of a metric, in input order. -/
def metricUpserts (metric : Metric) : List Upsert :=
  match metric.Data with
  | MetricData.gauge dps => dps.filterMap (numberUpsert metric.Name MetricType.gauge)
  | MetricData.sum dps => dps.filterMap (numberUpsert metric.Name MetricType.counter)
  | MetricData.histogram dps => dps.filterMap (histogramUpsert metric.Name)
  | MetricData.summary dps => dps.map (summaryUpsert metric.Name)
  | _ => []

/-- The upserts of the accepted datapoints of the metrics of a scope, in input order. -/
def scopeUpserts : List Metric → List Upsert
  | [] => []
  | metric :: rest => metricUpserts metric ++ scopeUpserts rest

/-- The first upsert, in input order, with the given key. -/
def firstUpsert (E : Env) (ups : List Upsert) (key : metricsetKey) : Option Upsert :=
  ups.find? (fun u => decide (upsertKey E u = key))

/-- One integer gauge datapoint at time `123` with the given attributes. -/
def gaugeMetric (name : String) (attributes : Attributes) (value : Int) : Metric :=
  { Name := name,
    Data := MetricData.gauge
      [{ Timestamp := 123, Attributes := attributes, Value := NumberValue.int value }] }

/-- A scope with two gauge datapoints at the same time whose attributes differ, `a = "bc"`
and `ab = "c"`, and have the same signature `abc`. -/
def collidingScope : ScopeMetrics :=
  { Scope := { Name := "", Version := "" },
    Metrics := [gaugeMetric "m1" [("a", Value.str "bc")] 1,
                gaugeMetric "m2" [("ab", Value.str "c")] 2] }

/-- A scope with two gauge datapoints at the same time with the same two attributes,
`a = "1"` and `b = "2"`, stored in a different order. -/
def reorderedScope : ScopeMetrics :=
  { Scope := { Name := "", Version := "" },
    Metrics := [gaugeMetric "m1" [("a", Value.str "1"), ("b", Value.str "2")] 1,
                gaugeMetric "m2" [("b", Value.str "2"), ("a", Value.str "1")] 2] }

/-- The string labels and the names of the samples of a metricset event. -/
def metricsetSummary (event : APMEvent) : List (String × String) × List String :=
  ((event.Labels.getD []).map (fun kv => (kv.1, kv.2.Value)),
   (event.Metricset.map (fun m => m.Samples.map (fun s => s.Name))).getD [])

/-! ## Specification-side definitions for the receive timestamp -/

/-- The event with `Event.Received` erased. -/
def eraseReceived (e : APMEvent) : APMEvent :=
  { e with Event := e.Event.map (fun ev => { ev with Received := none }) }

/-- The local variables of `TranslateTransaction` with `Event.Received` erased from the
event. -/
def TransactionLocals.erase (l : TransactionLocals) : TransactionLocals :=
  { l with event := eraseReceived l.event }

/-- The local variables of `TranslateSpan` with `Event.Received` erased from the event. -/
def SpanLocals.erase (l : SpanLocals) : SpanLocals :=
  { l with event := eraseReceived l.event }

/-- The local variables of `convertJaegerErrorSpanEvent` with `Event.Received` erased from
the event. -/
def JaegerLocals.erase (l : JaegerLocals) : JaegerLocals :=
  { l with apmEvent := eraseReceived l.apmEvent }

/-- The local variables of the exception branch of `convertSpanEvent` with `Event.Received`
erased from the event. -/
def ExceptionLocals.erase (l : ExceptionLocals) : ExceptionLocals :=
  { l with event := eraseReceived l.event }

/-- A resource that carries the export timestamp `0`. -/
def exportedResource : Resource :=
  { Attributes := [("telemetry.sdk.elastic_export_timestamp", Value.int 0)] }

/-- One integer gauge datapoint at time `1000` for the resource `exportedResource`. -/
def exportedMetrics : List ResourceMetrics :=
  [{ Resource := exportedResource,
     ScopeMetrics := [{ Scope := { Name := "", Version := "" },
                        Metrics := [gaugeMetric "int_gauge" [] 1] }] }]

/-- The root span `plainEventSpan` (start time `1000`, one span event at time `2000`) for the
resource `exportedResource`. -/
def exportedTraces : List ptrace.ResourceSpans :=
  [{ Resource := exportedResource,
     ScopeSpans := [{ Scope := { Name := "", Version := "" }, Spans := [plainEventSpan] }] }]

/-- The root span `sampleRootSpan` and a gauge datapoint for a resource without export
timestamp. -/
def plainTraces : List ptrace.ResourceSpans :=
  [{ Resource := { Attributes := [] },
     ScopeSpans := [{ Scope := { Name := "", Version := "" }, Spans := [sampleRootSpan] }] }]

/-- One integer gauge datapoint for a resource without export timestamp. -/
def plainMetrics : List ResourceMetrics :=
  [{ Resource := { Attributes := [] },
     ScopeMetrics := [{ Scope := { Name := "", Version := "" },
                        Metrics := [gaugeMetric "int_gauge" [] 1] }] }]

/-! # Verification -/

/-! ### Rounding to `float64` -/

theorem binaryDigits_zero (fuel : Nat) : binaryDigits fuel 0 = 0 := by
  cases fuel <;> rfl

theorem binaryDigits_spec (fuel : Nat) : ∀ n : Nat, n ≤ fuel → 0 < n →
    1 ≤ binaryDigits fuel n ∧ 2 ^ (binaryDigits fuel n - 1) ≤ n ∧ n < 2 ^ binaryDigits fuel n := by
  induction fuel with
  | zero => intro n h hn; omega
  | succ fuel ih =>
    intro n h hn
    have hne : n ≠ 0 := by omega
    simp only [binaryDigits, if_neg hne]
    by_cases h2 : n / 2 = 0
    · rw [h2, binaryDigits_zero]
      have : n = 1 := by omega
      subst this
      decide
    · obtain ⟨d1, d2, d3⟩ := ih (n / 2) (by omega) (by omega)
      refine ⟨by omega, ?_, ?_⟩
      · have e : binaryDigits fuel (n / 2) + 1 - 1 = (binaryDigits fuel (n / 2) - 1) + 1 := by
          omega
        rw [e, pow_succ]
        omega
      · rw [pow_succ]
        omega

theorem floorLog2_bracket (n d ln ld : Nat) (hd : 0 < d)
    (n1 : 1 ≤ ln) (n2 : 2 ^ (ln - 1) ≤ n) (n3 : n < 2 ^ ln)
    (d1 : 1 ≤ ld) (d2 : 2 ^ (ld - 1) ≤ d) (d3 : d < 2 ^ ld) :
    (2 : ℚ) ^ (if d * 2 ^ ln ≤ n * 2 ^ ld then (ln : ℤ) - (ld : ℤ) else (ln : ℤ) - (ld : ℤ) - 1)
        ≤ (n : ℚ) / (d : ℚ) ∧
      (n : ℚ) / (d : ℚ) <
        (2 : ℚ) ^ ((if d * 2 ^ ln ≤ n * 2 ^ ld then (ln : ℤ) - (ld : ℤ)
                     else (ln : ℤ) - (ld : ℤ) - 1) + 1) := by
  have hdq : (0 : ℚ) < d := by exact_mod_cast hd
  have two : (2 : ℚ) ≠ 0 := by norm_num
  have pld : (0 : ℚ) < 2 ^ ld := by positivity
  have n2' : 2 ^ ln ≤ 2 * n := by
    have e : ln = (ln - 1) + 1 := by omega
    rw [e, pow_succ]
    omega
  have d2' : 2 ^ ld ≤ 2 * d := by
    have e : ld = (ld - 1) + 1 := by omega
    rw [e, pow_succ]
    omega
  have z1 : (2 : ℚ) ^ ((ln : ℤ) - (ld : ℤ)) = (2 : ℚ) ^ ln / (2 : ℚ) ^ ld := by
    rw [zpow_sub₀ two, zpow_natCast, zpow_natCast]
  have z2 : (2 : ℚ) ^ ((ln : ℤ) - (ld : ℤ) + 1) = 2 * (2 : ℚ) ^ ln / (2 : ℚ) ^ ld := by
    rw [zpow_add₀ two, z1, zpow_one]
    ring
  have z3 : (2 : ℚ) ^ ((ln : ℤ) - (ld : ℤ) - 1) = (2 : ℚ) ^ ln / (2 * (2 : ℚ) ^ ld) := by
    rw [zpow_sub₀ two, z1, zpow_one]
    field_simp
    ring
  by_cases hc : d * 2 ^ ln ≤ n * 2 ^ ld
  · rw [if_pos hc, z1, z2]
    constructor
    · rw [div_le_div_iff₀ pld hdq]
      have : ((d * 2 ^ ln : ℕ) : ℚ) ≤ ((n * 2 ^ ld : ℕ) : ℚ) := by exact_mod_cast hc
      push_cast at this
      linarith
    · rw [div_lt_div_iff₀ hdq pld]
      have h : n * 2 ^ ld < 2 * 2 ^ ln * d := by
        calc n * 2 ^ ld ≤ n * (2 * d) := Nat.mul_le_mul_left _ d2'
          _ < 2 ^ ln * (2 * d) := Nat.mul_lt_mul_of_pos_right n3 (by omega)
          _ = 2 * 2 ^ ln * d := by ring
      have : ((n * 2 ^ ld : ℕ) : ℚ) < ((2 * 2 ^ ln * d : ℕ) : ℚ) := by exact_mod_cast h
      push_cast at this
      linarith
  · rw [if_neg hc, sub_add_cancel, z1, z3]
    constructor
    · rw [div_le_div_iff₀ (by positivity) hdq]
      have h : 2 ^ ln * d ≤ n * (2 * 2 ^ ld) := by
        calc 2 ^ ln * d ≤ (2 * n) * d := Nat.mul_le_mul_right _ n2'
          _ ≤ (2 * n) * 2 ^ ld := Nat.mul_le_mul_left _ (le_of_lt d3)
          _ = n * (2 * 2 ^ ld) := by ring
      have : ((2 ^ ln * d : ℕ) : ℚ) ≤ ((n * (2 * 2 ^ ld) : ℕ) : ℚ) := by exact_mod_cast h
      push_cast at this
      linarith
    · rw [div_lt_div_iff₀ hdq pld]
      have h : n * 2 ^ ld < d * 2 ^ ln := by omega
      have : ((n * 2 ^ ld : ℕ) : ℚ) < ((d * 2 ^ ln : ℕ) : ℚ) := by exact_mod_cast h
      push_cast at this
      linarith

/-- The binary exponent brackets the value. -/
theorem floorLog2_spec (x : ℚ) (hx : 0 < x) :
    (2 : ℚ) ^ floorLog2 x ≤ x ∧ x < (2 : ℚ) ^ (floorLog2 x + 1) := by
  have hnum : 0 < x.num := Rat.num_pos.mpr hx
  have hn : 0 < x.num.natAbs := Int.natAbs_pos.mpr (ne_of_gt hnum)
  have hd : 0 < x.den := x.den_pos
  obtain ⟨n1, n2, n3⟩ := binaryDigits_spec x.num.natAbs x.num.natAbs (le_refl _) hn
  obtain ⟨d1, d2, d3⟩ := binaryDigits_spec x.den x.den (le_refl _) hd
  have hxe : (x.num.natAbs : ℚ) / (x.den : ℚ) = x := by
    have h1 : ((x.num.natAbs : ℕ) : ℚ) = (x.num : ℚ) := by
      rw [Nat.cast_natAbs, abs_of_pos hnum]
    rw [h1]
    exact Rat.num_div_den x
  have key := floorLog2_bracket x.num.natAbs x.den _ _ hd n1 n2 n3 d1 d2 d3
  rw [hxe] at key
  exact key

theorem roundHalfEven_floor_le (z : ℚ) : ⌊z⌋ ≤ roundHalfEven z := by
  unfold roundHalfEven
  dsimp only
  split_ifs <;> omega

theorem roundHalfEven_le_floor_succ (z : ℚ) : roundHalfEven z ≤ ⌊z⌋ + 1 := by
  unfold roundHalfEven
  dsimp only
  split_ifs <;> omega

theorem roundHalfEven_intCast (n : ℤ) : roundHalfEven (n : ℚ) = n := by
  unfold roundHalfEven
  dsimp only
  rw [Int.floor_intCast, sub_self, if_pos (by norm_num)]

theorem roundHalfEven_le_of_le (z : ℚ) (n : ℤ) (h : z ≤ n) : roundHalfEven z ≤ n := by
  rcases eq_or_lt_of_le h with h | h
  · rw [h, roundHalfEven_intCast]
  · have h1 : ⌊z⌋ < n := Int.floor_lt.mpr h
    have h2 := roundHalfEven_le_floor_succ z
    omega

theorem le_roundHalfEven_of_le (z : ℚ) (n : ℤ) (h : (n : ℚ) ≤ z) : n ≤ roundHalfEven z :=
  le_trans (Int.le_floor.mpr h) (roundHalfEven_floor_le z)

theorem roundHalfEven_mono (z w : ℚ) (h : z ≤ w) : roundHalfEven z ≤ roundHalfEven w := by
  have hf : ⌊z⌋ ≤ ⌊w⌋ := Int.floor_mono h
  rcases eq_or_lt_of_le hf with he | hl
  · unfold roundHalfEven
    dsimp only
    rw [he]
    split_ifs <;> first | omega | (exfalso; linarith)
  · have h1 := roundHalfEven_le_floor_succ z
    have h2 := roundHalfEven_floor_le w
    omega

theorem two_zpow_pos (k : ℤ) : (0 : ℚ) < 2 ^ k := zpow_pos (by norm_num) k

theorem two_zpow_le (a b : ℤ) (h : a ≤ b) : (2 : ℚ) ^ a ≤ 2 ^ b :=
  zpow_le_zpow_right₀ (by norm_num) h

theorem two_zpow_add (a b : ℤ) : (2 : ℚ) ^ (a + b) = 2 ^ a * 2 ^ b :=
  zpow_add₀ (by norm_num) a b

theorem roundMagnitude_zero : roundMagnitude 0 = 0 := by
  unfold roundMagnitude
  have h : roundHalfEven ((0 : ℚ) / 2 ^ float64Quantum 0) = 0 := by
    rw [zero_div]
    exact_mod_cast roundHalfEven_intCast 0
  rw [h]
  simp

theorem roundMagnitude_nonneg (x : ℚ) (hx : 0 ≤ x) : 0 ≤ roundMagnitude x := by
  unfold roundMagnitude
  have h : (0 : ℤ) ≤ roundHalfEven (x / 2 ^ float64Quantum x) :=
    le_roundHalfEven_of_le _ 0 (by
      have := two_zpow_pos (float64Quantum x)
      simp only [Int.cast_zero]
      positivity)
  have h' : (0 : ℚ) ≤ (roundHalfEven (x / 2 ^ float64Quantum x) : ℚ) := by exact_mod_cast h
  exact mul_nonneg h' (le_of_lt (two_zpow_pos _))

theorem floorLog2_mono (x y : ℚ) (hx : 0 < x) (h : x ≤ y) : floorLog2 x ≤ floorLog2 y := by
  obtain ⟨x1, _⟩ := floorLog2_spec x hx
  obtain ⟨_, y2⟩ := floorLog2_spec y (lt_of_lt_of_le hx h)
  by_contra hc
  have h1 : floorLog2 y + 1 ≤ floorLog2 x := by omega
  have h2 := two_zpow_le _ _ h1
  linarith

/-- Below the binary exponent of `y`, every rounded magnitude is at most `2^e`, and the
rounded magnitude of `y` is at least `2^e`. -/
theorem roundMagnitude_le_pow (x : ℚ) (hx : 0 < x) (e : ℤ) (h : float64Quantum x + 53 ≤ e) :
    roundMagnitude x ≤ 2 ^ e := by
  obtain ⟨_, x2⟩ := floorLog2_spec x hx
  have hk : floorLog2 x + 1 ≤ float64Quantum x + 53 := by
    unfold float64Quantum
    have := le_max_left (floorLog2 x - 52) (-1074)
    omega
  have pk := two_zpow_pos (float64Quantum x)
  have h1 : x / 2 ^ float64Quantum x ≤ ((2 ^ 53 : ℤ) : ℚ) := by
    rw [div_le_iff₀ pk]
    have h3 := two_zpow_le _ _ hk
    have h5 : (2 : ℚ) ^ (float64Quantum x + 53) = 2 ^ (53 : ℤ) * 2 ^ float64Quantum x := by
      rw [← two_zpow_add]
      congr 1
      omega
    have h4 : ((2 ^ 53 : ℤ) : ℚ) = (2 : ℚ) ^ (53 : ℤ) := by norm_num
    rw [h4, ← h5]
    linarith
  have h2 := roundHalfEven_le_of_le _ _ h1
  have h3 : (roundHalfEven (x / 2 ^ float64Quantum x) : ℚ) ≤ (2 : ℚ) ^ (53 : ℤ) := by
    have : (roundHalfEven (x / 2 ^ float64Quantum x) : ℚ) ≤ ((2 ^ 53 : ℤ) : ℚ) := by
      exact_mod_cast h2
    have h4 : ((2 ^ 53 : ℤ) : ℚ) = (2 : ℚ) ^ (53 : ℤ) := by norm_num
    rw [h4] at this
    exact this
  unfold roundMagnitude
  calc (roundHalfEven (x / 2 ^ float64Quantum x) : ℚ) * 2 ^ float64Quantum x
      ≤ (2 : ℚ) ^ (53 : ℤ) * 2 ^ float64Quantum x :=
        mul_le_mul_of_nonneg_right h3 (le_of_lt pk)
    _ = 2 ^ (53 + float64Quantum x) := (two_zpow_add _ _).symm
    _ ≤ 2 ^ e := two_zpow_le _ _ (by omega)

theorem pow_le_roundMagnitude (y : ℚ) (hy : 0 < y) (h : float64Quantum y = floorLog2 y - 52) :
    (2 : ℚ) ^ floorLog2 y ≤ roundMagnitude y := by
  obtain ⟨y1, _⟩ := floorLog2_spec y hy
  have pk := two_zpow_pos (float64Quantum y)
  have e1 : (2 : ℚ) ^ floorLog2 y = 2 ^ (52 : ℤ) * 2 ^ float64Quantum y := by
    rw [← two_zpow_add, h]
    congr 1
    omega
  have h4 : ((2 ^ 52 : ℤ) : ℚ) = (2 : ℚ) ^ (52 : ℤ) := by norm_num
  have h1 : ((2 ^ 52 : ℤ) : ℚ) ≤ y / 2 ^ float64Quantum y := by
    rw [le_div_iff₀ pk, h4, ← e1]
    exact y1
  have h2 := le_roundHalfEven_of_le _ _ h1
  have h3 : (2 : ℚ) ^ (52 : ℤ) ≤ (roundHalfEven (y / 2 ^ float64Quantum y) : ℚ) := by
    rw [← h4]
    exact_mod_cast h2
  unfold roundMagnitude
  rw [e1]
  exact mul_le_mul_of_nonneg_right h3 (le_of_lt pk)

/-- Rounding a magnitude is monotone. -/
theorem roundMagnitude_mono (x y : ℚ) (hx : 0 ≤ x) (h : x ≤ y) :
    roundMagnitude x ≤ roundMagnitude y := by
  rcases eq_or_lt_of_le hx with h0 | hpos
  · rw [← h0, roundMagnitude_zero]
    exact roundMagnitude_nonneg y (le_trans hx h)
  · have hy : 0 < y := lt_of_lt_of_le hpos h
    have he := floorLog2_mono x y hpos h
    have hk : float64Quantum x ≤ float64Quantum y := by
      unfold float64Quantum
      exact max_le_max (by omega) (le_refl _)
    rcases eq_or_lt_of_le hk with hk | hk
    · unfold roundMagnitude
      rw [hk]
      have pk := two_zpow_pos (float64Quantum y)
      have h1 : x / 2 ^ float64Quantum y ≤ y / 2 ^ float64Quantum y :=
        div_le_div_of_nonneg_right h (le_of_lt pk)
      have h2 := roundHalfEven_mono _ _ h1
      have h3 : (roundHalfEven (x / 2 ^ float64Quantum y) : ℚ) ≤
          (roundHalfEven (y / 2 ^ float64Quantum y) : ℚ) := by exact_mod_cast h2
      exact mul_le_mul_of_nonneg_right h3 (le_of_lt pk)
    · have hq : float64Quantum y = floorLog2 y - 52 := by
        have h1 : -1074 ≤ float64Quantum x := le_max_right _ _
        unfold float64Quantum at hk ⊢
        rcases max_cases (floorLog2 y - 52) (-1074) with ⟨e, _⟩ | ⟨e, _⟩
        · exact e
        · rw [e] at hk
          unfold float64Quantum at h1
          omega
      exact le_trans (roundMagnitude_le_pow x hpos (floorLog2 y) (by omega))
        (pow_le_roundMagnitude y hy hq)

theorem F64.ofMagnitude_cases (x : ℚ) (hx : 0 ≤ x) :
    (F64.ofMagnitude x = F64.posInf ∧ (2 : ℚ) ^ 1024 ≤ roundMagnitude x) ∨
      (F64.ofMagnitude x = F64.finite (roundMagnitude x) ∧ roundMagnitude x < 2 ^ 1024 ∧
        0 ≤ roundMagnitude x) := by
  unfold F64.ofMagnitude
  by_cases h : (2 : ℚ) ^ 1024 ≤ roundMagnitude x
  · left
    exact ⟨if_pos h, h⟩
  · right
    exact ⟨if_neg h, not_le.mp h, roundMagnitude_nonneg x hx⟩

theorem F64.ofRat_of_nonneg (x : ℚ) (hx : 0 ≤ x) : F64.ofRat x = F64.ofMagnitude x :=
  if_neg (not_lt.mpr hx)

theorem F64.ofRat_of_neg (x : ℚ) (hx : x < 0) : F64.ofRat x = F64.neg (F64.ofMagnitude (-x)) :=
  if_pos hx

theorem F64.ofMagnitude_mono (x y : ℚ) (hx : 0 ≤ x) (h : x ≤ y) :
    F64.le (F64.ofMagnitude x) (F64.ofMagnitude y) = true := by
  have hm := roundMagnitude_mono x y hx h
  rcases F64.ofMagnitude_cases x hx with ⟨e1, b1⟩ | ⟨e1, b1, _⟩ <;>
    rcases F64.ofMagnitude_cases y (le_trans hx h) with ⟨e2, b2⟩ | ⟨e2, b2, _⟩ <;>
    rw [e1, e2]
  · rfl
  · exfalso
    linarith
  · rfl
  · exact decide_eq_true hm

/-- Rounding is monotone: a larger exact result never gives a smaller `float64`. -/
theorem F64.ofRat_mono (x y : ℚ) (h : x ≤ y) : F64.le (F64.ofRat x) (F64.ofRat y) = true := by
  by_cases hx : x < 0
  · by_cases hy : y < 0
    · rw [F64.ofRat_of_neg x hx, F64.ofRat_of_neg y hy]
      have hm := roundMagnitude_mono (-y) (-x) (by linarith) (by linarith)
      rcases F64.ofMagnitude_cases (-x) (by linarith) with ⟨e1, b1⟩ | ⟨e1, b1, _⟩ <;>
        rcases F64.ofMagnitude_cases (-y) (by linarith) with ⟨e2, b2⟩ | ⟨e2, b2, _⟩ <;>
        rw [e1, e2]
      · rfl
      · rfl
      · exfalso
        linarith
      · exact decide_eq_true (by linarith)
    · rw [F64.ofRat_of_neg x hx, F64.ofRat_of_nonneg y (not_lt.mp hy)]
      rcases F64.ofMagnitude_cases (-x) (by linarith) with ⟨e1, b1⟩ | ⟨e1, b1, c1⟩ <;>
        rcases F64.ofMagnitude_cases y (not_lt.mp hy) with ⟨e2, b2⟩ | ⟨e2, b2, c2⟩ <;>
        rw [e1, e2]
      · rfl
      · rfl
      · rfl
      · exact decide_eq_true (by linarith)
  · have hx' : 0 ≤ x := not_lt.mp hx
    rw [F64.ofRat_of_nonneg x hx', F64.ofRat_of_nonneg y (le_trans hx' h)]
    exact F64.ofMagnitude_mono x y hx' h

/-- An exact result between two `float64` values rounds to a value between them. -/
theorem F64.ofRat_between (a x b : ℚ) (ha : F64.ofRat a = F64.finite a)
    (hb : F64.ofRat b = F64.finite b) (h1 : a ≤ x) (h2 : x ≤ b) :
    ∃ v, F64.ofRat x = F64.finite v ∧ a ≤ v ∧ v ≤ b := by
  have m1 := F64.ofRat_mono a x h1
  have m2 := F64.ofRat_mono x b h2
  rw [ha] at m1
  rw [hb] at m2
  cases hv : F64.ofRat x with
  | finite v =>
    rw [hv] at m1 m2
    exact ⟨v, rfl, of_decide_eq_true m1, of_decide_eq_true m2⟩
  | nan => rw [hv] at m1; cases m1
  | posInf => rw [hv] at m2; cases m2
  | negInf => rw [hv] at m1; cases m1

theorem F64.ofRat_zero : F64.ofRat 0 = F64.finite 0 := by
  rw [F64.ofRat_of_nonneg 0 (le_refl _)]
  unfold F64.ofMagnitude
  rw [roundMagnitude_zero]
  have h : ¬ ((2 : ℚ) ^ 1024 ≤ 0) := by
    rw [← zpow_ofNat]
    exact not_le.mpr (two_zpow_pos _)
  exact if_neg h

/-- A significand below `2^53` on a spacing of at least `2^-1074` is a `float64`, unless it
is too large. -/
theorem F64.ofRat_scaled (m : ℕ) (j : ℤ) (hm : m < 2 ^ 53) (hj : -1074 ≤ j)
    (hlt : (m : ℚ) * 2 ^ j < 2 ^ 1024) :
    F64.ofRat ((m : ℚ) * 2 ^ j) = F64.finite ((m : ℚ) * 2 ^ j) := by
  have pj := two_zpow_pos j
  have hx0 : (0 : ℚ) ≤ (m : ℚ) * 2 ^ j := mul_nonneg (Nat.cast_nonneg m) (le_of_lt pj)
  rw [F64.ofRat_of_nonneg _ hx0]
  have key : roundMagnitude ((m : ℚ) * 2 ^ j) = (m : ℚ) * 2 ^ j := by
    rcases Nat.eq_zero_or_pos m with h0 | hpos
    · subst h0
      simp only [Nat.cast_zero, zero_mul]
      exact roundMagnitude_zero
    · have hx : (0 : ℚ) < (m : ℚ) * 2 ^ j := mul_pos (Nat.cast_pos.mpr hpos) pj
      obtain ⟨x1, _⟩ := floorLog2_spec _ hx
      have hmq : (m : ℚ) < 2 ^ (53 : ℤ) := by
        have : ((m : ℕ) : ℚ) < ((2 ^ 53 : ℕ) : ℚ) := by exact_mod_cast hm
        have e : ((2 ^ 53 : ℕ) : ℚ) = (2 : ℚ) ^ (53 : ℤ) := by norm_num
        rw [e] at this
        exact this
      have hlt2 : (2 : ℚ) ^ floorLog2 ((m : ℚ) * 2 ^ j) < 2 ^ (53 + j) := by
        rw [two_zpow_add]
        calc (2 : ℚ) ^ floorLog2 ((m : ℚ) * 2 ^ j) ≤ (m : ℚ) * 2 ^ j := x1
          _ < 2 ^ (53 : ℤ) * 2 ^ j := mul_lt_mul_of_pos_right hmq pj
      have he : floorLog2 ((m : ℚ) * 2 ^ j) < 53 + j :=
        (zpow_lt_zpow_iff_right₀ (by norm_num : (1 : ℚ) < 2)).mp hlt2
      have hk : float64Quantum ((m : ℚ) * 2 ^ j) ≤ j := by
        unfold float64Quantum
        exact max_le (by omega) hj
      unfold roundMagnitude
      generalize float64Quantum ((m : ℚ) * 2 ^ j) = k at hk
      obtain ⟨t, ht⟩ : ∃ t : ℕ, j = k + t := ⟨(j - k).toNat, by omega⟩
      have pk := two_zpow_pos k
      have e1 : (m : ℚ) * 2 ^ j / 2 ^ k = (((m * 2 ^ t : ℕ) : ℤ) : ℚ) := by
        rw [ht, two_zpow_add, zpow_natCast]
        push_cast
        field_simp
        ring
      rw [e1, roundHalfEven_intCast, ht, two_zpow_add, zpow_natCast]
      push_cast
      ring
  unfold F64.ofMagnitude
  rw [key, if_neg (not_le.mpr hlt)]

theorem F64.ofRat_two_zpow (j : ℤ) (h1 : -1074 ≤ j) (h2 : j ≤ 1023) :
    F64.ofRat ((2 : ℚ) ^ j) = F64.finite ((2 : ℚ) ^ j) := by
  have h := F64.ofRat_scaled 1 j (by norm_num) h1 (by
    rw [Nat.cast_one, one_mul]
    rw [← zpow_ofNat]
    exact (zpow_lt_zpow_iff_right₀ (by norm_num : (1 : ℚ) < 2)).mpr (by omega))
  rw [Nat.cast_one, one_mul] at h
  exact h

/-- A finite result of rounding is below `2^1024` in magnitude. -/
theorem F64.ofRat_finite_lt (x d : ℚ) (hx : 0 ≤ x) (h : F64.ofRat x = F64.finite d) :
    0 ≤ d ∧ d < 2 ^ 1024 := by
  rw [F64.ofRat_of_nonneg x hx] at h
  rcases F64.ofMagnitude_cases x hx with ⟨e1, _⟩ | ⟨e1, b1, c1⟩
  · rw [e1] at h
    cases h
  · rw [e1] at h
    cases h
    exact ⟨c1, b1⟩

theorem F64.ofRat_tiny : F64.ofRat ((2 : ℚ) ^ (-1075 : ℤ)) = F64.finite 0 := by decide!

/-- Half of a rounded difference, rounded again, does not exceed the exact difference. -/
theorem F64.ofRat_half_le (x d : ℚ) (hx : 0 ≤ x) (hd : F64.ofRat x = F64.finite d) :
    ∃ h, F64.ofRat (d / 2) = F64.finite h ∧ 0 ≤ h ∧ h ≤ x := by
  obtain ⟨d0, dlt⟩ := F64.ofRat_finite_lt x d hx hd
  rcases eq_or_lt_of_le hx with h0 | hpos
  · subst h0
    rw [F64.ofRat_zero] at hd
    cases hd
    exact ⟨0, by rw [zero_div]; exact F64.ofRat_zero, le_refl _, le_refl _⟩
  · obtain ⟨x1, x2⟩ := floorLog2_spec x hpos
    have hd2 : (0 : ℚ) ≤ d / 2 := by linarith
    by_cases c1 : floorLog2 x ≤ -1075
    · have p1 := F64.ofRat_two_zpow (-1074) (by norm_num) (by norm_num)
      have hxp : x ≤ (2 : ℚ) ^ (-1074 : ℤ) :=
        le_trans (le_of_lt x2) (two_zpow_le _ _ (by omega))
      obtain ⟨v, hv, _, v2⟩ := F64.ofRat_between 0 x _ F64.ofRat_zero p1 hx hxp
      rw [hd] at hv
      cases hv
      have e : (2 : ℚ) ^ (-1075 : ℤ) * 2 = 2 ^ (-1074 : ℤ) := by
        have := two_zpow_add (-1075) 1
        rw [zpow_one] at this
        rw [← this]
        norm_num
      have hdp : d / 2 ≤ (2 : ℚ) ^ (-1075 : ℤ) := by
        rw [div_le_iff₀ (by norm_num : (0 : ℚ) < 2), e]
        exact v2
      have m1 := F64.ofRat_mono 0 (d / 2) hd2
      have m2 := F64.ofRat_mono (d / 2) _ hdp
      rw [F64.ofRat_zero] at m1
      rw [F64.ofRat_tiny] at m2
      cases hh : F64.ofRat (d / 2) with
      | finite h =>
        rw [hh] at m1 m2
        have a1 : (0 : ℚ) ≤ h := of_decide_eq_true m1
        have a2 : h ≤ (0 : ℚ) := of_decide_eq_true m2
        exact ⟨h, rfl, a1, by linarith⟩
      | nan => rw [hh] at m1; cases m1
      | posInf => rw [hh] at m2; cases m2
      | negInf => rw [hh] at m1; cases m1
    · by_cases c2 : floorLog2 x ≤ 1022
      · have p1 := F64.ofRat_two_zpow (floorLog2 x + 1) (by omega) (by omega)
        have p0 := F64.ofRat_two_zpow (floorLog2 x) (by omega) (by omega)
        obtain ⟨v, hv, _, v2⟩ := F64.ofRat_between 0 x _ F64.ofRat_zero p1 hx (le_of_lt x2)
        rw [hd] at hv
        cases hv
        have e : (2 : ℚ) ^ (floorLog2 x + 1) = 2 ^ floorLog2 x * 2 := by
          rw [two_zpow_add, zpow_one]
        obtain ⟨h, hh, h1, h2⟩ := F64.ofRat_between 0 (d / 2) _ F64.ofRat_zero p0 hd2
          (by
            rw [div_le_iff₀ (by norm_num : (0 : ℚ) < 2), ← e]
            exact v2)
        exact ⟨h, hh, h1, le_trans h2 x1⟩
      · have p0 := F64.ofRat_two_zpow 1023 (by norm_num) (by norm_num)
        have e : (2 : ℚ) ^ (1023 : ℤ) * 2 = 2 ^ 1024 := by
          rw [← zpow_ofNat]
          have := two_zpow_add 1023 1
          rw [zpow_one] at this
          rw [← this]
          rfl
        obtain ⟨h, hh, h1, h2⟩ := F64.ofRat_between 0 (d / 2) _ F64.ofRat_zero p0 hd2
          (by
            rw [div_le_iff₀ (by norm_num : (0 : ℚ) < 2), e]
            exact le_of_lt dlt)
        exact ⟨h, hh, h1, le_trans h2 (le_trans (two_zpow_le _ _ (by omega)) x1)⟩

/-! ### Proofs about `histogramSample` -/

theorem bucketValue_eq (b : List F64) (n i : Nat) (hn : n = b.length + 1)
    (hb : 1 ≤ b.length) (hi : i < n) :
    bucketValue b n i = some (float64BucketValue b n i) := by
  unfold bucketValue float64BucketValue
  by_cases h0 : i = 0
  · subst h0
    have h : 0 < b.length := hb
    simp only [if_true, List.get?_eq_getElem?, List.getD_eq_getElem?_getD]
    rw [List.getElem?_eq_getElem h]
    simp only [Option.getD_some, Option.bind_eq_bind, Option.some_bind, Option.pure_def]
    split <;> rfl
  · rw [if_neg h0, if_neg h0]
    by_cases hl : i = n - 1
    · have h : i - 1 < b.length := by omega
      have e : n - 2 = i - 1 := by omega
      rw [if_pos hl, if_pos hl, e]
      simp only [List.get?_eq_getElem?, List.getD_eq_getElem?_getD]
      rw [List.getElem?_eq_getElem h]
      rfl
    · have h1 : i - 1 < b.length := by omega
      have h2 : i < b.length := by omega
      rw [if_neg hl, if_neg hl]
      simp only [List.get?_eq_getElem?, List.getD_eq_getElem?_getD]
      rw [List.getElem?_eq_getElem h1, List.getElem?_eq_getElem h2]
      rfl

theorem histogramStep_eq (c : List Nat) (b : List F64) (hn : c.length = b.length + 1)
    (hb : 1 ≤ b.length) (i : Nat) (hi : i < c.length) (acc : List F64 × List Int) :
    histogramStep c b acc i =
      some (if c.getD i 0 = 0 then acc
            else (acc.1 ++ [float64BucketValue b c.length i],
                  acc.2 ++ [int64OfUint64 (c.getD i 0)])) := by
  unfold histogramStep
  rw [bucketValue_eq b c.length i hn hb hi]
  simp only [List.get?_eq_getElem?, List.getD_eq_getElem?_getD, List.getElem?_eq_getElem hi,
    Option.getD_some, Option.bind_eq_bind, Option.some_bind, Option.pure_def]
  split <;> rfl

theorem histogramLoop_eq (c : List Nat) (b : List F64) (hn : c.length = b.length + 1)
    (hb : 1 ≤ b.length) (k : Nat) (hk : k ≤ c.length) :
    (List.range k).foldlM (histogramStep c b) ([], []) =
      some ((((List.range k).filter (fun i => decide (c.getD i 0 ≠ 0))).map
                (fun i => float64BucketValue b c.length i)),
            (((List.range k).filter (fun i => decide (c.getD i 0 ≠ 0))).map
                (fun i => int64OfUint64 (c.getD i 0)))) := by
  induction k with
  | zero => rfl
  | succ k ih =>
    rw [List.range_succ, List.foldlM_append, ih (by omega)]
    simp only [Option.bind_eq_bind, Option.some_bind, List.foldlM_cons, List.foldlM_nil,
      histogramStep_eq c b hn hb k (by omega), List.filter_append, List.map_append,
      Option.pure_def]
    by_cases h0 : c.getD k 0 = 0
    · have hf : List.filter (fun i => decide (c.getD i 0 ≠ 0)) [k] = [] :=
        List.filter_cons_of_neg (by
          show ¬ decide (c.getD k 0 ≠ 0) = true
          rw [h0]
          decide)
      rw [if_pos h0, hf, List.map_nil, List.map_nil, List.append_nil, List.append_nil]
    · have hf : List.filter (fun i => decide (c.getD i 0 ≠ 0)) [k] = [k] :=
        List.filter_cons_of_pos (by
          show decide (c.getD k 0 ≠ 0) = true
          exact decide_eq_true h0)
      rw [if_neg h0, hf]
      rfl

theorem bucketValue_isSome (b : List F64) (n i : Nat) (hn : n = b.length + 1)
    (hb : 1 ≤ b.length) (hi : i < n) : ∃ v, bucketValue b n i = some v := by
  unfold bucketValue
  by_cases h0 : i = 0
  · subst h0
    have h : 0 < b.length := hb
    rw [if_pos rfl, List.get?_eq_getElem?, List.getElem?_eq_getElem h]
    simp only [Option.bind_eq_bind, Option.some_bind, Option.pure_def]
    split
    · exact ⟨_, rfl⟩
    · exact ⟨_, rfl⟩
  · rw [if_neg h0]
    by_cases hl : i = n - 1
    · have h : i - 1 < b.length := by omega
      rw [if_pos hl, List.get?_eq_getElem?, List.getElem?_eq_getElem h]
      exact ⟨_, rfl⟩
    · have h1 : i - 1 < b.length := by omega
      have h2 : i < b.length := by omega
      rw [if_neg hl, List.get?_eq_getElem?, List.get?_eq_getElem?, List.getElem?_eq_getElem h1,
        List.getElem?_eq_getElem h2]
      exact ⟨_, rfl⟩

theorem histogramStep_isSome (c : List Nat) (b : List F64) (hn : c.length = b.length + 1)
    (hb : 1 ≤ b.length) (i : Nat) (hi : i < c.length) (acc : List F64 × List Int) :
    ∃ acc', histogramStep c b acc i = some acc' := by
  unfold histogramStep
  obtain ⟨v, hv⟩ := bucketValue_isSome b c.length i hn hb hi
  rw [hv, List.get?_eq_getElem?, List.getElem?_eq_getElem hi]
  simp only [Option.bind_eq_bind, Option.some_bind, Option.pure_def]
  split
  · exact ⟨_, rfl⟩
  · exact ⟨_, rfl⟩

theorem histogramLoop_isSome (c : List Nat) (b : List F64) (hn : c.length = b.length + 1)
    (hb : 1 ≤ b.length) (k : Nat) (hk : k ≤ c.length) (acc : List F64 × List Int) :
    ∃ acc', (List.range k).foldlM (histogramStep c b) acc = some acc' := by
  induction k with
  | zero => exact ⟨acc, rfl⟩
  | succ k ih =>
    obtain ⟨a1, h1⟩ := ih (by omega)
    obtain ⟨a2, h2⟩ := histogramStep_isSome c b hn hb k (by omega) a1
    refine ⟨a2, ?_⟩
    rw [List.range_succ, List.foldlM_append, h1]
    simp only [Option.bind_eq_bind, Option.some_bind, List.foldlM_cons, List.foldlM_nil, h2,
      Option.pure_def]

/-- The function `histogramSample` never panics, and fails exactly on malformed input. -/
theorem histogramSample_total (c : List Nat) (b : List F64) :
    ∃ sample ok, histogramSample c b = some (sample, ok) ∧
      (ok = false ↔ (c.length ≠ b.length + 1 ∨ b.length = 0)) := by
  unfold histogramSample
  by_cases hg : c.length ≠ b.length + 1 ∨ b.length = 0
  · rw [if_pos hg]
    exact ⟨_, false, rfl, iff_of_true rfl hg⟩
  · rw [if_neg hg]
    obtain ⟨acc, hacc⟩ := histogramLoop_isSome c b (by omega) (by omega) c.length (le_refl _)
      ([], [])
    rw [hacc]
    exact ⟨_, true, rfl, iff_of_false (by simp) hg⟩

/-! ### Go maps -/

theorem mapGet?_mapSet {κ ν : Type} [DecidableEq κ] (m : List (κ × ν)) (k k' : κ) (v : ν) :
    mapGet? (mapSet m k v) k' = if k' = k then some v else mapGet? m k' := by
  induction m with
  | nil =>
    by_cases h : k' = k
    · simp [mapSet, mapGet?, h]
    · have h' : ¬ k = k' := fun e => h e.symm
      simp [mapSet, mapGet?, h, h']
  | cons x m ih =>
    obtain ⟨k0, v0⟩ := x
    by_cases h0 : k0 = k
    · subst h0
      by_cases h : k' = k0
      · simp [mapSet, mapGet?, h]
      · have h' : ¬ k0 = k' := fun e => h e.symm
        simp [mapSet, mapGet?, h, h']
    · by_cases h : k0 = k'
      · subst h
        simp [mapSet, mapGet?, h0]
      · simp [mapSet, mapGet?, h0, h, ih]

theorem mapSet_keys_mem {κ ν : Type} [DecidableEq κ] (m : List (κ × ν)) (k k' : κ) (v : ν) :
    k' ∈ (mapSet m k v).map Prod.fst ↔ k' = k ∨ k' ∈ m.map Prod.fst := by
  induction m with
  | nil => simp [mapSet]
  | cons x m ih =>
    obtain ⟨k0, v0⟩ := x
    by_cases h0 : k0 = k
    · subst h0
      simp [mapSet]
    · simp only [mapSet, h0, if_false, List.map_cons, List.mem_cons, ih]
      tauto

theorem mapSet_keys_nodup {κ ν : Type} [DecidableEq κ] (m : List (κ × ν)) (k : κ) (v : ν)
    (h : (m.map Prod.fst).Nodup) : ((mapSet m k v).map Prod.fst).Nodup := by
  induction m with
  | nil => simp [mapSet]
  | cons x m ih =>
    obtain ⟨k0, v0⟩ := x
    rw [List.map_cons, List.nodup_cons] at h
    by_cases h0 : k0 = k
    · subst h0
      simp only [mapSet, if_true, List.map_cons, List.nodup_cons]
      exact h
    · simp only [mapSet, h0, if_false, List.map_cons, List.nodup_cons, mapSet_keys_mem]
      refine ⟨?_, ih h.2⟩
      rintro (e | e)
      · exact e.elim
      · exact h.1 e

theorem mem_mapSet {κ ν : Type} [DecidableEq κ] (m : List (κ × ν)) (k : κ) (v : ν)
    (x : κ × ν) (hx : x ∈ mapSet m k v) : x = (k, v) ∨ x ∈ m := by
  induction m with
  | nil =>
    simp only [mapSet, List.mem_singleton] at hx
    exact Or.inl hx
  | cons y m ih =>
    obtain ⟨k0, v0⟩ := y
    by_cases h0 : k0 = k
    · simp only [mapSet, h0, if_true, List.mem_cons] at hx
      rcases hx with e | e
      · exact Or.inl e
      · exact Or.inr (List.mem_cons_of_mem _ e)
    · simp only [mapSet, h0, if_false, List.mem_cons] at hx
      rcases hx with e | e
      · exact Or.inr (by rw [e]; exact List.mem_cons_self _ _)
      · rcases ih e with e' | e'
        · exact Or.inl e'
        · exact Or.inr (List.mem_cons_of_mem _ e')

theorem mapGet?_of_mem {κ ν : Type} [DecidableEq κ] (m : List (κ × ν)) (k : κ) (v : ν)
    (hn : (m.map Prod.fst).Nodup) (hx : (k, v) ∈ m) : mapGet? m k = some v := by
  induction m with
  | nil => cases hx
  | cons y m ih =>
    obtain ⟨k0, v0⟩ := y
    rw [List.map_cons, List.nodup_cons] at hn
    rcases List.mem_cons.mp hx with e | e
    · cases e
      simp [mapGet?]
    · have hk : k0 ≠ k := by
        rintro rfl
        exact hn.1 (List.mem_map.mpr ⟨(k0, v), e, rfl⟩)
      simp only [mapGet?, hk, if_false]
      exact ih hn.2 e

theorem mem_of_mapGet? {κ ν : Type} [DecidableEq κ] (m : List (κ × ν)) (k : κ) (v : ν)
    (h : mapGet? m k = some v) : (k, v) ∈ m := by
  induction m with
  | nil => cases h
  | cons y m ih =>
    obtain ⟨k0, v0⟩ := y
    by_cases h0 : k0 = k
    · subst h0
      simp only [mapGet?, if_true, Option.some.injEq] at h
      rw [h]
      exact List.mem_cons_self _ _
    · simp only [mapGet?, h0, if_false] at h
      exact List.mem_cons_of_mem _ (ih h)

/-! ### Grouping of datapoints -/

theorem upsert_keys (E : Env) (ms : metricsets) (ts : Nat) (attrs : Attributes)
    (sample : MetricsetSample) (ks : List metricsetKey) (h : KeysAre ms ks) :
    KeysAre (upsert E ms (asTime ts) attrs sample) (ks ++ [dataPointKey E ts attrs]) := by
  unfold upsert upsertOne KeysAre
  refine ⟨mapSet_keys_nodup _ _ _ h.1, fun k => ?_⟩
  rw [mapSet_keys_mem, h.2 k, List.mem_append, List.mem_singleton]
  unfold dataPointKey
  tauto

theorem KeysAre_congr (ms : metricsets) (ks ks' : List metricsetKey) (h : KeysAre ms ks)
    (e : ks = ks') : KeysAre ms ks' := e ▸ h

theorem addNumberDataPoints_keys (E : Env) (name : String) (mt : MetricType)
    (dps : List NumberDataPoint) (st : metricsets × Bool) (ks : List metricsetKey)
    (h : KeysAre st.1 ks) :
    KeysAre (dps.foldl (addNumberDataPoint E name mt) st).1
      (ks ++ (dps.filter numberAccepted).map
        (fun dp => dataPointKey E dp.Timestamp dp.Attributes)) := by
  induction dps generalizing st ks with
  | nil => simpa using h
  | cons dp dps ih =>
    rw [List.foldl_cons]
    obtain ⟨ts, attrs, val⟩ := dp
    cases val with
    | empty =>
      have e := ih (addNumberDataPoint E name mt st ⟨ts, attrs, NumberValue.empty⟩) ks h
      exact KeysAre_congr _ _ _ e (by simp [List.filter, numberAccepted])
    | int i =>
      have e := ih (addNumberDataPoint E name mt st ⟨ts, attrs, NumberValue.int i⟩) _
        (upsert_keys E st.1 ts attrs _ ks h)
      exact KeysAre_congr _ _ _ e (by simp [List.filter, numberAccepted])
    | double d =>
      by_cases hd : (d.isNaN || d.isInf) = true
      · have e := ih (addNumberDataPoint E name mt st ⟨ts, attrs, NumberValue.double d⟩) ks
          (by simpa [addNumberDataPoint, numberSample, hd] using h)
        exact KeysAre_congr _ _ _ e (by simp [List.filter, numberAccepted, hd])
      · have e := ih (addNumberDataPoint E name mt st ⟨ts, attrs, NumberValue.double d⟩) _
          (by simpa [addNumberDataPoint, numberSample, hd] using
            upsert_keys E st.1 ts attrs _ ks h)
        exact KeysAre_congr _ _ _ e (by simp [List.filter, numberAccepted, hd])

theorem addNumberDataPoints_dropped (E : Env) (name : String) (mt : MetricType)
    (dps : List NumberDataPoint) (st : metricsets × Bool) :
    (dps.foldl (addNumberDataPoint E name mt) st).2 =
      (st.2 || dps.any (fun dp => !numberAccepted dp)) := by
  induction dps generalizing st with
  | nil => simp
  | cons dp dps ih =>
    rw [List.foldl_cons, ih]
    obtain ⟨ts, attrs, val⟩ := dp
    cases val with
    | empty => simp [addNumberDataPoint, numberSample, numberAccepted]
    | int i => simp [addNumberDataPoint, numberSample, numberAccepted]
    | double d =>
      by_cases hd : (d.isNaN || d.isInf) = true
      · simp [addNumberDataPoint, numberSample, numberAccepted, hd]
      · simp [addNumberDataPoint, numberSample, numberAccepted, hd]

theorem addHistogramDataPoint_eq (E : Env) (name : String) (st : metricsets × Bool)
    (dp : HistogramDataPoint) :
    ∃ sample, addHistogramDataPoint E name st dp =
      some (if histogramAccepted dp then
              (upsert E st.1 (asTime dp.Timestamp) dp.Attributes sample, st.2)
            else (st.1, true)) := by
  obtain ⟨sample, ok, h, hiff⟩ := histogramSample_total dp.BucketCounts dp.ExplicitBounds
  unfold addHistogramDataPoint
  rw [h]
  cases ok with
  | false =>
    have hc := hiff.mp rfl
    have hd : ¬ (dp.BucketCounts.length = dp.ExplicitBounds.length + 1 ∧
        dp.ExplicitBounds.length ≠ 0) := by omega
    have ha : histogramAccepted dp = false := decide_eq_false hd
    rw [ha]
    exact ⟨sample, rfl⟩
  | true =>
    have hc : ¬ (dp.BucketCounts.length ≠ dp.ExplicitBounds.length + 1 ∨
        dp.ExplicitBounds.length = 0) := fun hc => Bool.noConfusion (hiff.mpr hc)
    have hd : dp.BucketCounts.length = dp.ExplicitBounds.length + 1 ∧
        dp.ExplicitBounds.length ≠ 0 := by omega
    have ha : histogramAccepted dp = true := decide_eq_true hd
    rw [ha]
    exact ⟨{ sample with Name := name }, rfl⟩

theorem addHistogramDataPoints_keys (E : Env) (name : String)
    (dps : List HistogramDataPoint) (st : metricsets × Bool) (ks : List metricsetKey)
    (h : KeysAre st.1 ks) :
    ∃ st', dps.foldlM (addHistogramDataPoint E name) st = some st' ∧
      KeysAre st'.1 (ks ++ (dps.filter histogramAccepted).map
        (fun dp => dataPointKey E dp.Timestamp dp.Attributes)) ∧
      st'.2 = (st.2 || dps.any (fun dp => !histogramAccepted dp)) := by
  induction dps generalizing st ks with
  | nil => exact ⟨st, rfl, by simpa using h, by simp⟩
  | cons dp dps ih =>
    obtain ⟨sample, hs⟩ := addHistogramDataPoint_eq E name st dp
    by_cases ha : histogramAccepted dp = true
    · rw [if_pos ha] at hs
      obtain ⟨st', h1, h2, h3⟩ :=
        ih (upsert E st.1 (asTime dp.Timestamp) dp.Attributes sample, st.2) _
          (upsert_keys E st.1 dp.Timestamp dp.Attributes sample ks h)
      refine ⟨st', ?_, ?_, ?_⟩
      · rw [List.foldlM_cons, hs]
        exact h1
      · exact KeysAre_congr _ _ _ h2 (by simp [List.filter, ha])
      · rw [h3]
        simp [ha]
    · rw [if_neg ha] at hs
      obtain ⟨st', h1, h2, h3⟩ := ih (st.1, true) ks h
      refine ⟨st', ?_, ?_, ?_⟩
      · rw [List.foldlM_cons, hs]
        exact h1
      · exact KeysAre_congr _ _ _ h2 (by simp [List.filter, ha])
      · rw [h3]
        simp [ha]

theorem addSummaryDataPoints_keys (E : Env) (name : String)
    (dps : List SummaryDataPoint) (st : metricsets × Bool) (ks : List metricsetKey)
    (h : KeysAre st.1 ks) :
    KeysAre (dps.foldl (addSummaryDataPoint E name) st).1
        (ks ++ dps.map (fun dp => dataPointKey E dp.Timestamp dp.Attributes)) ∧
      (dps.foldl (addSummaryDataPoint E name) st).2 = st.2 := by
  induction dps generalizing st ks with
  | nil => exact ⟨by simpa using h, rfl⟩
  | cons dp dps ih =>
    rw [List.foldl_cons]
    obtain ⟨h1, h2⟩ := ih (addSummaryDataPoint E name st dp) _
      (upsert_keys E st.1 dp.Timestamp dp.Attributes _ ks h)
    exact ⟨KeysAre_congr _ _ _ h1 (by simp), h2⟩

theorem addMetric_keys (E : Env) (metric : Metric) (ms : metricsets)
    (ks : List metricsetKey) (h : KeysAre ms ks) :
    ∃ ms', addMetric E metric ms = some (ms', !metricDropped metric) ∧
      KeysAre ms' (ks ++ acceptedKeys E metric) := by
  obtain ⟨name, data⟩ := metric
  cases data with
  | empty => exact ⟨ms, rfl, by simpa [acceptedKeys] using h⟩
  | exponentialHistogram => exact ⟨ms, rfl, by simpa [acceptedKeys] using h⟩
  | gauge dps =>
    refine ⟨_, ?_, addNumberDataPoints_keys E name MetricType.gauge dps (ms, false) ks h⟩
    simp [addMetric, metricDropped, addNumberDataPoints_dropped]
  | sum dps =>
    refine ⟨_, ?_, addNumberDataPoints_keys E name MetricType.counter dps (ms, false) ks h⟩
    simp [addMetric, metricDropped, addNumberDataPoints_dropped]
  | histogram dps =>
    obtain ⟨st', h1, h2, h3⟩ := addHistogramDataPoints_keys E name dps (ms, false) ks h
    refine ⟨st'.1, ?_, h2⟩
    simp [addMetric, metricDropped, h1, h3]
  | summary dps =>
    obtain ⟨h1, h2⟩ := addSummaryDataPoints_keys E name dps (ms, false) ks h
    refine ⟨_, ?_, h1⟩
    simp [addMetric, metricDropped, h2]

theorem addMetrics_loop (E : Env) (metrics : List Metric) (st : metricsets × Int)
    (ks : List metricsetKey) (h : KeysAre st.1 ks) :
    ∃ ms, metrics.foldlM (addMetricsStep E) st =
        some (ms, st.2 + ((metrics.filter metricDropped).length : Int)) ∧
      KeysAre ms (ks ++ scopeAcceptedKeys E metrics) := by
  induction metrics generalizing st ks with
  | nil => exact ⟨st.1, by simp, by simpa [scopeAcceptedKeys] using h⟩
  | cons metric metrics ih =>
    obtain ⟨ms', h1, h2⟩ := addMetric_keys E metric st.1 ks h
    by_cases hd : metricDropped metric = true
    · obtain ⟨ms2, h3, h4⟩ := ih (ms', st.2 + 1) _ h2
      refine ⟨ms2, ?_, KeysAre_congr _ _ _ h4 (by simp [scopeAcceptedKeys])⟩
      have hstep : addMetricsStep E st metric = some (ms', st.2 + 1) := by
        simp [addMetricsStep, h1, hd]
      rw [List.foldlM_cons, hstep]
      simp only [Option.bind_eq_bind, Option.some_bind]
      rw [h3]
      simp only [List.filter_cons, hd, if_true, List.length_cons]
      congr 2
      push_cast
      ring
    · obtain ⟨ms2, h3, h4⟩ := ih (ms', st.2) _ h2
      refine ⟨ms2, ?_, KeysAre_congr _ _ _ h4 (by simp [scopeAcceptedKeys])⟩
      have hd' : metricDropped metric = false := by simpa using hd
      have hstep : addMetricsStep E st metric = some (ms', st.2) := by
        simp [addMetricsStep, h1, hd']
      rw [List.foldlM_cons, hstep]
      simp only [Option.bind_eq_bind, Option.some_bind]
      rw [h3]
      simp [List.filter_cons, hd']

theorem addMetrics_eq (E : Env) (metrics : List Metric) :
    ∃ ms, addMetrics E metrics = some (ms, ((metrics.filter metricDropped).length : Int)) ∧
      KeysAre ms (scopeAcceptedKeys E metrics) := by
  obtain ⟨ms, h1, h2⟩ := addMetrics_loop E metrics ([], 0) []
    ⟨List.nodup_nil, fun k => by simp⟩
  refine ⟨ms, ?_, by simpa using h2⟩
  unfold addMetrics
  rw [h1]
  simp

theorem attributeSignature_loop (E : Env) (attrs : Attributes) (acc : String) :
    attrs.foldl (fun signatureBuilder kv => signatureBuilder ++ kv.1 ++ E.asString kv.2) acc =
      (attrs.map (fun kv => kv.1 ++ E.asString kv.2)).foldl (fun r s => r ++ s) acc := by
  induction attrs generalizing acc with
  | nil => rfl
  | cons kv attrs ih =>
    rw [List.foldl_cons, List.map_cons, List.foldl_cons, ih, String.append_assoc]

/-! ### Last writer wins -/

theorem lookupSample_upsert (E : Env) (ms : metricsets) (u : Upsert) (key : metricsetKey)
    (name : String) :
    lookupSample (upsert E ms u.timestamp u.attributes u.sample) key name =
      if upsertKey E u = key ∧ u.sample.Name = name then some u.sample
      else lookupSample ms key name := by
  unfold lookupSample upsert upsertOne
  rw [mapGet?_mapSet]
  by_cases hk : key = upsertKey E u
  · subst hk
    have e : ({ timestamp := u.timestamp, signature := attributeSignature E u.attributes } :
        metricsetKey) = upsertKey E u := rfl
    rw [e, if_pos rfl]
    simp only [mapGet?_mapSet, true_and]
    by_cases hn : name = u.sample.Name
    · rw [if_pos hn, if_pos hn.symm]
    · rw [if_neg hn, if_neg (fun h => hn h.symm)]
      cases mapGet? ms (upsertKey E u) <;> rfl
  · have e : ({ timestamp := u.timestamp, signature := attributeSignature E u.attributes } :
        metricsetKey) = upsertKey E u := rfl
    rw [e, if_neg hk, if_neg (fun h => hk h.1.symm)]

theorem lastUpsert_append (E : Env) (ups : List Upsert) (u : Upsert) (key : metricsetKey)
    (name : String) :
    lastUpsert E (ups ++ [u]) key name =
      if upsertKey E u = key ∧ u.sample.Name = name then some u.sample
      else lastUpsert E ups key name := by
  unfold lastUpsert
  rw [List.reverse_append, List.reverse_singleton, List.singleton_append, List.find?_cons]
  by_cases h : upsertKey E u = key ∧ u.sample.Name = name
  · rw [if_pos h, decide_eq_true h]
  · rw [if_neg h, decide_eq_false h]

theorem lastUpsert_name (E : Env) (ups : List Upsert) (key : metricsetKey) (name : String)
    (s : MetricsetSample) (h : lastUpsert E ups key name = some s) : s.Name = name := by
  unfold lastUpsert at h
  split at h
  · rename_i u hu
    have hp := List.find?_some hu
    simp only [decide_eq_true_eq] at hp
    cases h
    exact hp.2
  · cases h

theorem upsert_wf (E : Env) (ms : metricsets) (u : Upsert) (h : MetricsetsWF ms) :
    MetricsetsWF (upsert E ms u.timestamp u.attributes u.sample) := by
  unfold upsert upsertOne
  refine ⟨mapSet_keys_nodup _ _ _ h.1, fun key m hm => ?_⟩
  rcases mem_mapSet _ _ _ _ hm with e | e
  · cases e
    apply mapSet_keys_nodup
    split
    · rename_i m0 hm0
      exact h.2 _ _ (mem_of_mapGet? _ _ _ hm0)
    · exact List.nodup_nil
  · exact h.2 _ _ e

theorem applyUpserts_append (E : Env) (ups : List Upsert) (u : Upsert) :
    applyUpserts E (ups ++ [u]) =
      upsert E (applyUpserts E ups) u.timestamp u.attributes u.sample := by
  unfold applyUpserts
  rw [List.foldl_append]
  rfl

theorem applyUpserts_wf (E : Env) (ups : List Upsert) : MetricsetsWF (applyUpserts E ups) := by
  induction ups using List.reverseRecOn with
  | nil => exact ⟨List.nodup_nil, fun _ _ h => by cases h⟩
  | append_singleton ups u ih =>
    rw [applyUpserts_append]
    exact upsert_wf E _ u ih

theorem applyUpserts_lookup (E : Env) (ups : List Upsert) (key : metricsetKey)
    (name : String) :
    lookupSample (applyUpserts E ups) key name = lastUpsert E ups key name := by
  induction ups using List.reverseRecOn with
  | nil => rfl
  | append_singleton ups u ih =>
    rw [applyUpserts_append, lookupSample_upsert, lastUpsert_append, ih]

theorem setLabel_Metricset (E : Env) (key : String) (event : APMEvent) (value : Iface) :
    (setLabel E key event value).Metricset = event.Metricset := rfl

theorem setLabels_Metricset (E : Env) (attrs : Attributes) (event : APMEvent) :
    (attrs.foldl (fun event kv => setLabel E kv.1 event (E.ifaceAttributeValue kv.2))
      event).Metricset = event.Metricset := by
  induction attrs generalizing event with
  | nil => rfl
  | cons kv attrs ih => rw [List.foldl_cons, ih, setLabel_Metricset]

theorem metricsetEvent_Metricset (E : Env) (baseEvent : APMEvent) (timeDelta : Int)
    (key : metricsetKey) (m : metricset) :
    (metricsetEvent E baseEvent timeDelta key m).Metricset =
      some { Samples := m.samples.map (fun s => s.2), Name := "app" } := by
  unfold metricsetEvent
  split
  · simp only [setLabels_Metricset]
    rfl
  · rfl

/-! ### The attribute translation keeps the core of the event -/

theorem Keeps.refl (e : APMEvent) : Keeps e e := ⟨rfl, fun h => h, fun _ h => h⟩

theorem Keeps.trans {e1 e2 e3 : APMEvent} (h12 : Keeps e1 e2) (h23 : Keeps e2 e3) :
    Keeps e1 e3 :=
  ⟨h23.1.trans h12.1, fun h => h23.2.1 (h12.2.1 h), fun lang h => h23.2.2 lang (h12.2.2 lang h)⟩

theorem Keeps.txReady {e e' : APMEvent} (h : Keeps e e') (hr : TxReady e) : TxReady e' := by
  obtain ⟨hc, hl, hs⟩ := h
  obtain ⟨r1, r2, r3, r4⟩ := hr
  refine ⟨hl r1, ?_, ?_, ?_⟩
  · have := congrArg EventCore.Transaction hc
    simp only [APMEvent.core] at this
    cases h1 : e.Transaction with
    | none => rw [h1] at r2; cases r2
    | some t =>
      rw [h1] at this
      cases h2 : e'.Transaction with
      | none => rw [h2] at this; cases this
      | some t' => rfl
  · cases h1 : e.Service with
    | none => rw [h1] at r3; cases r3
    | some sv =>
      have := hs sv.Language (by rw [h1]; rfl)
      cases h2 : e'.Service with
      | none => rw [h2] at this; cases this
      | some t' => rfl
  · have := congrArg EventCore.Times hc
    simp only [APMEvent.core] at this
    cases h1 : e.Event with
    | none => rw [h1] at r4; cases r4
    | some t =>
      rw [h1] at this
      cases h2 : e'.Event with
      | none => rw [h2] at this; cases this
      | some t' => rfl

theorem Keeps.spanReady {e e' : APMEvent} (h : Keeps e e') (hr : SpanReady e) :
    SpanReady e' := by
  obtain ⟨hc, hl, hs⟩ := h
  obtain ⟨r1, r2, r3, r4⟩ := hr
  refine ⟨hl r1, ?_, ?_, ?_⟩
  · have := congrArg EventCore.Span hc
    simp only [APMEvent.core] at this
    cases h1 : e.Span with
    | none => rw [h1] at r2; cases r2
    | some t =>
      rw [h1] at this
      cases h2 : e'.Span with
      | none => rw [h2] at this; cases this
      | some t' => rfl
  · cases h1 : e.Service with
    | none => rw [h1] at r3; cases r3
    | some sv =>
      have := hs sv.Language (by rw [h1]; rfl)
      cases h2 : e'.Service with
      | none => rw [h2] at this; cases this
      | some t' => rfl
  · have := congrArg EventCore.Times hc
    simp only [APMEvent.core] at this
    cases h1 : e.Event with
    | none => rw [h1] at r4; cases r4
    | some t =>
      rw [h1] at this
      cases h2 : e'.Event with
      | none => rw [h2] at this; cases this
      | some t' => rfl

theorem labelsSet_keeps (e e' : APMEvent) (k v : String) (h : labelsSet e k v = some e') :
    Keeps e e' := by
  unfold labelsSet at h
  split at h
  · cases h
    exact ⟨rfl, fun hr => ⟨rfl, hr.2⟩, fun _ hl => hl⟩
  · cases h

theorem labelsSet_isSome (e : APMEvent) (k v : String) (hr : LabelsReady e) :
    ∃ e', labelsSet e k v = some e' := by
  unfold labelsSet
  obtain ⟨h1, _⟩ := hr
  cases hl : e.Labels with
  | none => rw [hl] at h1; cases h1
  | some l => exact ⟨_, rfl⟩

theorem numericLabelsSet_keeps (e e' : APMEvent) (k : String) (v : F64)
    (h : numericLabelsSet e k v = some e') : Keeps e e' := by
  unfold numericLabelsSet at h
  split at h
  · cases h
    exact ⟨rfl, fun hr => ⟨hr.1, rfl⟩, fun _ hl => hl⟩
  · cases h

theorem numericLabelsSet_isSome (e : APMEvent) (k : String) (v : F64) (hr : LabelsReady e) :
    ∃ e', numericLabelsSet e k v = some e' := by
  unfold numericLabelsSet
  obtain ⟨_, h2⟩ := hr
  cases hl : e.NumericLabels with
  | none => rw [hl] at h2; cases h2
  | some l => exact ⟨_, rfl⟩

theorem setLabel_keeps (E : Env) (k : String) (e : APMEvent) (v : Iface) :
    Keeps e (setLabel E k e v) :=
  ⟨rfl, fun hr => E.setLabel_isSome k v (e.Labels, e.NumericLabels) hr.1 hr.2, fun _ hl => hl⟩

theorem translateTransactionStr_keeps (E : Env) (l l' : TransactionLocals)
    (kDots k stringval : String) (h : translateTransactionStr E l kDots k stringval = some l') :
    Keeps l.event l'.event := by
  unfold translateTransactionStr at h
  dsimp only at h
  split at h
  all_goals first
    | (cases h; exact Keeps.refl _)
    | (split at h <;> first
        | (cases h; done)
        | (cases h; exact Keeps.refl _)
        | (rename_i x hx
           cases h
           refine ⟨?_, fun hr => hr, ?_⟩
           · simp only [APMEvent.core, hx, Option.map_some']
           · intro lang hl
             simp only [hx, Option.map_some'] at hl ⊢
             exact hl)
        | (simp only [Option.bind_eq_bind, Option.bind_eq_some, Option.pure_def,
              Option.some.injEq] at h
           obtain ⟨e1, h1, h2⟩ := h
           cases h2
           exact labelsSet_keeps _ _ _ _ h1))
    | (simp only [Option.bind_eq_bind, Option.bind_eq_some, Option.pure_def,
          Option.some.injEq] at h
       obtain ⟨e1, h1, h2⟩ := h
       cases h2
       exact labelsSet_keeps _ _ _ _ h1)

theorem translateTransactionStr_isSome (E : Env) (l : TransactionLocals)
    (kDots k stringval : String) (hr : TxReady l.event) :
    ∃ l', translateTransactionStr E l kDots k stringval = some l' := by
  obtain ⟨hl, htx, hsv, _⟩ := hr
  obtain ⟨tx, htx⟩ := Option.isSome_iff_exists.mp htx
  obtain ⟨sv, hsv⟩ := Option.isSome_iff_exists.mp hsv
  obtain ⟨e1, h1⟩ := labelsSet_isSome l.event k stringval hl
  unfold translateTransactionStr
  dsimp only
  split
  all_goals first
    | exact ⟨_, rfl⟩
    | (split <;> exact ⟨_, rfl⟩)
    | (rw [htx]; exact ⟨_, rfl⟩)
    | (rw [hsv]; exact ⟨_, rfl⟩)
    | (rw [h1]; exact ⟨_, rfl⟩)
    | (split
       · rw [h1]; exact ⟨_, rfl⟩
       · exact ⟨_, rfl⟩)

theorem translateTransactionInt_keeps (E : Env) (l l' : TransactionLocals)
    (kDots k : String) (v : Value) (h : translateTransactionInt E l kDots k v = some l') :
    Keeps l.event l'.event := by
  unfold translateTransactionInt at h
  dsimp only at h
  split at h
  all_goals first
    | (cases h; exact Keeps.refl _)
    | (cases h; exact setLabel_keeps _ _ _ _)
    | (split at h <;> first
        | (cases h; done)
        | (rename_i x hx
           cases h
           refine ⟨?_, fun hr => hr, fun _ hl => hl⟩
           simp only [APMEvent.core, hx, Option.map_some']))

theorem translateTransactionInt_isSome (E : Env) (l : TransactionLocals)
    (kDots k : String) (v : Value) (hr : TxReady l.event) :
    ∃ l', translateTransactionInt E l kDots k v = some l' := by
  obtain ⟨_, htx, _, _⟩ := hr
  obtain ⟨tx, htx⟩ := Option.isSome_iff_exists.mp htx
  unfold translateTransactionInt
  dsimp only
  split
  all_goals first
    | exact ⟨_, rfl⟩
    | (rw [htx]; exact ⟨_, rfl⟩)

theorem translateTransactionAttribute_keeps (E : Env) (isJaeger : Bool)
    (l l' : TransactionLocals) (kv : String × Value)
    (h : translateTransactionAttribute E isJaeger l kv = some l') :
    Keeps l.event l'.event := by
  unfold translateTransactionAttribute at h
  dsimp only at h
  split at h
  · cases h; exact Keeps.refl _
  · split at h
    · cases h; exact Keeps.refl _
    · split at h
      all_goals first
        | (cases h; exact Keeps.refl _)
        | (cases h; exact setLabel_keeps _ _ _ _)
        | exact translateTransactionInt_keeps _ _ _ _ _ _ h
        | exact translateTransactionStr_keeps _ _ _ _ _ _ h

theorem translateTransactionAttribute_isSome (E : Env) (isJaeger : Bool)
    (l : TransactionLocals) (kv : String × Value) (hr : TxReady l.event) :
    ∃ l', translateTransactionAttribute E isJaeger l kv = some l' := by
  unfold translateTransactionAttribute
  dsimp only
  split
  · exact ⟨_, rfl⟩
  · split
    · exact ⟨_, rfl⟩
    · split
      all_goals first
        | exact ⟨_, rfl⟩
        | exact translateTransactionInt_isSome _ _ _ _ _ hr
        | exact translateTransactionStr_isSome _ _ _ _ _ hr

theorem translateTransactionAttributes_keeps (E : Env) (isJaeger : Bool)
    (attributes : Attributes) (l l' : TransactionLocals)
    (h : attributes.foldlM (translateTransactionAttribute E isJaeger) l = some l') :
    Keeps l.event l'.event := by
  induction attributes generalizing l with
  | nil =>
    simp only [List.foldlM_nil, Option.pure_def, Option.some.injEq] at h
    cases h
    exact Keeps.refl _
  | cons kv attributes ih =>
    simp only [List.foldlM_cons, Option.bind_eq_bind, Option.bind_eq_some] at h
    obtain ⟨l1, h1, h2⟩ := h
    exact (translateTransactionAttribute_keeps E isJaeger l l1 kv h1).trans (ih l1 h2)

theorem translateTransactionAttributes_isSome (E : Env) (isJaeger : Bool)
    (attributes : Attributes) (l : TransactionLocals) (hr : TxReady l.event) :
    ∃ l', attributes.foldlM (translateTransactionAttribute E isJaeger) l = some l' := by
  induction attributes generalizing l with
  | nil => exact ⟨l, rfl⟩
  | cons kv attributes ih =>
    obtain ⟨l1, h1⟩ := translateTransactionAttribute_isSome E isJaeger l kv hr
    obtain ⟨l2, h2⟩ := ih l1
      ((translateTransactionAttribute_keeps E isJaeger l l1 kv h1).txReady hr)
    exact ⟨l2, by simp only [List.foldlM_cons, h1, Option.bind_eq_bind, Option.some_bind, h2]⟩

theorem translateTransactionStr_sampler (E : Env) (l l' : TransactionLocals)
    (kDots k stringval : String) (h : translateTransactionStr E l kDots k stringval = some l') :
    l'.samplerType = l.samplerType := by
  unfold translateTransactionStr at h
  dsimp only at h
  split at h
  all_goals first
    | (cases h; rfl)
    | (split at h <;> first
        | (cases h; done)
        | (cases h; rfl)
        | (simp only [Option.bind_eq_bind, Option.bind_eq_some, Option.pure_def,
              Option.some.injEq] at h
           obtain ⟨e1, _, h2⟩ := h
           cases h2
           rfl))
    | (simp only [Option.bind_eq_bind, Option.bind_eq_some, Option.pure_def,
          Option.some.injEq] at h
       obtain ⟨e1, _, h2⟩ := h
       cases h2
       rfl)

theorem translateTransactionInt_sampler (E : Env) (l l' : TransactionLocals)
    (kDots k : String) (v : Value) (h : translateTransactionInt E l kDots k v = some l') :
    l'.samplerType = l.samplerType := by
  unfold translateTransactionInt at h
  dsimp only at h
  split at h
  all_goals first
    | (cases h; rfl)
    | (split at h <;> first
        | (cases h; done)
        | (cases h; rfl))

theorem translateTransactionAttribute_sampler (E : Env) (l l' : TransactionLocals)
    (kv : String × Value) (h : translateTransactionAttribute E false l kv = some l') :
    l'.samplerType = l.samplerType := by
  unfold translateTransactionAttribute at h
  dsimp only at h
  rw [if_neg (fun hc => Bool.noConfusion hc.1), if_neg (fun hc => Bool.noConfusion hc.1)] at h
  split at h
  all_goals first
    | (cases h; rfl)
    | exact translateTransactionInt_sampler _ _ _ _ _ _ h
    | exact translateTransactionStr_sampler _ _ _ _ _ _ h

theorem translateTransactionAttributes_sampler (E : Env) (attributes : Attributes)
    (l l' : TransactionLocals)
    (h : attributes.foldlM (translateTransactionAttribute E false) l = some l') :
    l'.samplerType = l.samplerType := by
  induction attributes generalizing l with
  | nil =>
    simp only [List.foldlM_nil, Option.pure_def, Option.some.injEq] at h
    cases h
    rfl
  | cons kv attributes ih =>
    simp only [List.foldlM_cons, Option.bind_eq_bind, Option.bind_eq_some] at h
    obtain ⟨l1, h1, h2⟩ := h
    rw [ih l1 h2, translateTransactionAttribute_sampler E l l1 kv h1]

theorem setRepresentativeCount_keeps (e : APMEvent) (count : F64) :
    Keeps e (setRepresentativeCount e count) := by
  cases e with
  | mk ts ev pr tr pid msg lb nl tx sp er ms ht ur sv ag ho cl so de se nw ua =>
    cases tx <;> cases sp <;> exact ⟨rfl, fun h => h, fun _ h => h⟩

theorem parseSamplerAttributes_keeps (E : Env) (samplerType : Value)
    (samplerParam : Option Value) (e e' : APMEvent)
    (h : parseSamplerAttributes E samplerType samplerParam e = some e') : Keeps e e' := by
  unfold parseSamplerAttributes at h
  split at h
  · split at h
    · cases h
    · dsimp only at h
      split at h
      · cases h
        exact setRepresentativeCount_keeps _ _
      · cases h
        exact Keeps.refl _
  · simp only [Option.bind_eq_bind, Option.bind_eq_some] at h
    obtain ⟨e1, h1, h2⟩ := h
    have k1 : Keeps e e1 :=
      (setRepresentativeCount_keeps e (F64.finite 0)).trans (labelsSet_keeps _ _ _ _ h1)
    split at h2
    · split at h2
      · cases h2
      · cases h2
        exact k1
    · exact k1.trans (labelsSet_keeps _ _ _ _ h2)
    · exact k1.trans (numericLabelsSet_keeps _ _ _ _ h2)
    · cases h2
      exact k1

theorem applySampler_keeps (E : Env) (samplerType samplerParam : Option Value)
    (e e' : APMEvent) (h : applySampler E samplerType samplerParam e = some e') :
    Keeps e e' := by
  unfold applySampler at h
  split at h
  · exact parseSamplerAttributes_keeps _ _ _ _ _ h
  · cases h
    exact Keeps.refl _

theorem setTransactionType_keeps (l : TransactionLocals) (e e' : APMEvent)
    (h : setTransactionType l e = some e') : Keeps e e' := by
  unfold setTransactionType at h
  split at h
  · rename_i tx hx
    split at h
    · cases h
      refine ⟨?_, fun hr => hr, fun _ hl => hl⟩
      simp only [APMEvent.core, hx, Option.map_some']
    · cases h
      exact Keeps.refl _
  · cases h

theorem setTransactionType_isSome (l : TransactionLocals) (e : APMEvent) (hr : TxReady e) :
    ∃ e', setTransactionType l e = some e' := by
  obtain ⟨tx, htx⟩ := Option.isSome_iff_exists.mp hr.2.1
  unfold setTransactionType
  rw [htx]
  dsimp only
  split <;> exact ⟨_, rfl⟩

theorem setTransactionHTTPStatus_keeps (l : TransactionLocals) (e e' : APMEvent)
    (h : setTransactionHTTPStatus l e = some e') : Keeps e e' := by
  unfold setTransactionHTTPStatus at h
  split at h
  · split at h
    · rename_i ev tx hev htx
      cases h
      refine ⟨?_, fun hr => hr, fun _ hl => hl⟩
      simp only [APMEvent.core, hev, htx, Option.map_some']
      split <;> split <;> rfl
    · cases h
  · cases h
    exact Keeps.refl _

theorem setTransactionHTTPStatus_isSome (l : TransactionLocals) (e : APMEvent)
    (hr : TxReady e) : ∃ e', setTransactionHTTPStatus l e = some e' := by
  obtain ⟨tx, htx⟩ := Option.isSome_iff_exists.mp hr.2.1
  obtain ⟨ev, hev⟩ := Option.isSome_iff_exists.mp hr.2.2.2
  unfold setTransactionHTTPStatus
  rw [htx, hev]
  dsimp only
  split <;> exact ⟨_, rfl⟩

theorem translateTransactionHTTP_keeps (E : Env) (l : TransactionLocals) (e e' : APMEvent)
    (h : translateTransactionHTTP E l e = some e') : Keeps e e' := by
  unfold translateTransactionHTTP at h
  simp only [Option.bind_eq_bind, Option.bind_eq_some, Option.pure_def,
    Option.some.injEq] at h
  obtain ⟨e1, h1, h2⟩ := h
  cases h2
  have k1 := setTransactionHTTPStatus_keeps _ _ _ h1
  have k0 : Keeps e (if l.http ≠ {} then { e with Http := some l.http } else e) := by
    split
    · exact ⟨rfl, fun hr => hr, fun _ hl => hl⟩
    · exact Keeps.refl _
  exact (k0.trans k1).trans ⟨rfl, fun hr => hr, fun _ hl => hl⟩

theorem translateTransactionHTTP_isSome (E : Env) (l : TransactionLocals) (e : APMEvent)
    (hr : TxReady e) : ∃ e', translateTransactionHTTP E l e = some e' := by
  have k0 : Keeps e (if l.http ≠ {} then { e with Http := some l.http } else e) := by
    split
    · exact ⟨rfl, fun hr => hr, fun _ hl => hl⟩
    · exact Keeps.refl _
  obtain ⟨e1, h1⟩ := setTransactionHTTPStatus_isSome l _ (k0.txReady hr)
  unfold translateTransactionHTTP
  simp only [Option.bind_eq_bind, Option.pure_def, h1, Option.some_bind]
  exact ⟨_, rfl⟩

theorem setTransactionMessage_keeps (l : TransactionLocals) (e e' : APMEvent)
    (h : setTransactionMessage l e = some e') : Keeps e e' := by
  unfold setTransactionMessage at h
  split at h
  · rename_i tx hx
    cases h
    refine ⟨?_, fun hr => hr, fun _ hl => hl⟩
    simp only [APMEvent.core, hx, Option.map_some']
  · cases h

theorem setTransactionMessage_isSome (l : TransactionLocals) (e : APMEvent)
    (hr : TxReady e) : ∃ e', setTransactionMessage l e = some e' := by
  obtain ⟨tx, htx⟩ := Option.isSome_iff_exists.mp hr.2.1
  unfold setTransactionMessage
  rw [htx]
  exact ⟨_, rfl⟩

theorem setClientFromSource_keeps (E : Env) (e : APMEvent) :
    Keeps e (setClientFromSource E e) := by
  unfold setClientFromSource
  split
  · split
    · exact Keeps.refl _
    · exact ⟨rfl, fun hr => hr, fun _ hl => hl⟩
  · exact Keeps.refl _

theorem setTransactionResult_keeps (spanStatus : ptrace.Status) (e e' : APMEvent)
    (h : setTransactionResult spanStatus e = some e') : Keeps e e' := by
  unfold setTransactionResult at h
  split at h
  · rename_i tx hx
    split at h
    · cases h
      refine ⟨?_, fun hr => hr, fun _ hl => hl⟩
      simp only [APMEvent.core, hx, Option.map_some']
    · cases h
      exact Keeps.refl _
  · cases h

theorem setTransactionResult_isSome (spanStatus : ptrace.Status) (e : APMEvent)
    (hr : TxReady e) : ∃ e', setTransactionResult spanStatus e = some e' := by
  obtain ⟨tx, htx⟩ := Option.isSome_iff_exists.mp hr.2.1
  unfold setTransactionResult
  rw [htx]
  dsimp only
  split <;> exact ⟨_, rfl⟩

theorem setFramework_keeps (library : InstrumentationScope) (e : APMEvent) :
    Keeps e (setFramework library e) := by
  unfold setFramework
  split
  · refine ⟨rfl, fun hr => hr, ?_⟩
    intro lang hl
    cases hs : e.Service with
    | none => rw [hs] at hl; cases hl
    | some sv =>
      rw [hs] at hl
      simp only [populateNil, hs, Option.getD_some, Option.map_some'] at hl ⊢
      exact hl
  · exact Keeps.refl _

theorem TranslateTransaction_keeps (E : Env) (attributes : Attributes)
    (spanStatus : ptrace.Status) (library : InstrumentationScope) (e e' : APMEvent)
    (h : TranslateTransaction E attributes spanStatus library e = some e') : Keeps e e' := by
  unfold TranslateTransaction at h
  simp only [Option.bind_eq_bind, Option.bind_eq_some, Option.pure_def,
    Option.some.injEq] at h
  obtain ⟨agent, _, l, h1, e2, h2, e3, h3, e4, h4, e5, h5, e6, h6, h7⟩ := h
  cases h7
  have k1 := translateTransactionAttributes_keeps E _ attributes _ l h1
  have k2 := setTransactionType_keeps _ _ _ h2
  have k3 : Keeps e2 e3 := by
    split at h3
    · exact translateTransactionHTTP_keeps _ _ _ _ h3
    · cases h3; exact Keeps.refl _
  have k4 : Keeps e3 e4 := by
    split at h4
    · exact setTransactionMessage_keeps _ _ _ h4
    · cases h4; exact Keeps.refl _
  have k5 := applySampler_keeps _ _ _ _ _ h5
  have k6 := setTransactionResult_keeps _ _ _ h6
  exact (((((k1.trans k2).trans k3).trans k4).trans (setClientFromSource_keeps E e4)).trans
    k5).trans (k6.trans (setFramework_keeps library e6))

theorem TranslateTransaction_isSome (E : Env) (attributes : Attributes)
    (spanStatus : ptrace.Status) (library : InstrumentationScope) (e : APMEvent)
    (agent : Agent) (ha : e.Agent = some agent) (hj : hasPrefix agent.Name "Jaeger" = false)
    (hr : TxReady e) :
    ∃ e', TranslateTransaction E attributes spanStatus library e = some e' := by
  obtain ⟨l, h1⟩ := translateTransactionAttributes_isSome E false attributes
    { event := e } hr
  have k1 := translateTransactionAttributes_keeps E _ attributes _ l h1
  have hs : l.samplerType = none := translateTransactionAttributes_sampler E attributes _ l h1
  obtain ⟨e2, h2⟩ := setTransactionType_isSome l l.event (k1.txReady hr)
  have k2 := (k1.trans (setTransactionType_keeps _ _ _ h2))
  obtain ⟨e3, h3⟩ : ∃ e3, (if l.isHTTP then translateTransactionHTTP E l e2 else some e2) =
      some e3 := by
    split
    · exact translateTransactionHTTP_isSome E l e2 (k2.txReady hr)
    · exact ⟨_, rfl⟩
  have k3 : Keeps e e3 := by
    split at h3
    · exact k2.trans (translateTransactionHTTP_keeps _ _ _ _ h3)
    · cases h3; exact k2
  obtain ⟨e4, h4⟩ : ∃ e4, (if l.isMessaging then setTransactionMessage l e3 else some e3) =
      some e4 := by
    split
    · exact setTransactionMessage_isSome l e3 (k3.txReady hr)
    · exact ⟨_, rfl⟩
  have k4 : Keeps e e4 := by
    split at h4
    · exact k3.trans (setTransactionMessage_keeps _ _ _ h4)
    · cases h4; exact k3
  have k5 := k4.trans (setClientFromSource_keeps E e4)
  obtain ⟨e6, h6⟩ := setTransactionResult_isSome spanStatus _ (k5.txReady hr)
  refine ⟨setFramework library e6, ?_⟩
  unfold TranslateTransaction
  simp only [ha, hj, Option.bind_eq_bind, Option.some_bind, h1, h2, h3, h4, hs, applySampler,
    h6, Option.pure_def]

theorem translateSpanStr_keeps (l l' : SpanLocals) (kDots k stringval raw : String)
    (h : translateSpanStr l kDots k stringval raw = some l') : Keeps l.event l'.event := by
  unfold translateSpanStr at h
  dsimp only at h
  split at h
  all_goals first
    | (cases h; exact Keeps.refl _)
    | (simp only [Option.bind_eq_bind, Option.bind_eq_some, Option.pure_def,
          Option.some.injEq] at h
       obtain ⟨e1, h1, h2⟩ := h
       cases h2
       exact labelsSet_keeps _ _ _ _ h1)

theorem translateSpanStr_sampler (l l' : SpanLocals) (kDots k stringval raw : String)
    (h : translateSpanStr l kDots k stringval raw = some l') :
    l'.samplerType = l.samplerType := by
  unfold translateSpanStr at h
  dsimp only at h
  split at h
  all_goals first
    | (cases h; rfl)
    | (simp only [Option.bind_eq_bind, Option.bind_eq_some, Option.pure_def,
          Option.some.injEq] at h
       obtain ⟨e1, _, h2⟩ := h
       cases h2
       rfl)

theorem translateSpanStr_isSome (l : SpanLocals) (kDots k stringval raw : String)
    (hr : LabelsReady l.event) : ∃ l', translateSpanStr l kDots k stringval raw = some l' := by
  obtain ⟨e1, h1⟩ := labelsSet_isSome l.event k stringval hr
  unfold translateSpanStr
  dsimp only
  split
  all_goals first
    | exact ⟨_, rfl⟩
    | (rw [h1]; exact ⟨_, rfl⟩)

theorem translateSpanInt_keeps (E : Env) (l : SpanLocals) (kDots k : String) (i : Int) :
    Keeps l.event (translateSpanInt E l kDots k i).event ∧
      (translateSpanInt E l kDots k i).samplerType = l.samplerType := by
  unfold translateSpanInt
  split
  all_goals first
    | exact ⟨Keeps.refl _, rfl⟩
    | exact ⟨setLabel_keeps _ _ _ _, rfl⟩

theorem translateSpanAttribute_keeps (E : Env) (isJaeger : Bool) (l l' : SpanLocals)
    (kv : String × Value) (h : translateSpanAttribute E isJaeger l kv = some l') :
    Keeps l.event l'.event := by
  unfold translateSpanAttribute at h
  dsimp only at h
  split at h
  · cases h; exact Keeps.refl _
  · split at h
    · cases h; exact Keeps.refl _
    · split at h
      all_goals first
        | (cases h; exact Keeps.refl _)
        | (cases h; exact setLabel_keeps _ _ _ _)
        | (cases h; exact (translateSpanInt_keeps _ _ _ _ _).1)
        | exact translateSpanStr_keeps _ _ _ _ _ _ h
        | (cases h
           split
           · exact setLabel_keeps _ _ _ _
           · exact setLabel_keeps _ _ _ _)

theorem translateSpanAttribute_sampler (E : Env) (l l' : SpanLocals)
    (kv : String × Value) (h : translateSpanAttribute E false l kv = some l') :
    l'.samplerType = l.samplerType := by
  unfold translateSpanAttribute at h
  dsimp only at h
  rw [if_neg (fun hc => Bool.noConfusion hc.1), if_neg (fun hc => Bool.noConfusion hc.1)] at h
  split at h
  all_goals first
    | (cases h; rfl)
    | (cases h; exact (translateSpanInt_keeps _ _ _ _ _).2)
    | exact translateSpanStr_sampler _ _ _ _ _ _ h
    | (cases h
       split <;> rfl)

theorem translateSpanAttribute_isSome (E : Env) (isJaeger : Bool) (l : SpanLocals)
    (kv : String × Value) (hr : LabelsReady l.event) :
    ∃ l', translateSpanAttribute E isJaeger l kv = some l' := by
  unfold translateSpanAttribute
  dsimp only
  split
  · exact ⟨_, rfl⟩
  · split
    · exact ⟨_, rfl⟩
    · split
      all_goals first
        | exact ⟨_, rfl⟩
        | exact translateSpanStr_isSome _ _ _ _ _ hr

theorem translateSpanAttributes_keeps (E : Env) (isJaeger : Bool) (attributes : Attributes)
    (l l' : SpanLocals) (h : attributes.foldlM (translateSpanAttribute E isJaeger) l = some l') :
    Keeps l.event l'.event := by
  induction attributes generalizing l with
  | nil =>
    simp only [List.foldlM_nil, Option.pure_def, Option.some.injEq] at h
    cases h
    exact Keeps.refl _
  | cons kv attributes ih =>
    simp only [List.foldlM_cons, Option.bind_eq_bind, Option.bind_eq_some] at h
    obtain ⟨l1, h1, h2⟩ := h
    exact (translateSpanAttribute_keeps E isJaeger l l1 kv h1).trans (ih l1 h2)

theorem translateSpanAttributes_sampler (E : Env) (attributes : Attributes)
    (l l' : SpanLocals) (h : attributes.foldlM (translateSpanAttribute E false) l = some l') :
    l'.samplerType = l.samplerType := by
  induction attributes generalizing l with
  | nil =>
    simp only [List.foldlM_nil, Option.pure_def, Option.some.injEq] at h
    cases h
    rfl
  | cons kv attributes ih =>
    simp only [List.foldlM_cons, Option.bind_eq_bind, Option.bind_eq_some] at h
    obtain ⟨l1, h1, h2⟩ := h
    rw [ih l1 h2, translateSpanAttribute_sampler E l l1 kv h1]

theorem translateSpanAttributes_isSome (E : Env) (isJaeger : Bool) (attributes : Attributes)
    (l : SpanLocals) (hr : LabelsReady l.event) :
    ∃ l', attributes.foldlM (translateSpanAttribute E isJaeger) l = some l' := by
  induction attributes generalizing l with
  | nil => exact ⟨l, rfl⟩
  | cons kv attributes ih =>
    obtain ⟨l1, h1⟩ := translateSpanAttribute_isSome E isJaeger l kv hr
    obtain ⟨l2, h2⟩ := ih l1 ((translateSpanAttribute_keeps E isJaeger l l1 kv h1).2.1 hr)
    exact ⟨l2, by simp only [List.foldlM_cons, h1, Option.bind_eq_bind, Option.some_bind, h2]⟩

theorem setSpanHTTPOutcome_keeps (l : SpanLocals) (e e' : APMEvent)
    (h : setSpanHTTPOutcome l e = some e') : Keeps e e' := by
  unfold setSpanHTTPOutcome at h
  split at h
  · split at h
    · rename_i ev hev
      split at h
      · cases h
        refine ⟨?_, fun hr => hr, fun _ hl => hl⟩
        simp only [APMEvent.core, hev, Option.map_some']
      · cases h
        exact Keeps.refl _
    · cases h
  · cases h
    exact Keeps.refl _

theorem setSpanHTTPOutcome_isSome (l : SpanLocals) (e : APMEvent) (hr : SpanReady e) :
    ∃ e', setSpanHTTPOutcome l e = some e' := by
  obtain ⟨ev, hev⟩ := Option.isSome_iff_exists.mp hr.2.2.2
  unfold setSpanHTTPOutcome
  rw [hev]
  dsimp only
  split
  · split <;> exact ⟨_, rfl⟩
  · exact ⟨_, rfl⟩

theorem translateSpanHTTP_keeps (l : SpanLocals) (httpURL : String) (e e' : APMEvent)
    (h : translateSpanHTTP l httpURL e = some e') : Keeps e e' := by
  unfold translateSpanHTTP at h
  simp only [Option.bind_eq_bind, Option.bind_eq_some, Option.pure_def,
    Option.some.injEq] at h
  obtain ⟨e1, h1, h2⟩ := h
  cases h2
  refine (setSpanHTTPOutcome_keeps _ _ _ h1).trans ?_
  split
  · exact ⟨rfl, fun hr => hr, fun _ hl => hl⟩
  · exact ⟨rfl, fun hr => hr, fun _ hl => hl⟩

theorem translateSpanHTTP_isSome (l : SpanLocals) (httpURL : String) (e : APMEvent)
    (hr : SpanReady e) : ∃ e', translateSpanHTTP l httpURL e = some e' := by
  obtain ⟨e1, h1⟩ := setSpanHTTPOutcome_isSome l e hr
  unfold translateSpanHTTP
  simp only [Option.bind_eq_bind, Option.pure_def, h1, Option.some_bind]
  exact ⟨_, rfl⟩

theorem classifySpan_span (E : Env) (spanKind : ptrace.SpanKind) (l : SpanLocals)
    (d : SpanDestination) (c : SpanClassification) :
    (classifySpan E spanKind l d c).span.Id = c.span.Id ∧
      (classifySpan E spanKind l d c).span.Name = c.span.Name ∧
      (classifySpan E spanKind l d c).span.Links = c.span.Links := by
  unfold classifySpan
  dsimp only
  repeat' split
  all_goals exact ⟨rfl, rfl, rfl⟩

theorem initialClassification_span (l : SpanLocals) (span : Span) :
    (initialClassification l span).span.Id = span.Id ∧
      (initialClassification l span).span.Name = span.Name ∧
      (initialClassification l span).span.Links = span.Links := by
  unfold initialClassification
  dsimp only
  split <;> split <;> exact ⟨rfl, rfl, rfl⟩

theorem spanWithDestinationService_span (c : SpanClassification) :
    (spanWithDestinationService c).Id = c.span.Id ∧
      (spanWithDestinationService c).Name = c.span.Name ∧
      (spanWithDestinationService c).Links = c.span.Links := by
  unfold spanWithDestinationService
  split
  · exact ⟨rfl, rfl, rfl⟩
  · exact ⟨rfl, rfl, rfl⟩

theorem setServiceTarget_keeps (serviceTarget : ServiceTarget) (e e' : APMEvent)
    (h : setServiceTarget serviceTarget e = some e') : Keeps e e' := by
  unfold setServiceTarget at h
  split at h
  · split at h
    · rename_i sv hsv
      cases h
      refine ⟨rfl, fun hr => hr, ?_⟩
      intro lang hl
      simp only [hsv, Option.map_some'] at hl ⊢
      exact hl
    · cases h
  · cases h
    exact Keeps.refl _

theorem setServiceTarget_isSome (serviceTarget : ServiceTarget) (e : APMEvent)
    (hs : e.Service.isSome = true) : ∃ e', setServiceTarget serviceTarget e = some e' := by
  obtain ⟨sv, hsv⟩ := Option.isSome_iff_exists.mp hs
  unfold setServiceTarget
  rw [hsv]
  dsimp only
  split <;> exact ⟨_, rfl⟩

theorem finishSpan_keeps (E : Env) (spanKind : ptrace.SpanKind) (l : SpanLocals)
    (e' : APMEvent) (h : finishSpan E spanKind l = some e') : Keeps l.event e' := by
  unfold finishSpan at h
  simp only [Option.bind_eq_bind, Option.bind_eq_some] at h
  obtain ⟨e1, h1, sp, hsp, h3⟩ := h
  have k1 : Keeps l.event e1 := by
    split at h1
    · exact translateSpanHTTP_keeps _ _ _ _ h1
    · cases h1
      exact Keeps.refl _
  refine k1.trans (Keeps.trans ?_ (setServiceTarget_keeps _ _ _ h3))
  obtain ⟨c1, c2, c3⟩ := classifySpan_span E spanKind l (spanDestination E l)
    (initialClassification l sp)
  obtain ⟨i1, i2, i3⟩ := initialClassification_span l sp
  obtain ⟨d1, d2, d3⟩ := spanWithDestinationService_span
    (classifySpan E spanKind l (spanDestination E l) (initialClassification l sp))
  refine ⟨?_, ?_, ?_⟩
  · simp only [APMEvent.core, hsp, Option.map_some']
    rw [d1, d2, d3, c1, c2, c3, i1, i2, i3]
    split <;> rfl
  · intro hr
    split <;> exact hr
  · intro lang hl
    split <;> exact hl

theorem finishSpan_isSome (E : Env) (spanKind : ptrace.SpanKind) (l : SpanLocals)
    (hr : SpanReady l.event) : ∃ e', finishSpan E spanKind l = some e' := by
  obtain ⟨e1, h1⟩ : ∃ e1, (if l.isHTTP then
      translateSpanHTTP l (spanDestination E l).httpURL l.event else some l.event) =
      some e1 := by
    split
    · exact translateSpanHTTP_isSome _ _ _ hr
    · exact ⟨_, rfl⟩
  have k1 : Keeps l.event e1 := by
    split at h1
    · exact translateSpanHTTP_keeps _ _ _ _ h1
    · cases h1
      exact Keeps.refl _
  have hr1 := k1.spanReady hr
  obtain ⟨sp, hsp⟩ := Option.isSome_iff_exists.mp hr1.2.1
  unfold finishSpan
  simp only [Option.bind_eq_bind, h1, Option.some_bind, hsp]
  apply setServiceTarget_isSome
  split <;> exact hr1.2.2.1

theorem TranslateSpan_keeps (E : Env) (spanKind : ptrace.SpanKind) (attributes : Attributes)
    (e e' : APMEvent) (h : TranslateSpan E spanKind attributes e = some e') : Keeps e e' := by
  unfold TranslateSpan at h
  simp only [Option.bind_eq_bind, Option.bind_eq_some] at h
  obtain ⟨l, h1, e2, h2, h3⟩ := h
  exact ((translateSpanAttributes_keeps E _ attributes _ l h1).trans
    (finishSpan_keeps E spanKind l e2 h2)).trans (applySampler_keeps _ _ _ _ _ h3)

theorem TranslateSpan_isSome (E : Env) (spanKind : ptrace.SpanKind) (attributes : Attributes)
    (e : APMEvent) (agent : Agent) (ha : e.Agent = some agent)
    (hj : hasPrefix agent.Name "Jaeger" = false) (hr : SpanReady e) :
    ∃ e', TranslateSpan E spanKind attributes e = some e' := by
  obtain ⟨l, h1⟩ := translateSpanAttributes_isSome E false attributes { event := e } hr.1
  have k1 := translateSpanAttributes_keeps E _ attributes _ l h1
  have hs : l.samplerType = none := translateSpanAttributes_sampler E attributes _ l h1
  obtain ⟨e2, h2⟩ := finishSpan_isSome E spanKind l (k1.spanReady hr)
  refine ⟨e2, ?_⟩
  unfold TranslateSpan
  simp only [ha, Option.map_some', Option.getD_some, hj, Option.bind_eq_bind, h1,
    Option.some_bind, h2, hs, applySampler]

/-! ### The primary event of a span -/

theorem translateSpanOrTransaction_tx (E : Env) (otelSpan : ptrace.Span)
    (otelLibrary : InstrumentationScope) (e e' : APMEvent)
    (hk : isTransactionSpan otelSpan = true)
    (h : translateSpanOrTransaction E otelSpan otelLibrary e = some e') :
    Keeps { e with Processor := some Processor.transaction,
                   Transaction := some { Id := hexSpanID otelSpan.SpanID, Name := otelSpan.Name,
                                         Sampled := true,
                                         RepresentativeCount :=
                                           getRepresentativeCountFromTracestateHeader
                                             otelSpan.TraceState } } e' := by
  unfold translateSpanOrTransaction at h
  dsimp only at h
  have hc : otelSpan.ParentSpanID.IsEmpty = true ∨ otelSpan.Kind = ptrace.SpanKind.Server ∨
      otelSpan.Kind = ptrace.SpanKind.Consumer := by
    unfold isTransactionSpan at hk
    simp only [Bool.or_eq_true, decide_eq_true_eq] at hk
    tauto
  rw [if_pos hc] at h
  exact TranslateTransaction_keeps _ _ _ _ _ _ h

theorem translateSpanOrTransaction_span (E : Env) (otelSpan : ptrace.Span)
    (otelLibrary : InstrumentationScope) (e e' : APMEvent)
    (hk : isTransactionSpan otelSpan = false)
    (h : translateSpanOrTransaction E otelSpan otelLibrary e = some e') :
    Keeps { e with Processor := some Processor.span,
                   Span := some { Id := hexSpanID otelSpan.SpanID, Name := otelSpan.Name,
                                  RepresentativeCount :=
                                    getRepresentativeCountFromTracestateHeader
                                      otelSpan.TraceState } } e' := by
  unfold translateSpanOrTransaction at h
  dsimp only at h
  have hc : ¬ (otelSpan.ParentSpanID.IsEmpty = true ∨ otelSpan.Kind = ptrace.SpanKind.Server ∨
      otelSpan.Kind = ptrace.SpanKind.Consumer) := by
    unfold isTransactionSpan at hk
    simp only [Bool.or_eq_false_iff, decide_eq_false_iff_not] at hk
    rintro (h1 | h2 | h3)
    · rw [hk.1.1] at h1
      cases h1
    · exact hk.1.2 h2
    · exact hk.2 h3
  rw [if_neg hc] at h
  exact TranslateSpan_keeps _ _ _ _ _ h

theorem convertSpanPrimary_eq (E : Env) (otelSpan : ptrace.Span)
    (otelLibrary : InstrumentationScope) (baseEvent : APMEvent) (timeDelta : Int)
    (event : APMEvent)
    (h : convertSpanPrimary E otelSpan otelLibrary baseEvent timeDelta = some event) :
    ∃ e1, translateSpanOrTransaction E otelSpan otelLibrary
        (spanEnvelope otelSpan baseEvent timeDelta) = some e1 ∧
      event = { translateSpanLinks e1 otelSpan.Links with
                Labels := nilIfEmpty (translateSpanLinks e1 otelSpan.Links).Labels,
                NumericLabels :=
                  nilIfEmpty (translateSpanLinks e1 otelSpan.Links).NumericLabels } := by
  unfold convertSpanPrimary at h
  simp only [Option.bind_eq_bind, Option.bind_eq_some, Option.pure_def,
    Option.some.injEq] at h
  obtain ⟨e1, h1, h2⟩ := h
  exact ⟨e1, h1, h2.symm⟩

theorem translateSpanLinks_core (e : APMEvent) (links : List ptrace.SpanLink) :
    (translateSpanLinks e links).Timestamp = e.Timestamp ∧
    (translateSpanLinks e links).Processor = e.Processor ∧
    (translateSpanLinks e links).Trace = e.Trace ∧
    (translateSpanLinks e links).Agent = e.Agent ∧
    (translateSpanLinks e links).Transaction = e.Transaction ∧
    (translateSpanLinks e links).Service = e.Service ∧
    (translateSpanLinks e links).Error = e.Error ∧
    (∀ sp, e.Span = some sp → ∃ sp', (translateSpanLinks e links).Span = some sp' ∧
      sp'.Id = sp.Id ∧ sp'.Name = sp.Name) := by
  unfold translateSpanLinks
  split
  · exact ⟨rfl, rfl, rfl, rfl, rfl, rfl, rfl, fun sp h => ⟨sp, h, rfl, rfl⟩⟩
  · refine ⟨rfl, rfl, rfl, rfl, rfl, rfl, rfl, fun sp h => ⟨_, rfl, ?_, ?_⟩⟩
    · simp only [populateNil, h, Option.getD_some]
    · simp only [populateNil, h, Option.getD_some]

theorem convertSpanPrimary_spec (E : Env) (otelSpan : ptrace.Span)
    (otelLibrary : InstrumentationScope) (baseEvent : APMEvent) (timeDelta : Int)
    (event : APMEvent)
    (h : convertSpanPrimary E otelSpan otelLibrary baseEvent timeDelta = some event) :
    event.Timestamp = some (timeAdd (asTime otelSpan.StartTimestamp) timeDelta) ∧
    event.Trace = (if hexTraceID otelSpan.TraceID ≠ "" then
                     some { Id := hexTraceID otelSpan.TraceID } else baseEvent.Trace) ∧
    event.Agent = baseEvent.Agent ∧
    (isTransactionSpan otelSpan = true →
      event.Processor = some Processor.transaction ∧
      ∃ tx, event.Transaction = some tx ∧ tx.Id = hexSpanID otelSpan.SpanID ∧
        tx.Sampled = true ∧ tx.Name = otelSpan.Name) ∧
    (isTransactionSpan otelSpan = false →
      event.Processor = some Processor.span ∧
      ∃ sp, event.Span = some sp ∧ sp.Id = hexSpanID otelSpan.SpanID ∧
        sp.Name = otelSpan.Name) := by
  obtain ⟨e1, h1, hev⟩ :=
    convertSpanPrimary_eq E otelSpan otelLibrary baseEvent timeDelta event h
  have ht : (spanEnvelope otelSpan baseEvent timeDelta).Timestamp =
      some (timeAdd (asTime otelSpan.StartTimestamp) timeDelta) := rfl
  have htr : (spanEnvelope otelSpan baseEvent timeDelta).Trace =
      (if hexTraceID otelSpan.TraceID ≠ "" then
        some { Id := hexTraceID otelSpan.TraceID } else baseEvent.Trace) := rfl
  have hag : (spanEnvelope otelSpan baseEvent timeDelta).Agent = baseEvent.Agent := rfl
  obtain ⟨l1, l2, l3, l4, l5, l6, l7, l8⟩ := translateSpanLinks_core e1 otelSpan.Links
  have hcore : isTransactionSpan otelSpan = true ∨ isTransactionSpan otelSpan = false := by
    cases isTransactionSpan otelSpan
    · exact Or.inr rfl
    · exact Or.inl rfl
  rcases hcore with hk | hk
  · have k := translateSpanOrTransaction_tx E otelSpan otelLibrary _ e1 hk h1
    have kc := k.1
    have c1 := congrArg EventCore.Timestamp kc
    have c2 := congrArg EventCore.Trace kc
    have c3 := congrArg EventCore.Agent kc
    have c4 := congrArg EventCore.Processor kc
    have c5 := congrArg EventCore.Transaction kc
    simp only [APMEvent.core, Option.map_some'] at c1 c2 c3 c4 c5
    rw [hev]
    refine ⟨?_, ?_, ?_, ?_, ?_⟩
    · show (translateSpanLinks e1 otelSpan.Links).Timestamp = _
      rw [l1, c1, ht]
    · show (translateSpanLinks e1 otelSpan.Links).Trace = _
      rw [l3, c2, htr]
    · show (translateSpanLinks e1 otelSpan.Links).Agent = _
      rw [l4, c3, hag]
    · intro _
      refine ⟨?_, ?_⟩
      · show (translateSpanLinks e1 otelSpan.Links).Processor = _
        rw [l2, c4]
      · show ∃ tx, (translateSpanLinks e1 otelSpan.Links).Transaction = some tx ∧ _
        rw [l5]
        cases htx : e1.Transaction with
        | none => rw [htx] at c5; cases c5
        | some tx =>
          rw [htx] at c5
          simp only [Option.map_some', Option.some.injEq, Prod.mk.injEq] at c5
          exact ⟨tx, rfl, c5.1, c5.2.2.1, c5.2.1⟩
    · intro hf
      rw [hk] at hf
      cases hf
  · have k := translateSpanOrTransaction_span E otelSpan otelLibrary _ e1 hk h1
    have kc := k.1
    have c1 := congrArg EventCore.Timestamp kc
    have c2 := congrArg EventCore.Trace kc
    have c3 := congrArg EventCore.Agent kc
    have c4 := congrArg EventCore.Processor kc
    have c5 := congrArg EventCore.Span kc
    simp only [APMEvent.core, Option.map_some'] at c1 c2 c3 c4 c5
    rw [hev]
    refine ⟨?_, ?_, ?_, ?_, ?_⟩
    · show (translateSpanLinks e1 otelSpan.Links).Timestamp = _
      rw [l1, c1, ht]
    · show (translateSpanLinks e1 otelSpan.Links).Trace = _
      rw [l3, c2, htr]
    · show (translateSpanLinks e1 otelSpan.Links).Agent = _
      rw [l4, c3, hag]
    · intro hf
      rw [hk] at hf
      cases hf
    · intro _
      refine ⟨?_, ?_⟩
      · show (translateSpanLinks e1 otelSpan.Links).Processor = _
        rw [l2, c4]
      · show ∃ sp, (translateSpanLinks e1 otelSpan.Links).Span = some sp ∧ _
        cases hsp : e1.Span with
        | none => rw [hsp] at c5; cases c5
        | some sp =>
          rw [hsp] at c5
          simp only [Option.map_some', Option.some.injEq, Prod.mk.injEq] at c5
          obtain ⟨sp', hs1, hs2, hs3⟩ := l8 sp hsp
          exact ⟨sp', hs1, hs2.trans c5.1, hs3.trans c5.2.1⟩

/-! ### Span events -/

theorem jaegerErrorAttribute_Timestamp (E : Env) (l : JaegerLocals) (kv : String × Value) :
    (jaegerErrorAttribute E l kv).apmEvent.Timestamp = l.apmEvent.Timestamp := by
  unfold jaegerErrorAttribute
  split
  · dsimp only
    split <;> rfl
  · rfl

theorem jaegerErrorAttributes_Timestamp (E : Env) (attrs : Attributes) (l : JaegerLocals) :
    (attrs.foldl (jaegerErrorAttribute E) l).apmEvent.Timestamp = l.apmEvent.Timestamp := by
  induction attrs generalizing l with
  | nil => rfl
  | cons kv attrs ih => rw [List.foldl_cons, ih, jaegerErrorAttribute_Timestamp]

theorem convertJaegerErrorSpanEvent_Timestamp (E : Env) (event : ptrace.SpanEvent)
    (apmEvent : APMEvent) :
    (convertJaegerErrorSpanEvent E event apmEvent).2.Timestamp = apmEvent.Timestamp := by
  unfold convertJaegerErrorSpanEvent
  dsimp only
  rw [jaegerErrorAttributes_Timestamp]
  split <;> rfl

theorem exceptionAttribute_Timestamp (E : Env) (l : ExceptionLocals) (kv : String × Value) :
    (exceptionAttribute E l kv).event.Timestamp = l.event.Timestamp := by
  unfold exceptionAttribute
  split <;> rfl

theorem exceptionAttributes_Timestamp (E : Env) (attrs : Attributes) (l : ExceptionLocals) :
    (attrs.foldl (exceptionAttribute E) l).event.Timestamp = l.event.Timestamp := by
  induction attrs generalizing l with
  | nil => rfl
  | cons kv attrs ih => rw [List.foldl_cons, ih, exceptionAttribute_Timestamp]

theorem convertExceptionSpanEvent_Timestamp (E : Env) (spanEvent : ptrace.SpanEvent)
    (parent event e' : APMEvent)
    (h : convertExceptionSpanEvent E spanEvent parent event = some e') :
    e'.Timestamp = event.Timestamp := by
  unfold convertExceptionSpanEvent at h
  dsimp only at h
  have ht := exceptionAttributes_Timestamp E spanEvent.Attributes { event := event }
  split at h
  · split at h
    · split at h
      · cases h
        exact ht
      · cases h
    · cases h
  · cases h
    exact ht

theorem spanEventError_Timestamp (E : Env) (isJaeger : Bool) (spanEvent : ptrace.SpanEvent)
    (parent event e' : APMEvent)
    (h : spanEventError E isJaeger spanEvent parent event = some e') :
    e'.Timestamp = event.Timestamp := by
  unfold spanEventError at h
  split at h
  · cases h
    exact convertJaegerErrorSpanEvent_Timestamp E spanEvent event
  · split at h
    · exact convertExceptionSpanEvent_Timestamp _ _ _ _ _ h
    · cases h
      rfl

theorem setErrorContext_Timestamp (out : APMEvent) (error : Error) (parent e' : APMEvent)
    (h : setErrorContext out error parent = some e') : e'.Timestamp = out.Timestamp := by
  unfold setErrorContext at h
  split at h
  · dsimp only at h
    split at h
    · cases h
      split <;> rfl
    · cases h
      split <;> rfl
  · cases h

theorem setLogContext_Timestamp (out parent : APMEvent) :
    (setLogContext out parent).Timestamp = out.Timestamp := by
  unfold setLogContext
  dsimp only
  split <;> split <;> rfl

theorem logAttribute_Timestamp (E : Env) (isJaeger : Bool) (event : APMEvent)
    (kv : String × Value) :
    (logAttribute E isJaeger event kv).Timestamp = event.Timestamp := by
  unfold logAttribute
  dsimp only
  split <;> rfl

theorem logAttributes_Timestamp (E : Env) (isJaeger : Bool) (attrs : Attributes)
    (event : APMEvent) :
    (attrs.foldl (logAttribute E isJaeger) event).Timestamp = event.Timestamp := by
  induction attrs generalizing event with
  | nil => rfl
  | cons kv attrs ih => rw [List.foldl_cons, ih, logAttribute_Timestamp]

theorem convertSpanEvent_Timestamp (E : Env) (spanEvent : ptrace.SpanEvent)
    (parent : APMEvent) (timeDelta : Int) (event : APMEvent)
    (h : convertSpanEvent E spanEvent parent timeDelta = some event) :
    event.Timestamp = some (timeAdd (asTime spanEvent.Timestamp) timeDelta) := by
  unfold convertSpanEvent at h
  simp only [Option.bind_eq_bind, Option.bind_eq_some] at h
  obtain ⟨agent, _, e1, h1, h2⟩ := h
  have t1 := spanEventError_Timestamp _ _ _ _ _ _ h1
  split at h2
  · rw [setErrorContext_Timestamp _ _ _ _ h2]
    exact t1
  · cases h2
    rw [logAttributes_Timestamp, setLogContext_Timestamp]
    exact t1

/-! ### The events of a span, a scope, a resource -/

theorem appendSpanEvents_eq (E : Env) (parent : APMEvent) (timeDelta : Int)
    (events : List ptrace.SpanEvent) (out out' : Batch)
    (h : events.foldlM (appendSpanEvent E parent timeDelta) out = some out') :
    ∃ evs, out' = out ++ evs ∧
      List.Forall₂ (fun se ev => convertSpanEvent E se parent timeDelta = some ev)
        events evs := by
  induction events generalizing out with
  | nil =>
    simp only [List.foldlM_nil, Option.pure_def, Option.some.injEq] at h
    exact ⟨[], by rw [← h, List.append_nil], List.Forall₂.nil⟩
  | cons se events ih =>
    simp only [List.foldlM_cons, Option.bind_eq_bind, Option.bind_eq_some] at h
    obtain ⟨out1, h1, h2⟩ := h
    unfold appendSpanEvent at h1
    simp only [Option.bind_eq_bind, Option.bind_eq_some, Option.pure_def,
      Option.some.injEq] at h1
    obtain ⟨ev, hev, ho⟩ := h1
    obtain ⟨evs, he, hf⟩ := ih out1 h2
    refine ⟨ev :: evs, ?_, List.Forall₂.cons hev hf⟩
    rw [he, ← ho, List.append_assoc]
    rfl

theorem convertSpan_eq (E : Env) (otelSpan : ptrace.Span) (otelLibrary : InstrumentationScope)
    (baseEvent : APMEvent) (timeDelta : Int) (out out' : Batch)
    (h : convertSpan E otelSpan otelLibrary baseEvent timeDelta out = some out') :
    ∃ primary parent evs,
      convertSpanPrimary E otelSpan otelLibrary baseEvent timeDelta = some primary ∧
      spanEventParent baseEvent primary = some parent ∧
      out' = out ++ primary :: evs ∧
      List.Forall₂ (fun se ev => convertSpanEvent E se parent timeDelta = some ev)
        otelSpan.Events evs := by
  unfold convertSpan at h
  simp only [Option.bind_eq_bind, Option.bind_eq_some] at h
  obtain ⟨primary, h1, parent, h2, h3⟩ := h
  obtain ⟨evs, he, hf⟩ := appendSpanEvents_eq E parent timeDelta otelSpan.Events _ out' h3
  refine ⟨primary, parent, evs, h1, h2, ?_, hf⟩
  rw [he, List.append_assoc]
  rfl

theorem foldlM_length {α : Type} (f : Batch → α → Option Batch) (n : α → Nat)
    (hf : ∀ out a out', f out a = some out' → out'.length = out.length + n a)
    (l : List α) (out out' : Batch) (h : l.foldlM f out = some out') :
    out'.length = out.length + (l.map n).sum := by
  induction l generalizing out with
  | nil =>
    simp only [List.foldlM_nil, Option.pure_def, Option.some.injEq] at h
    rw [← h]
    simp
  | cons a l ih =>
    simp only [List.foldlM_cons, Option.bind_eq_bind, Option.bind_eq_some] at h
    obtain ⟨out1, h1, h2⟩ := h
    rw [ih out1 h2, hf out a out1 h1, List.map_cons, List.sum_cons]
    omega

theorem convertSpan_length (E : Env) (otelSpan : ptrace.Span)
    (otelLibrary : InstrumentationScope) (baseEvent : APMEvent) (timeDelta : Int)
    (out out' : Batch)
    (h : convertSpan E otelSpan otelLibrary baseEvent timeDelta out = some out') :
    out'.length = out.length + (1 + otelSpan.Events.length) := by
  obtain ⟨primary, parent, evs, _, _, he, hf⟩ := convertSpan_eq _ _ _ _ _ _ _ h
  have hl := hf.length_eq
  rw [he, List.length_append, List.length_cons]
  omega

/-! ### Totality of the span translation on well-formed base events -/

theorem spanEnvelope_ready (otelSpan : ptrace.Span) (baseEvent : APMEvent) (timeDelta : Int) :
    LabelsReady (spanEnvelope otelSpan baseEvent timeDelta) ∧
      (spanEnvelope otelSpan baseEvent timeDelta).Event.isSome = true ∧
      (spanEnvelope otelSpan baseEvent timeDelta).Service = baseEvent.Service ∧
      (spanEnvelope otelSpan baseEvent timeDelta).Agent = baseEvent.Agent :=
  ⟨⟨rfl, rfl⟩, rfl, rfl, rfl⟩

theorem translateSpanOrTransaction_isSome (E : Env) (otelSpan : ptrace.Span)
    (otelLibrary : InstrumentationScope) (e : APMEvent) (agent : Agent)
    (ha : e.Agent = some agent) (hj : hasPrefix agent.Name "Jaeger" = false)
    (hl : LabelsReady e) (hs : e.Service.isSome = true) (he : e.Event.isSome = true) :
    ∃ e', translateSpanOrTransaction E otelSpan otelLibrary e = some e' := by
  unfold translateSpanOrTransaction
  dsimp only
  split
  · exact TranslateTransaction_isSome E _ _ _ _ agent ha hj ⟨hl, rfl, hs, he⟩
  · exact TranslateSpan_isSome E _ _ _ agent ha hj ⟨hl, rfl, hs, he⟩

theorem translateSpanOrTransaction_keeps (E : Env) (otelSpan : ptrace.Span)
    (otelLibrary : InstrumentationScope) (e e' : APMEvent)
    (h : translateSpanOrTransaction E otelSpan otelLibrary e = some e') :
    e'.Agent = e.Agent ∧ e'.Trace = e.Trace ∧
      (∀ lang, e.Service.map (fun s => s.Language) = some lang →
        e'.Service.map (fun s => s.Language) = some lang) := by
  unfold translateSpanOrTransaction at h
  dsimp only at h
  split at h
  · have k := TranslateTransaction_keeps _ _ _ _ _ _ h
    exact ⟨congrArg EventCore.Agent k.1, congrArg EventCore.Trace k.1, k.2.2⟩
  · have k := TranslateSpan_keeps _ _ _ _ _ h
    exact ⟨congrArg EventCore.Agent k.1, congrArg EventCore.Trace k.1, k.2.2⟩

theorem convertSpanPrimary_isSome (E : Env) (otelSpan : ptrace.Span)
    (otelLibrary : InstrumentationScope) (baseEvent : APMEvent) (timeDelta : Int)
    (agent : Agent) (service : Service) (ha : baseEvent.Agent = some agent)
    (hj : hasPrefix agent.Name "Jaeger" = false) (hs : baseEvent.Service = some service) :
    ∃ event, convertSpanPrimary E otelSpan otelLibrary baseEvent timeDelta = some event := by
  obtain ⟨r1, r2, r3, r4⟩ := spanEnvelope_ready otelSpan baseEvent timeDelta
  obtain ⟨e1, h1⟩ := translateSpanOrTransaction_isSome E otelSpan otelLibrary
    (spanEnvelope otelSpan baseEvent timeDelta) agent (r4.trans ha) hj r1
    (by rw [r3, hs]; rfl) r2
  unfold convertSpanPrimary
  simp only [Option.bind_eq_bind, h1, Option.some_bind, Option.pure_def]
  exact ⟨_, rfl⟩

theorem convertSpanPrimary_language (E : Env) (otelSpan : ptrace.Span)
    (otelLibrary : InstrumentationScope) (baseEvent : APMEvent) (timeDelta : Int)
    (event : APMEvent)
    (h : convertSpanPrimary E otelSpan otelLibrary baseEvent timeDelta = some event)
    (lang : Option Language)
    (hl : baseEvent.Service.map (fun s => s.Language) = some lang) :
    event.Service.map (fun s => s.Language) = some lang := by
  obtain ⟨e1, h1, hev⟩ := convertSpanPrimary_eq _ _ _ _ _ _ h
  obtain ⟨_, _, k⟩ := translateSpanOrTransaction_keeps _ _ _ _ _ h1
  obtain ⟨_, _, _, _, _, l6, _, _⟩ := translateSpanLinks_core e1 otelSpan.Links
  rw [hev]
  show (translateSpanLinks e1 otelSpan.Links).Service.map (fun s => s.Language) = some lang
  rw [l6]
  exact k lang hl

theorem exceptionAttribute_Trace (E : Env) (l : ExceptionLocals) (kv : String × Value) :
    (exceptionAttribute E l kv).event.Trace = l.event.Trace := by
  unfold exceptionAttribute
  split <;> rfl

theorem exceptionAttributes_Trace (E : Env) (attrs : Attributes) (l : ExceptionLocals) :
    (attrs.foldl (exceptionAttribute E) l).event.Trace = l.event.Trace := by
  induction attrs generalizing l with
  | nil => rfl
  | cons kv attrs ih => rw [List.foldl_cons, ih, exceptionAttribute_Trace]

theorem convertSpanEvent_isSome (E : Env) (spanEvent : ptrace.SpanEvent) (parent : APMEvent)
    (timeDelta : Int) (agent : Agent) (service : Service) (language : Language)
    (ha : parent.Agent = some agent) (hj : hasPrefix agent.Name "Jaeger" = false)
    (hs : parent.Service = some service) (hl : service.Language = some language)
    (ht : parent.Trace.isSome = true) :
    ∃ event, convertSpanEvent E spanEvent parent timeDelta = some event := by
  obtain ⟨trace, htr⟩ := Option.isSome_iff_exists.mp ht
  unfold convertSpanEvent
  simp only [ha, hj, Option.bind_eq_bind, Option.some_bind]
  unfold spanEventError
  simp only [Bool.false_eq_true, if_false]
  by_cases hn : spanEvent.Name = "exception"
  · rw [if_pos hn]
    unfold convertExceptionSpanEvent
    dsimp only
    have hTrace := exceptionAttributes_Trace E spanEvent.Attributes
      { event := { initEventLabels parent with
                   Transaction := none, Span := none,
                   Timestamp := some (timeAdd (asTime spanEvent.Timestamp) timeDelta) } }
    simp only [hs, hl]
    split
    · simp only [Option.some_bind]
      unfold setErrorContext
      simp only [hTrace, htr]
      show ∃ event, (match (initEventLabels parent).Trace, some trace with
        | some outTrace, some parentTrace => _
        | _, _ => none) = some event
      have hit : (initEventLabels parent).Trace = some trace := htr
      rw [hit]
      dsimp only
      split <;> exact ⟨_, rfl⟩
    · simp only [Option.some_bind]
      split
      · rename_i error herr
        unfold setErrorContext
        simp only [hTrace, htr]
        have hit : (initEventLabels parent).Trace = some trace := htr
        simp only [hit]
        split <;> exact ⟨_, rfl⟩
      · exact ⟨_, rfl⟩
  · rw [if_neg hn]
    simp only [Option.some_bind]
    split
    · unfold setErrorContext
      have hit : (initEventLabels parent).Trace = some trace := htr
      simp only [hit, htr]
      split <;> exact ⟨_, rfl⟩
    · exact ⟨_, rfl⟩

theorem foldlM_isSome {α β : Type} (f : β → α → Option β) (l : List α)
    (hf : ∀ a, a ∈ l → ∀ out, ∃ out', f out a = some out') (out : β) :
    ∃ out', l.foldlM f out = some out' := by
  induction l generalizing out with
  | nil => exact ⟨out, rfl⟩
  | cons a l ih =>
    obtain ⟨out1, h1⟩ := hf a (List.mem_cons_self _ _) out
    obtain ⟨out2, h2⟩ := ih (fun b hb => hf b (List.mem_cons_of_mem _ hb)) out1
    exact ⟨out2, by simp only [List.foldlM_cons, h1, Option.bind_eq_bind, Option.some_bind, h2]⟩

theorem convertSpan_isSome (E : Env) (otelSpan : ptrace.Span)
    (otelLibrary : InstrumentationScope) (baseEvent : APMEvent) (timeDelta : Int) (out : Batch)
    (hb : GoodBase baseEvent) (ht : hexTraceID otelSpan.TraceID ≠ "") :
    ∃ out', convertSpan E otelSpan otelLibrary baseEvent timeDelta out = some out' := by
  obtain ⟨agent, service, language, ha, hj, hs, hl, he⟩ := hb
  obtain ⟨primary, hp⟩ := convertSpanPrimary_isSome E otelSpan otelLibrary baseEvent timeDelta
    agent service ha hj hs
  obtain ⟨s1, s2, s3, _, _⟩ := convertSpanPrimary_spec _ _ _ _ _ _ hp
  have s4 := convertSpanPrimary_language _ _ _ _ _ _ hp (some language) (by rw [hs]; simp [hl])
  obtain ⟨baseEv, hbe⟩ := Option.isSome_iff_exists.mp he
  obtain ⟨psv, hpsv⟩ : ∃ psv, primary.Service = some psv := by
    cases hx : primary.Service with
    | none => rw [hx] at s4; cases s4
    | some psv => exact ⟨psv, rfl⟩
  have hplang : psv.Language = some language := by
    rw [hpsv] at s4
    simpa using s4
  unfold convertSpan
  simp only [Option.bind_eq_bind, hp, Option.some_bind, spanEventParent, hbe]
  apply foldlM_isSome
  intro se _ out1
  obtain ⟨ev, hev⟩ := convertSpanEvent_isSome E se
    { primary with Labels := baseEvent.Labels, NumericLabels := baseEvent.NumericLabels,
                   Event := some { Received := baseEv.Received }, Destination := none }
    timeDelta agent psv language (s3.trans ha) hj hpsv hplang
    (by
      show primary.Trace.isSome = true
      rw [s2, if_pos ht]
      rfl)
  exact ⟨out1 ++ [ev], by
    unfold appendSpanEvent
    simp only [Option.bind_eq_bind, hev, Option.some_bind, Option.pure_def]⟩

/-! ### Counting the events of a trace input -/

theorem convertScopeSpans_length (E : Env) (in_ : ptrace.ScopeSpans) (baseEvent : APMEvent)
    (timeDelta : Int) (out out' : Batch)
    (h : convertScopeSpans E in_ baseEvent timeDelta out = some out') :
    out'.length = out.length +
      (in_.Spans.map (fun otelSpan => 1 + otelSpan.Events.length)).sum :=
  foldlM_length _ _ (fun o a o' ho => convertSpan_length E a in_.Scope baseEvent timeDelta o o' ho)
    in_.Spans out out' h

theorem convertResourceSpans_length (E : Env) (resourceSpans : ptrace.ResourceSpans)
    (receiveTimestamp : Int) (out out' : Batch)
    (h : convertResourceSpans E resourceSpans receiveTimestamp out = some out') :
    out'.length = out.length +
      (resourceSpans.ScopeSpans.map (fun scopeSpans =>
        (scopeSpans.Spans.map (fun otelSpan => 1 + otelSpan.Events.length)).sum)).sum :=
  foldlM_length _ _ (fun o a o' ho => convertScopeSpans_length E a _ _ o o' ho)
    resourceSpans.ScopeSpans out out' h

theorem convertTraces_length (E : Env) (traces : List ptrace.ResourceSpans)
    (receiveTimestamp : Int) (batch : Batch)
    (h : convertTraces E traces receiveTimestamp = some batch) :
    batch.length =
      (traces.map (fun resourceSpans =>
        (resourceSpans.ScopeSpans.map (fun scopeSpans =>
          (scopeSpans.Spans.map (fun otelSpan => 1 + otelSpan.Events.length)).sum)).sum)).sum := by
  have := foldlM_length _ _
    (fun o a o' ho => convertResourceSpans_length E a receiveTimestamp o o' ho) traces [] batch h
  simpa using this

theorem sum_succ_length (spans : List ptrace.Span) :
    (spans.map (fun otelSpan => 1 + otelSpan.Events.length)).sum =
      spans.length + (spans.map (fun otelSpan => otelSpan.Events.length)).sum := by
  induction spans with
  | nil => rfl
  | cons a l ih =>
    simp only [List.map_cons, List.sum_cons, List.length_cons, ih]
    omega

theorem scopeSpansList_sum (scopes : List ptrace.ScopeSpans) :
    (scopes.map (fun scopeSpans =>
      (scopeSpans.Spans.map (fun otelSpan => 1 + otelSpan.Events.length)).sum)).sum =
      ((scopeSpansList scopes).map (fun otelSpan => 1 + otelSpan.Events.length)).sum := by
  induction scopes with
  | nil => rfl
  | cons a l ih =>
    simp only [List.map_cons, List.sum_cons, scopeSpansList, List.map_append, List.sum_append, ih]

theorem allSpans_sum (traces : List ptrace.ResourceSpans) :
    (traces.map (fun resourceSpans =>
      (resourceSpans.ScopeSpans.map (fun scopeSpans =>
        (scopeSpans.Spans.map (fun otelSpan => 1 + otelSpan.Events.length)).sum)).sum)).sum =
      ((allSpans traces).map (fun otelSpan => 1 + otelSpan.Events.length)).sum := by
  induction traces with
  | nil => rfl
  | cons a l ih =>
    rw [List.map_cons, List.sum_cons, ih, scopeSpansList_sum]
    simp only [allSpans, List.map_append, List.sum_append]

theorem hexEncodeToString_ne_empty (b : Fin 256) (bytes : List (Fin 256)) :
    hexEncodeToString (b :: bytes) ≠ "" := by
  unfold hexEncodeToString
  intro h
  have := congrArg String.data h
  simp at this

theorem hexTraceID_ne_empty (id : TraceID) (h : id.IsEmpty = false) : hexTraceID id ≠ "" := by
  unfold hexTraceID
  rw [h]
  obtain ⟨bytes, size⟩ := id
  cases bytes with
  | nil => cases size
  | cons b bytes => exact hexEncodeToString_ne_empty b bytes

theorem convertTraces_isSome (E : Env) (traces : List ptrace.ResourceSpans)
    (receiveTimestamp : Int) (hg : GoodTraces E traces receiveTimestamp) :
    ∃ batch, convertTraces E traces receiveTimestamp = some batch := by
  unfold convertTraces
  apply foldlM_isSome
  intro resourceSpans hrs out
  obtain ⟨hb, hsp⟩ := hg resourceSpans hrs
  unfold convertResourceSpans
  dsimp only
  have hmem : ∀ scopes : List ptrace.ScopeSpans,
      (∀ s, s ∈ scopeSpansList scopes → s.TraceID.IsEmpty = false) →
      ∀ out, ∃ out', scopes.foldlM
        (fun out scopeSpans => convertScopeSpans E scopeSpans
          (resourceBaseEvent E resourceSpans.Resource receiveTimestamp)
          (resourceTimeDelta resourceSpans.Resource receiveTimestamp) out) out = some out' := by
    intro scopes hs
    apply foldlM_isSome
    intro scopeSpans hss out1
    unfold convertScopeSpans
    apply foldlM_isSome
    intro otelSpan hsp1 out2
    apply convertSpan_isSome E otelSpan scopeSpans.Scope _ _ out2 hb
    apply hexTraceID_ne_empty
    apply hs
    clear hs
    induction scopes with
    | nil => cases hss
    | cons a l ih =>
      rcases List.mem_cons.mp hss with e | e
      · subst e
        exact List.mem_append_left _ hsp1
      · exact List.mem_append_right _ (ih e)
  exact hmem resourceSpans.ScopeSpans hsp out

theorem setLabels_Timestamp (E : Env) (attrs : Attributes) (event : APMEvent) :
    (attrs.foldl (fun event kv => setLabel E kv.1 event (E.ifaceAttributeValue kv.2))
      event).Timestamp = event.Timestamp := by
  induction attrs generalizing event with
  | nil => rfl
  | cons kv attrs ih =>
    rw [List.foldl_cons, ih]
    rfl

theorem metricsetEvent_Timestamp (E : Env) (baseEvent : APMEvent) (timeDelta : Int)
    (key : metricsetKey) (m : metricset) :
    (metricsetEvent E baseEvent timeDelta key m).Timestamp =
      some (key.timestamp + timeDelta) := by
  unfold metricsetEvent
  split
  · simp only [setLabels_Timestamp]
    rfl
  · rfl

theorem timeSub_exact (t u : Int) (h1 : minDuration ≤ t - u) (h2 : t - u ≤ maxDuration) :
    timeSub t u = t - u := by
  unfold timeSub
  rw [if_neg (by omega), if_neg (by omega)]

/-! ### The representative count of a tracestate -/

theorem decimalFrom_ge (digits : List Char) (n : Nat) : n ≤ decimalFrom n digits := by
  induction digits generalizing n with
  | nil => exact Nat.le_refl n
  | cons c cs ih =>
    have h := ih (n * 10 + (c.toNat - '0'.toNat))
    show n ≤ decimalFrom (n * 10 + (c.toNat - '0'.toNat)) cs
    omega

theorem parseUintLoop_digits (digits : List Char) (n : Nat) (hn : n ≤ 63)
    (hd : ∀ c, c ∈ digits → isDigit c = true) :
    parseUintLoop 63 digits n = if decimalFrom n digits > 63 then 63 else decimalFrom n digits := by
  induction digits generalizing n with
  | nil =>
    show n = if n > 63 then 63 else n
    rw [if_neg (by omega)]
  | cons c cs ih =>
    have hc : '0' ≤ c ∧ c ≤ '9' := by
      have := hd c (List.mem_cons_self _ _)
      simpa [isDigit] using this
    unfold parseUintLoop
    rw [if_pos hc]
    dsimp only
    show (if n * 10 + (c.toNat - '0'.toNat) > 63 then 63
      else parseUintLoop 63 cs (n * 10 + (c.toNat - '0'.toNat))) =
      if decimalFrom (n * 10 + (c.toNat - '0'.toNat)) cs > 63 then 63
      else decimalFrom (n * 10 + (c.toNat - '0'.toNat)) cs
    by_cases h1 : n * 10 + (c.toNat - '0'.toNat) > 63
    · have := decimalFrom_ge cs (n * 10 + (c.toNat - '0'.toNat))
      rw [if_pos h1, if_pos (by omega)]
    · rw [if_neg h1]
      exact ih _ (by omega) (fun d hd1 => hd d (List.mem_cons_of_mem _ hd1))

theorem parseUintLoop_stop (digits : List Char) (c : Char) (rest : List Char) (n : Nat)
    (hn : n ≤ 63) (hd : ∀ d, d ∈ digits → isDigit d = true) (hc : isDigit c = false) :
    parseUintLoop 63 (digits ++ c :: rest) n =
      if decimalFrom n digits > 63 then 63 else 0 := by
  induction digits generalizing n with
  | nil =>
    have hc1 : ¬ ('0' ≤ c ∧ c ≤ '9') := by
      simpa [isDigit] using hc
    show parseUintLoop 63 (c :: rest) n = if n > 63 then 63 else 0
    unfold parseUintLoop
    rw [if_neg hc1, if_neg (by omega)]
  | cons d ds ih =>
    have hd1 : '0' ≤ d ∧ d ≤ '9' := by
      have := hd d (List.mem_cons_self _ _)
      simpa [isDigit] using this
    show parseUintLoop 63 (d :: (ds ++ c :: rest)) n =
      if decimalFrom (n * 10 + (d.toNat - '0'.toNat)) ds > 63 then 63 else 0
    unfold parseUintLoop
    rw [if_pos hd1]
    dsimp only
    by_cases h1 : n * 10 + (d.toNat - '0'.toNat) > 63
    · have := decimalFrom_ge ds (n * 10 + (d.toNat - '0'.toNat))
      rw [if_pos h1, if_pos (by omega)]
    · rw [if_neg h1]
      exact ih _ (by omega) (fun x hx => hd x (List.mem_cons_of_mem _ hx))

theorem getValueForKeyInString_empty (key : String) (separator assignChar : Char) :
    getValueForKeyInString "" key separator assignChar = "" := rfl

theorem representativeCount_eq (tracestate : String) :
    getRepresentativeCountFromTracestateHeader tracestate =
      (if parseUintLoop 63 (tracestatePValue tracestate).data 0 > 62 then F64.finite 0
       else F64.finite (2 ^ parseUintLoop 63 (tracestatePValue tracestate).data 0)) := by
  unfold getRepresentativeCountFromTracestateHeader tracestatePValue
  dsimp only
  by_cases h1 : getValueForKeyInString tracestate "ot" ',' '=' = ""
  · rw [h1, getValueForKeyInString_empty]
    rfl
  · rw [if_pos h1]
    by_cases h2 : getValueForKeyInString (getValueForKeyInString tracestate "ot" ',' '=')
        "p" ';' ':' = ""
    · rw [h2]
      rfl
    · rw [if_pos h2]

theorem length_dropWhile_le {α : Type} (p : α → Bool) (l : List α) :
    (l.dropWhile p).length ≤ l.length := by
  induction l with
  | nil => exact Nat.le_refl _
  | cons a l ih =>
    rw [List.dropWhile_cons]
    split
    · exact Nat.le_succ_of_le ih
    · exact Nat.le_refl _

theorem trimSpace_length_le (s : List Char) : (trimSpace s).length ≤ s.length := by
  unfold trimSpace
  rw [List.length_reverse]
  exact (length_dropWhile_le _ _).trans
    (by rw [List.length_reverse]; exact length_dropWhile_le _ _)

theorem getValueForKeyLoop_fuel (key : List Char) (separator assignChar : Char)
    (fuel fuel' : Nat) (str : List Char) (h : str.length < fuel) (h' : str.length < fuel') :
    getValueForKeyLoop key separator assignChar fuel str =
      getValueForKeyLoop key separator assignChar fuel' str := by
  induction fuel generalizing fuel' str with
  | zero => omega
  | succ fuel ih =>
    cases fuel' with
    | zero => omega
    | succ fuel' =>
      unfold getValueForKeyLoop
      dsimp only
      by_cases hne : trimSpace str = []
      · rw [if_pos hne, if_pos hne]
      · rw [if_neg hne, if_neg hne]
        have hlen := trimSpace_length_le str
        have hpos : 0 < (trimSpace str).length := List.length_pos.mpr hne
        by_cases hs : (trimSpace str).contains separator = true
        · simp only [hs, if_true]
          have hd := length_dropWhile_le (fun c => decide (c ≠ separator)) (trimSpace str)
          rw [ih fuel' _ (by rw [List.length_drop]; omega) (by rw [List.length_drop]; omega)]
        · simp only [hs, Bool.false_eq_true, if_false]
          rw [ih fuel' [] (by simp only [List.length_nil]; omega)
            (by simp only [List.length_nil]; omega)]

/-! ### The result of an HTTP status code -/

theorem tdiv_hundred_class (c : Int) :
    (Int.tdiv c 100 = 1 ∨ Int.tdiv c 100 = 2 ∨ Int.tdiv c 100 = 3 ∨ Int.tdiv c 100 = 4 ∨
      Int.tdiv c 100 = 5) ↔ (100 ≤ c ∧ c ≤ 599) := by
  rcases le_or_lt 0 c with h | h
  · rw [Int.tdiv_eq_ediv h (by decide)]
    omega
  · have h1 : Int.tdiv c 100 = -Int.tdiv (-c) 100 := by
      rw [Int.neg_tdiv, neg_neg]
    rw [h1, Int.tdiv_eq_ediv (by omega) (by decide)]
    omega

/-! ### Error and Log events of span events -/

theorem exceptionAttributes_message (E : Env) (attrs : Attributes) (l : ExceptionLocals) :
    (attrs.foldl (exceptionAttribute E) l).exceptionMessage =
      match attrs.reverse.find? (fun kv => kv.1 = "exception.message") with
      | some kv => kv.2.Str
      | none => l.exceptionMessage := by
  induction attrs generalizing l with
  | nil => rfl
  | cons kv attrs ih =>
    rw [List.foldl_cons, ih, List.reverse_cons, List.find?_append]
    cases hf : attrs.reverse.find? (fun kv => kv.1 = "exception.message") with
    | some x => rfl
    | none =>
      simp only [Option.none_or, List.find?_cons, List.find?_nil]
      unfold exceptionAttribute
      split <;> simp_all

theorem exceptionAttributes_type (E : Env) (attrs : Attributes) (l : ExceptionLocals) :
    (attrs.foldl (exceptionAttribute E) l).exceptionType =
      match attrs.reverse.find? (fun kv => kv.1 = "exception.type") with
      | some kv => kv.2.Str
      | none => l.exceptionType := by
  induction attrs generalizing l with
  | nil => rfl
  | cons kv attrs ih =>
    rw [List.foldl_cons, ih, List.reverse_cons, List.find?_append]
    cases hf : attrs.reverse.find? (fun kv => kv.1 = "exception.type") with
    | some x => rfl
    | none =>
      simp only [Option.none_or, List.find?_cons, List.find?_nil]
      unfold exceptionAttribute
      split <;> simp_all

theorem exceptionAttributes_Error (E : Env) (attrs : Attributes) (l : ExceptionLocals) :
    (attrs.foldl (exceptionAttribute E) l).event.Error = l.event.Error := by
  induction attrs generalizing l with
  | nil => rfl
  | cons kv attrs ih =>
    rw [List.foldl_cons, ih]
    unfold exceptionAttribute
    split <;> rfl

theorem convertExceptionSpanEvent_Error (E : Env) (spanEvent : ptrace.SpanEvent)
    (parent event event' : APMEvent) (he : event.Error = none)
    (h : convertExceptionSpanEvent E spanEvent parent event = some event') :
    event'.Error.isSome =
      decide (lastStr spanEvent.Attributes "exception.message" ≠ "" ∨
        lastStr spanEvent.Attributes "exception.type" ≠ "") := by
  have hm := exceptionAttributes_message E spanEvent.Attributes { event := event }
  have ht := exceptionAttributes_type E spanEvent.Attributes { event := event }
  have hE := exceptionAttributes_Error E spanEvent.Attributes { event := event }
  have hm' : (spanEvent.Attributes.foldl (exceptionAttribute E)
      { event := event }).exceptionMessage = lastStr spanEvent.Attributes "exception.message" := by
    rw [hm]
    unfold lastStr
    split <;> rfl
  have ht' : (spanEvent.Attributes.foldl (exceptionAttribute E)
      { event := event }).exceptionType = lastStr spanEvent.Attributes "exception.type" := by
    rw [ht]
    unfold lastStr
    split <;> rfl
  unfold convertExceptionSpanEvent at h
  dsimp only at h
  rw [hm', ht'] at h
  split at h
  · rename_i hc
    rw [decide_eq_true hc]
    split at h
    · split at h
      · cases h
        rfl
      · cases h
    · cases h
  · rename_i hc
    rw [decide_eq_false hc]
    cases h
    rw [hE]
    exact congrArg Option.isSome he

theorem convertExceptionSpanEvent_isSome (E : Env) (spanEvent : ptrace.SpanEvent)
    (parent event : APMEvent)
    (hc : ¬ (lastStr spanEvent.Attributes "exception.message" ≠ "" ∨
        lastStr spanEvent.Attributes "exception.type" ≠ "")) :
    ∃ event', convertExceptionSpanEvent E spanEvent parent event = some event' := by
  have hm := exceptionAttributes_message E spanEvent.Attributes { event := event }
  have ht := exceptionAttributes_type E spanEvent.Attributes { event := event }
  have hm' : (spanEvent.Attributes.foldl (exceptionAttribute E)
      { event := event }).exceptionMessage = lastStr spanEvent.Attributes "exception.message" := by
    rw [hm]
    unfold lastStr
    split <;> rfl
  have ht' : (spanEvent.Attributes.foldl (exceptionAttribute E)
      { event := event }).exceptionType = lastStr spanEvent.Attributes "exception.type" := by
    rw [ht]
    unfold lastStr
    split <;> rfl
  unfold convertExceptionSpanEvent
  dsimp only
  rw [hm', ht', if_neg hc]
  exact ⟨_, rfl⟩

theorem logAttribute_fields (E : Env) (isJaeger : Bool) (event : APMEvent)
    (kv : String × Value) :
    (logAttribute E isJaeger event kv).Processor = event.Processor ∧
    (logAttribute E isJaeger event kv).Error = event.Error ∧
    (logAttribute E isJaeger event kv).Metricset = event.Metricset ∧
    (logAttribute E isJaeger event kv).Transaction = event.Transaction ∧
    (logAttribute E isJaeger event kv).Span = event.Span := by
  unfold logAttribute
  dsimp only
  split <;> exact ⟨rfl, rfl, rfl, rfl, rfl⟩

theorem logAttributes_fields (E : Env) (isJaeger : Bool) (attrs : Attributes)
    (event : APMEvent) :
    (attrs.foldl (logAttribute E isJaeger) event).Processor = event.Processor ∧
    (attrs.foldl (logAttribute E isJaeger) event).Error = event.Error ∧
    (attrs.foldl (logAttribute E isJaeger) event).Metricset = event.Metricset ∧
    (attrs.foldl (logAttribute E isJaeger) event).Transaction = event.Transaction ∧
    (attrs.foldl (logAttribute E isJaeger) event).Span = event.Span := by
  induction attrs generalizing event with
  | nil => exact ⟨rfl, rfl, rfl, rfl, rfl⟩
  | cons kv attrs ih =>
    rw [List.foldl_cons]
    obtain ⟨a1, a2, a3, a4, a5⟩ := ih (logAttribute E isJaeger event kv)
    obtain ⟨b1, b2, b3, b4, b5⟩ := logAttribute_fields E isJaeger event kv
    exact ⟨a1.trans b1, a2.trans b2, a3.trans b3, a4.trans b4, a5.trans b5⟩

theorem logAttributes_Message (E : Env) (isJaeger : Bool) (attrs : Attributes)
    (event : APMEvent) :
    (attrs.foldl (logAttribute E isJaeger) event).Message =
      if isJaeger then
        (match attrs.reverse.find? (fun kv => replaceDots kv.1 = "message") with
         | some kv => truncate kv.2.Str
         | none => event.Message)
      else event.Message := by
  induction attrs generalizing event with
  | nil => cases isJaeger <;> rfl
  | cons kv attrs ih =>
    rw [List.foldl_cons, ih, List.reverse_cons, List.find?_append]
    cases isJaeger with
    | false =>
      simp only [Bool.false_eq_true, if_false]
      unfold logAttribute
      simp
      rfl
    | true =>
      simp only [if_true]
      cases hf : attrs.reverse.find? (fun kv => replaceDots kv.1 = "message") with
      | some x => rfl
      | none =>
        simp only [Option.none_or, List.find?_cons, List.find?_nil]
        unfold logAttribute
        by_cases hk : replaceDots kv.1 = "message"
        · simp [hk]
        · simp [hk]
          rfl

theorem jaegerErrorAttribute_locals (E : Env) (l1 l2 : JaegerLocals) (kv : String × Value)
    (h : l1.isError = l2.isError ∧ l1.exMessage = l2.exMessage ∧ l1.exType = l2.exType ∧
      l1.logMessage = l2.logMessage) :
    (jaegerErrorAttribute E l1 kv).isError = (jaegerErrorAttribute E l2 kv).isError ∧
    (jaegerErrorAttribute E l1 kv).exMessage = (jaegerErrorAttribute E l2 kv).exMessage ∧
    (jaegerErrorAttribute E l1 kv).exType = (jaegerErrorAttribute E l2 kv).exType ∧
    (jaegerErrorAttribute E l1 kv).logMessage = (jaegerErrorAttribute E l2 kv).logMessage := by
  obtain ⟨h1, h2, h3, h4⟩ := h
  unfold jaegerErrorAttribute
  split
  · dsimp only
    split <;> exact ⟨by first | rfl | exact h1, by first | rfl | exact h2,
      by first | rfl | exact h3, by first | rfl | exact h4⟩
  · exact ⟨h1, h2, h3, h4⟩

theorem jaegerErrorAttributes_locals (E : Env) (attrs : Attributes) (l1 l2 : JaegerLocals)
    (h : l1.isError = l2.isError ∧ l1.exMessage = l2.exMessage ∧ l1.exType = l2.exType ∧
      l1.logMessage = l2.logMessage) :
    jaegerError (attrs.foldl (jaegerErrorAttribute E) l1) =
      jaegerError (attrs.foldl (jaegerErrorAttribute E) l2) := by
  induction attrs generalizing l1 l2 with
  | nil =>
    obtain ⟨h1, h2, h3, h4⟩ := h
    show jaegerError l1 = jaegerError l2
    unfold jaegerError
    rw [h1, h2, h3, h4]
  | cons kv attrs ih =>
    rw [List.foldl_cons, List.foldl_cons]
    exact ih _ _ (jaegerErrorAttribute_locals E l1 l2 kv h)

theorem convertJaegerErrorSpanEvent_error (E : Env) (spanEvent : ptrace.SpanEvent)
    (event : APMEvent) :
    (convertJaegerErrorSpanEvent E spanEvent event).1 = jaegerSpanEventError E spanEvent := by
  unfold jaegerSpanEventError convertJaegerErrorSpanEvent
  dsimp only
  apply jaegerErrorAttributes_locals
  split <;> exact ⟨rfl, rfl, rfl, rfl⟩

theorem setErrorContext_Processor (out : APMEvent) (error : Error) (parent e' : APMEvent)
    (h : setErrorContext out error parent = some e') :
    e'.Processor = out.Processor ∧ (out.Error.isSome = true → e'.Error.isSome = true) := by
  unfold setErrorContext at h
  split at h
  · dsimp only at h
    split at h
    all_goals
      cases h
      split <;> first | exact ⟨rfl, fun _ => rfl⟩ | exact ⟨rfl, fun h => h⟩
  · cases h

theorem spanEventError_error (E : Env) (isJaeger : Bool) (spanEvent : ptrace.SpanEvent)
    (parent event event' : APMEvent) (he : event.Error = none)
    (h : spanEventError E isJaeger spanEvent parent event = some event') :
    event'.Error.isSome =
      if isJaeger then (jaegerSpanEventError E spanEvent).isSome
      else carriesException spanEvent := by
  unfold spanEventError at h
  split at h
  · rename_i hj
    cases h
    rw [if_pos hj]
    show (convertJaegerErrorSpanEvent E spanEvent event).1.isSome = _
    rw [convertJaegerErrorSpanEvent_error]
  · rename_i hj
    rw [if_neg hj]
    unfold carriesException
    split at h
    · rename_i hn
      rw [convertExceptionSpanEvent_Error E spanEvent parent event event' he h]
      simp only [hn, true_and]
    · rename_i hn
      cases h
      rw [he]
      simp only [hn, false_and, decide_False]
      rfl

theorem jaegerErrorAttributes_fields (E : Env) (attrs : Attributes) (l : JaegerLocals) :
    (attrs.foldl (jaegerErrorAttribute E) l).apmEvent.Transaction = l.apmEvent.Transaction ∧
    (attrs.foldl (jaegerErrorAttribute E) l).apmEvent.Span = l.apmEvent.Span ∧
    (attrs.foldl (jaegerErrorAttribute E) l).apmEvent.Metricset = l.apmEvent.Metricset := by
  induction attrs generalizing l with
  | nil => exact ⟨rfl, rfl, rfl⟩
  | cons kv attrs ih =>
    rw [List.foldl_cons]
    obtain ⟨a1, a2, a3⟩ := ih (jaegerErrorAttribute E l kv)
    have hb : (jaegerErrorAttribute E l kv).apmEvent.Transaction = l.apmEvent.Transaction ∧
        (jaegerErrorAttribute E l kv).apmEvent.Span = l.apmEvent.Span ∧
        (jaegerErrorAttribute E l kv).apmEvent.Metricset = l.apmEvent.Metricset := by
      unfold jaegerErrorAttribute
      split
      · dsimp only
        split <;> exact ⟨rfl, rfl, rfl⟩
      · exact ⟨rfl, rfl, rfl⟩
    exact ⟨a1.trans hb.1, a2.trans hb.2.1, a3.trans hb.2.2⟩

theorem exceptionAttributes_fields (E : Env) (attrs : Attributes) (l : ExceptionLocals) :
    (attrs.foldl (exceptionAttribute E) l).event.Transaction = l.event.Transaction ∧
    (attrs.foldl (exceptionAttribute E) l).event.Span = l.event.Span ∧
    (attrs.foldl (exceptionAttribute E) l).event.Metricset = l.event.Metricset := by
  induction attrs generalizing l with
  | nil => exact ⟨rfl, rfl, rfl⟩
  | cons kv attrs ih =>
    rw [List.foldl_cons]
    obtain ⟨a1, a2, a3⟩ := ih (exceptionAttribute E l kv)
    have hb : (exceptionAttribute E l kv).event.Transaction = l.event.Transaction ∧
        (exceptionAttribute E l kv).event.Span = l.event.Span ∧
        (exceptionAttribute E l kv).event.Metricset = l.event.Metricset := by
      unfold exceptionAttribute
      split <;> exact ⟨rfl, rfl, rfl⟩
    exact ⟨a1.trans hb.1, a2.trans hb.2.1, a3.trans hb.2.2⟩

theorem spanEventError_fields (E : Env) (isJaeger : Bool) (spanEvent : ptrace.SpanEvent)
    (parent event event' : APMEvent)
    (h : spanEventError E isJaeger spanEvent parent event = some event') :
    event'.Transaction = event.Transaction ∧ event'.Span = event.Span ∧
      event'.Metricset = event.Metricset := by
  unfold spanEventError at h
  split at h
  · cases h
    unfold convertJaegerErrorSpanEvent
    dsimp only
    split <;> exact jaegerErrorAttributes_fields E spanEvent.Attributes _
  · split at h
    · unfold convertExceptionSpanEvent at h
      dsimp only at h
      have hf := exceptionAttributes_fields E spanEvent.Attributes { event := event }
      split at h
      · split at h
        · split at h
          · cases h
            exact hf
          · cases h
        · cases h
      · cases h
        exact hf
    · cases h
      exact ⟨rfl, rfl, rfl⟩

theorem spanEventError_isSome (E : Env) (isJaeger : Bool) (spanEvent : ptrace.SpanEvent)
    (parent event : APMEvent)
    (hc : (if isJaeger then (jaegerSpanEventError E spanEvent).isSome
      else carriesException spanEvent) = false) :
    ∃ event', spanEventError E isJaeger spanEvent parent event = some event' := by
  unfold spanEventError
  split
  · exact ⟨_, rfl⟩
  · rename_i hj
    rw [if_neg hj] at hc
    split
    · rename_i hn
      apply convertExceptionSpanEvent_isSome
      unfold carriesException at hc
      simp only [hn, true_and, decide_eq_false_iff_not] at hc
      exact hc
    · exact ⟨_, rfl⟩

theorem setLogContext_fields (out parent : APMEvent) (ht : out.Transaction = none)
    (hs : out.Span = none) :
    (setLogContext out parent).Processor = out.Processor ∧
    (setLogContext out parent).Error = out.Error ∧
    (setLogContext out parent).Metricset = out.Metricset ∧
    (setLogContext out parent).Message = out.Message ∧
    (setLogContext out parent).Transaction =
      parent.Transaction.map (fun tx => { Id := tx.Id }) ∧
    (setLogContext out parent).Span = parent.Span.map (fun span => { Id := span.Id }) := by
  unfold setLogContext
  cases hpt : parent.Transaction <;> cases hps : parent.Span <;>
    exact ⟨rfl, rfl, rfl, rfl, by first | rfl | exact ht, by first | rfl | exact hs⟩

/-- The event of a span event is an Error event exactly when the span event denotes an error
(for a Jaeger agent) or carries an exception (for any other agent), and a Log event with the
message of the span event otherwise; the Log event is always produced, and it holds the ids
of the transaction and the span of the parent. -/
theorem convertSpanEvent_rule (E : Env) (spanEvent : ptrace.SpanEvent) (parent : APMEvent)
    (timeDelta : Int) (agent : Agent) (ha : parent.Agent = some agent)
    (he : parent.Error = none) :
    ((if hasPrefix agent.Name "Jaeger" then (jaegerSpanEventError E spanEvent).isSome
      else carriesException spanEvent) = true →
      ∀ event, convertSpanEvent E spanEvent parent timeDelta = some event →
        event.Processor = some Processor.error ∧ event.Error.isSome = true) ∧
    ((if hasPrefix agent.Name "Jaeger" then (jaegerSpanEventError E spanEvent).isSome
      else carriesException spanEvent) = false →
      ∃ event, convertSpanEvent E spanEvent parent timeDelta = some event ∧
        event.Processor = some Processor.log ∧ event.Error = none ∧
        event.Metricset = parent.Metricset ∧
        event.Transaction = parent.Transaction.map (fun tx => { Id := tx.Id }) ∧
        event.Span = parent.Span.map (fun span => { Id := span.Id }) ∧
        event.Message =
          if hasPrefix agent.Name "Jaeger" then jaegerLogMessage spanEvent
          else spanEvent.Name) := by
  constructor
  · intro hc event h
    unfold convertSpanEvent at h
    simp only [ha, Option.bind_eq_bind, Option.some_bind, Option.bind_eq_some] at h
    obtain ⟨e1, h1, h2⟩ := h
    have herr := spanEventError_error E _ spanEvent parent _ e1 (by exact he) h1
    rw [hc] at herr
    split at h2
    · rename_i error hx
      obtain ⟨p1, p2⟩ := setErrorContext_Processor _ _ _ _ h2
      exact ⟨p1, p2 (by show e1.Error.isSome = true; exact herr)⟩
    · rename_i hx
      rw [hx] at herr
      cases herr
  · intro hc
    obtain ⟨e1, h1⟩ := spanEventError_isSome E _ spanEvent parent
      { initEventLabels parent with
        Transaction := none, Span := none,
        Timestamp := some (timeAdd (asTime spanEvent.Timestamp) timeDelta) } hc
    have herr := spanEventError_error E _ spanEvent parent _ e1 (by exact he) h1
    rw [hc] at herr
    obtain ⟨f1, f2, f3⟩ := spanEventError_fields E _ spanEvent parent _ e1 h1
    have hnone : e1.Error = none := by
      cases hx : e1.Error with
      | none => rfl
      | some x => rw [hx] at herr; cases herr
    unfold convertSpanEvent
    simp only [ha, Option.bind_eq_bind, Option.some_bind, h1]
    split
    · rename_i error hx
      rw [hnone] at hx
      cases hx
    · refine ⟨_, rfl, ?_⟩
      obtain ⟨a1, a2, a3, a4, a5⟩ := logAttributes_fields E (hasPrefix agent.Name "Jaeger")
        spanEvent.Attributes
        (setLogContext { e1 with Processor := some Processor.log, Message := spanEvent.Name }
          parent)
      obtain ⟨b1, b2, b3, b4, b5, b6⟩ := setLogContext_fields
        { e1 with Processor := some Processor.log, Message := spanEvent.Name } parent f1 f2
      refine ⟨a1.trans b1, a2.trans (b2.trans hnone), a3.trans (b3.trans f3), a4.trans b5,
        a5.trans b6, ?_⟩
      rw [logAttributes_Message, b4]
      unfold jaegerLogMessage
      rfl

theorem convertSpanEvent_log (E : Env) (spanEvent : ptrace.SpanEvent) (parent : APMEvent)
    (timeDelta : Int) (event : APMEvent)
    (h : convertSpanEvent E spanEvent parent timeDelta = some event)
    (hp : event.Processor = some Processor.log) :
    event.Error = none ∧ event.Metricset = parent.Metricset ∧
    event.Transaction = parent.Transaction.map (fun tx => { Id := tx.Id }) ∧
    event.Span = parent.Span.map (fun span => { Id := span.Id }) := by
  unfold convertSpanEvent at h
  simp only [Option.bind_eq_bind, Option.bind_eq_some] at h
  obtain ⟨agent, _, e1, h1, h2⟩ := h
  obtain ⟨f1, f2, f3⟩ := spanEventError_fields E _ spanEvent parent _ e1 h1
  split at h2
  · obtain ⟨p1, _⟩ := setErrorContext_Processor _ _ _ _ h2
    rw [p1] at hp
    cases hp
  · rename_i hnone
    cases h2
    obtain ⟨a1, a2, a3, a4, a5⟩ := logAttributes_fields E (hasPrefix agent.Name "Jaeger")
      spanEvent.Attributes
      (setLogContext { e1 with Processor := some Processor.log, Message := spanEvent.Name }
        parent)
    obtain ⟨b1, b2, b3, b4, b5, b6⟩ := setLogContext_fields
      { e1 with Processor := some Processor.log, Message := spanEvent.Name } parent f1 f2
    exact ⟨a2.trans (b2.trans hnone), a3.trans (b3.trans f3), a4.trans b5, a5.trans b6⟩

/-! ### The records of the primary event and of the parent of the span events -/

theorem convertSpanPrimary_records (E : Env) (otelSpan : ptrace.Span)
    (otelLibrary : InstrumentationScope) (baseEvent : APMEvent) (timeDelta : Int)
    (event : APMEvent)
    (h : convertSpanPrimary E otelSpan otelLibrary baseEvent timeDelta = some event) :
    event.Error = baseEvent.Error ∧ event.Metricset = baseEvent.Metricset ∧
    (isTransactionSpan otelSpan = true → baseEvent.Span = none →
      event.Span =
        if otelSpan.Links.length = 0 then none
        else some { Links := otelSpan.Links.map (fun link =>
          { SpanId := hexSpanID link.SpanID, TraceId := hexTraceID link.TraceID }) }) ∧
    (isTransactionSpan otelSpan = false → baseEvent.Transaction = none →
      event.Transaction = none) := by
  obtain ⟨e1, h1, hev⟩ :=
    convertSpanPrimary_eq E otelSpan otelLibrary baseEvent timeDelta event h
  obtain ⟨l1, l2, l3, l4, l5, l6, l7, l8⟩ := translateSpanLinks_core e1 otelSpan.Links
  have hcore : isTransactionSpan otelSpan = true ∨ isTransactionSpan otelSpan = false := by
    cases isTransactionSpan otelSpan
    · exact Or.inr rfl
    · exact Or.inl rfl
  rcases hcore with hk | hk
  · have k := translateSpanOrTransaction_tx E otelSpan otelLibrary _ e1 hk h1
    have c1 := congrArg EventCore.Error k.1
    have c2 := congrArg EventCore.Metricset k.1
    have c3 := congrArg EventCore.Span k.1
    simp only [APMEvent.core] at c1 c2 c3
    rw [hev]
    refine ⟨?_, ?_, ?_, ?_⟩
    · show (translateSpanLinks e1 otelSpan.Links).Error = _
      rw [l7, c1]
      rfl
    · have lm : (translateSpanLinks e1 otelSpan.Links).Metricset = e1.Metricset := by
        unfold translateSpanLinks
        split <;> rfl
      exact lm.trans c2
    · intro _ hs
      have hs1 : e1.Span = none := by
        have hs2 : (spanEnvelope otelSpan baseEvent timeDelta).Span = none := hs
        rw [hs2] at c3
        cases hx : e1.Span with
        | none => rfl
        | some x => rw [hx] at c3; cases c3
      show (translateSpanLinks e1 otelSpan.Links).Span = _
      unfold translateSpanLinks
      split
      · exact hs1
      · show some _ = some _
        rw [hs1]
        rfl
    · intro hf
      rw [hk] at hf
      cases hf
  · have k := translateSpanOrTransaction_span E otelSpan otelLibrary _ e1 hk h1
    have c1 := congrArg EventCore.Error k.1
    have c2 := congrArg EventCore.Metricset k.1
    have c3 := congrArg EventCore.Transaction k.1
    simp only [APMEvent.core] at c1 c2 c3
    rw [hev]
    refine ⟨?_, ?_, ?_, ?_⟩
    · show (translateSpanLinks e1 otelSpan.Links).Error = _
      rw [l7, c1]
      rfl
    · have lm : (translateSpanLinks e1 otelSpan.Links).Metricset = e1.Metricset := by
        unfold translateSpanLinks
        split <;> rfl
      exact lm.trans c2
    · intro hf
      rw [hk] at hf
      cases hf
    · intro _ ht
      show (translateSpanLinks e1 otelSpan.Links).Transaction = none
      rw [l5]
      have ht2 : (spanEnvelope otelSpan baseEvent timeDelta).Transaction = none := ht
      rw [ht2] at c3
      cases hx : e1.Transaction with
      | none => rfl
      | some x => rw [hx] at c3; cases c3

theorem spanEventParent_fields (baseEvent event parent : APMEvent)
    (h : spanEventParent baseEvent event = some parent) :
    parent.Agent = event.Agent ∧ parent.Error = event.Error ∧
    parent.Metricset = event.Metricset ∧ parent.Transaction = event.Transaction ∧
    parent.Span = event.Span := by
  unfold spanEventParent at h
  split at h
  · cases h
    exact ⟨rfl, rfl, rfl, rfl, rfl⟩
  · cases h

/-- The events of a span: the primary event, then one event for every span event, each of
them translated with a parent that has the agent and the error record of the base event and
the transaction, span and metricset records of the primary event. -/
theorem convertSpan_events (E : Env) (otelSpan : ptrace.Span)
    (otelLibrary : InstrumentationScope) (baseEvent : APMEvent) (timeDelta : Int)
    (out out' : Batch)
    (h : convertSpan E otelSpan otelLibrary baseEvent timeDelta out = some out') :
    ∃ primary parent events,
      convertSpanPrimary E otelSpan otelLibrary baseEvent timeDelta = some primary ∧
      parent.Agent = baseEvent.Agent ∧ parent.Error = baseEvent.Error ∧
      parent.Metricset = primary.Metricset ∧ parent.Transaction = primary.Transaction ∧
      parent.Span = primary.Span ∧
      out' = out ++ primary :: events ∧
      List.Forall₂ (fun spanEvent event =>
        convertSpanEvent E spanEvent parent timeDelta = some event) otelSpan.Events events := by
  obtain ⟨primary, parent, evs, hp, hpar, he, hf⟩ := convertSpan_eq _ _ _ _ _ _ _ h
  obtain ⟨p1, p2, p3, p4, p5⟩ := spanEventParent_fields _ _ _ hpar
  obtain ⟨_, _, s3, _, _⟩ := convertSpanPrimary_spec _ _ _ _ _ _ hp
  obtain ⟨r1, _, _, _⟩ := convertSpanPrimary_records _ _ _ _ _ _ hp
  exact ⟨primary, parent, evs, hp, p1.trans s3, p2.trans r1, p3, p4, p5, he, hf⟩

/-! ### The order of the batch -/

theorem foldlM_concatBatches {α : Type} (f : Batch → α → Option Batch) (g : α → Option Batch)
    (hf : ∀ out a, f out a = (g a).map (fun b => out ++ b)) (l : List α) (out : Batch) :
    l.foldlM f out = (concatBatches g l).map (fun bs => out ++ bs) := by
  induction l generalizing out with
  | nil =>
    show some out = some (out ++ [])
    rw [List.append_nil]
  | cons a l ih =>
    rw [List.foldlM_cons, hf]
    unfold concatBatches
    cases hga : g a with
    | none => rfl
    | some b =>
      show l.foldlM f (out ++ b) = _
      rw [ih]
      cases hgl : concatBatches g l with
      | none => rfl
      | some bs =>
        show some (out ++ b ++ bs) = some (out ++ (b ++ bs))
        rw [List.append_assoc]

theorem convertSpan_spanEvents (E : Env) (otelSpan : ptrace.Span)
    (otelLibrary : InstrumentationScope) (baseEvent : APMEvent) (timeDelta : Int)
    (out : Batch) :
    convertSpan E otelSpan otelLibrary baseEvent timeDelta out =
      (spanEvents E otelSpan otelLibrary baseEvent timeDelta).map (fun b => out ++ b) := by
  unfold convertSpan spanEvents
  cases hp : convertSpanPrimary E otelSpan otelLibrary baseEvent timeDelta with
  | none => rfl
  | some primary =>
    simp only [Option.bind_eq_bind, Option.some_bind]
    cases hpar : spanEventParent baseEvent primary with
    | none => rfl
    | some parent =>
      simp only [Option.some_bind]
      rw [foldlM_concatBatches (appendSpanEvent E parent timeDelta)
        (fun spanEvent => (convertSpanEvent E spanEvent parent timeDelta).map (fun e => [e]))]
      · cases concatBatches
          (fun spanEvent => (convertSpanEvent E spanEvent parent timeDelta).map (fun e => [e]))
          otelSpan.Events with
        | none => rfl
        | some events =>
          show some (out ++ [primary] ++ events) = some (out ++ primary :: events)
          rw [List.append_assoc]
          rfl
      · intro out1 spanEvent
        unfold appendSpanEvent
        cases convertSpanEvent E spanEvent parent timeDelta <;> rfl

theorem convertTraces_tracesBatch (E : Env) (traces : List ptrace.ResourceSpans)
    (receiveTimestamp : Int) :
    convertTraces E traces receiveTimestamp = tracesBatch E traces receiveTimestamp := by
  unfold convertTraces tracesBatch
  rw [foldlM_concatBatches _
    (fun resourceSpans =>
      concatBatches
        (fun scopeSpans =>
          concatBatches
            (fun otelSpan =>
              spanEvents E otelSpan scopeSpans.Scope
                (resourceBaseEvent E resourceSpans.Resource receiveTimestamp)
                (resourceTimeDelta resourceSpans.Resource receiveTimestamp))
            scopeSpans.Spans)
        resourceSpans.ScopeSpans)]
  · cases concatBatches _ traces <;> rfl
  · intro out resourceSpans
    unfold convertResourceSpans
    dsimp only
    apply foldlM_concatBatches
    intro out1 scopeSpans
    unfold convertScopeSpans
    apply foldlM_concatBatches
    intro out2 otelSpan
    exact convertSpan_spanEvents E otelSpan scopeSpans.Scope _ _ out2

theorem concatBatches_append {α : Type} (g : α → Option Batch) (before : List α) (a : α)
    (after : List α) (batch : Batch)
    (h : concatBatches g (before ++ a :: after) = some batch) :
    ∃ b1 b2 b3, concatBatches g before = some b1 ∧ g a = some b2 ∧
      concatBatches g after = some b3 ∧ batch = b1 ++ (b2 ++ b3) := by
  induction before generalizing batch with
  | nil =>
    rw [List.nil_append] at h
    unfold concatBatches at h
    split at h
    · rename_i b bs hb hbs
      cases h
      exact ⟨[], b, bs, rfl, hb, hbs, rfl⟩
    · cases h
  | cons x before ih =>
    rw [List.cons_append] at h
    unfold concatBatches at h
    split at h
    · rename_i b bs hb hbs
      cases h
      obtain ⟨b1, b2, b3, h1, h2, h3, h4⟩ := ih bs hbs
      refine ⟨b ++ b1, b2, b3, ?_, h2, h3, ?_⟩
      · unfold concatBatches
        rw [hb, h1]
      · rw [h4, List.append_assoc]
    · cases h

theorem spanEvents_eq (E : Env) (otelSpan : ptrace.Span) (otelLibrary : InstrumentationScope)
    (baseEvent : APMEvent) (timeDelta : Int) (batch : Batch)
    (h : spanEvents E otelSpan otelLibrary baseEvent timeDelta = some batch) :
    ∃ primary parent events,
      convertSpanPrimary E otelSpan otelLibrary baseEvent timeDelta = some primary ∧
      spanEventParent baseEvent primary = some parent ∧
      batch = primary :: events ∧
      List.Forall₂ (fun spanEvent event =>
        convertSpanEvent E spanEvent parent timeDelta = some event) otelSpan.Events events := by
  have hc := convertSpan_spanEvents E otelSpan otelLibrary baseEvent timeDelta []
  rw [h] at hc
  obtain ⟨primary, parent, events, h1, h2, h3, h4⟩ := convertSpan_eq _ _ _ _ _ _ _ hc
  exact ⟨primary, parent, events, h1, h2, h3, h4⟩

/-! ### What the attribute loop of `TranslateSpan` has seen -/

theorem labelsSet_records (e e' : APMEvent) (k v : String) (h : labelsSet e k v = some e') :
    e'.Span = e.Span ∧ e'.Event = e.Event ∧ e'.Transaction = e.Transaction := by
  unfold labelsSet at h
  split at h
  · cases h
    exact ⟨rfl, rfl, rfl⟩
  · cases h

theorem numericLabelsSet_records (e e' : APMEvent) (k : String) (v : F64)
    (h : numericLabelsSet e k v = some e') :
    e'.Span = e.Span ∧ e'.Event = e.Event ∧ e'.Transaction = e.Transaction := by
  unfold numericLabelsSet at h
  split at h
  · cases h
    exact ⟨rfl, rfl, rfl⟩
  · cases h

theorem translateSpanStr_seen (l l' : SpanLocals) (k kRep s : String)
    (h : translateSpanStr l k kRep (truncate s) s = some l') :
    l'.isDatabase = (l.isDatabase || isDatabaseAttribute (k, Value.str s)) ∧
    l'.isMessaging = (l.isMessaging || isMessagingAttribute (k, Value.str s)) ∧
    l'.isRPC = (l.isRPC || isRPCAttribute (k, Value.str s)) ∧
    l'.isHTTP = (l.isHTTP || isHTTPAttribute (k, Value.str s)) ∧
    l'.rpcSystem = rpcSystemStep l.rpcSystem (k, Value.str s) ∧
    l'.httpResponse.StatusCode = spanStatusCodeStep l.httpResponse.StatusCode (k, Value.str s) ∧
    l'.event.Span = l.event.Span ∧ l'.event.Event = l.event.Event := by
  unfold translateSpanStr at h
  dsimp only at h
  split at h
  all_goals first
    | (cases h
       simp [isDatabaseAttribute, isMessagingAttribute, isRPCAttribute, isHTTPAttribute,
         rpcSystemStep, spanStatusCodeStep]
       done)
    | (cases h
       simp [isDatabaseAttribute, isMessagingAttribute, isRPCAttribute, isHTTPAttribute,
         rpcSystemStep, spanStatusCodeStep, updateNetworkConnection, updateNetworkCarrier])
    | (simp only [Option.bind_eq_bind, Option.bind_eq_some, Option.pure_def,
         Option.some.injEq] at h
       obtain ⟨e1, h1, h2⟩ := h
       cases h2
       obtain ⟨r1, r2, _⟩ := labelsSet_records _ _ _ _ h1
       simp_all [isDatabaseAttribute, isMessagingAttribute, isRPCAttribute, isHTTPAttribute,
         rpcSystemStep, spanStatusCodeStep])

theorem translateSpanInt_seen (E : Env) (l : SpanLocals) (k kRep : String) (i : Int) :
    (translateSpanInt E l k kRep i).isDatabase =
      (l.isDatabase || isDatabaseAttribute (k, Value.int i)) ∧
    (translateSpanInt E l k kRep i).isMessaging =
      (l.isMessaging || isMessagingAttribute (k, Value.int i)) ∧
    (translateSpanInt E l k kRep i).isRPC = (l.isRPC || isRPCAttribute (k, Value.int i)) ∧
    (translateSpanInt E l k kRep i).isHTTP = (l.isHTTP || isHTTPAttribute (k, Value.int i)) ∧
    (translateSpanInt E l k kRep i).rpcSystem = rpcSystemStep l.rpcSystem (k, Value.int i) ∧
    (translateSpanInt E l k kRep i).httpResponse.StatusCode =
      spanStatusCodeStep l.httpResponse.StatusCode (k, Value.int i) ∧
    (translateSpanInt E l k kRep i).event.Span = l.event.Span ∧
    (translateSpanInt E l k kRep i).event.Event = l.event.Event := by
  unfold translateSpanInt
  split
  all_goals
    simp_all [isDatabaseAttribute, isMessagingAttribute, isRPCAttribute, isHTTPAttribute,
      rpcSystemStep, spanStatusCodeStep, setLabel]

theorem translateSpanAttribute_seen (E : Env) (isJaeger : Bool) (l l' : SpanLocals)
    (kv : String × Value) (h : translateSpanAttribute E isJaeger l kv = some l') :
    l'.isDatabase = (l.isDatabase || isDatabaseAttribute kv) ∧
    l'.isMessaging = (l.isMessaging || isMessagingAttribute kv) ∧
    l'.isRPC = (l.isRPC || isRPCAttribute kv) ∧
    l'.isHTTP = (l.isHTTP || isHTTPAttribute kv) ∧
    l'.rpcSystem = rpcSystemStep l.rpcSystem kv ∧
    l'.httpResponse.StatusCode = spanStatusCodeStep l.httpResponse.StatusCode kv ∧
    l'.event.Span = l.event.Span ∧ l'.event.Event = l.event.Event := by
  obtain ⟨k, v⟩ := kv
  unfold translateSpanAttribute at h
  dsimp only at h
  split at h
  · rename_i hc
    cases h
    cases v <;>
      simp [isDatabaseAttribute, isMessagingAttribute, isRPCAttribute, isHTTPAttribute,
        rpcSystemStep, spanStatusCodeStep, hc.2]
  · split at h
    · rename_i hc
      cases h
      cases v <;>
        simp [isDatabaseAttribute, isMessagingAttribute, isRPCAttribute, isHTTPAttribute,
          rpcSystemStep, spanStatusCodeStep, hc.2]
    · split at h
      all_goals first
        | exact translateSpanStr_seen _ _ _ _ _ h
        | (cases h; exact translateSpanInt_seen _ _ _ _ _)
        | (cases h
           split <;>
           simp [isDatabaseAttribute, isMessagingAttribute, isRPCAttribute, isHTTPAttribute,
             rpcSystemStep, spanStatusCodeStep, setLabel])
        | (cases h
           simp [isDatabaseAttribute, isMessagingAttribute, isRPCAttribute, isHTTPAttribute,
             rpcSystemStep, spanStatusCodeStep, setLabel])

theorem translateSpanAttributes_seen (E : Env) (isJaeger : Bool) (attributes : Attributes)
    (l l' : SpanLocals)
    (h : attributes.foldlM (translateSpanAttribute E isJaeger) l = some l') :
    l'.isDatabase = (l.isDatabase || attributes.any isDatabaseAttribute) ∧
    l'.isMessaging = (l.isMessaging || attributes.any isMessagingAttribute) ∧
    l'.isRPC = (l.isRPC || attributes.any isRPCAttribute) ∧
    l'.isHTTP = (l.isHTTP || attributes.any isHTTPAttribute) ∧
    l'.rpcSystem = attributes.foldl rpcSystemStep l.rpcSystem ∧
    l'.httpResponse.StatusCode =
      attributes.foldl spanStatusCodeStep l.httpResponse.StatusCode ∧
    l'.event.Span = l.event.Span ∧ l'.event.Event = l.event.Event := by
  induction attributes generalizing l with
  | nil =>
    simp only [List.foldlM_nil, Option.pure_def, Option.some.injEq] at h
    cases h
    simp
  | cons kv attributes ih =>
    simp only [List.foldlM_cons, Option.bind_eq_bind, Option.bind_eq_some] at h
    obtain ⟨l1, h1, h2⟩ := h
    obtain ⟨a1, a2, a3, a4, a5, a6, a7, a8⟩ := translateSpanAttribute_seen E isJaeger l l1 kv h1
    obtain ⟨b1, b2, b3, b4, b5, b6, b7, b8⟩ := ih l1 h2
    refine ⟨?_, ?_, ?_, ?_, ?_, ?_, b7.trans a7, b8.trans a8⟩
    · rw [b1, a1, List.any_cons, Bool.or_assoc]
    · rw [b2, a2, List.any_cons, Bool.or_assoc]
    · rw [b3, a3, List.any_cons, Bool.or_assoc]
    · rw [b4, a4, List.any_cons, Bool.or_assoc]
    · rw [b5, a5, List.foldl_cons]
    · rw [b6, a6, List.foldl_cons]

/-! ### What the attribute loop of `TranslateTransaction` has seen -/

theorem translateTransactionStr_seen (E : Env) (l l' : TransactionLocals) (k kRep s : String)
    (h : translateTransactionStr E l k kRep (truncate s) = some l') :
    l'.isMessaging = (l.isMessaging || isTransactionMessagingAttribute (k, Value.str s)) ∧
    l'.isRPC = (l.isRPC || isTransactionRPCAttribute (k, Value.str s)) ∧
    l'.isHTTP = (l.isHTTP || isTransactionHTTPAttribute E (k, Value.str s)) ∧
    l'.httpResponse.StatusCode =
      transactionStatusCodeStep E l.httpResponse.StatusCode (k, Value.str s) ∧
    l'.event.Span = l.event.Span ∧ l'.event.Event = l.event.Event ∧
    l'.event.Transaction.map (fun tx => tx.Type_) =
      (l.event.Transaction.map (fun tx => tx.Type_)).map
        (fun t => explicitTypeStep t (k, Value.str s)) := by
  unfold translateTransactionStr at h
  dsimp only at h
  split at h
  all_goals first
    | (cases h
       simp [isTransactionMessagingAttribute, isTransactionRPCAttribute,
         isTransactionHTTPAttribute, transactionStatusCodeStep, explicitTypeStep,
         updateNetworkConnection, updateNetworkCarrier, Function.comp_def])
    | (split at h <;> first
        | (cases h; done)
        | (cases h
           simp_all [isTransactionMessagingAttribute, isTransactionRPCAttribute,
             isTransactionHTTPAttribute, transactionStatusCodeStep, explicitTypeStep,
             Function.comp_def])
        | (simp only [Option.bind_eq_bind, Option.bind_eq_some, Option.pure_def,
             Option.some.injEq] at h
           obtain ⟨e1, h1, h2⟩ := h
           cases h2
           obtain ⟨r1, r2, r3⟩ := labelsSet_records _ _ _ _ h1
           simp_all [isTransactionMessagingAttribute, isTransactionRPCAttribute,
             isTransactionHTTPAttribute, transactionStatusCodeStep, explicitTypeStep,
             Function.comp_def]))
    | (simp only [Option.bind_eq_bind, Option.bind_eq_some, Option.pure_def,
         Option.some.injEq] at h
       obtain ⟨e1, h1, h2⟩ := h
       cases h2
       obtain ⟨r1, r2, r3⟩ := labelsSet_records _ _ _ _ h1
       simp_all [isTransactionMessagingAttribute, isTransactionRPCAttribute,
         isTransactionHTTPAttribute, transactionStatusCodeStep, explicitTypeStep,
         Function.comp_def])

theorem translateTransactionInt_seen (E : Env) (l l' : TransactionLocals) (k kRep : String)
    (i : Int) (h : translateTransactionInt E l k kRep (Value.int i) = some l') :
    l'.isMessaging = (l.isMessaging || isTransactionMessagingAttribute (k, Value.int i)) ∧
    l'.isRPC = (l.isRPC || isTransactionRPCAttribute (k, Value.int i)) ∧
    l'.isHTTP = (l.isHTTP || isTransactionHTTPAttribute E (k, Value.int i)) ∧
    l'.httpResponse.StatusCode =
      transactionStatusCodeStep E l.httpResponse.StatusCode (k, Value.int i) ∧
    l'.event.Span = l.event.Span ∧ l'.event.Event = l.event.Event ∧
    l'.event.Transaction.map (fun tx => tx.Type_) =
      (l.event.Transaction.map (fun tx => tx.Type_)).map
        (fun t => explicitTypeStep t (k, Value.int i)) := by
  unfold translateTransactionInt at h
  dsimp only at h
  split at h
  all_goals first
    | (cases h
       simp_all [isTransactionMessagingAttribute, isTransactionRPCAttribute,
         isTransactionHTTPAttribute, transactionStatusCodeStep, explicitTypeStep,
         Function.comp_def, setLabel, Value.Int_])
    | (split at h <;> first
        | (cases h; done)
        | (cases h
           simp_all [isTransactionMessagingAttribute, isTransactionRPCAttribute,
             isTransactionHTTPAttribute, transactionStatusCodeStep, explicitTypeStep,
             Function.comp_def]))

theorem translateTransactionAttribute_seen (E : Env) (isJaeger : Bool)
    (l l' : TransactionLocals) (kv : String × Value)
    (h : translateTransactionAttribute E isJaeger l kv = some l') :
    l'.isMessaging = (l.isMessaging || isTransactionMessagingAttribute kv) ∧
    l'.isRPC = (l.isRPC || isTransactionRPCAttribute kv) ∧
    l'.isHTTP = (l.isHTTP || isTransactionHTTPAttribute E kv) ∧
    l'.httpResponse.StatusCode = transactionStatusCodeStep E l.httpResponse.StatusCode kv ∧
    l'.event.Span = l.event.Span ∧ l'.event.Event = l.event.Event ∧
    l'.event.Transaction.map (fun tx => tx.Type_) =
      (l.event.Transaction.map (fun tx => tx.Type_)).map
        (fun t => explicitTypeStep t kv) := by
  obtain ⟨k, v⟩ := kv
  unfold translateTransactionAttribute at h
  dsimp only at h
  split at h
  · rename_i hc
    cases h
    cases v <;>
      simp [isTransactionMessagingAttribute, isTransactionRPCAttribute,
        isTransactionHTTPAttribute, transactionStatusCodeStep, explicitTypeStep,
        Function.comp_def, hc.2]
  · split at h
    · rename_i hc
      cases h
      cases v <;>
        simp [isTransactionMessagingAttribute, isTransactionRPCAttribute,
          isTransactionHTTPAttribute, transactionStatusCodeStep, explicitTypeStep,
          Function.comp_def, hc.2]
    · split at h
      all_goals first
        | exact translateTransactionStr_seen _ _ _ _ _ _ h
        | exact translateTransactionInt_seen _ _ _ _ _ _ h
        | (cases h
           simp [isTransactionMessagingAttribute, isTransactionRPCAttribute,
             isTransactionHTTPAttribute, transactionStatusCodeStep, explicitTypeStep,
             Function.comp_def, setLabel])

theorem translateTransactionAttributes_seen (E : Env) (isJaeger : Bool)
    (attributes : Attributes) (l l' : TransactionLocals)
    (h : attributes.foldlM (translateTransactionAttribute E isJaeger) l = some l') :
    l'.isMessaging = (l.isMessaging || attributes.any isTransactionMessagingAttribute) ∧
    l'.isRPC = (l.isRPC || attributes.any isTransactionRPCAttribute) ∧
    l'.isHTTP = (l.isHTTP || attributes.any (isTransactionHTTPAttribute E)) ∧
    l'.httpResponse.StatusCode =
      attributes.foldl (transactionStatusCodeStep E) l.httpResponse.StatusCode ∧
    l'.event.Span = l.event.Span ∧ l'.event.Event = l.event.Event ∧
    l'.event.Transaction.map (fun tx => tx.Type_) =
      (l.event.Transaction.map (fun tx => tx.Type_)).map
        (fun t => explicitType t attributes) := by
  induction attributes generalizing l with
  | nil =>
    simp only [List.foldlM_nil, Option.pure_def, Option.some.injEq] at h
    cases h
    refine ⟨by simp, by simp, by simp, rfl, rfl, rfl, ?_⟩
    cases l'.event.Transaction <;> rfl
  | cons kv attributes ih =>
    simp only [List.foldlM_cons, Option.bind_eq_bind, Option.bind_eq_some] at h
    obtain ⟨l1, h1, h2⟩ := h
    obtain ⟨a1, a2, a3, a4, a5, a6, a7⟩ :=
      translateTransactionAttribute_seen E isJaeger l l1 kv h1
    obtain ⟨b1, b2, b3, b4, b5, b6, b7⟩ := ih l1 h2
    refine ⟨?_, ?_, ?_, ?_, b5.trans a5, b6.trans a6, ?_⟩
    · rw [b1, a1, List.any_cons, Bool.or_assoc]
    · rw [b2, a2, List.any_cons, Bool.or_assoc]
    · rw [b3, a3, List.any_cons, Bool.or_assoc]
    · rw [b4, a4, List.foldl_cons]
    · rw [b7, a7]
      cases l.event.Transaction <;> rfl

/-! ### The statements that keep the outcome and the types -/

theorem labelsSet_kind (e e' : APMEvent) (k v : String) (h : labelsSet e k v = some e') :
    e'.kind = e.kind := by
  obtain ⟨r1, r2, r3⟩ := labelsSet_records e e' k v h
  unfold APMEvent.kind
  rw [r1, r2, r3]

theorem numericLabelsSet_kind (e e' : APMEvent) (k : String) (v : F64)
    (h : numericLabelsSet e k v = some e') : e'.kind = e.kind := by
  obtain ⟨r1, r2, r3⟩ := numericLabelsSet_records e e' k v h
  unfold APMEvent.kind
  rw [r1, r2, r3]

theorem setRepresentativeCount_kind (e : APMEvent) (count : F64) :
    (setRepresentativeCount e count).kind = e.kind := by
  cases e with
  | mk ts ev pr tr pid msg lb nl tx sp er ms ht ur sv ag ho cl so de se nw ua =>
    cases tx <;> cases sp <;> rfl

theorem parseSamplerAttributes_kind (E : Env) (samplerType : Value)
    (samplerParam : Option Value) (e e' : APMEvent)
    (h : parseSamplerAttributes E samplerType samplerParam e = some e') :
    e'.kind = e.kind := by
  unfold parseSamplerAttributes at h
  split at h
  · split at h
    · cases h
    · dsimp only at h
      split at h
      · cases h
        exact setRepresentativeCount_kind _ _
      · cases h
        rfl
  · simp only [Option.bind_eq_bind, Option.bind_eq_some] at h
    obtain ⟨e1, h1, h2⟩ := h
    have k1 : e1.kind = e.kind :=
      (labelsSet_kind _ _ _ _ h1).trans (setRepresentativeCount_kind e (F64.finite 0))
    split at h2
    · split at h2
      · cases h2
      · cases h2
        exact k1
    · exact (labelsSet_kind _ _ _ _ h2).trans k1
    · exact (numericLabelsSet_kind _ _ _ _ h2).trans k1
    · cases h2
      exact k1

theorem applySampler_kind (E : Env) (samplerType samplerParam : Option Value)
    (e e' : APMEvent) (h : applySampler E samplerType samplerParam e = some e') :
    e'.kind = e.kind := by
  unfold applySampler at h
  split at h
  · exact parseSamplerAttributes_kind _ _ _ _ _ h
  · cases h
    rfl

theorem setTransactionMessage_kind (l : TransactionLocals) (e e' : APMEvent)
    (h : setTransactionMessage l e = some e') : e'.kind = e.kind := by
  unfold setTransactionMessage at h
  split at h
  · rename_i tx hx
    cases h
    simp only [APMEvent.kind, hx, Option.map_some']
  · cases h

theorem setClientFromSource_kind (E : Env) (e : APMEvent) :
    (setClientFromSource E e).kind = e.kind := by
  unfold setClientFromSource
  split
  · split <;> rfl
  · rfl

theorem setTransactionResult_kind (spanStatus : ptrace.Status) (e e' : APMEvent)
    (h : setTransactionResult spanStatus e = some e') : e'.kind = e.kind := by
  unfold setTransactionResult at h
  split at h
  · rename_i tx hx
    split at h
    · cases h
      simp only [APMEvent.kind, hx, Option.map_some']
    · cases h
      rfl
  · cases h

theorem setFramework_kind (library : InstrumentationScope) (e : APMEvent) :
    (setFramework library e).kind = e.kind := by
  unfold setFramework
  split <;> rfl

theorem setServiceTarget_kind (serviceTarget : ServiceTarget) (e e' : APMEvent)
    (h : setServiceTarget serviceTarget e = some e') : e'.kind = e.kind := by
  unfold setServiceTarget at h
  split at h
  · split at h
    · cases h
      rfl
    · cases h
  · cases h
    rfl

/-- The transaction type that `TranslateTransaction` derives from its flags. -/
theorem setTransactionType_kind (l : TransactionLocals) (e e' : APMEvent)
    (h : setTransactionType l e = some e') :
    e'.kind =
      { e.kind with
        TransactionType := e.Transaction.map (fun tx =>
          if tx.Type_ = "" then
            (if l.isMessaging then "messaging"
             else if l.isHTTP || l.isRPC then "request" else "unknown")
          else tx.Type_) } ∧ e.Transaction.isSome = true := by
  unfold setTransactionType at h
  split at h
  · rename_i tx hx
    split at h
    · rename_i ht
      cases h
      simp only [APMEvent.kind, hx, Option.map_some', ht, if_true, Option.isSome_some, and_self]
    · rename_i ht
      cases h
      simp only [APMEvent.kind, hx, Option.map_some', ht, if_false, Option.isSome_some,
        and_self]
  · cases h

theorem setTransactionHTTPStatus_kind (l : TransactionLocals) (e e' : APMEvent)
    (h : setTransactionHTTPStatus l e = some e') :
    e'.kind =
      { e.kind with
        Outcome := e.Event.map (fun ev =>
          if l.httpResponse.StatusCode > 0 ∧ ev.Outcome = outcomeUnknown then
            serverHTTPStatusCodeOutcome l.httpResponse.StatusCode
          else ev.Outcome) } := by
  unfold setTransactionHTTPStatus at h
  split at h
  · rename_i hc
    split at h
    · rename_i ev tx hev htx
      cases h
      simp only [APMEvent.kind, hev, htx, Option.map_some', hc, true_and]
      split <;> split <;> rfl
    · cases h
  · rename_i hc
    cases h
    simp only [APMEvent.kind, hc, false_and, if_false]

theorem translateTransactionHTTP_kind (E : Env) (l : TransactionLocals) (e e' : APMEvent)
    (h : translateTransactionHTTP E l e = some e') :
    e'.kind =
      { e.kind with
        Outcome := e.Event.map (fun ev =>
          if l.httpResponse.StatusCode > 0 ∧ ev.Outcome = outcomeUnknown then
            serverHTTPStatusCodeOutcome l.httpResponse.StatusCode
          else ev.Outcome) } := by
  unfold translateTransactionHTTP at h
  simp only [Option.bind_eq_bind, Option.bind_eq_some, Option.pure_def,
    Option.some.injEq] at h
  obtain ⟨e1, h1, h2⟩ := h
  cases h2
  have k := setTransactionHTTPStatus_kind l _ e1 h1
  have k' : ({ e1 with Url := E.parseURL l.httpURL (transactionHTTPHost l e1) l.httpScheme } :
      APMEvent).kind = e1.kind := rfl
  rw [k', k]
  split <;> rfl

theorem transactionStatusCode_seen (E : Env) (attributes : Attributes) (code : Int) :
    attributes.foldl (transactionStatusCodeStep E) code = code ∨
      attributes.any (isTransactionHTTPAttribute E) = true := by
  induction attributes generalizing code with
  | nil => exact Or.inl rfl
  | cons kv attributes ih =>
    rw [List.foldl_cons, List.any_cons]
    by_cases hkv : isTransactionHTTPAttribute E kv = true
    · right
      rw [hkv]
      rfl
    · have hstep : transactionStatusCodeStep E code kv = code := by
        obtain ⟨k, v⟩ := kv
        cases v <;>
          simp_all [transactionStatusCodeStep, isTransactionHTTPAttribute]
      rw [hstep]
      rcases ih code with h | h
      · exact Or.inl h
      · right
        rw [h]
        exact Bool.or_true _

theorem TranslateTransaction_kind (E : Env) (attributes : Attributes)
    (spanStatus : ptrace.Status) (library : InstrumentationScope) (event event' : APMEvent)
    (h : TranslateTransaction E attributes spanStatus library event = some event') :
    event.Transaction.isSome = true ∧
    event'.kind =
      { Outcome := event.Event.map (fun ev =>
          if transactionStatusCodeOf E attributes > 0 ∧ ev.Outcome = outcomeUnknown then
            serverHTTPStatusCodeOutcome (transactionStatusCodeOf E attributes)
          else ev.Outcome),
        TransactionType := event.Transaction.map (fun tx =>
          if explicitType tx.Type_ attributes = "" then impliedTransactionType E attributes
          else explicitType tx.Type_ attributes),
        SpanType := event.Span.map (fun span => (span.Type_, span.Subtype)) } := by
  unfold TranslateTransaction at h
  simp only [Option.bind_eq_bind, Option.bind_eq_some, Option.pure_def,
    Option.some.injEq] at h
  obtain ⟨agent, _, l, h1, e1, h2, e2, h3, e3, h4, e4, h5, e5, h6, h7⟩ := h
  obtain ⟨s1, s2, s3, s4, s5, s6, s7⟩ :=
    translateTransactionAttributes_seen E _ attributes _ l h1
  simp only [Bool.false_or] at s1 s2 s3
  have s4' : l.httpResponse.StatusCode = transactionStatusCodeOf E attributes := s4
  have s5' : l.event.Span = event.Span := s5
  have s6' : l.event.Event = event.Event := s6
  have s7' : l.event.Transaction.map (fun tx => tx.Type_) =
      (event.Transaction.map (fun tx => tx.Type_)).map
        (fun t => explicitType t attributes) := s7
  obtain ⟨k1, hsome⟩ := setTransactionType_kind l l.event e1 h2
  have k2 : e2.kind = { e1.kind with
      Outcome := e1.Event.map (fun ev =>
        if l.httpResponse.StatusCode > 0 ∧ ev.Outcome = outcomeUnknown then
          serverHTTPStatusCodeOutcome l.httpResponse.StatusCode
        else ev.Outcome) } := by
    by_cases hh : l.isHTTP = true
    · rw [if_pos hh] at h3
      exact translateTransactionHTTP_kind E l e1 e2 h3
    · rw [if_neg hh] at h3
      cases h3
      have hz : l.httpResponse.StatusCode = 0 := by
        rcases transactionStatusCode_seen E attributes 0 with hc | hc
        · rw [s4']
          exact hc
        · rw [s3, hc] at hh
          exact absurd rfl hh
      simp only [hz, lt_self_iff_false, gt_iff_lt, false_and, if_false]
      unfold APMEvent.kind
      cases e1.Event <;> rfl
  have k3 : e3.kind = e2.kind := by
    split at h4
    · exact setTransactionMessage_kind l e2 e3 h4
    · cases h4
      rfl
  have k4 : e4.kind = e3.kind :=
    (applySampler_kind _ _ _ _ _ h5).trans (setClientFromSource_kind E e3)
  have k5 : e5.kind = e4.kind := setTransactionResult_kind _ _ _ h6
  have k6 : event'.kind = e5.kind := by
    rw [← h7]
    exact setFramework_kind library e5
  have hsome' : event.Transaction.isSome = true := by
    cases hx : event.Transaction with
    | some tx => rfl
    | none =>
      rw [hx] at s7'
      cases hy : l.event.Transaction with
      | none => rw [hy] at hsome; cases hsome
      | some ty => rw [hy] at s7'; cases s7'
  refine ⟨hsome', ?_⟩
  rw [k6, k5, k4, k3, k2, k1]
  have o1 : e1.Event.map (fun ev => ev.Outcome) = event.Event.map (fun ev => ev.Outcome) := by
    have := congrArg EventKind.Outcome k1
    simp only [APMEvent.kind] at this
    rw [this, s6']
  have gen : ∀ (x : Option Event) (g : String → String),
      x.map (fun ev => g ev.Outcome) = (x.map (fun ev => ev.Outcome)).map g := by
    intro x g
    cases x <;> rfl
  have hO : e1.Event.map (fun ev =>
        if l.httpResponse.StatusCode > 0 ∧ ev.Outcome = outcomeUnknown then
          serverHTTPStatusCodeOutcome l.httpResponse.StatusCode
        else ev.Outcome) =
      event.Event.map (fun ev =>
        if transactionStatusCodeOf E attributes > 0 ∧ ev.Outcome = outcomeUnknown then
          serverHTTPStatusCodeOutcome (transactionStatusCodeOf E attributes)
        else ev.Outcome) := by
    rw [s4']
    exact (gen e1.Event (fun o =>
      if transactionStatusCodeOf E attributes > 0 ∧ o = outcomeUnknown then
        serverHTTPStatusCodeOutcome (transactionStatusCodeOf E attributes)
      else o)).trans ((congrArg (Option.map _) o1).trans (gen event.Event _).symm)
  have hT : l.event.Transaction.map (fun tx =>
        if tx.Type_ = "" then
          (if l.isMessaging then "messaging"
           else if l.isHTTP || l.isRPC then "request" else "unknown")
        else tx.Type_) =
      event.Transaction.map (fun tx =>
        if explicitType tx.Type_ attributes = "" then impliedTransactionType E attributes
        else explicitType tx.Type_ attributes) := by
    rw [s1, s2, s3]
    cases hx : event.Transaction with
    | none =>
      rw [hx] at hsome'
      cases hsome'
    | some tx =>
      cases hy : l.event.Transaction with
      | none =>
        rw [hy] at hsome
        cases hsome
      | some ty =>
        rw [hx, hy] at s7'
        simp only [Option.map_some', Option.some.injEq] at s7'
        simp only [Option.map_some', s7']
        rfl
  simp only [APMEvent.kind, hO, hT, s5']

/-! ### The classification and the outcome of a span -/

theorem spanStatusCode_seen (attributes : Attributes) (code : Int) :
    attributes.foldl spanStatusCodeStep code = code ∨
      attributes.any isHTTPAttribute = true := by
  induction attributes generalizing code with
  | nil => exact Or.inl rfl
  | cons kv attributes ih =>
    rw [List.foldl_cons, List.any_cons]
    by_cases hkv : isHTTPAttribute kv = true
    · right
      rw [hkv]
      rfl
    · have hstep : spanStatusCodeStep code kv = code := by
        obtain ⟨k, v⟩ := kv
        cases v <;> simp_all [spanStatusCodeStep, isHTTPAttribute]
      rw [hstep]
      rcases ih code with h | h
      · exact Or.inl h
      · right
        rw [h]
        exact Bool.or_true _

theorem classifySpan_type (E : Env) (spanKind : ptrace.SpanKind) (l : SpanLocals)
    (d : SpanDestination) (c : SpanClassification) :
    (classifySpan E spanKind l d c).span.Type_ =
      (if l.isDatabase then "db"
       else if l.isMessaging then "messaging"
       else if l.isRPC then "external"
       else if l.isHTTP then "external"
       else if c.span.Type_ = "" then
         (if spanKind = ptrace.SpanKind.Internal then "app" else "unknown")
       else c.span.Type_) ∧
    (classifySpan E spanKind l d c).span.Subtype =
      (if l.isDatabase then l.db.Type_
       else if l.isMessaging then l.messageSystem
       else if l.isRPC then l.rpcSystem
       else if l.isHTTP then "http"
       else if c.span.Type_ = "" then
         (if spanKind = ptrace.SpanKind.Internal then "internal" else c.span.Subtype)
       else c.span.Subtype) := by
  unfold classifySpan
  dsimp only
  by_cases h1 : l.isDatabase = true
  · simp only [h1, if_true]
    repeat' split
    all_goals exact ⟨rfl, rfl⟩
  · simp only [h1, Bool.false_eq_true, if_false]
    by_cases h2 : l.isMessaging = true
    · simp only [h2, if_true]
      repeat' split
      all_goals exact ⟨rfl, rfl⟩
    · simp only [h2, Bool.false_eq_true, if_false]
      by_cases h3 : l.isRPC = true
      · simp only [h3, if_true, and_self]
      · simp only [h3, Bool.false_eq_true, if_false]
        by_cases h4 : l.isHTTP = true
        · simp only [h4, if_true]
          split <;> exact ⟨rfl, rfl⟩
        · simp only [h4, Bool.false_eq_true, if_false]
          by_cases h5 : c.span.Type_ = ""
          · simp only [h5, if_true]
            cases spanKind <;> simp
          · simp only [h5, if_false, and_self]

theorem initialClassification_type (l : SpanLocals) (span : Span) :
    (initialClassification l span).span.Type_ = span.Type_ ∧
      (initialClassification l span).span.Subtype = span.Subtype := by
  unfold initialClassification
  dsimp only
  split <;> split <;> exact ⟨rfl, rfl⟩

theorem spanWithDestinationService_type (c : SpanClassification) :
    (spanWithDestinationService c).Type_ = c.span.Type_ ∧
      (spanWithDestinationService c).Subtype = c.span.Subtype := by
  unfold spanWithDestinationService
  split <;> exact ⟨rfl, rfl⟩

theorem setSpanHTTPOutcome_kind (l : SpanLocals) (e e' : APMEvent)
    (h : setSpanHTTPOutcome l e = some e') :
    e'.kind =
      { e.kind with
        Outcome := e.Event.map (fun ev =>
          if l.httpResponse.StatusCode > 0 ∧ ev.Outcome = outcomeUnknown then
            clientHTTPStatusCodeOutcome l.httpResponse.StatusCode
          else ev.Outcome) } := by
  unfold setSpanHTTPOutcome at h
  split at h
  · rename_i hc
    split at h
    · rename_i ev hev
      split at h
      · rename_i ho
        cases h
        simp only [APMEvent.kind, hev, Option.map_some', hc, ho, true_and, if_true]
      · rename_i ho
        cases h
        simp only [APMEvent.kind, hev, Option.map_some', hc, ho, true_and, if_false]
    · cases h
  · rename_i hc
    cases h
    simp only [APMEvent.kind, hc, false_and, if_false]

theorem translateSpanHTTP_kind (l : SpanLocals) (httpURL : String) (e e' : APMEvent)
    (h : translateSpanHTTP l httpURL e = some e') :
    e'.kind =
      { e.kind with
        Outcome := e.Event.map (fun ev =>
          if l.httpResponse.StatusCode > 0 ∧ ev.Outcome = outcomeUnknown then
            clientHTTPStatusCodeOutcome l.httpResponse.StatusCode
          else ev.Outcome) } := by
  unfold translateSpanHTTP at h
  simp only [Option.bind_eq_bind, Option.bind_eq_some, Option.pure_def,
    Option.some.injEq] at h
  obtain ⟨e1, h1, h2⟩ := h
  cases h2
  rw [← setSpanHTTPOutcome_kind l e e1 h1]
  split <;> rfl

theorem finishSpan_kind (E : Env) (spanKind : ptrace.SpanKind) (l : SpanLocals)
    (e' : APMEvent) (h : finishSpan E spanKind l = some e') :
    ∃ span span', l.event.Span = some span ∧ e'.Span = some span' ∧
      span'.Type_ = (classifySpan E spanKind l (spanDestination E l)
        (initialClassification l span)).span.Type_ ∧
      span'.Subtype = (classifySpan E spanKind l (spanDestination E l)
        (initialClassification l span)).span.Subtype ∧
      e'.Event.map (fun ev => ev.Outcome) =
        l.event.Event.map (fun ev =>
          if l.isHTTP = true ∧ l.httpResponse.StatusCode > 0 ∧ ev.Outcome = outcomeUnknown then
            clientHTTPStatusCodeOutcome l.httpResponse.StatusCode
          else ev.Outcome) ∧
      e'.Transaction.map (fun tx => tx.Type_) =
        l.event.Transaction.map (fun tx => tx.Type_) := by
  unfold finishSpan at h
  simp only [Option.bind_eq_bind, Option.bind_eq_some] at h
  obtain ⟨e1, h1, sp, hsp, h3⟩ := h
  have k1 : e1.kind = { l.event.kind with
      Outcome := l.event.Event.map (fun ev =>
        if l.isHTTP = true ∧ l.httpResponse.StatusCode > 0 ∧ ev.Outcome = outcomeUnknown then
          clientHTTPStatusCodeOutcome l.httpResponse.StatusCode
        else ev.Outcome) } := by
    by_cases hh : l.isHTTP = true
    · rw [if_pos hh] at h1
      rw [translateSpanHTTP_kind l _ l.event e1 h1]
      simp only [hh, true_and]
    · rw [if_neg hh] at h1
      cases h1
      simp only [hh, false_and, if_false]
      unfold APMEvent.kind
      cases l.event.Event <;> rfl
  have k3 := setServiceTarget_kind _ _ _ h3
  have c1 := congrArg EventKind.SpanType k1
  have c2 := congrArg EventKind.Outcome k1
  have c3 := congrArg EventKind.TransactionType k1
  have d1 := congrArg EventKind.SpanType k3
  have d2 := congrArg EventKind.Outcome k3
  have d3 := congrArg EventKind.TransactionType k3
  simp only [APMEvent.kind] at c1 c2 c3 d1 d2 d3
  rw [hsp] at c1
  cases hls : l.event.Span with
  | none =>
    rw [hls] at c1
    cases c1
  | some span =>
    rw [hls] at c1
    simp only [Option.map_some', Option.some.injEq, Prod.mk.injEq] at c1
    cases hes : e'.Span with
    | none =>
      rw [hes] at d1
      cases d1
    | some span' =>
      rw [hes] at d1
      simp only [Option.map_some', Option.some.injEq, Prod.mk.injEq] at d1
      obtain ⟨w1, w2⟩ := spanWithDestinationService_type
        (classifySpan E spanKind l (spanDestination E l) (initialClassification l sp))
      obtain ⟨t1, t2⟩ := classifySpan_type E spanKind l (spanDestination E l)
        (initialClassification l sp)
      obtain ⟨u1, u2⟩ := classifySpan_type E spanKind l (spanDestination E l)
        (initialClassification l span)
      obtain ⟨i1, i2⟩ := initialClassification_type l sp
      obtain ⟨j1, j2⟩ := initialClassification_type l span
      refine ⟨span, span', rfl, rfl, ?_, ?_, ?_, ?_⟩
      · rw [d1.1, w1, t1, u1, i1, j1, c1.1]
      · rw [d1.2, w2, t2, u2, i1, j1, i2, j2, c1.1, c1.2]
      · rw [d2]
        split <;> exact c2
      · rw [d3]
        split <;> exact c3

theorem TranslateSpan_kind (E : Env) (spanKind : ptrace.SpanKind) (attributes : Attributes)
    (event event' : APMEvent) (h : TranslateSpan E spanKind attributes event = some event') :
    ∃ span span', event.Span = some span ∧ event'.Span = some span' ∧
      SpanClassified spanKind attributes span span' ∧
      event'.Event.map (fun ev => ev.Outcome) =
        event.Event.map (fun ev =>
          if spanStatusCodeOf attributes > 0 ∧ ev.Outcome = outcomeUnknown then
            clientHTTPStatusCodeOutcome (spanStatusCodeOf attributes)
          else ev.Outcome) := by
  unfold TranslateSpan at h
  simp only [Option.bind_eq_bind, Option.bind_eq_some] at h
  obtain ⟨l, h1, e2, h2, h3⟩ := h
  obtain ⟨s1, s2, s3, s4, s5, s6, s7, s8⟩ := translateSpanAttributes_seen E _ attributes _ l h1
  simp only [Bool.false_or] at s1 s2 s3 s4
  have s5' : l.rpcSystem = rpcSystemOf attributes := s5
  have s6' : l.httpResponse.StatusCode = spanStatusCodeOf attributes := s6
  have s7' : l.event.Span = event.Span := s7
  have s8' : l.event.Event = event.Event := s8
  obtain ⟨span, span2, f1, f2, f3, f4, f5, f6⟩ := finishSpan_kind E spanKind l e2 h2
  have k3 := applySampler_kind _ _ _ _ _ h3
  have c1 := congrArg EventKind.SpanType k3
  have c2 := congrArg EventKind.Outcome k3
  have c3 := congrArg EventKind.TransactionType k3
  simp only [APMEvent.kind] at c1 c2 c3
  rw [f2] at c1
  cases hes : event'.Span with
  | none =>
    rw [hes] at c1
    cases c1
  | some span' =>
    rw [hes] at c1
    simp only [Option.map_some', Option.some.injEq, Prod.mk.injEq] at c1
    obtain ⟨t1, t2⟩ := classifySpan_type E spanKind l (spanDestination E l)
      (initialClassification l span)
    obtain ⟨i1, i2⟩ := initialClassification_type l span
    rw [i1] at t1
    rw [i1, i2] at t2
    refine ⟨span, span', s7'.symm.trans f1, rfl, ?_, ?_⟩
    · unfold SpanClassified
      rw [← s1, ← s2, ← s3, ← s4, ← s5', c1.1, c1.2, f3, f4, t1, t2]
      by_cases g1 : l.isDatabase = true
      · simp only [g1, if_true]
      · simp only [g1, Bool.false_eq_true, if_false]
        by_cases g2 : l.isMessaging = true
        · simp only [g2, if_true]
        · simp only [g2, Bool.false_eq_true, if_false]
          by_cases g3 : l.isRPC = true
          · simp only [g3, if_true, and_self]
          · simp only [g3, Bool.false_eq_true, if_false]
            by_cases g4 : l.isHTTP = true
            · simp only [g4, if_true, and_self]
            · simp only [g4, Bool.false_eq_true, if_false]
              by_cases g5 : span.Type_ = ""
              · simp only [g5, if_true]
                by_cases g6 : spanKind = ptrace.SpanKind.Internal
                · simp only [g6, if_true, and_self]
                · simp only [g6, if_false, and_self]
              · simp only [g5, if_false, and_self]
    · rw [c2, f5, s8', s6']
      have hz : l.isHTTP = true ∨ spanStatusCodeOf attributes = 0 := by
        rcases spanStatusCode_seen attributes 0 with hc | hc
        · exact Or.inr hc
        · left
          rw [s4]
          exact hc
      rcases hz with hz | hz
      · simp only [hz, true_and]
      · simp only [hz, lt_self_iff_false, gt_iff_lt, false_and, and_false, if_false]

theorem translateSpanLinks_kind (e : APMEvent) (links : List ptrace.SpanLink) :
    (translateSpanLinks e links).Event = e.Event ∧
    (translateSpanLinks e links).Transaction = e.Transaction ∧
    (∀ sp, e.Span = some sp → ∃ sp', (translateSpanLinks e links).Span = some sp' ∧
      sp'.Type_ = sp.Type_ ∧ sp'.Subtype = sp.Subtype) := by
  unfold translateSpanLinks
  split
  · exact ⟨rfl, rfl, fun sp h => ⟨sp, h, rfl, rfl⟩⟩
  · refine ⟨rfl, rfl, fun sp h => ⟨_, rfl, ?_, ?_⟩⟩
    · simp only [populateNil, h, Option.getD_some]
    · simp only [populateNil, h, Option.getD_some]

/-- The outcome and the types of the primary event of a span, from the status and the
attributes of the span. -/
theorem convertSpanPrimary_kind (E : Env) (otelSpan : ptrace.Span)
    (otelLibrary : InstrumentationScope) (baseEvent : APMEvent) (timeDelta : Int)
    (primary : APMEvent)
    (h : convertSpanPrimary E otelSpan otelLibrary baseEvent timeDelta = some primary) :
    (isTransactionSpan otelSpan = true →
      (∃ ev, primary.Event = some ev ∧ ev.Outcome =
        if transactionStatusCodeOf E otelSpan.Attributes > 0 ∧
            spanStatusOutcome otelSpan.Status = outcomeUnknown then
          serverHTTPStatusCodeOutcome (transactionStatusCodeOf E otelSpan.Attributes)
        else spanStatusOutcome otelSpan.Status) ∧
      (∃ tx, primary.Transaction = some tx ∧ tx.Type_ =
        if explicitType "" otelSpan.Attributes = "" then
          impliedTransactionType E otelSpan.Attributes
        else explicitType "" otelSpan.Attributes)) ∧
    (isTransactionSpan otelSpan = false →
      (∃ ev, primary.Event = some ev ∧ ev.Outcome =
        if spanStatusCodeOf otelSpan.Attributes > 0 ∧
            spanStatusOutcome otelSpan.Status = outcomeUnknown then
          clientHTTPStatusCodeOutcome (spanStatusCodeOf otelSpan.Attributes)
        else spanStatusOutcome otelSpan.Status) ∧
      (∃ span, primary.Span = some span ∧
        SpanClassified otelSpan.Kind otelSpan.Attributes {} span)) := by
  obtain ⟨e1, h1, hev⟩ :=
    convertSpanPrimary_eq E otelSpan otelLibrary baseEvent timeDelta primary h
  obtain ⟨l1, l2, l3⟩ := translateSpanLinks_kind e1 otelSpan.Links
  have hE : primary.Event = e1.Event := by
    rw [hev]
    exact l1
  have hT : primary.Transaction = e1.Transaction := by
    rw [hev]
    exact l2
  have hS : primary.Span = (translateSpanLinks e1 otelSpan.Links).Span := by
    rw [hev]
  unfold translateSpanOrTransaction at h1
  dsimp only at h1
  constructor
  · intro hk
    have hc : otelSpan.ParentSpanID.IsEmpty = true ∨ otelSpan.Kind = ptrace.SpanKind.Server ∨
        otelSpan.Kind = ptrace.SpanKind.Consumer := by
      unfold isTransactionSpan at hk
      simp only [Bool.or_eq_true, decide_eq_true_eq] at hk
      tauto
    rw [if_pos hc] at h1
    obtain ⟨_, k⟩ := TranslateTransaction_kind _ _ _ _ _ _ h1
    have c1 := congrArg EventKind.Outcome k
    have c2 := congrArg EventKind.TransactionType k
    simp only [APMEvent.kind, Option.map_some'] at c1 c2
    constructor
    · rw [hE]
      cases hx : e1.Event with
      | none => rw [hx] at c1; cases c1
      | some ev =>
        rw [hx] at c1
        have c1' : some ev.Outcome = some
            (if transactionStatusCodeOf E otelSpan.Attributes > 0 ∧
                spanStatusOutcome otelSpan.Status = outcomeUnknown then
              serverHTTPStatusCodeOutcome (transactionStatusCodeOf E otelSpan.Attributes)
            else spanStatusOutcome otelSpan.Status) := c1
        exact ⟨ev, rfl, Option.some.inj c1'⟩
    · rw [hT]
      cases hx : e1.Transaction with
      | none => rw [hx] at c2; cases c2
      | some tx =>
        rw [hx] at c2
        simp only [Option.map_some', Option.some.injEq] at c2
        exact ⟨tx, rfl, c2⟩
  · intro hk
    have hc : ¬ (otelSpan.ParentSpanID.IsEmpty = true ∨ otelSpan.Kind = ptrace.SpanKind.Server ∨
        otelSpan.Kind = ptrace.SpanKind.Consumer) := by
      unfold isTransactionSpan at hk
      simp only [Bool.or_eq_false_iff, decide_eq_false_iff_not] at hk
      rintro (h1 | h2 | h3)
      · rw [hk.1.1] at h1
        cases h1
      · exact hk.1.2 h2
      · exact hk.2 h3
    rw [if_neg hc] at h1
    obtain ⟨span, span', g1, g2, g3, g4⟩ := TranslateSpan_kind _ _ _ _ _ h1
    simp only [Option.some.injEq] at g1
    constructor
    · rw [hE]
      cases hx : e1.Event with
      | none => rw [hx] at g4; cases g4
      | some ev =>
        rw [hx] at g4
        have g4' : some ev.Outcome = some
            (if spanStatusCodeOf otelSpan.Attributes > 0 ∧
                spanStatusOutcome otelSpan.Status = outcomeUnknown then
              clientHTTPStatusCodeOutcome (spanStatusCodeOf otelSpan.Attributes)
            else spanStatusOutcome otelSpan.Status) := g4
        exact ⟨ev, rfl, Option.some.inj g4'⟩
    · obtain ⟨sp', q1, q2, q3⟩ := l3 span' g2
      refine ⟨sp', hS.trans q1, ?_⟩
      rw [← g1] at g3
      unfold SpanClassified at g3 ⊢
      rw [q2, q3]
      exact g3

theorem SpanClassified_type (spanKind : ptrace.SpanKind) (attributes : Attributes)
    (span span' : Span) (hs : span.Type_ = "")
    (h : SpanClassified spanKind attributes span span') :
    span'.Type_ = "db" ∨ span'.Type_ = "messaging" ∨ span'.Type_ = "external" ∨
      span'.Type_ = "app" ∨ span'.Type_ = "unknown" := by
  unfold SpanClassified at h
  rw [if_pos hs] at h
  split at h
  · exact Or.inl h
  · split at h
    · exact Or.inr (Or.inl h)
    · split at h
      · exact Or.inr (Or.inr (Or.inl h.1))
      · split at h
        · exact Or.inr (Or.inr (Or.inl h.1))
        · split at h
          · exact Or.inr (Or.inr (Or.inr (Or.inl h.1)))
          · exact Or.inr (Or.inr (Or.inr (Or.inr h.1)))

theorem truncateLoop_eq (cs : List Char) (j : Nat) (pre : List Char) (hj : j ≤ keywordLength) :
    truncateLoop cs j pre = pre ++ cs.take (keywordLength - j) := by
  induction cs generalizing j pre with
  | nil =>
    show pre = pre ++ List.take _ []
    rw [List.take_nil, List.append_nil]
  | cons c rest ih =>
    unfold truncateLoop
    by_cases h : j = keywordLength
    · rw [if_pos h, h, Nat.sub_self, List.take_zero, List.append_nil]
    · rw [if_neg h, ih (j + 1) (pre ++ [c]) (by omega)]
      have hk : keywordLength - j = (keywordLength - (j + 1)) + 1 := by omega
      rw [hk, List.take_succ_cons, List.append_assoc]
      rfl

theorem truncate_eq_take (s : String) : truncate s = String.mk (s.data.take keywordLength) := by
  unfold truncate
  rw [truncateLoop_eq s.data 0 [] (Nat.zero_le _)]
  rfl

theorem truncate_of_length_le (s : String) (h : s.length ≤ keywordLength) : truncate s = s := by
  rw [truncate_eq_take, List.take_of_length_le h]

theorem explicitType_last (type : String) (before after : Attributes) (s : String)
    (hafter : ∀ kv, kv ∈ after → ¬ (kv.1 = "type" ∧ ∃ s', kv.2 = Value.str s')) :
    explicitType type (before ++ ("type", Value.str s) :: after) = truncate s := by
  unfold explicitType
  rw [List.foldl_append, List.foldl_cons]
  have hstep : explicitTypeStep (List.foldl explicitTypeStep type before)
      ("type", Value.str s) = truncate s := by
    simp [explicitTypeStep]
  rw [hstep]
  clear hstep
  induction after generalizing s with
  | nil => rfl
  | cons kv after ih =>
    rw [List.foldl_cons]
    have hkv := hafter kv (List.mem_cons_self _ _)
    have hstep : explicitTypeStep (truncate s) kv = truncate s := by
      obtain ⟨k, v⟩ := kv
      cases v <;> simp_all [explicitTypeStep]
    rw [hstep]
    exact ih s (fun kv1 h1 => hafter kv1 (List.mem_cons_of_mem _ h1))

theorem explicitType_none (type : String) (attributes : Attributes)
    (h : ∀ kv, kv ∈ attributes → ¬ (kv.1 = "type" ∧ ∃ s', kv.2 = Value.str s')) :
    explicitType type attributes = type := by
  unfold explicitType
  induction attributes with
  | nil => rfl
  | cons kv attributes ih =>
    rw [List.foldl_cons]
    have hkv := h kv (List.mem_cons_self _ _)
    have hstep : explicitTypeStep type kv = type := by
      obtain ⟨k, v⟩ := kv
      cases v <;> simp_all [explicitTypeStep]
    rw [hstep]
    exact ih (fun kv1 h1 => h kv1 (List.mem_cons_of_mem _ h1))

/-! ### Helpers for concrete instances -/

theorem eq_some_getD {α : Type} (x : Option α) (d : α) (h : x.isSome = true) :
    x = some (x.getD d) := by
  cases x with
  | none => cases h
  | some a => rfl

/-! ### The events of the span events of a span -/

theorem convertSpan_span_events (E : Env) (otelSpan : ptrace.Span)
    (otelLibrary : InstrumentationScope) (baseEvent : APMEvent) (timeDelta : Int)
    (agent : Agent) (ha : baseEvent.Agent = some agent) (he : baseEvent.Error = none)
    (out out' : Batch)
    (h : convertSpan E otelSpan otelLibrary baseEvent timeDelta out = some out') :
    ∃ primary events, out' = out ++ primary :: events ∧
      List.Forall₂ (fun (spanEvent : ptrace.SpanEvent) (event : APMEvent) =>
        ((if hasPrefix agent.Name "Jaeger" then (jaegerSpanEventError E spanEvent).isSome
          else carriesException spanEvent) = true →
          event.Processor = some Processor.error ∧ event.Error.isSome = true) ∧
        ((if hasPrefix agent.Name "Jaeger" then (jaegerSpanEventError E spanEvent).isSome
          else carriesException spanEvent) = false →
          event.Processor = some Processor.log ∧ event.Error = none ∧
          event.Message =
            if hasPrefix agent.Name "Jaeger" then jaegerLogMessage spanEvent
            else spanEvent.Name))
        otelSpan.Events events := by
  obtain ⟨primary, parent, events, _, p1, p2, _, _, _, hout, hf⟩ :=
    convertSpan_events E otelSpan otelLibrary baseEvent timeDelta out out' h
  refine ⟨primary, events, hout, hf.imp ?_⟩
  intro spanEvent event hse
  obtain ⟨r1, r2⟩ := convertSpanEvent_rule E spanEvent parent timeDelta agent
    (p1.trans ha) (p2.trans he)
  constructor
  · intro hc
    exact r1 hc event hse
  · intro hc
    obtain ⟨event1, g1, g2, g3, _, _, _, g7⟩ := r2 hc
    rw [hse] at g1
    cases g1
    exact ⟨g2, g3, g7⟩

/-! ### Hexadecimal ids -/

theorem fromHexChar_hexDigit (n : Nat) (h : n < 16) : fromHexChar (hexDigit n) = some n := by
  interval_cases n <;> decide

theorem hexDigit_mem (n : Nat) (h : n < 16) : hexDigit n ∈ "0123456789abcdef".data := by
  interval_cases n <;> decide

theorem hexEncodeToString_cons (b : Fin 256) (bytes : List (Fin 256)) :
    (hexEncodeToString (b :: bytes)).data = byteDigits b ++ (hexEncodeToString bytes).data := rfl

theorem hexEncodeToString_data (bytes : List (Fin 256)) :
    (hexEncodeToString bytes).data = (bytes.map byteDigits).flatten := by
  induction bytes with
  | nil => rfl
  | cons b bytes ih => rw [hexEncodeToString_cons, ih, List.map_cons, List.flatten_cons]

theorem hexEncodeToString_length (bytes : List (Fin 256)) :
    (hexEncodeToString bytes).length = 2 * bytes.length := by
  induction bytes with
  | nil => rfl
  | cons b bytes ih =>
    have h : (hexEncodeToString (b :: bytes)).length =
        (hexEncodeToString bytes).length + 2 := by
      show (hexEncodeToString (b :: bytes)).data.length = _
      rw [hexEncodeToString_cons, List.length_append, Nat.add_comm]
      rfl
    rw [h, ih, List.length_cons]
    omega

theorem hexEncodeToString_digits (bytes : List (Fin 256)) (c : Char)
    (hc : c ∈ (hexEncodeToString bytes).data) : c ∈ "0123456789abcdef".data := by
  induction bytes with
  | nil => cases hc
  | cons b bytes ih =>
    rw [hexEncodeToString_cons, List.mem_append] at hc
    rcases hc with hc | hc
    · unfold byteDigits at hc
      rw [List.mem_cons, List.mem_singleton] at hc
      rcases hc with hc | hc
      · rw [hc]
        exact hexDigit_mem _ (by omega)
      · rw [hc]
        exact hexDigit_mem _ (Nat.mod_lt _ (by decide))
    · exact ih hc

theorem hexDecode_hexEncodeToString (bytes : List (Fin 256)) :
    hexDecode (hexEncodeToString bytes).data = some bytes := by
  induction bytes with
  | nil => rfl
  | cons b bytes ih =>
    rw [hexEncodeToString_cons]
    show hexDecode (hexDigit (b.val / 16) :: hexDigit (b.val % 16) ::
      (hexEncodeToString bytes).data) = _
    unfold hexDecode
    rw [fromHexChar_hexDigit _ (by omega), fromHexChar_hexDigit _ (Nat.mod_lt _ (by decide)), ih]
    dsimp only
    congr 2
    apply Fin.ext
    show (b.val / 16 * 16 + b.val % 16) % 256 = b.val
    have := b.isLt
    omega

theorem hexSpanID_eq_empty (id : SpanID) : hexSpanID id = "" ↔ id.IsEmpty = true := by
  unfold hexSpanID
  constructor
  · intro h
    by_cases he : id.IsEmpty = true
    · exact he
    · rw [if_neg he] at h
      obtain ⟨bytes, size⟩ := id
      cases bytes with
      | nil => cases size
      | cons b bytes => exact absurd h (hexEncodeToString_ne_empty b bytes)
  · intro h
    rw [if_pos h]

theorem hexTraceID_eq_empty (id : TraceID) : hexTraceID id = "" ↔ id.IsEmpty = true := by
  unfold hexTraceID
  constructor
  · intro h
    by_cases he : id.IsEmpty = true
    · exact he
    · rw [if_neg he] at h
      obtain ⟨bytes, size⟩ := id
      cases bytes with
      | nil => cases size
      | cons b bytes => exact absurd h (hexEncodeToString_ne_empty b bytes)
  · intro h
    rw [if_pos h]

theorem all_zero_iff (bytes : List (Fin 256)) :
    bytes.all (fun b => decide (b = 0)) = true ↔ ∀ b, b ∈ bytes → b = 0 := by
  simp [List.all_eq_true]

/-! ### The parent id and the name of the primary event -/

theorem translateSpanOrTransaction_ParentId (E : Env) (otelSpan : ptrace.Span)
    (otelLibrary : InstrumentationScope) (e e' : APMEvent)
    (h : translateSpanOrTransaction E otelSpan otelLibrary e = some e') :
    e'.ParentId = e.ParentId := by
  unfold translateSpanOrTransaction at h
  dsimp only at h
  split at h
  · exact congrArg EventCore.ParentId (TranslateTransaction_keeps _ _ _ _ _ _ h).1
  · exact congrArg EventCore.ParentId (TranslateSpan_keeps _ _ _ _ _ h).1

theorem convertSpanPrimary_ParentId (E : Env) (otelSpan : ptrace.Span)
    (otelLibrary : InstrumentationScope) (baseEvent : APMEvent) (timeDelta : Int)
    (event : APMEvent)
    (h : convertSpanPrimary E otelSpan otelLibrary baseEvent timeDelta = some event) :
    event.ParentId =
      if otelSpan.ParentSpanID.IsEmpty then baseEvent.ParentId
      else hexSpanID otelSpan.ParentSpanID := by
  obtain ⟨e1, h1, hev⟩ :=
    convertSpanPrimary_eq E otelSpan otelLibrary baseEvent timeDelta event h
  have hp := translateSpanOrTransaction_ParentId E otelSpan otelLibrary _ e1 h1
  have hl : (translateSpanLinks e1 otelSpan.Links).ParentId = e1.ParentId := by
    unfold translateSpanLinks
    split <;> rfl
  have he : event.ParentId = e1.ParentId := by
    rw [hev]
    exact hl
  rw [he, hp]
  show (if (if (!otelSpan.ParentSpanID.IsEmpty) = true then hexSpanID otelSpan.ParentSpanID
      else "") ≠ "" then
        (if (!otelSpan.ParentSpanID.IsEmpty) = true then hexSpanID otelSpan.ParentSpanID else "")
      else baseEvent.ParentId) = _
  cases hr : otelSpan.ParentSpanID.IsEmpty with
  | true => rfl
  | false =>
    have hne : hexSpanID otelSpan.ParentSpanID ≠ "" := by
      intro hc
      rw [(hexSpanID_eq_empty _).mp hc] at hr
      cases hr
    simp [hne]

/-! ### The size of a string in bytes -/

theorem utf8ByteSize_replicate (n : Nat) (c : Char) :
    (String.mk (List.replicate n c)).utf8ByteSize = n * c.utf8Size := by
  induction n with
  | zero => simp [String.utf8ByteSize, String.utf8ByteSize.go]
  | succ n ih =>
    simp only [String.utf8ByteSize] at ih ⊢
    rw [List.replicate_succ, String.utf8ByteSize.go, ih]
    ring

/-! ### The variables of the attribute loop of `TranslateSpan` -/

theorem labelsSet_target (e e' : APMEvent) (k v : String) (h : labelsSet e k v = some e') :
    e'.Destination = e.Destination ∧ e'.Service = e.Service := by
  unfold labelsSet at h
  split at h
  · cases h
    exact ⟨rfl, rfl⟩
  · cases h

theorem translateSpanStr_vars (l l' : SpanLocals) (k kRep s : String)
    (h : translateSpanStr l k kRep (truncate s) s = some l') :
    l'.peerService = strAttrStep ["peer.service"] l.peerService (k, Value.str s) ∧
    l'.peerAddress = strAttrStep ["peer.address"] l.peerAddress (k, Value.str s) ∧
    l'.netPeerName =
      strAttrStep ["net.peer.name", "peer.hostname"] l.netPeerName (k, Value.str s) ∧
    l'.netPeerIP =
      strAttrStep ["net.peer.ip", "peer.ipv4", "peer.ipv6"] l.netPeerIP (k, Value.str s) ∧
    l'.netPeerPort = intAttrStep ["net.peer.port", "peer.port"] l.netPeerPort (k, Value.str s) ∧
    l'.httpURL = strAttrStep ["http.url"] l.httpURL (k, Value.str s) ∧
    l'.httpTarget = strAttrStep ["http.target"] l.httpTarget (k, Value.str s) ∧
    l'.httpHost = strAttrStep ["http.host"] l.httpHost (k, Value.str s) ∧
    l'.httpScheme = strAttrStep ["http.scheme"] l.httpScheme (k, Value.str s) ∧
    l'.messageSystem = strAttrStep ["messaging.system"] l.messageSystem (k, Value.str s) ∧
    l'.message.QueueName =
      strAttrStep ["message_bus.destination", "messaging.destination"] l.message.QueueName
        (k, Value.str s) ∧
    l'.messageTempDestination =
      boolAttrStep "messaging.temp_destination" l.messageTempDestination (k, Value.str s) ∧
    l'.db.Instance = strAttrStep ["db.name", "db.instance"] l.db.Instance (k, Value.str s) ∧
    l'.rpcService = strAttrStep ["rpc.service"] l.rpcService (k, Value.str s) ∧
    l'.event.Destination = l.event.Destination ∧ l'.event.Service = l.event.Service := by
  unfold translateSpanStr at h
  dsimp only at h
  split at h
  all_goals first
    | (cases h
       simp [strAttrStep, intAttrStep, boolAttrStep]
       done)
    | (cases h
       simp [strAttrStep, intAttrStep, boolAttrStep, updateNetworkConnection,
         updateNetworkCarrier]
       done)
    | (cases h
       split <;> simp [strAttrStep, intAttrStep, boolAttrStep])
    | (simp only [Option.bind_eq_bind, Option.bind_eq_some, Option.pure_def,
         Option.some.injEq] at h
       obtain ⟨e1, h1, h2⟩ := h
       cases h2
       obtain ⟨r1, r2⟩ := labelsSet_target _ _ _ _ h1
       simp_all [strAttrStep, intAttrStep, boolAttrStep])

theorem translateSpanInt_vars (E : Env) (l : SpanLocals) (k kRep : String) (i : Int) :
    (translateSpanInt E l k kRep i).peerService =
      strAttrStep ["peer.service"] l.peerService (k, Value.int i) ∧
    (translateSpanInt E l k kRep i).peerAddress =
      strAttrStep ["peer.address"] l.peerAddress (k, Value.int i) ∧
    (translateSpanInt E l k kRep i).netPeerName =
      strAttrStep ["net.peer.name", "peer.hostname"] l.netPeerName (k, Value.int i) ∧
    (translateSpanInt E l k kRep i).netPeerIP =
      strAttrStep ["net.peer.ip", "peer.ipv4", "peer.ipv6"] l.netPeerIP (k, Value.int i) ∧
    (translateSpanInt E l k kRep i).netPeerPort =
      intAttrStep ["net.peer.port", "peer.port"] l.netPeerPort (k, Value.int i) ∧
    (translateSpanInt E l k kRep i).httpURL =
      strAttrStep ["http.url"] l.httpURL (k, Value.int i) ∧
    (translateSpanInt E l k kRep i).httpTarget =
      strAttrStep ["http.target"] l.httpTarget (k, Value.int i) ∧
    (translateSpanInt E l k kRep i).httpHost =
      strAttrStep ["http.host"] l.httpHost (k, Value.int i) ∧
    (translateSpanInt E l k kRep i).httpScheme =
      strAttrStep ["http.scheme"] l.httpScheme (k, Value.int i) ∧
    (translateSpanInt E l k kRep i).messageSystem =
      strAttrStep ["messaging.system"] l.messageSystem (k, Value.int i) ∧
    (translateSpanInt E l k kRep i).message.QueueName =
      strAttrStep ["message_bus.destination", "messaging.destination"] l.message.QueueName
        (k, Value.int i) ∧
    (translateSpanInt E l k kRep i).messageTempDestination =
      boolAttrStep "messaging.temp_destination" l.messageTempDestination (k, Value.int i) ∧
    (translateSpanInt E l k kRep i).db.Instance =
      strAttrStep ["db.name", "db.instance"] l.db.Instance (k, Value.int i) ∧
    (translateSpanInt E l k kRep i).rpcService =
      strAttrStep ["rpc.service"] l.rpcService (k, Value.int i) ∧
    (translateSpanInt E l k kRep i).event.Destination = l.event.Destination ∧
    (translateSpanInt E l k kRep i).event.Service = l.event.Service := by
  unfold translateSpanInt
  split
  all_goals simp_all [strAttrStep, intAttrStep, boolAttrStep, setLabel]

theorem translateSpanAttribute_vars (E : Env) (isJaeger : Bool) (l l' : SpanLocals)
    (kv : String × Value) (h : translateSpanAttribute E isJaeger l kv = some l') :
    l'.peerService = strAttrStep ["peer.service"] l.peerService kv ∧
    l'.peerAddress = strAttrStep ["peer.address"] l.peerAddress kv ∧
    l'.netPeerName = strAttrStep ["net.peer.name", "peer.hostname"] l.netPeerName kv ∧
    l'.netPeerIP = strAttrStep ["net.peer.ip", "peer.ipv4", "peer.ipv6"] l.netPeerIP kv ∧
    l'.netPeerPort = intAttrStep ["net.peer.port", "peer.port"] l.netPeerPort kv ∧
    l'.httpURL = strAttrStep ["http.url"] l.httpURL kv ∧
    l'.httpTarget = strAttrStep ["http.target"] l.httpTarget kv ∧
    l'.httpHost = strAttrStep ["http.host"] l.httpHost kv ∧
    l'.httpScheme = strAttrStep ["http.scheme"] l.httpScheme kv ∧
    l'.messageSystem = strAttrStep ["messaging.system"] l.messageSystem kv ∧
    l'.message.QueueName =
      strAttrStep ["message_bus.destination", "messaging.destination"] l.message.QueueName
        kv ∧
    l'.messageTempDestination =
      boolAttrStep "messaging.temp_destination" l.messageTempDestination kv ∧
    l'.db.Instance = strAttrStep ["db.name", "db.instance"] l.db.Instance kv ∧
    l'.rpcService = strAttrStep ["rpc.service"] l.rpcService kv ∧
    l'.event.Destination = l.event.Destination ∧ l'.event.Service = l.event.Service := by
  obtain ⟨k, v⟩ := kv
  unfold translateSpanAttribute at h
  dsimp only at h
  split at h
  · rename_i hc
    cases h
    cases v <;> simp [strAttrStep, intAttrStep, boolAttrStep, hc.2]
  · split at h
    · rename_i hc
      cases h
      cases v <;> simp [strAttrStep, intAttrStep, boolAttrStep, hc.2]
    · split at h
      all_goals first
        | exact translateSpanStr_vars _ _ _ _ _ h
        | (cases h; exact translateSpanInt_vars _ _ _ _ _)
        | (cases h
           split <;> simp_all [strAttrStep, intAttrStep, boolAttrStep, setLabel])
        | (cases h
           simp [strAttrStep, intAttrStep, boolAttrStep, setLabel])

theorem translateSpanAttributes_vars (E : Env) (isJaeger : Bool) (attributes : Attributes)
    (l l' : SpanLocals)
    (h : attributes.foldlM (translateSpanAttribute E isJaeger) l = some l') :
    l'.peerService = strAttr ["peer.service"] l.peerService attributes ∧
    l'.peerAddress = strAttr ["peer.address"] l.peerAddress attributes ∧
    l'.netPeerName = strAttr ["net.peer.name", "peer.hostname"] l.netPeerName attributes ∧
    l'.netPeerIP =
      strAttr ["net.peer.ip", "peer.ipv4", "peer.ipv6"] l.netPeerIP attributes ∧
    l'.netPeerPort = intAttr ["net.peer.port", "peer.port"] l.netPeerPort attributes ∧
    l'.httpURL = strAttr ["http.url"] l.httpURL attributes ∧
    l'.httpTarget = strAttr ["http.target"] l.httpTarget attributes ∧
    l'.httpHost = strAttr ["http.host"] l.httpHost attributes ∧
    l'.httpScheme = strAttr ["http.scheme"] l.httpScheme attributes ∧
    l'.messageSystem = strAttr ["messaging.system"] l.messageSystem attributes ∧
    l'.message.QueueName =
      strAttr ["message_bus.destination", "messaging.destination"] l.message.QueueName
        attributes ∧
    l'.messageTempDestination =
      boolAttr "messaging.temp_destination" l.messageTempDestination attributes ∧
    l'.db.Instance = strAttr ["db.name", "db.instance"] l.db.Instance attributes ∧
    l'.rpcService = strAttr ["rpc.service"] l.rpcService attributes ∧
    l'.event.Destination = l.event.Destination ∧ l'.event.Service = l.event.Service := by
  induction attributes generalizing l with
  | nil =>
    simp only [List.foldlM_nil, Option.pure_def, Option.some.injEq] at h
    cases h
    exact ⟨rfl, rfl, rfl, rfl, rfl, rfl, rfl, rfl, rfl, rfl, rfl, rfl, rfl, rfl, rfl, rfl⟩
  | cons kv attributes ih =>
    simp only [List.foldlM_cons, Option.bind_eq_bind, Option.bind_eq_some] at h
    obtain ⟨l1, h1, h2⟩ := h
    obtain ⟨a1, a2, a3, a4, a5, a6, a7, a8, a9, a10, a11, a12, a13, a14, a15, a16⟩ :=
      translateSpanAttribute_vars E isJaeger l l1 kv h1
    obtain ⟨b1, b2, b3, b4, b5, b6, b7, b8, b9, b10, b11, b12, b13, b14, b15, b16⟩ := ih l1 h2
    unfold strAttr intAttr boolAttr
    simp only [List.foldl_cons]
    rw [← a1, ← a2, ← a3, ← a4, ← a5, ← a6, ← a7, ← a8, ← a9, ← a10, ← a11, ← a12, ← a13,
      ← a14]
    exact ⟨b1, b2, b3, b4, b5, b6, b7, b8, b9, b10, b11, b12, b13, b14, b15.trans a15,
      b16.trans a16⟩

/-! ### The destination, the destination service and the service target of a span -/

theorem setSpanHTTPOutcome_target (l : SpanLocals) (e e' : APMEvent)
    (h : setSpanHTTPOutcome l e = some e') :
    e'.Span = e.Span ∧ e'.Service = e.Service ∧ e'.Destination = e.Destination := by
  unfold setSpanHTTPOutcome at h
  split at h
  · split at h
    · split at h
      · cases h
        exact ⟨rfl, rfl, rfl⟩
      · cases h
        exact ⟨rfl, rfl, rfl⟩
    · cases h
  · cases h
    exact ⟨rfl, rfl, rfl⟩

theorem translateSpanHTTP_target (l : SpanLocals) (httpURL : String) (e e' : APMEvent)
    (h : translateSpanHTTP l httpURL e = some e') :
    e'.Span = e.Span ∧ e'.Service = e.Service ∧ e'.Destination = e.Destination := by
  unfold translateSpanHTTP at h
  simp only [Option.bind_eq_bind, Option.bind_eq_some, Option.pure_def,
    Option.some.injEq] at h
  obtain ⟨e1, h1, h2⟩ := h
  obtain ⟨a1, a2, a3⟩ := setSpanHTTPOutcome_target _ _ _ h1
  cases h2
  split <;> exact ⟨a1, a2, a3⟩

theorem setServiceTarget_target (serviceTarget : ServiceTarget) (e e' : APMEvent)
    (h : setServiceTarget serviceTarget e = some e') :
    e'.Span = e.Span ∧ e'.Destination = e.Destination ∧
    e'.Service.map (fun service => service.Target) =
      if serviceTarget ≠ {} then some (some serviceTarget)
      else e.Service.map (fun service => service.Target) := by
  unfold setServiceTarget at h
  split at h
  · rename_i hne
    split at h
    · cases h
      rw [if_pos hne]
      exact ⟨rfl, rfl, rfl⟩
    · cases h
  · rename_i hne
    cases h
    rw [if_neg hne]
    exact ⟨rfl, rfl, rfl⟩

theorem finishSpan_target (E : Env) (spanKind : ptrace.SpanKind) (l : SpanLocals)
    (e' : APMEvent) (h : finishSpan E spanKind l = some e') :
    ∃ span, l.event.Span = some span ∧
      e'.Span = some (spanWithDestinationService
        (classifySpan E spanKind l (spanDestination E l) (initialClassification l span))) ∧
      e'.Destination =
        (if (spanDestination E l).destAddr ≠ "" then
          some { Address := (spanDestination E l).destAddr,
                 Port := uint32OfInt (spanDestination E l).destPort }
         else l.event.Destination) ∧
      e'.Service.map (fun service => service.Target) =
        (if (classifySpan E spanKind l (spanDestination E l)
            (initialClassification l span)).serviceTarget ≠ {} then
          some (some (classifySpan E spanKind l (spanDestination E l)
            (initialClassification l span)).serviceTarget)
         else l.event.Service.map (fun service => service.Target)) := by
  unfold finishSpan at h
  simp only [Option.bind_eq_bind, Option.bind_eq_some] at h
  obtain ⟨e1, h1, sp, hsp, h3⟩ := h
  have k1 : e1.Span = l.event.Span ∧ e1.Service = l.event.Service ∧
      e1.Destination = l.event.Destination := by
    split at h1
    · exact translateSpanHTTP_target _ _ _ _ h1
    · cases h1
      exact ⟨rfl, rfl, rfl⟩
  obtain ⟨s1, s2, s3⟩ := setServiceTarget_target _ _ _ h3
  refine ⟨sp, k1.1 ▸ hsp, ?_, ?_, ?_⟩
  · rw [s1]
  · rw [s2]
    split
    · rfl
    · exact k1.2.2
  · rw [s3]
    split
    · rfl
    · have hs : ∀ e2 : APMEvent, e2.Service = e1.Service →
          e2.Service.map (fun service => service.Target) =
            l.event.Service.map (fun service => service.Target) := by
        intro e2 he2
        rw [he2, k1.2.1]
      apply hs
      split <;> rfl

theorem setRepresentativeCount_target (e : APMEvent) (count : F64) :
    (setRepresentativeCount e count).target = e.target := by
  unfold setRepresentativeCount APMEvent.target
  dsimp only
  cases e.Span <;> rfl

theorem labelsSet_eq_target (e e' : APMEvent) (k v : String) (h : labelsSet e k v = some e') :
    e'.target = e.target := by
  unfold labelsSet at h
  split at h
  · cases h
    rfl
  · cases h

theorem numericLabelsSet_target (e e' : APMEvent) (k : String) (v : F64)
    (h : numericLabelsSet e k v = some e') : e'.target = e.target := by
  unfold numericLabelsSet at h
  split at h
  · cases h
    rfl
  · cases h

theorem parseSamplerAttributes_target (E : Env) (samplerType : Value)
    (samplerParam : Option Value) (e e' : APMEvent)
    (h : parseSamplerAttributes E samplerType samplerParam e = some e') :
    e'.target = e.target := by
  unfold parseSamplerAttributes at h
  split at h
  · split at h
    · cases h
    · dsimp only at h
      split at h
      · cases h
        exact setRepresentativeCount_target _ _
      · cases h
        rfl
  · simp only [Option.bind_eq_bind, Option.bind_eq_some] at h
    obtain ⟨e1, h1, h2⟩ := h
    have t1 := (labelsSet_eq_target _ _ _ _ h1).trans (setRepresentativeCount_target _ _)
    split at h2
    · split at h2
      · cases h2
      · cases h2
        exact t1
    · exact (labelsSet_eq_target _ _ _ _ h2).trans t1
    · exact (numericLabelsSet_target _ _ _ _ h2).trans t1
    · cases h2
      exact t1

theorem applySampler_target (E : Env) (samplerType samplerParam : Option Value)
    (e e' : APMEvent) (h : applySampler E samplerType samplerParam e = some e') :
    e'.target = e.target := by
  unfold applySampler at h
  split at h
  · exact parseSamplerAttributes_target _ _ _ _ _ h
  · cases h
    rfl

theorem TranslateSpan_target (E : Env) (spanKind : ptrace.SpanKind) (attributes : Attributes)
    (event event' : APMEvent) (h : TranslateSpan E spanKind attributes event = some event') :
    ∃ l span,
      attributes.foldlM (translateSpanAttribute E
        (hasPrefix ((event.Agent.map (fun a => a.Name)).getD "") "Jaeger"))
        { event := event } = some l ∧
      event.Span = some span ∧
      event'.Span.map (fun span => span.DestinationService) =
        some (spanWithDestinationService (classifySpan E spanKind l (spanDestination E l)
          (initialClassification l span))).DestinationService ∧
      event'.Destination =
        (if (spanDestination E l).destAddr ≠ "" then
          some { Address := (spanDestination E l).destAddr,
                 Port := uint32OfInt (spanDestination E l).destPort }
         else event.Destination) ∧
      event'.Service.map (fun service => service.Target) =
        (if (classifySpan E spanKind l (spanDestination E l)
            (initialClassification l span)).serviceTarget ≠ {} then
          some (some (classifySpan E spanKind l (spanDestination E l)
            (initialClassification l span)).serviceTarget)
         else event.Service.map (fun service => service.Target)) := by
  unfold TranslateSpan at h
  simp only [Option.bind_eq_bind, Option.bind_eq_some] at h
  obtain ⟨l, h1, e2, h2, h3⟩ := h
  obtain ⟨span, f1, f2, f3, f4⟩ := finishSpan_target E spanKind l e2 h2
  obtain ⟨_, _, _, _, _, _, v7, _⟩ := translateSpanAttributes_seen E _ attributes _ l h1
  obtain ⟨_, _, _, _, _, _, _, _, _, _, _, _, _, _, v15, v16⟩ :=
    translateSpanAttributes_vars E _ attributes _ l h1
  have ht := applySampler_target _ _ _ _ _ h3
  have t1 : event'.Span.map (fun span => span.DestinationService) =
      e2.Span.map (fun span => span.DestinationService) :=
    congrArg EventTarget.DestinationService ht
  have t2 : event'.Destination = e2.Destination := congrArg EventTarget.Destination ht
  have t3 : event'.Service.map (fun service => service.Target) =
      e2.Service.map (fun service => service.Target) :=
    congrArg EventTarget.ServiceTarget ht
  refine ⟨l, span, h1, v7 ▸ f1, ?_, ?_, ?_⟩
  · rw [t1, f2]
    rfl
  · rw [t2, f3, v15]
  · rw [t3, f4, v16]

/-! ### The destination of a span in terms of its attributes -/

theorem spanDestination_of (E : Env) (isJaeger : Bool) (attributes : Attributes)
    (event : APMEvent) (l : SpanLocals)
    (h : attributes.foldlM (translateSpanAttribute E isJaeger) { event := event } = some l) :
    (spanDestination E l).fullURL = spanURLOf E attributes ∧
    (spanDestination E l).destAddr = spanDestAddrOf E attributes ∧
    (spanDestination E l).destPort = spanDestPortOf E attributes := by
  obtain ⟨_, v2, v3, v4, v5, v6, v7, v8, v9, _⟩ :=
    translateSpanAttributes_vars E isJaeger attributes _ l h
  have w2 : l.peerAddress = peerAddressOf attributes := v2
  have w3 : l.netPeerName = netPeerNameOf attributes := v3
  have w4 : l.netPeerIP = netPeerIPOf attributes := v4
  have w5 : l.netPeerPort = netPeerPortOf attributes := v5
  have w6 : l.httpURL = httpURLOf attributes := v6
  have w7 : l.httpTarget = httpTargetOf attributes := v7
  have w8 : l.httpHost = httpHostOf attributes := v8
  have w9 : l.httpScheme = httpSchemeOf attributes := v9
  have hda : (if (if l.netPeerName = "" ∧
        (!l.peerAddress.data.contains ':' || E.parseIP l.peerAddress) = true then
          l.peerAddress else l.netPeerName) = "" then l.netPeerIP
      else (if l.netPeerName = "" ∧
        (!l.peerAddress.data.contains ':' || E.parseIP l.peerAddress) = true then
          l.peerAddress else l.netPeerName)) = peerDestinationAddress E attributes := by
    unfold peerDestinationAddress
    rw [w2, w3, w4]
    by_cases hn : netPeerNameOf attributes = ""
    · by_cases ha : peerAddressOf attributes = ""
      · simp [hn, ha]
      · cases hc : (peerAddressOf attributes).data.contains ':' <;>
          cases hp : E.parseIP (peerAddressOf attributes) <;> simp [hn, ha, hc, hp]
    · simp [hn]
  unfold spanDestination
  dsimp only
  rw [hda]
  unfold spanURLOf spanDestAddrOf spanDestPortOf spanURLOf urlPortNumber
  rw [w5, w6, w7, w8, w9]
  by_cases hu : httpURLOf attributes = ""
  · by_cases ht : httpTargetOf attributes = ""
    · simp [hu, ht]
    · cases hparse : E.urlParse (httpTargetOf attributes) with
      | none => simp [hu, ht, hparse]
      | some u => simp [hu, ht, hparse]
  · cases hparse : E.urlParse (httpURLOf attributes) with
    | none => simp [hu, hparse]
    | some u => simp [hu, hparse]

/-! ### The service target and the destination service after the classification -/

theorem spanDestination_hostname (E : Env) (l : SpanLocals) (u : GoURL)
    (h : (spanDestination E l).fullURL = some u) :
    (spanDestination E l).destAddr = truncate (E.urlHostname u) := by
  generalize hd : spanDestination E l = d at h ⊢
  unfold spanDestination at hd
  dsimp only at hd
  split at hd
  · subst hd
    cases h
    rfl
  · subst hd
    cases h

theorem classifySpan_http_adjusted (E : Env) (l : SpanLocals) (u : GoURL)
    (h : (spanDestination E l).fullURL = some u) :
    (E.urlString
        (if (spanDestination E l).destPort = schemeDefaultPort u.Scheme then
          (if E.urlPort u ≠ "" then
            (({ Scheme := u.Scheme, Host := (spanDestination E l).destAddr } : GoURL), u.Host)
           else (({ Scheme := u.Scheme, Host := u.Host } : GoURL),
             u.Host ++ ":" ++ itoa (spanDestination E l).destPort))
         else (({ Scheme := u.Scheme, Host := u.Host } : GoURL), u.Host)).1,
      (if (spanDestination E l).destPort = schemeDefaultPort u.Scheme then
          (if E.urlPort u ≠ "" then
            (({ Scheme := u.Scheme, Host := (spanDestination E l).destAddr } : GoURL), u.Host)
           else (({ Scheme := u.Scheme, Host := u.Host } : GoURL),
             u.Host ++ ":" ++ itoa (spanDestination E l).destPort))
         else (({ Scheme := u.Scheme, Host := u.Host } : GoURL), u.Host)).2) =
      httpDestinationService E u (spanDestination E l).destPort := by
  unfold httpDestinationService
  rw [spanDestination_hostname E l u h]
  split
  · split <;> rfl
  · rfl

theorem classifySpan_peerService (E : Env) (spanKind : ptrace.SpanKind) (l : SpanLocals)
    (span : Span) (hp : l.peerService ≠ "") :
    (classifySpan E spanKind l (spanDestination E l)
      (initialClassification l span)).destinationService.Name = l.peerService ∧
    (classifySpan E spanKind l (spanDestination E l)
      (initialClassification l span)).destinationService.Resource =
      (if l.isDatabase = false ∧ l.isMessaging = true ∧ l.message.QueueName ≠ "" then
        (if l.peerAddress ≠ "" then l.peerAddress else l.peerService) ++ "/" ++
          l.message.QueueName
       else (if l.peerAddress ≠ "" then l.peerAddress else l.peerService)) ∧
    (classifySpan E spanKind l (spanDestination E l)
      (initialClassification l span)).serviceTarget.Name =
      (if l.isDatabase then (if l.db.Instance ≠ "" then l.db.Instance else l.peerService)
       else if l.isMessaging then
         (if l.message.QueueName ≠ "" ∧ l.messageTempDestination = false then
           l.message.QueueName else l.peerService)
       else if l.isRPC then (if l.rpcService ≠ "" then l.rpcService else l.peerService)
       else if l.isHTTP then
         (match (spanDestination E l).fullURL with
          | some u => (httpDestinationService E u (spanDestination E l).destPort).2
          | none => l.peerService)
       else l.peerService) ∧
    (classifySpan E spanKind l (spanDestination E l)
      (initialClassification l span)).serviceTarget ≠ {} := by
  have hr : (if l.peerAddress ≠ "" then l.peerAddress else l.peerService) ≠ "" := by
    split
    · assumption
    · exact hp
  have hi1 : (initialClassification l span).destinationService.Name = l.peerService := rfl
  have hi2 : (initialClassification l span).destinationService.Resource =
      (if l.peerAddress ≠ "" then l.peerAddress else l.peerService) := rfl
  have hi3 : (initialClassification l span).serviceTarget.Name = l.peerService := rfl
  have hne : ∀ st : ServiceTarget, (st.Type_ ≠ "" ∨ st.Name ≠ "") → st ≠ {} := by
    intro st hst hc
    rw [hc] at hst
    rcases hst with hst | hst <;> exact hst rfl
  generalize initialClassification l span = c at hi1 hi2 hi3
  obtain ⟨cs, ct, cd⟩ := c
  dsimp only at hi1 hi2 hi3
  cases hdb : l.isDatabase with
  | true =>
    unfold classifySpan
    simp only [hdb, if_true]
    refine ⟨?_, ?_, ?_, hne _ ?_⟩ <;> clear hne <;>
      by_cases h1 : l.db.Type_ = "" <;> by_cases h2 : l.db.Instance = "" <;> simp_all
  | false =>
    cases hmsg : l.isMessaging with
    | true =>
      unfold classifySpan
      simp only [hdb, hmsg, if_true, if_false, Bool.false_eq_true]
      refine ⟨?_, ?_, ?_, hne _ ?_⟩ <;> clear hne <;>
        by_cases h1 : l.messageSystem = "" <;> by_cases h2 : l.message.QueueName = "" <;>
        cases h3 : l.messageTempDestination <;> simp_all
    | false =>
      cases hrpc : l.isRPC with
      | true =>
        unfold classifySpan
        simp only [hdb, hmsg, hrpc, if_true, if_false, Bool.false_eq_true]
        refine ⟨?_, ?_, ?_, hne _ ?_⟩ <;> clear hne <;>
          by_cases h1 : l.rpcSystem = "" <;> by_cases h2 : l.rpcService = "" <;> simp_all
      | false =>
        cases hhttp : l.isHTTP with
        | true =>
          unfold classifySpan
          simp only [hdb, hmsg, hrpc, hhttp, if_true, if_false, Bool.false_eq_true]
          cases hu : (spanDestination E l).fullURL with
          | none =>
            dsimp only
            exact ⟨hi1, by simp_all, hi3, hne _ (Or.inl (by simp))⟩
          | some u =>
            dsimp only
            have ha := classifySpan_http_adjusted E l u hu
            refine ⟨?_, ?_, ?_, ?_⟩
            · simp_all
            · simp_all
            · exact congrArg Prod.snd ha
            · exact hne _ (Or.inl (by simp))
        | false =>
          unfold classifySpan
          simp only [hdb, hmsg, hrpc, hhttp, if_false, Bool.false_eq_true]
          refine ⟨?_, ?_, ?_, hne _ ?_⟩ <;> clear hne <;>
            by_cases h1 : cs.Type_ = "" <;> cases spanKind <;> simp_all

theorem spanWithDestinationService_eq (c : SpanClassification) :
    (spanWithDestinationService c).DestinationService =
      if c.destinationService ≠ {} then
        some { c.destinationService with
          Type_ := if c.destinationService.Type_ = "" then c.span.Type_
                   else c.destinationService.Type_ }
      else c.span.DestinationService := by
  unfold spanWithDestinationService
  split
  · split <;> simp_all
  · rfl

theorem destinationService_ne (ds : DestinationService)
    (h : ds.Name ≠ "" ∨ ds.Resource ≠ "") : ds ≠ {} := by
  intro hc
  rw [hc] at h
  rcases h with h | h <;> exact h rfl

theorem TranslateSpan_peerService (E : Env) (spanKind : ptrace.SpanKind)
    (attributes : Attributes) (event event' : APMEvent)
    (h : TranslateSpan E spanKind attributes event = some event')
    (hp : peerServiceOf attributes ≠ "") :
    ∃ span' ds service' st,
      event'.Span = some span' ∧ span'.DestinationService = some ds ∧
      event'.Service = some service' ∧ service'.Target = some st ∧
      ds.Name = peerServiceOf attributes ∧
      ds.Resource = peerServiceResource attributes ∧
      st.Name = peerServiceTargetName E attributes := by
  obtain ⟨l, span, hl, _, hds, _, hst⟩ := TranslateSpan_target E spanKind attributes event event' h
  obtain ⟨f1, f2, f3, f4, _⟩ := translateSpanAttributes_seen E _ attributes _ l hl
  obtain ⟨v1, v2, _, _, _, _, _, _, _, _, v11, v12, v13, v14, _⟩ :=
    translateSpanAttributes_vars E _ attributes _ l hl
  obtain ⟨d1, _, d3⟩ := spanDestination_of E _ attributes event l hl
  simp only [Bool.false_or] at f1 f2 f3 f4
  have w1 : l.peerService = peerServiceOf attributes := v1
  have w2 : l.peerAddress = peerAddressOf attributes := v2
  have w11 : l.message.QueueName = queueNameOf attributes := v11
  have w12 : l.messageTempDestination = tempDestinationOf attributes := v12
  have w13 : l.db.Instance = dbInstanceOf attributes := v13
  have w14 : l.rpcService = rpcServiceOf attributes := v14
  obtain ⟨c1, c2, c3, c4⟩ := classifySpan_peerService E spanKind l span (w1 ▸ hp)
  rw [if_pos c4] at hst
  rw [spanWithDestinationService_eq, if_pos (destinationService_ne _ (Or.inl (c1 ▸ w1 ▸ hp)))]
    at hds
  obtain ⟨span', hs1, hs2⟩ := Option.map_eq_some'.mp hds
  obtain ⟨service', ht1, ht2⟩ := Option.map_eq_some'.mp hst
  refine ⟨span', _, service', _, hs1, hs2, ht1, ht2, ?_, ?_, ?_⟩
  · exact c1.trans w1
  · show (classifySpan E spanKind l (spanDestination E l)
      (initialClassification l span)).destinationService.Resource = _
    rw [c2, f1, f2, w1, w2, w11]
    rfl
  · rw [c3, f1, f2, f3, f4, w1, w11, w12, w13, w14, d1, d3]
    rfl

/-! ### Attributes that are present -/

theorem strAttr_unchanged (keys : List String) (init : String) (attributes : Attributes)
    (h : ∀ kv, kv ∈ attributes → ¬ (kv.1 ∈ keys ∧ ∃ s, kv.2 = Value.str s)) :
    strAttr keys init attributes = init := by
  unfold strAttr
  induction attributes generalizing init with
  | nil => rfl
  | cons kv attributes ih =>
    rw [List.foldl_cons]
    have hkv := h kv (List.mem_cons_self _ _)
    have hstep : strAttrStep keys init kv = init := by
      obtain ⟨k, v⟩ := kv
      cases v <;> simp_all [strAttrStep]
    rw [hstep]
    exact ih init (fun kv' hm => h kv' (List.mem_cons_of_mem _ hm))

theorem strAttr_last (keys : List String) (init : String) (before after : Attributes)
    (k s : String) (hk : k ∈ keys)
    (hafter : ∀ kv, kv ∈ after → ¬ (kv.1 ∈ keys ∧ ∃ s', kv.2 = Value.str s')) :
    strAttr keys init (before ++ (k, Value.str s) :: after) = truncate s := by
  unfold strAttr
  rw [List.foldl_append, List.foldl_cons]
  have hstep : strAttrStep keys (List.foldl (strAttrStep keys) init before) (k, Value.str s) =
      truncate s := by
    simp [strAttrStep, hk]
  rw [hstep]
  exact strAttr_unchanged keys (truncate s) after hafter

theorem boolAttr_last (key : String) (init : Bool) (before after : Attributes) (b : Bool)
    (hafter : ∀ kv, kv ∈ after → ¬ (kv.1 = key ∧ ∃ b', kv.2 = Value.bool b')) :
    boolAttr key init (before ++ (key, Value.bool b) :: after) = b := by
  unfold boolAttr
  rw [List.foldl_append, List.foldl_cons]
  have hstep : boolAttrStep key (List.foldl (boolAttrStep key) init before)
      (key, Value.bool b) = b := by
    simp [boolAttrStep]
  rw [hstep]
  clear hstep
  induction after generalizing b with
  | nil => rfl
  | cons kv after ih =>
    rw [List.foldl_cons]
    have hkv := hafter kv (List.mem_cons_self _ _)
    have hstep : boolAttrStep key b kv = b := by
      obtain ⟨k, v⟩ := kv
      cases v <;> simp_all [boolAttrStep]
    rw [hstep]
    exact ih b (fun kv' hm => hafter kv' (List.mem_cons_of_mem _ hm))

theorem strAttr_present (keys : List String) (attributes : Attributes)
    (h : strAttr keys "" attributes ≠ "") :
    ∃ kv, kv ∈ attributes ∧ kv.1 ∈ keys ∧ ∃ s, kv.2 = Value.str s := by
  by_contra hc
  apply h
  apply strAttr_unchanged
  intro kv hm hkv
  exact hc ⟨kv, hm, hkv⟩

theorem messageSystem_isMessaging (attributes : Attributes)
    (h : messageSystemOf attributes ≠ "") : attributes.any isMessagingAttribute = true := by
  obtain ⟨kv, hm, hk, s, hs⟩ := strAttr_present _ _ h
  rw [List.any_eq_true]
  refine ⟨kv, hm, ?_⟩
  obtain ⟨k, v⟩ := kv
  simp only [List.mem_singleton] at hk
  simp only at hs
  subst hs
  subst hk
  rfl

/-! ### The service target and the destination service of a messaging span -/

theorem classifySpan_messaging (E : Env) (spanKind : ptrace.SpanKind) (l : SpanLocals)
    (span : Span) (hdb : l.isDatabase = false) (hmsg : l.isMessaging = true)
    (hps : l.peerService = "") (hs : l.messageSystem ≠ "") (hq : l.message.QueueName ≠ "") :
    (classifySpan E spanKind l (spanDestination E l)
      (initialClassification l span)).serviceTarget =
      { Type_ := l.messageSystem,
        Name := if l.messageTempDestination then "" else l.message.QueueName } ∧
    (classifySpan E spanKind l (spanDestination E l)
      (initialClassification l span)).destinationService =
      { Name := l.messageSystem,
        Resource := l.messageSystem ++ "/" ++ l.message.QueueName } ∧
    (classifySpan E spanKind l (spanDestination E l)
      (initialClassification l span)).span.Type_ = "messaging" := by
  unfold classifySpan initialClassification
  cases ht : l.messageTempDestination <;> simp [hdb, hmsg, hps, hs, hq, ht]

theorem TranslateSpan_messaging (E : Env) (spanKind : ptrace.SpanKind)
    (attributes : Attributes) (event event' : APMEvent)
    (h : TranslateSpan E spanKind attributes event = some event')
    (hdb : attributes.any isDatabaseAttribute = false)
    (hps : peerServiceOf attributes = "")
    (hs : messageSystemOf attributes ≠ "") (hq : queueNameOf attributes ≠ "") :
    ∃ span' service',
      event'.Span = some span' ∧
      span'.DestinationService =
        some { Type_ := "messaging", Name := messageSystemOf attributes,
               Resource := messageSystemOf attributes ++ "/" ++ queueNameOf attributes } ∧
      event'.Service = some service' ∧
      service'.Target =
        some { Type_ := messageSystemOf attributes,
               Name := if tempDestinationOf attributes then "" else queueNameOf attributes } := by
  obtain ⟨l, span, hl, _, hds, _, hst⟩ := TranslateSpan_target E spanKind attributes event event' h
  obtain ⟨f1, f2, _⟩ := translateSpanAttributes_seen E _ attributes _ l hl
  obtain ⟨v1, _, _, _, _, _, _, _, _, v10, v11, v12, _⟩ :=
    translateSpanAttributes_vars E _ attributes _ l hl
  simp only [Bool.false_or] at f1 f2
  have w1 : l.peerService = peerServiceOf attributes := v1
  have w10 : l.messageSystem = messageSystemOf attributes := v10
  have w11 : l.message.QueueName = queueNameOf attributes := v11
  have w12 : l.messageTempDestination = tempDestinationOf attributes := v12
  obtain ⟨c1, c2, c3⟩ := classifySpan_messaging E spanKind l span (f1.trans hdb)
    (f2.trans (messageSystem_isMessaging attributes hs)) (w1.trans hps)
    (w10 ▸ hs) (w11 ▸ hq)
  have hne1 : (classifySpan E spanKind l (spanDestination E l)
      (initialClassification l span)).serviceTarget ≠ {} := by
    rw [c1]
    intro hc
    exact (w10 ▸ hs) (congrArg ServiceTarget.Type_ hc)
  have hne2 : (classifySpan E spanKind l (spanDestination E l)
      (initialClassification l span)).destinationService ≠ {} := by
    apply destinationService_ne
    left
    rw [c2]
    exact (w10 ▸ hs)
  rw [if_pos hne1, c1] at hst
  rw [spanWithDestinationService_eq, if_pos hne2, c2, c3] at hds
  obtain ⟨span', hs1, hs2⟩ := Option.map_eq_some'.mp hds
  obtain ⟨service', ht1, ht2⟩ := Option.map_eq_some'.mp hst
  refine ⟨span', service', hs1, ?_, ht1, ?_⟩
  · rw [hs2, w10, w11]
    rfl
  · rw [ht2, w10, w11, w12]

/-! ### The destination service of an HTTP span -/

theorem classifySpan_http (E : Env) (spanKind : ptrace.SpanKind) (l : SpanLocals)
    (span : Span) (u : GoURL) (hdb : l.isDatabase = false) (hmsg : l.isMessaging = false)
    (hrpc : l.isRPC = false) (hhttp : l.isHTTP = true) (hps : l.peerService = "")
    (hu : (spanDestination E l).fullURL = some u) :
    (classifySpan E spanKind l (spanDestination E l)
      (initialClassification l span)).destinationService =
      { Name := (httpDestinationService E u (spanDestination E l).destPort).1,
        Resource := (httpDestinationService E u (spanDestination E l).destPort).2 } ∧
    (classifySpan E spanKind l (spanDestination E l)
      (initialClassification l span)).span.Type_ = "external" ∧
    (classifySpan E spanKind l (spanDestination E l)
      (initialClassification l span)).span.DestinationService = span.DestinationService := by
  have ha := classifySpan_http_adjusted E l u hu
  have hi : (initialClassification l span).span.DestinationService =
      span.DestinationService := by
    unfold initialClassification
    dsimp only
    split <;> split <;> rfl
  unfold classifySpan
  simp only [hdb, hmsg, hrpc, hhttp, if_true, if_false, Bool.false_eq_true, hu]
  have hn : (initialClassification l span).destinationService.Name = "" := hps
  have ht : (initialClassification l span).destinationService.Type_ = "" := rfl
  generalize initialClassification l span = c at hn ht hi
  obtain ⟨cs, ct, cd⟩ := c
  obtain ⟨cdt, cdn, cdr⟩ := cd
  dsimp only at hn ht hi
  subst hn
  subst ht
  simp only [if_true]
  refine ⟨?_, trivial, hi⟩
  rw [← ha]

theorem TranslateSpan_http (E : Env) (spanKind : ptrace.SpanKind)
    (attributes : Attributes) (event event' : APMEvent) (u : GoURL)
    (h : TranslateSpan E spanKind attributes event = some event')
    (hdb : attributes.any isDatabaseAttribute = false)
    (hmsg : attributes.any isMessagingAttribute = false)
    (hrpc : attributes.any isRPCAttribute = false)
    (hhttp : attributes.any isHTTPAttribute = true)
    (hps : peerServiceOf attributes = "")
    (hu : spanURLOf E attributes = some u) :
    ∃ span, event.Span = some span ∧
      event'.Span.map (fun span => span.DestinationService) =
        some (if (httpDestinationService E u (spanDestPortOf E attributes)).1 = "" ∧
            (httpDestinationService E u (spanDestPortOf E attributes)).2 = "" then
          span.DestinationService
        else
          some { Type_ := "external",
                 Name := (httpDestinationService E u (spanDestPortOf E attributes)).1,
                 Resource := (httpDestinationService E u (spanDestPortOf E attributes)).2 }) := by
  obtain ⟨l, span, hl, hsp, hds, _, _⟩ := TranslateSpan_target E spanKind attributes event event' h
  obtain ⟨f1, f2, f3, f4, _⟩ := translateSpanAttributes_seen E _ attributes _ l hl
  obtain ⟨v1, _⟩ := translateSpanAttributes_vars E _ attributes _ l hl
  obtain ⟨d1, _, d3⟩ := spanDestination_of E _ attributes event l hl
  simp only [Bool.false_or] at f1 f2 f3 f4
  have w1 : l.peerService = peerServiceOf attributes := v1
  obtain ⟨c1, c2, c3⟩ := classifySpan_http E spanKind l span u (f1.trans hdb) (f2.trans hmsg)
    (f3.trans hrpc) (f4.trans hhttp) (w1.trans hps) (d1.trans hu)
  refine ⟨span, hsp, ?_⟩
  rw [hds, spanWithDestinationService_eq, c1, c2, c3, d3]
  congr 1
  generalize httpDestinationService E u (spanDestPortOf E attributes) = nr
  obtain ⟨n, r⟩ := nr
  dsimp only
  by_cases hn : n = ""
  · by_cases hr : r = ""
    · subst hn
      subst hr
      simp
    · have hne := destinationService_ne { Name := n, Resource := r } (Or.inr hr)
      simp [hne, hr]
  · have hne := destinationService_ne { Name := n, Resource := r } (Or.inl hn)
    simp [hne, hn]

/-! ### The sampler attributes and the representative counts in the attribute loops -/

theorem labelsSet_counts (e e' : APMEvent) (k v : String) (h : labelsSet e k v = some e') :
    e'.counts = e.counts := by
  obtain ⟨r1, _, r3⟩ := labelsSet_records e e' k v h
  unfold APMEvent.counts
  rw [r1, r3]

theorem numericLabelsSet_counts (e e' : APMEvent) (k : String) (v : F64)
    (h : numericLabelsSet e k v = some e') : e'.counts = e.counts := by
  obtain ⟨r1, _, r3⟩ := numericLabelsSet_records e e' k v h
  unfold APMEvent.counts
  rw [r1, r3]

theorem translateTransactionStr_sampling (E : Env) (l l' : TransactionLocals)
    (k kRep stringval : String)
    (h : translateTransactionStr E l k kRep stringval = some l') :
    l'.samplerType = l.samplerType ∧ l'.samplerParam = l.samplerParam ∧
    l'.event.counts = l.event.counts := by
  unfold translateTransactionStr at h
  dsimp only at h
  split at h
  all_goals first
    | (cases h
       exact ⟨rfl, rfl, rfl⟩)
    | (split at h <;> first
        | (cases h; done)
        | (cases h
           exact ⟨rfl, rfl, rfl⟩)
        | (cases h
           simp_all [APMEvent.counts])
        | (simp only [Option.bind_eq_bind, Option.bind_eq_some, Option.pure_def,
             Option.some.injEq] at h
           obtain ⟨e1, h1, h2⟩ := h
           cases h2
           exact ⟨rfl, rfl, labelsSet_counts _ _ _ _ h1⟩))
    | (simp only [Option.bind_eq_bind, Option.bind_eq_some, Option.pure_def,
         Option.some.injEq] at h
       obtain ⟨e1, h1, h2⟩ := h
       cases h2
       exact ⟨rfl, rfl, labelsSet_counts _ _ _ _ h1⟩)

theorem translateTransactionInt_sampling (E : Env) (l l' : TransactionLocals)
    (k kRep : String) (v : Value)
    (h : translateTransactionInt E l k kRep v = some l') :
    l'.samplerType = l.samplerType ∧ l'.samplerParam = l.samplerParam ∧
    l'.event.counts = l.event.counts := by
  unfold translateTransactionInt at h
  dsimp only at h
  split at h
  all_goals first
    | (cases h
       exact ⟨rfl, rfl, rfl⟩)
    | (split at h <;> first
        | (cases h; done)
        | (cases h
           simp_all [APMEvent.counts]))

theorem translateTransactionAttribute_sampling (E : Env) (l l' : TransactionLocals)
    (kv : String × Value) (h : translateTransactionAttribute E true l kv = some l') :
    l'.samplerType = lastAttrStep "sampler.type" l.samplerType kv ∧
    l'.samplerParam = lastAttrStep "sampler.param" l.samplerParam kv ∧
    l'.event.counts = l.event.counts := by
  obtain ⟨k, v⟩ := kv
  unfold translateTransactionAttribute at h
  dsimp only at h
  by_cases h1 : k = "sampler.type"
  · rw [if_pos ⟨rfl, h1⟩] at h
    cases h
    subst h1
    exact ⟨rfl, rfl, rfl⟩
  · rw [if_neg (fun hc => h1 hc.2)] at h
    by_cases h2 : k = "sampler.param"
    · rw [if_pos ⟨rfl, h2⟩] at h
      cases h
      subst h2
      exact ⟨rfl, rfl, rfl⟩
    · rw [if_neg (fun hc => h2 hc.2)] at h
      have g1 : lastAttrStep "sampler.type" l.samplerType (k, v) = l.samplerType := by
        unfold lastAttrStep
        rw [if_neg h1]
      have g2 : lastAttrStep "sampler.param" l.samplerParam (k, v) = l.samplerParam := by
        unfold lastAttrStep
        rw [if_neg h2]
      rw [g1, g2]
      split at h
      all_goals first
        | exact translateTransactionStr_sampling _ _ _ _ _ _ h
        | exact translateTransactionInt_sampling _ _ _ _ _ _ h
        | (cases h
           exact ⟨rfl, rfl, rfl⟩)

theorem translateTransactionAttributes_sampling (E : Env) (attributes : Attributes)
    (l l' : TransactionLocals)
    (h : attributes.foldlM (translateTransactionAttribute E true) l = some l') :
    l'.samplerType = lastAttr "sampler.type" l.samplerType attributes ∧
    l'.samplerParam = lastAttr "sampler.param" l.samplerParam attributes ∧
    l'.event.counts = l.event.counts := by
  induction attributes generalizing l with
  | nil =>
    simp only [List.foldlM_nil, Option.pure_def, Option.some.injEq] at h
    cases h
    exact ⟨rfl, rfl, rfl⟩
  | cons kv attributes ih =>
    simp only [List.foldlM_cons, Option.bind_eq_bind, Option.bind_eq_some] at h
    obtain ⟨l1, h1, h2⟩ := h
    obtain ⟨a1, a2, a3⟩ := translateTransactionAttribute_sampling E l l1 kv h1
    obtain ⟨b1, b2, b3⟩ := ih l1 h2
    unfold lastAttr
    simp only [List.foldl_cons]
    rw [← a1, ← a2]
    exact ⟨b1, b2, b3.trans a3⟩

theorem translateSpanStr_sampling (l l' : SpanLocals) (k kRep stringval raw : String)
    (h : translateSpanStr l k kRep stringval raw = some l') :
    l'.samplerType = l.samplerType ∧ l'.samplerParam = l.samplerParam ∧
    l'.event.counts = l.event.counts := by
  unfold translateSpanStr at h
  dsimp only at h
  split at h
  all_goals first
    | (cases h
       exact ⟨rfl, rfl, rfl⟩)
    | (simp only [Option.bind_eq_bind, Option.bind_eq_some, Option.pure_def,
         Option.some.injEq] at h
       obtain ⟨e1, h1, h2⟩ := h
       cases h2
       exact ⟨rfl, rfl, labelsSet_counts _ _ _ _ h1⟩)

theorem translateSpanInt_sampling (E : Env) (l : SpanLocals) (k kRep : String) (i : Int) :
    (translateSpanInt E l k kRep i).samplerType = l.samplerType ∧
    (translateSpanInt E l k kRep i).samplerParam = l.samplerParam ∧
    (translateSpanInt E l k kRep i).event.counts = l.event.counts := by
  unfold translateSpanInt
  split
  all_goals exact ⟨rfl, rfl, rfl⟩

theorem translateSpanAttribute_sampling (E : Env) (l l' : SpanLocals)
    (kv : String × Value) (h : translateSpanAttribute E true l kv = some l') :
    l'.samplerType = lastAttrStep "sampler.type" l.samplerType kv ∧
    l'.samplerParam = lastAttrStep "sampler.param" l.samplerParam kv ∧
    l'.event.counts = l.event.counts := by
  obtain ⟨k, v⟩ := kv
  unfold translateSpanAttribute at h
  dsimp only at h
  by_cases h1 : k = "sampler.type"
  · rw [if_pos ⟨rfl, h1⟩] at h
    cases h
    subst h1
    exact ⟨rfl, rfl, rfl⟩
  · rw [if_neg (fun hc => h1 hc.2)] at h
    by_cases h2 : k = "sampler.param"
    · rw [if_pos ⟨rfl, h2⟩] at h
      cases h
      subst h2
      exact ⟨rfl, rfl, rfl⟩
    · rw [if_neg (fun hc => h2 hc.2)] at h
      have g1 : lastAttrStep "sampler.type" l.samplerType (k, v) = l.samplerType := by
        unfold lastAttrStep
        rw [if_neg h1]
      have g2 : lastAttrStep "sampler.param" l.samplerParam (k, v) = l.samplerParam := by
        unfold lastAttrStep
        rw [if_neg h2]
      rw [g1, g2]
      split at h
      all_goals first
        | exact translateSpanStr_sampling _ _ _ _ _ _ h
        | (cases h; exact translateSpanInt_sampling _ _ _ _ _)
        | (cases h
           exact ⟨rfl, rfl, rfl⟩)
        | (cases h
           split <;> exact ⟨rfl, rfl, rfl⟩)

theorem translateSpanAttributes_sampling (E : Env) (attributes : Attributes)
    (l l' : SpanLocals)
    (h : attributes.foldlM (translateSpanAttribute E true) l = some l') :
    l'.samplerType = lastAttr "sampler.type" l.samplerType attributes ∧
    l'.samplerParam = lastAttr "sampler.param" l.samplerParam attributes ∧
    l'.event.counts = l.event.counts := by
  induction attributes generalizing l with
  | nil =>
    simp only [List.foldlM_nil, Option.pure_def, Option.some.injEq] at h
    cases h
    exact ⟨rfl, rfl, rfl⟩
  | cons kv attributes ih =>
    simp only [List.foldlM_cons, Option.bind_eq_bind, Option.bind_eq_some] at h
    obtain ⟨l1, h1, h2⟩ := h
    obtain ⟨a1, a2, a3⟩ := translateSpanAttribute_sampling E l l1 kv h1
    obtain ⟨b1, b2, b3⟩ := ih l1 h2
    unfold lastAttr
    simp only [List.foldl_cons]
    rw [← a1, ← a2]
    exact ⟨b1, b2, b3.trans a3⟩

/-! ### The statements around the sampler keep the counts and the labels -/

theorem setTransactionType_counts (l : TransactionLocals) (e e' : APMEvent)
    (h : setTransactionType l e = some e') : e'.counts = e.counts := by
  unfold setTransactionType at h
  split at h
  · rename_i tx hx
    split at h
    · cases h
      simp only [APMEvent.counts, hx, Option.map_some']
    · cases h
      rfl
  · cases h

theorem setTransactionHTTPStatus_counts (l : TransactionLocals) (e e' : APMEvent)
    (h : setTransactionHTTPStatus l e = some e') : e'.counts = e.counts := by
  unfold setTransactionHTTPStatus at h
  split at h
  · split at h
    · rename_i ev tx hev htx
      cases h
      simp only [APMEvent.counts, htx, Option.map_some']
      split <;> rfl
    · cases h
  · cases h
    rfl

theorem translateTransactionHTTP_counts (E : Env) (l : TransactionLocals) (e e' : APMEvent)
    (h : translateTransactionHTTP E l e = some e') : e'.counts = e.counts := by
  unfold translateTransactionHTTP at h
  simp only [Option.bind_eq_bind, Option.bind_eq_some, Option.pure_def,
    Option.some.injEq] at h
  obtain ⟨e1, h1, h2⟩ := h
  cases h2
  have k := setTransactionHTTPStatus_counts l _ e1 h1
  have k' : ({ e1 with Url := E.parseURL l.httpURL (transactionHTTPHost l e1) l.httpScheme } :
      APMEvent).counts = e1.counts := rfl
  rw [k', k]
  split <;> rfl

theorem setTransactionMessage_counts (l : TransactionLocals) (e e' : APMEvent)
    (h : setTransactionMessage l e = some e') : e'.counts = e.counts := by
  unfold setTransactionMessage at h
  split at h
  · rename_i tx hx
    cases h
    simp only [APMEvent.counts, hx, Option.map_some']
  · cases h

theorem setClientFromSource_counts (E : Env) (e : APMEvent) :
    (setClientFromSource E e).counts = e.counts := by
  unfold setClientFromSource
  split
  · split <;> rfl
  · rfl

theorem setTransactionResult_counts (spanStatus : ptrace.Status) (e e' : APMEvent)
    (h : setTransactionResult spanStatus e = some e') :
    e'.counts = e.counts ∧ e'.Labels = e.Labels ∧ e'.NumericLabels = e.NumericLabels := by
  unfold setTransactionResult at h
  split at h
  · rename_i tx hx
    split at h
    · cases h
      simp only [APMEvent.counts, hx, Option.map_some', and_self]
    · cases h
      exact ⟨rfl, rfl, rfl⟩
  · cases h

theorem setFramework_counts (library : InstrumentationScope) (e : APMEvent) :
    (setFramework library e).counts = e.counts ∧ (setFramework library e).Labels = e.Labels ∧
      (setFramework library e).NumericLabels = e.NumericLabels := by
  unfold setFramework
  split <;> exact ⟨rfl, rfl, rfl⟩

theorem finishSpan_counts (E : Env) (spanKind : ptrace.SpanKind) (l : SpanLocals)
    (e' : APMEvent) (h : finishSpan E spanKind l = some e') :
    e'.counts.2 = l.event.counts.2 := by
  obtain ⟨span, f1, f2, _⟩ := finishSpan_target E spanKind l e' h
  have hc : ∀ c : SpanClassification,
      (spanWithDestinationService c).RepresentativeCount = c.span.RepresentativeCount := by
    intro c
    unfold spanWithDestinationService
    split <;> rfl
  have hcl : ∀ (d : SpanDestination) (c : SpanClassification),
      (classifySpan E spanKind l d c).span.RepresentativeCount =
        c.span.RepresentativeCount := by
    intro d c
    unfold classifySpan
    dsimp only
    repeat' split
    all_goals rfl
  have hi : (initialClassification l span).span.RepresentativeCount =
      span.RepresentativeCount := by
    unfold initialClassification
    dsimp only
    split <;> split <;> rfl
  unfold APMEvent.counts
  dsimp only
  rw [f2, f1, Option.map_some', Option.map_some', hc, hcl, hi]

/-! ### The function `parseSamplerAttributes` -/

theorem setRepresentativeCount_counts (e : APMEvent) (count : F64) :
    (setRepresentativeCount e count).counts =
      (e.Transaction.map (fun _ => count), e.Span.map (fun _ => count)) ∧
    (setRepresentativeCount e count).Labels = e.Labels ∧
    (setRepresentativeCount e count).NumericLabels = e.NumericLabels := by
  unfold setRepresentativeCount APMEvent.counts
  dsimp only
  refine ⟨?_, rfl, rfl⟩
  cases e.Transaction <;> cases e.Span <;> rfl

theorem parseSamplerAttributes_probabilistic (E : Env) (samplerType samplerParam : Value)
    (e : APMEvent) (ht : samplerType.Str = "probabilistic") :
    parseSamplerAttributes E samplerType (some samplerParam) e =
      some (if samplerParam.Double.inUnitInterval then
        setRepresentativeCount e (F64.inv samplerParam.Double) else e) := by
  unfold parseSamplerAttributes
  rw [ht]
  dsimp only
  split
  · simp only [Option.map_some', Option.getD_some]
    split <;> rfl
  · rename_i hne
    exact absurd rfl hne

theorem parseSamplerAttributes_other (E : Env) (samplerType samplerParam : Value)
    (e e' : APMEvent) (ht : samplerType.Str ≠ "probabilistic")
    (h : parseSamplerAttributes E samplerType (some samplerParam) e = some e') :
    e'.counts = (e.Transaction.map (fun _ => F64.finite 0),
      e.Span.map (fun _ => F64.finite 0)) ∧
    ∃ labels, e'.Labels = some labels ∧
      mapGet? labels "sampler_type" = some { Value := samplerType.Str } ∧
      (∀ b, samplerParam = Value.bool b →
        mapGet? labels "sampler_param" = some { Value := formatBool b } ∧
        e'.NumericLabels = e.NumericLabels) ∧
      (∀ d, samplerParam = Value.double d →
        ∃ numericLabels, e'.NumericLabels = some numericLabels ∧
          mapGet? numericLabels "sampler_param" = some { Value := d }) ∧
      ((∀ b, samplerParam ≠ Value.bool b) → (∀ d, samplerParam ≠ Value.double d) →
        e'.NumericLabels = e.NumericLabels ∧
        ∃ labels0, e.Labels = some labels0 ∧
          labels = mapSet labels0 "sampler_type" { Value := samplerType.Str }) := by
  unfold parseSamplerAttributes at h
  split at h
  · rename_i hs
    exact absurd hs ht
  · obtain ⟨c1, c2, c3⟩ := setRepresentativeCount_counts e (F64.finite 0)
    simp only [Option.bind_eq_bind, Option.bind_eq_some] at h
    obtain ⟨e1, h1, h2⟩ := h
    have k1 := labelsSet_counts _ _ _ _ h1
    unfold labelsSet at h1
    cases hl : (setRepresentativeCount e (F64.finite 0)).Labels with
    | none =>
      rw [hl] at h1
      cases h1
    | some labels0 =>
      rw [hl] at h1
      dsimp only at h1
      cases h1
      have hget : mapGet? (mapSet labels0 "sampler_type" { Value := samplerType.Str })
          "sampler_type" = some ({ Value := samplerType.Str } : LabelValue) := by
        rw [mapGet?_mapSet, if_pos rfl]
      cases samplerParam with
      | bool b =>
        dsimp only at h2
        unfold labelsSet at h2
        dsimp only at h2
        cases h2
        refine ⟨k1.trans c1, _, rfl, ?_, ?_, ?_, ?_⟩
        · rw [mapGet?_mapSet, if_neg (by decide)]
          exact hget
        · intro b' hb
          cases hb
          refine ⟨?_, c3⟩
          rw [mapGet?_mapSet, if_pos rfl]
        · intro d hd
          cases hd
        · intro hb _
          exact absurd rfl (hb b)
      | double d =>
        dsimp only at h2
        unfold numericLabelsSet at h2
        dsimp only at h2
        cases hn : (setRepresentativeCount e (F64.finite 0)).NumericLabels with
        | none =>
          rw [hn] at h2
          cases h2
        | some nl0 =>
          rw [hn] at h2
          cases h2
          refine ⟨k1.trans c1, _, rfl, hget, ?_, ?_, ?_⟩
          · intro b hb
            cases hb
          · intro d' hd
            cases hd
            exact ⟨_, rfl, by rw [mapGet?_mapSet, if_pos rfl]⟩
          · intro _ hd
            exact absurd rfl (hd d)
      | _ =>
        cases h2
        refine ⟨k1.trans c1, _, rfl, hget, ?_, ?_, ?_⟩
        · intro b hb
          cases hb
        · intro d hd
          cases hd
        · intro _ _
          exact ⟨c3, labels0, c2 ▸ hl, rfl⟩

/-! ### The sampler of a Jaeger agent in `TranslateTransaction`, `TranslateSpan` and
`convertSpan` -/

theorem TranslateTransaction_sampling (E : Env) (attributes : Attributes)
    (spanStatus : ptrace.Status) (library : InstrumentationScope) (event event' : APMEvent)
    (agent : Agent) (ha : event.Agent = some agent) (hj : hasPrefix agent.Name "Jaeger" = true)
    (h : TranslateTransaction E attributes spanStatus library event = some event') :
    ∃ e0 e1, e0.counts = event.counts ∧
      applySampler E (lastAttr "sampler.type" none attributes)
        (lastAttr "sampler.param" none attributes) e0 = some e1 ∧
      event'.counts = e1.counts ∧ event'.Labels = e1.Labels ∧
      event'.NumericLabels = e1.NumericLabels := by
  unfold TranslateTransaction at h
  simp only [Option.bind_eq_bind, Option.bind_eq_some, Option.pure_def,
    Option.some.injEq] at h
  obtain ⟨agent', hag, l, h1, e1, h2, e2, h3, e3, h4, e4, h5, e5, h6, h7⟩ := h
  rw [ha] at hag
  cases hag
  rw [hj] at h1
  obtain ⟨s1, s2, s3⟩ := translateTransactionAttributes_sampling E attributes _ l h1
  have k1 : e1.counts = event.counts := (setTransactionType_counts l _ e1 h2).trans s3
  have k2 : e2.counts = e1.counts := by
    split at h3
    · exact translateTransactionHTTP_counts E l e1 e2 h3
    · cases h3
      rfl
  have k3 : e3.counts = e2.counts := by
    split at h4
    · exact setTransactionMessage_counts l e2 e3 h4
    · cases h4
      rfl
  obtain ⟨r1, r2, r3⟩ := setTransactionResult_counts _ _ _ h6
  obtain ⟨f1, f2, f3⟩ := setFramework_counts library e5
  rw [s1, s2] at h5
  refine ⟨setClientFromSource E e3, e4,
    (setClientFromSource_counts E e3).trans (k3.trans (k2.trans k1)), h5, ?_, ?_, ?_⟩
  · rw [← h7, f1, r1]
  · rw [← h7, f2, r2]
  · rw [← h7, f3, r3]

theorem TranslateSpan_sampling (E : Env) (spanKind : ptrace.SpanKind)
    (attributes : Attributes) (event event' : APMEvent)
    (agent : Agent) (ha : event.Agent = some agent) (hj : hasPrefix agent.Name "Jaeger" = true)
    (h : TranslateSpan E spanKind attributes event = some event') :
    ∃ e0, e0.counts.2 = event.counts.2 ∧
      applySampler E (lastAttr "sampler.type" none attributes)
        (lastAttr "sampler.param" none attributes) e0 = some event' := by
  unfold TranslateSpan at h
  simp only [Option.bind_eq_bind, Option.bind_eq_some] at h
  obtain ⟨l, h1, e2, h2, h3⟩ := h
  simp only [ha, Option.map_some', Option.getD_some, hj] at h1
  obtain ⟨s1, s2, s3⟩ := translateSpanAttributes_sampling E attributes _ l h1
  rw [s1, s2] at h3
  refine ⟨e2, ?_, h3⟩
  rw [finishSpan_counts E spanKind l e2 h2, s3]

theorem applySampler_counts (E : Env) (samplerType samplerParam : Value) (e e' : APMEvent)
    (h : applySampler E (some samplerType) (some samplerParam) e = some e') :
    (samplerType.Str = "probabilistic" →
      e'.counts =
        (if samplerParam.Double.inUnitInterval then
          (e.counts.1.map (fun _ => F64.inv samplerParam.Double),
            e.counts.2.map (fun _ => F64.inv samplerParam.Double))
         else e.counts) ∧
      e'.Labels = e.Labels ∧ e'.NumericLabels = e.NumericLabels) ∧
    (samplerType.Str ≠ "probabilistic" →
      e'.counts = (e.counts.1.map (fun _ => F64.finite 0),
        e.counts.2.map (fun _ => F64.finite 0)) ∧
      ∃ labels, e'.Labels = some labels ∧
        mapGet? labels "sampler_type" = some { Value := samplerType.Str } ∧
        (∀ b, samplerParam = Value.bool b →
          mapGet? labels "sampler_param" = some { Value := formatBool b } ∧
          e'.NumericLabels = e.NumericLabels) ∧
        (∀ d, samplerParam = Value.double d →
          ∃ numericLabels, e'.NumericLabels = some numericLabels ∧
            mapGet? numericLabels "sampler_param" = some { Value := d }) ∧
        ((∀ b, samplerParam ≠ Value.bool b) → (∀ d, samplerParam ≠ Value.double d) →
          e'.NumericLabels = e.NumericLabels ∧
          ∃ labels0, e.Labels = some labels0 ∧
            labels = mapSet labels0 "sampler_type" { Value := samplerType.Str })) := by
  have hmap : ∀ (c : F64),
      (e.Transaction.map (fun _ => c), e.Span.map (fun _ => c)) =
        (e.counts.1.map (fun _ => c), e.counts.2.map (fun _ => c)) := by
    intro c
    unfold APMEvent.counts
    cases e.Transaction <;> cases e.Span <;> rfl
  constructor
  · intro ht
    have h' : parseSamplerAttributes E samplerType (some samplerParam) e = some e' := h
    rw [parseSamplerAttributes_probabilistic E samplerType samplerParam e ht] at h'
    cases h'
    by_cases hu : samplerParam.Double.inUnitInterval = true
    · rw [if_pos hu, if_pos hu]
      obtain ⟨c1, c2, c3⟩ := setRepresentativeCount_counts e (F64.inv samplerParam.Double)
      exact ⟨c1.trans (hmap _), c2, c3⟩
    · rw [if_neg hu, if_neg hu]
      exact ⟨rfl, rfl, rfl⟩
  · intro ht
    obtain ⟨c1, c2⟩ := parseSamplerAttributes_other E samplerType samplerParam e e' ht h
    exact ⟨c1.trans (hmap _), c2⟩

theorem translateSpanLinks_counts (e : APMEvent) (links : List ptrace.SpanLink) :
    (translateSpanLinks e links).counts.1 = e.counts.1 ∧
    (e.Span.isSome = true → (translateSpanLinks e links).counts.2 = e.counts.2) ∧
    (translateSpanLinks e links).Labels = e.Labels ∧
    (translateSpanLinks e links).NumericLabels = e.NumericLabels := by
  unfold translateSpanLinks
  split
  · exact ⟨rfl, fun _ => rfl, rfl, rfl⟩
  · refine ⟨rfl, ?_, rfl, rfl⟩
    intro hs
    obtain ⟨span, hspan⟩ := Option.isSome_iff_exists.mp hs
    simp only [APMEvent.counts, populateNil, hspan, Option.getD_some, Option.map_some']

theorem nilIfEmpty_of_mapGet? {ν : Type} (labels : List (String × ν)) (k : String) (v : ν)
    (h : mapGet? labels k = some v) : nilIfEmpty (some labels) = some labels := by
  cases labels with
  | nil => cases h
  | cons x rest => rfl

theorem translateSpanOrTransaction_sampling (E : Env) (otelSpan : ptrace.Span)
    (otelLibrary : InstrumentationScope) (e e' : APMEvent) (agent : Agent)
    (ha : e.Agent = some agent) (hj : hasPrefix agent.Name "Jaeger" = true)
    (h : translateSpanOrTransaction E otelSpan otelLibrary e = some e') :
    ∃ e0 e1,
      primaryCount otelSpan e0 =
        some (getRepresentativeCountFromTracestateHeader otelSpan.TraceState) ∧
      applySampler E (lastAttr "sampler.type" none otelSpan.Attributes)
        (lastAttr "sampler.param" none otelSpan.Attributes) e0 = some e1 ∧
      primaryCount otelSpan e' = primaryCount otelSpan e1 ∧
      e'.Labels = e1.Labels ∧ e'.NumericLabels = e1.NumericLabels := by
  unfold translateSpanOrTransaction at h
  dsimp only at h
  by_cases hk : isTransactionSpan otelSpan = true
  · have hc : otelSpan.ParentSpanID.IsEmpty = true ∨ otelSpan.Kind = ptrace.SpanKind.Server ∨
        otelSpan.Kind = ptrace.SpanKind.Consumer := by
      unfold isTransactionSpan at hk
      simp only [Bool.or_eq_true, decide_eq_true_eq] at hk
      tauto
    rw [if_pos hc] at h
    obtain ⟨e0, e1, c0, hs, c1, c2, c3⟩ :=
      TranslateTransaction_sampling E _ _ _ _ e' agent (by exact ha) hj h
    refine ⟨e0, e1, ?_, hs, ?_, c2, c3⟩
    · unfold primaryCount
      rw [if_pos hk, c0]
      rfl
    · unfold primaryCount
      rw [if_pos hk, if_pos hk, c1]
  · have hc : ¬ (otelSpan.ParentSpanID.IsEmpty = true ∨ otelSpan.Kind = ptrace.SpanKind.Server ∨
        otelSpan.Kind = ptrace.SpanKind.Consumer) := by
      unfold isTransactionSpan at hk
      simp only [Bool.or_eq_true, decide_eq_true_eq] at hk
      tauto
    rw [if_neg hc] at h
    obtain ⟨e0, c0, hs⟩ := TranslateSpan_sampling E _ _ _ e' agent (by exact ha) hj h
    refine ⟨e0, e', ?_, hs, rfl, rfl, rfl⟩
    unfold primaryCount
    rw [if_neg hk, c0]
    rfl

theorem convertSpanPrimary_sampling (E : Env) (otelSpan : ptrace.Span)
    (otelLibrary : InstrumentationScope) (baseEvent : APMEvent) (timeDelta : Int)
    (primary : APMEvent) (agent : Agent) (samplerType samplerParam : Value)
    (h : convertSpanPrimary E otelSpan otelLibrary baseEvent timeDelta = some primary)
    (ha : baseEvent.Agent = some agent) (hj : hasPrefix agent.Name "Jaeger" = true)
    (ht : lastAttr "sampler.type" none otelSpan.Attributes = some samplerType)
    (hp : lastAttr "sampler.param" none otelSpan.Attributes = some samplerParam) :
    (samplerType.Str = "probabilistic" →
      primaryCount otelSpan primary =
        some (if samplerParam.Double.inUnitInterval then F64.inv samplerParam.Double
              else getRepresentativeCountFromTracestateHeader otelSpan.TraceState)) ∧
    (samplerType.Str ≠ "probabilistic" →
      primaryCount otelSpan primary = some (F64.finite 0) ∧
      ∃ labels, primary.Labels = some labels ∧
        mapGet? labels "sampler_type" = some { Value := samplerType.Str } ∧
        (∀ b, samplerParam = Value.bool b →
          mapGet? labels "sampler_param" = some { Value := formatBool b }) ∧
        (∀ d, samplerParam = Value.double d →
          ∃ numericLabels, primary.NumericLabels = some numericLabels ∧
            mapGet? numericLabels "sampler_param" = some { Value := d })) := by
  obtain ⟨e', h1, hev⟩ :=
    convertSpanPrimary_eq E otelSpan otelLibrary baseEvent timeDelta primary h
  obtain ⟨e0, e1, c0, hs, c1, c2, c3⟩ := translateSpanOrTransaction_sampling E otelSpan
    otelLibrary _ e' agent (by exact ha) hj h1
  rw [ht, hp] at hs
  obtain ⟨l1, l2, l3, l4⟩ := translateSpanLinks_counts e' otelSpan.Links
  obtain ⟨a1, a2⟩ := applySampler_counts E samplerType samplerParam e0 e1 hs
  have hcount : ∀ c : F64, primaryCount otelSpan e1 = some c →
      primaryCount otelSpan primary = some c := by
    intro c hc
    rw [← c1] at hc
    unfold primaryCount at hc ⊢
    by_cases hk : isTransactionSpan otelSpan = true
    · rw [if_pos hk] at hc ⊢
      rw [hev]
      exact l1.trans hc
    · rw [if_neg hk] at hc ⊢
      have hsome : e'.Span.isSome = true := by
        unfold APMEvent.counts at hc
        dsimp only at hc
        cases hx : e'.Span with
        | none =>
          rw [hx] at hc
          cases hc
        | some span => rfl
      rw [hev]
      exact (l2 hsome).trans hc
  have hL : primary.Labels = nilIfEmpty e1.Labels := by
    rw [hev]
    show nilIfEmpty (translateSpanLinks e' otelSpan.Links).Labels = _
    rw [l3, c2]
  have hN : primary.NumericLabels = nilIfEmpty e1.NumericLabels := by
    rw [hev]
    show nilIfEmpty (translateSpanLinks e' otelSpan.Links).NumericLabels = _
    rw [l4, c3]
  have hp0 : ∀ c c' : F64, primaryCount otelSpan e0 = some c →
      (if isTransactionSpan otelSpan then e0.counts.1.map (fun _ => c')
        else e0.counts.2.map (fun _ => c')) = some c' := by
    intro c c' hc
    unfold primaryCount at hc
    split
    · rename_i hk
      rw [if_pos hk] at hc
      rw [hc]
      rfl
    · rename_i hk
      rw [if_neg hk] at hc
      rw [hc]
      rfl
  constructor
  · intro hprob
    obtain ⟨b1, _, _⟩ := a1 hprob
    apply hcount
    unfold primaryCount
    rw [b1]
    by_cases hu : samplerParam.Double.inUnitInterval = true
    · rw [if_pos hu, if_pos hu]
      dsimp only
      exact hp0 _ _ c0
    · rw [if_neg hu, if_neg hu]
      exact c0
  · intro hother
    obtain ⟨b1, labels, b2, b3, b4, b5, _⟩ := a2 hother
    refine ⟨?_, labels, ?_, b3, ?_, ?_⟩
    · apply hcount
      unfold primaryCount
      rw [b1]
      dsimp only
      exact hp0 _ _ c0
    · rw [hL, b2]
      exact nilIfEmpty_of_mapGet? labels _ _ b3
    · intro b hb
      exact (b4 b hb).1
    · intro d hd
      obtain ⟨nl, n1, n2⟩ := b5 d hd
      refine ⟨nl, ?_, n2⟩
      rw [hN, n1]
      exact nilIfEmpty_of_mapGet? nl _ _ n2

/-! ### Totality of the translation for a Jaeger agent with both sampler attributes -/

theorem parseSamplerAttributes_isSome (E : Env) (samplerType samplerParam : Value)
    (e : APMEvent) (hr : LabelsReady e) :
    ∃ e', parseSamplerAttributes E samplerType (some samplerParam) e = some e' := by
  by_cases ht : samplerType.Str = "probabilistic"
  · exact ⟨_, parseSamplerAttributes_probabilistic E samplerType samplerParam e ht⟩
  · obtain ⟨_, c2, c3⟩ := setRepresentativeCount_counts e (F64.finite 0)
    have hr0 : LabelsReady (setRepresentativeCount e (F64.finite 0)) := by
      unfold LabelsReady
      rw [c2, c3]
      exact hr
    obtain ⟨e1, h1⟩ := labelsSet_isSome _ "sampler_type" samplerType.Str hr0
    have hr1 : LabelsReady e1 := (labelsSet_keeps _ _ _ _ h1).2.1 hr0
    unfold parseSamplerAttributes
    split
    · rename_i hs
      exact absurd hs ht
    · simp only [Option.bind_eq_bind, h1, Option.some_bind]
      cases samplerParam with
      | bool b => exact labelsSet_isSome _ _ _ hr1
      | double d => exact numericLabelsSet_isSome _ _ _ hr1
      | _ => exact ⟨_, rfl⟩

theorem TranslateTransaction_isSome_sampler (E : Env) (attributes : Attributes)
    (spanStatus : ptrace.Status) (library : InstrumentationScope) (e : APMEvent)
    (agent : Agent) (samplerType samplerParam : Value) (ha : e.Agent = some agent)
    (hj : hasPrefix agent.Name "Jaeger" = true)
    (ht : lastAttr "sampler.type" none attributes = some samplerType)
    (hp : lastAttr "sampler.param" none attributes = some samplerParam)
    (hr : TxReady e) :
    ∃ e', TranslateTransaction E attributes spanStatus library e = some e' := by
  obtain ⟨l, h1⟩ := translateTransactionAttributes_isSome E true attributes
    { event := e } hr
  have k1 := translateTransactionAttributes_keeps E _ attributes _ l h1
  obtain ⟨s1, s2, _⟩ := translateTransactionAttributes_sampling E attributes _ l h1
  have s1' : l.samplerType = some samplerType := s1.trans ht
  have s2' : l.samplerParam = some samplerParam := s2.trans hp
  obtain ⟨e2, h2⟩ := setTransactionType_isSome l l.event (k1.txReady hr)
  have k2 := (k1.trans (setTransactionType_keeps _ _ _ h2))
  obtain ⟨e3, h3⟩ : ∃ e3, (if l.isHTTP then translateTransactionHTTP E l e2 else some e2) =
      some e3 := by
    split
    · exact translateTransactionHTTP_isSome E l e2 (k2.txReady hr)
    · exact ⟨_, rfl⟩
  have k3 : Keeps e e3 := by
    split at h3
    · exact k2.trans (translateTransactionHTTP_keeps _ _ _ _ h3)
    · cases h3; exact k2
  obtain ⟨e4, h4⟩ : ∃ e4, (if l.isMessaging then setTransactionMessage l e3 else some e3) =
      some e4 := by
    split
    · exact setTransactionMessage_isSome l e3 (k3.txReady hr)
    · exact ⟨_, rfl⟩
  have k4 : Keeps e e4 := by
    split at h4
    · exact k3.trans (setTransactionMessage_keeps _ _ _ h4)
    · cases h4; exact k3
  have k5 := k4.trans (setClientFromSource_keeps E e4)
  obtain ⟨e5, h5⟩ := parseSamplerAttributes_isSome E samplerType samplerParam
    (setClientFromSource E e4) (k5.txReady hr).1
  have k6 := k5.trans (parseSamplerAttributes_keeps _ _ _ _ _ h5)
  obtain ⟨e6, h6⟩ := setTransactionResult_isSome spanStatus _ (k6.txReady hr)
  refine ⟨setFramework library e6, ?_⟩
  unfold TranslateTransaction
  simp only [ha, hj, Option.bind_eq_bind, Option.some_bind, h1, h2, h3, h4, s1', s2',
    applySampler, h5, h6, Option.pure_def]

theorem TranslateSpan_isSome_sampler (E : Env) (spanKind : ptrace.SpanKind)
    (attributes : Attributes) (e : APMEvent) (agent : Agent) (samplerType samplerParam : Value)
    (ha : e.Agent = some agent) (hj : hasPrefix agent.Name "Jaeger" = true)
    (ht : lastAttr "sampler.type" none attributes = some samplerType)
    (hp : lastAttr "sampler.param" none attributes = some samplerParam)
    (hr : SpanReady e) :
    ∃ e', TranslateSpan E spanKind attributes e = some e' := by
  obtain ⟨l, h1⟩ := translateSpanAttributes_isSome E true attributes { event := e } hr.1
  have k1 := translateSpanAttributes_keeps E _ attributes _ l h1
  obtain ⟨s1, s2, _⟩ := translateSpanAttributes_sampling E attributes _ l h1
  have s1' : l.samplerType = some samplerType := s1.trans ht
  have s2' : l.samplerParam = some samplerParam := s2.trans hp
  obtain ⟨e2, h2⟩ := finishSpan_isSome E spanKind l (k1.spanReady hr)
  have k2 := k1.trans (finishSpan_keeps E spanKind l e2 h2)
  obtain ⟨e3, h3⟩ := parseSamplerAttributes_isSome E samplerType samplerParam e2
    (k2.spanReady hr).1
  refine ⟨e3, ?_⟩
  unfold TranslateSpan
  simp only [ha, Option.map_some', Option.getD_some, hj, Option.bind_eq_bind, h1,
    Option.some_bind, h2, s1', s2', applySampler, h3]

theorem convertSpanPrimary_isSome_sampler (E : Env) (otelSpan : ptrace.Span)
    (otelLibrary : InstrumentationScope) (baseEvent : APMEvent) (timeDelta : Int)
    (agent : Agent) (service : Service) (samplerType samplerParam : Value)
    (ha : baseEvent.Agent = some agent) (hj : hasPrefix agent.Name "Jaeger" = true)
    (hs : baseEvent.Service = some service)
    (ht : lastAttr "sampler.type" none otelSpan.Attributes = some samplerType)
    (hp : lastAttr "sampler.param" none otelSpan.Attributes = some samplerParam) :
    ∃ event, convertSpanPrimary E otelSpan otelLibrary baseEvent timeDelta = some event := by
  obtain ⟨r1, r2, r3, r4⟩ := spanEnvelope_ready otelSpan baseEvent timeDelta
  have hsv : (spanEnvelope otelSpan baseEvent timeDelta).Service.isSome = true := by
    rw [r3, hs]
    rfl
  obtain ⟨e1, h1⟩ : ∃ e1, translateSpanOrTransaction E otelSpan otelLibrary
      (spanEnvelope otelSpan baseEvent timeDelta) = some e1 := by
    unfold translateSpanOrTransaction
    dsimp only
    split
    · exact TranslateTransaction_isSome_sampler E _ _ _ _ agent samplerType samplerParam
        (r4.trans ha) hj ht hp ⟨r1, rfl, hsv, r2⟩
    · exact TranslateSpan_isSome_sampler E _ _ _ agent samplerType samplerParam
        (r4.trans ha) hj ht hp ⟨r1, rfl, hsv, r2⟩
  unfold convertSpanPrimary
  simp only [Option.bind_eq_bind, h1, Option.some_bind, Option.pure_def]
  exact ⟨_, rfl⟩

/-! ### The test `0 < probability && probability <= 1` -/

theorem inUnitInterval_double (q : ℚ) :
    ((Value.double (F64.finite q)).Double.inUnitInterval = true ↔ (0 < q ∧ q ≤ 1)) ∧
    (0 < q → F64.inv (Value.double (F64.finite q)).Double = F64.finite (1 / q)) := by
  constructor
  · show decide (0 < q ∧ q ≤ 1) = true ↔ _
    rw [decide_eq_true_iff]
  · intro hq
    show (if q = 0 then F64.posInf else F64.finite (1 / q)) = _
    rw [if_neg (ne_of_gt hq)]

theorem inUnitInterval_not_double (v : Value) (h : ∀ d, v ≠ Value.double d) :
    v.Double.inUnitInterval = false := by
  cases v with
  | double d => exact absurd rfl (h d)
  | _ =>
    show decide ((0 : ℚ) < 0 ∧ (0 : ℚ) ≤ 1) = false
    simp

/-! ### The primary event of a span that does not become a transaction -/

theorem convertSpanPrimary_span_target (E : Env) (otelSpan : ptrace.Span)
    (otelLibrary : InstrumentationScope) (baseEvent : APMEvent) (timeDelta : Int)
    (primary : APMEvent)
    (h : convertSpanPrimary E otelSpan otelLibrary baseEvent timeDelta = some primary)
    (hk : isTransactionSpan otelSpan = false) :
    ∃ event', TranslateSpan E otelSpan.Kind otelSpan.Attributes
        (spanInputEvent otelSpan baseEvent timeDelta) = some event' ∧
      primary.target = event'.target := by
  obtain ⟨e1, h1, hev⟩ :=
    convertSpanPrimary_eq E otelSpan otelLibrary baseEvent timeDelta primary h
  unfold translateSpanOrTransaction at h1
  dsimp only at h1
  have hc : ¬ (otelSpan.ParentSpanID.IsEmpty = true ∨ otelSpan.Kind = ptrace.SpanKind.Server ∨
      otelSpan.Kind = ptrace.SpanKind.Consumer) := by
    unfold isTransactionSpan at hk
    simp only [Bool.or_eq_false_iff, decide_eq_false_iff_not] at hk
    rintro (h1 | h2 | h3)
    · rw [hk.1.1] at h1
      cases h1
    · exact hk.1.2 h2
    · exact hk.2 h3
  rw [if_neg hc] at h1
  refine ⟨e1, h1, ?_⟩
  obtain ⟨_, _, _, _, hds, _, _⟩ := TranslateSpan_target E _ _ _ e1 h1
  obtain ⟨span1, hs1, _⟩ := Option.map_eq_some'.mp hds
  rw [hev]
  unfold translateSpanLinks APMEvent.target
  split
  · rfl
  · simp only [populateNil, hs1, Option.getD_some, Option.map_some']

theorem TranslateSpan_destination (E : Env) (spanKind : ptrace.SpanKind)
    (attributes : Attributes) (event event' : APMEvent)
    (h : TranslateSpan E spanKind attributes event = some event') :
    event'.Destination =
      (if spanDestAddrOf E attributes ≠ "" then
        some { Address := spanDestAddrOf E attributes,
               Port := uint32OfInt (spanDestPortOf E attributes) }
       else event.Destination) := by
  obtain ⟨l, span, hl, _, _, hd, _⟩ := TranslateSpan_target E spanKind attributes event event' h
  obtain ⟨_, d2, d3⟩ := spanDestination_of E _ attributes event l hl
  rw [hd, d2, d3]

/-! ### HTTP headers -/

theorem headersLoop_spec (h : List HTTPHeader) (acc : HTTPHeaderMap)
    (hn : (acc.map Prod.fst).Nodup) :
    ((h.foldl (fun headers v => mapSet headers v.Key v.Value) acc).map Prod.fst).Nodup ∧
    (∀ k, k ∈ (h.foldl (fun headers v => mapSet headers v.Key v.Value) acc).map Prod.fst ↔
      k ∈ acc.map Prod.fst ∨ ∃ v, v ∈ h ∧ v.Key = k) ∧
    (∀ k, mapGet? (h.foldl (fun headers v => mapSet headers v.Key v.Value) acc) k =
      (lastHeaderValue h k).orElse (fun _ => mapGet? acc k)) := by
  induction h generalizing acc with
  | nil =>
    refine ⟨hn, fun k => ?_, fun k => rfl⟩
    simp
  | cons x h ih =>
    obtain ⟨i1, i2, i3⟩ := ih (mapSet acc x.Key x.Value) (mapSet_keys_nodup acc _ _ hn)
    refine ⟨i1, fun k => ?_, fun k => ?_⟩
    · rw [List.foldl_cons, i2, mapSet_keys_mem]
      constructor
      · rintro ((e | e) | ⟨v, hv, e⟩)
        · exact Or.inr ⟨x, List.mem_cons_self _ _, e.symm⟩
        · exact Or.inl e
        · exact Or.inr ⟨v, List.mem_cons_of_mem _ hv, e⟩
      · rintro (e | ⟨v, hv, e⟩)
        · exact Or.inl (Or.inr e)
        · rcases List.mem_cons.mp hv with e' | e'
          · subst e'
            exact Or.inl (Or.inl e.symm)
          · exact Or.inr ⟨v, e', e⟩
    · rw [List.foldl_cons, i3, mapGet?_mapSet]
      unfold lastHeaderValue
      rw [List.reverse_cons, List.find?_append]
      cases hf : List.find? (fun v => decide (v.Key = k)) h.reverse with
      | some v => rfl
      | none =>
        by_cases hk : k = x.Key
        · have hk' : x.Key = k := hk.symm
          simp [hk, List.find?]
        · have hk' : ¬ x.Key = k := fun e => hk e.symm
          simp [hk, hk', List.find?]

/-! ### The order of histogram values, and the counts -/

theorem exists_rat_of_finite (b : List F64) (h : b.all F64.isFinite = true) :
    ∃ q : List ℚ, b = q.map F64.finite := by
  induction b with
  | nil => exact ⟨[], rfl⟩
  | cons x b ih =>
    rw [List.all_cons, Bool.and_eq_true] at h
    obtain ⟨q, hq⟩ := ih h.2
    cases x with
    | finite a => exact ⟨a :: q, by rw [hq]; rfl⟩
    | nan => cases h.1
    | posInf => cases h.1
    | negInf => cases h.1

theorem nonDecreasing_finite (q : List ℚ) :
    nonDecreasing (q.map F64.finite) = true ↔ q.Pairwise (· ≤ ·) := by
  rw [← List.chain'_iff_pairwise]
  induction q with
  | nil => simp [nonDecreasing]
  | cons a q ih =>
    cases q with
    | nil => simp [nonDecreasing]
    | cons b q =>
      rw [List.chain'_cons, ← ih]
      simp [nonDecreasing, F64.le]

theorem strictlyIncreasing_finite (q : List ℚ) :
    strictlyIncreasing (q.map F64.finite) = true ↔ q.Pairwise (· < ·) := by
  rw [← List.chain'_iff_pairwise]
  induction q with
  | nil => simp [strictlyIncreasing]
  | cons a q ih =>
    cases q with
    | nil => simp [strictlyIncreasing]
    | cons b q =>
      rw [List.chain'_cons, ← ih]
      simp [strictlyIncreasing, F64.lt]

theorem getD_le_of_pairwise (b : List ℚ) (hs : b.Pairwise (· ≤ ·)) (i j : Nat) (hij : i ≤ j)
    (hj : j < b.length) : b.getD i 0 ≤ b.getD j 0 := by
  have hi : i < b.length := by omega
  rw [List.getD_eq_getElem _ _ hi, List.getD_eq_getElem _ _ hj]
  rcases Nat.eq_or_lt_of_le hij with e | e
  · subst e
    exact le_refl _
  · exact List.pairwise_iff_getElem.mp hs i j hi hj e

theorem getD_lt_of_pairwise (b : List ℚ) (hs : b.Pairwise (· < ·)) (i j : Nat) (hij : i < j)
    (hj : j < b.length) : b.getD i 0 < b.getD j 0 := by
  have hi : i < b.length := by omega
  rw [List.getD_eq_getElem _ _ hi, List.getD_eq_getElem _ _ hj]
  exact List.pairwise_iff_getElem.mp hs i j hi hj hij

theorem nonEmptyBuckets_pairwise (c : List Nat) :
    (nonEmptyBuckets c).Pairwise (· < ·) ∧ ∀ i, i ∈ nonEmptyBuckets c → i < c.length := by
  unfold nonEmptyBuckets
  refine ⟨List.Pairwise.filter _ (List.pairwise_lt_range _), fun i hi => ?_⟩
  exact List.mem_range.mp (List.mem_filter.mp hi).1

theorem histogramSample_eq (c : List Nat) (b : List F64) (hn : c.length = b.length + 1)
    (hb : 1 ≤ b.length) :
    histogramSample c b =
      some ({ emptySample with
              Type_ := MetricType.histogram,
              Histogram := some
                { Values := (nonEmptyBuckets c).map (fun i => float64BucketValue b c.length i),
                  Counts := (nonEmptyBuckets c).map (fun i => int64OfUint64 (c.getD i 0)) } },
            true) := by
  unfold histogramSample nonEmptyBuckets
  have hg : ¬ (c.length ≠ b.length + 1 ∨ b.length = 0) := by omega
  rw [if_neg hg, histogramLoop_eq c b hn hb c.length (le_refl _)]
  rfl

theorem histogramValues_eq (c : List Nat) (b : List F64) (hn : c.length = b.length + 1)
    (hb : 1 ≤ b.length) :
    histogramValues c b = (nonEmptyBuckets c).map (fun i => float64BucketValue b c.length i) := by
  unfold histogramValues
  rw [histogramSample_eq c b hn hb]
  rfl

theorem getD_map_finite (q : List ℚ) (j : Nat) :
    (q.map F64.finite).getD j (F64.finite 0) = F64.finite (q.getD j 0) := by
  rw [List.getD_eq_getElem?_getD, List.getD_eq_getElem?_getD, List.getElem?_map]
  cases q[j]? <;> rfl

theorem isFloat64_finite (x : ℚ) :
    (F64.finite x).isFloat64 = true ↔ F64.ofRat x = F64.finite x := by
  unfold F64.isFloat64
  exact decide_eq_true_iff

/-- When no operation rounds, the value of a bucket is the one of exact arithmetic. -/
theorem float64BucketValue_exact (q : List ℚ) (n i : Nat) (h : exactBucket q n i = true) :
    float64BucketValue (q.map F64.finite) n i = F64.finite (specBucketValue q n i) := by
  unfold float64BucketValue specBucketValue
  unfold exactBucket at h
  simp only [getD_map_finite]
  by_cases h0 : i = 0
  · rw [if_pos h0] at h ⊢
    rw [if_pos h0]
    by_cases hp : 0 < q.getD 0 0
    · have hg : (F64.finite (q.getD 0 0)).gtZero = true := decide_eq_true hp
      rw [if_pos hg, if_pos hp]
      rw [Bool.or_eq_true] at h
      rcases h with h | h
      · exact absurd (of_decide_eq_true h) (not_le.mpr hp)
      · exact (isFloat64_finite _).mp h
    · have hg : ¬ (F64.finite (q.getD 0 0)).gtZero = true := by
        intro hg
        exact hp (of_decide_eq_true hg)
      rw [if_neg hg, if_neg hp]
  · rw [if_neg h0] at h ⊢
    rw [if_neg h0]
    by_cases hl : i = n - 1
    · rw [if_pos hl, if_pos hl]
    · rw [if_neg hl] at h ⊢
      rw [if_neg hl]
      simp only [Bool.and_eq_true] at h
      obtain ⟨⟨h1, h2⟩, h3⟩ := h
      have e1 := (isFloat64_finite _).mp h1
      have e2 := (isFloat64_finite _).mp h2
      have e3 := (isFloat64_finite _).mp h3
      simp only [F64.sub, F64.half, F64.add, e1, e2]
      have e : q.getD (i - 1) 0 + (q.getD i 0 - q.getD (i - 1) 0) / 2 =
          (q.getD (i - 1) 0 + q.getD i 0) / 2 := by ring
      rw [e, e3]

/-- The value of an interior bucket lies between its two bounds when these are `float64`
values in order and their difference does not overflow. -/
theorem F64.midpoint_between (lo hi : ℚ) (hlo : F64.ofRat lo = F64.finite lo)
    (hhi : F64.ofRat hi = F64.finite hi) (h : lo ≤ hi)
    (hf : (F64.sub (F64.finite hi) (F64.finite lo)).isFinite = true) :
    ∃ v, F64.add (F64.finite lo) (F64.half (F64.sub (F64.finite hi) (F64.finite lo))) =
        F64.finite v ∧ lo ≤ v ∧ v ≤ hi := by
  simp only [F64.sub] at hf ⊢
  cases hd : F64.ofRat (hi - lo) with
  | finite d =>
    obtain ⟨w, hw, w0, w1⟩ := F64.ofRat_half_le (hi - lo) d (by linarith) hd
    simp only [F64.half, hw, F64.add]
    exact F64.ofRat_between lo (lo + w) hi hlo hhi (by linarith) (by linarith)
  | nan => rw [hd] at hf; cases hf
  | posInf => rw [hd] at hf; cases hf
  | negInf => rw [hd] at hf; cases hf

theorem differencesFinite_getD (q : List ℚ) (h : differencesFinite (q.map F64.finite) = true)
    (j : Nat) (hj : j + 1 < q.length) :
    (F64.sub (F64.finite (q.getD (j + 1) 0)) (F64.finite (q.getD j 0))).isFinite = true := by
  induction q generalizing j with
  | nil => simp at hj
  | cons a q ih =>
    cases q with
    | nil => simp at hj
    | cons b q =>
      simp only [List.map_cons, differencesFinite, Bool.and_eq_true] at h
      cases j with
      | zero => exact h.1
      | succ j =>
        have := ih h.2 j (by simpa using hj)
        simpa using this

theorem float64BucketValue_bounds (q : List ℚ) (n i : Nat) (hn : n = q.length + 1)
    (hb : 1 ≤ q.length) (hi : i < n) (hr : ∀ x, x ∈ q → F64.ofRat x = F64.finite x)
    (hs : q.Pairwise (· ≤ ·)) (ho : differencesFinite (q.map F64.finite) = true) :
    ∃ v, float64BucketValue (q.map F64.finite) n i = F64.finite v ∧
      (1 ≤ i → q.getD (i - 1) 0 ≤ v) ∧ (i < n - 1 → v ≤ q.getD i 0) := by
  have hmem : ∀ j, j < q.length → F64.ofRat (q.getD j 0) = F64.finite (q.getD j 0) := by
    intro j hj
    apply hr
    rw [List.getD_eq_getElem _ _ hj]
    exact List.getElem_mem _
  unfold float64BucketValue
  simp only [getD_map_finite]
  by_cases h0 : i = 0
  · rw [if_pos h0]
    subst h0
    by_cases hp : 0 < q.getD 0 0
    · have hg : (F64.finite (q.getD 0 0)).gtZero = true := decide_eq_true hp
      rw [if_pos hg]
      obtain ⟨v, hv, _, v2⟩ := F64.ofRat_between 0 (q.getD 0 0 / 2) (q.getD 0 0) F64.ofRat_zero
        (hmem 0 hb) (by linarith) (by linarith)
      exact ⟨v, hv, fun h => absurd h (by omega), fun _ => v2⟩
    · have hg : ¬ (F64.finite (q.getD 0 0)).gtZero = true := by
        intro hg
        exact hp (of_decide_eq_true hg)
      rw [if_neg hg]
      exact ⟨_, rfl, fun h => absurd h (by omega), fun _ => le_refl _⟩
  · rw [if_neg h0]
    by_cases hl : i = n - 1
    · rw [if_pos hl]
      have e : n - 2 = i - 1 := by omega
      rw [e]
      exact ⟨_, rfl, fun _ => le_refl _, fun h => absurd h (by omega)⟩
    · rw [if_neg hl]
      have h1 : i - 1 < q.length := by omega
      have h2 : i < q.length := by omega
      have hle := getD_le_of_pairwise q hs (i - 1) i (by omega) h2
      have hd := differencesFinite_getD q ho (i - 1) (by omega)
      have e : i - 1 + 1 = i := by omega
      rw [e] at hd
      obtain ⟨v, hv, v1, v2⟩ := F64.midpoint_between _ _ (hmem _ h1) (hmem _ h2) hle hd
      exact ⟨v, hv, fun _ => v1, fun _ => v2⟩

/-- The values of two buckets are ordered as the buckets, and strictly so when the bounds
are strictly increasing and the buckets are not neighbours. -/
theorem float64BucketValue_mono (q : List ℚ) (n i j : Nat) (hn : n = q.length + 1)
    (hb : 1 ≤ q.length) (hij : i < j) (hj : j < n)
    (hr : ∀ x, x ∈ q → F64.ofRat x = F64.finite x)
    (hs : q.Pairwise (· ≤ ·)) (ho : differencesFinite (q.map F64.finite) = true) :
    ∃ vi vj, float64BucketValue (q.map F64.finite) n i = F64.finite vi ∧
      float64BucketValue (q.map F64.finite) n j = F64.finite vj ∧ vi ≤ vj ∧
      (q.Pairwise (· < ·) → i + 2 ≤ j → vi < vj) := by
  obtain ⟨vi, hvi, _, i2⟩ := float64BucketValue_bounds q n i hn hb (by omega) hr hs ho
  obtain ⟨vj, hvj, j1, _⟩ := float64BucketValue_bounds q n j hn hb hj hr hs ho
  have a1 := i2 (by omega)
  have a2 := j1 (by omega)
  refine ⟨vi, vj, hvi, hvj, ?_, ?_⟩
  · exact le_trans a1 (le_trans (getD_le_of_pairwise q hs i (j - 1) (by omega) (by omega)) a2)
  · intro hlt h2
    exact lt_of_le_of_lt a1
      (lt_of_lt_of_le (getD_lt_of_pairwise q hlt i (j - 1) (by omega) (by omega)) a2)

theorem nonDecreasing_map_of_pairwise (l : List Nat) (f : Nat → F64)
    (h : l.Pairwise (fun i j => F64.le (f i) (f j) = true)) :
    nonDecreasing (l.map f) = true := by
  induction l with
  | nil => rfl
  | cons a l ih =>
    cases l with
    | nil => rfl
    | cons b l =>
      rw [List.pairwise_cons] at h
      simp only [List.map_cons, nonDecreasing, Bool.and_eq_true]
      exact ⟨h.1 b (List.mem_cons_self _ _), by simpa using ih h.2⟩

theorem isFloat64_all (q : List ℚ) (h : (q.map F64.finite).all F64.isFloat64 = true) :
    ∀ x, x ∈ q → F64.ofRat x = F64.finite x := by
  intro x hx
  rw [List.all_eq_true] at h
  exact (isFloat64_finite x).mp (h _ (List.mem_map_of_mem _ hx))

/-- The values of a histogram with sorted `float64` bounds whose differences are finite are
in order. -/
theorem histogramValues_nonDecreasing (c : List Nat) (q : List ℚ)
    (hn : c.length = q.length + 1) (hb : 1 ≤ q.length)
    (hr : ∀ x, x ∈ q → F64.ofRat x = F64.finite x)
    (hs : q.Pairwise (· ≤ ·)) (ho : differencesFinite (q.map F64.finite) = true) :
    nonDecreasing (histogramValues c (q.map F64.finite)) = true := by
  rw [histogramValues_eq c _ (by rw [List.length_map]; exact hn)
    (by rw [List.length_map]; exact hb)]
  apply nonDecreasing_map_of_pairwise
  obtain ⟨p1, p2⟩ := nonEmptyBuckets_pairwise c
  refine p1.imp_of_mem ?_
  intro i j _ hj hij
  obtain ⟨vi, vj, e1, e2, hle, _⟩ :=
    float64BucketValue_mono q c.length i j hn hb hij (p2 j hj) hr hs ho
  rw [e1, e2]
  exact decide_eq_true hle

/-- The difference of two neighbouring bounds is finite when no bound is negative. -/
theorem differencesFinite_of_nonneg (q : List ℚ)
    (hr : ∀ x, x ∈ q → F64.ofRat x = F64.finite x) (hs : q.Pairwise (· ≤ ·))
    (h0 : ∀ x, x ∈ q → 0 ≤ x) : differencesFinite (q.map F64.finite) = true := by
  induction q with
  | nil => rfl
  | cons a q ih =>
    cases q with
    | nil => rfl
    | cons b q =>
      rw [List.pairwise_cons] at hs
      simp only [List.map_cons, differencesFinite, Bool.and_eq_true]
      refine ⟨?_, by
        simpa using ih (fun x hx => hr x (List.mem_cons_of_mem _ hx)) hs.2
          (fun x hx => h0 x (List.mem_cons_of_mem _ hx))⟩
      have hab : a ≤ b := hs.1 b (List.mem_cons_self _ _)
      have ha0 : 0 ≤ a := h0 a (List.mem_cons_self _ _)
      obtain ⟨v, hv, _, _⟩ := F64.ofRat_between 0 (b - a) b F64.ofRat_zero
        (hr b (List.mem_cons_of_mem _ (List.mem_cons_self _ _))) (by linarith) (by linarith)
      simp only [F64.sub, hv]
      rfl

theorem histogramLoop_counts (c : List Nat) (b : List F64) (k : Nat) (hk : k ≤ c.length)
    (acc : List F64 × List Int)
    (h : (List.range k).foldlM (histogramStep c b) ([], []) = some acc) :
    acc.2 = ((List.range k).filter (fun i => decide (c.getD i 0 ≠ 0))).map
        (fun i => int64OfUint64 (c.getD i 0)) ∧ acc.1.length = acc.2.length := by
  induction k generalizing acc with
  | zero =>
    cases h
    exact ⟨rfl, rfl⟩
  | succ k ih =>
    rw [List.range_succ, List.foldlM_append] at h
    cases h1 : (List.range k).foldlM (histogramStep c b) ([], []) with
    | none => rw [h1] at h; cases h
    | some a1 =>
      obtain ⟨i1, i2⟩ := ih (by omega) a1 h1
      rw [h1] at h
      simp only [Option.bind_eq_bind, Option.some_bind, List.foldlM_cons, List.foldlM_nil,
        Option.pure_def] at h
      have hkl : k < c.length := by omega
      have hget : c.get? k = some (c.getD k 0) := by
        rw [List.get?_eq_getElem?, List.getD_eq_getElem?_getD, List.getElem?_eq_getElem hkl]
        rfl
      unfold histogramStep at h
      simp only [hget, Option.bind_eq_bind, Option.some_bind, Option.pure_def] at h
      by_cases h0 : c.getD k 0 = 0
      · rw [if_pos h0] at h
        simp only [Option.bind_some, Option.some.injEq] at h
        subst h
        have hf : List.filter (fun i => decide (c.getD i 0 ≠ 0)) [k] = [] :=
          List.filter_cons_of_neg (by
            show ¬ decide (c.getD k 0 ≠ 0) = true
            rw [h0]
            decide)
        rw [List.range_succ, List.filter_append, hf, List.append_nil]
        exact ⟨i1, i2⟩
      · rw [if_neg h0] at h
        cases hv : bucketValue b c.length k with
        | none => rw [hv] at h; cases h
        | some v =>
          rw [hv] at h
          simp only [Option.some_bind, Option.bind_some, Option.some.injEq] at h
          subst h
          have hf : List.filter (fun i => decide (c.getD i 0 ≠ 0)) [k] = [k] :=
            List.filter_cons_of_pos (by
              show decide (c.getD k 0 ≠ 0) = true
              exact decide_eq_true h0)
          rw [List.range_succ, List.filter_append, hf, List.map_append]
          refine ⟨?_, ?_⟩
          · show a1.2 ++ [int64OfUint64 (c.getD k 0)] = _
            rw [i1]
            rfl
          · show (a1.1 ++ [v]).length = (a1.2 ++ [int64OfUint64 (c.getD k 0)]).length
            rw [List.length_append, List.length_append, i2]
            rfl

theorem histogramCounts_eq (c : List Nat) (b : List F64) (hn : c.length = b.length + 1)
    (hb : 1 ≤ b.length) :
    ∃ sample histogram, histogramSample c b = some (sample, true) ∧
      sample.Histogram = some histogram ∧
      histogram.Counts = (nonEmptyBuckets c).map (fun i => int64OfUint64 (c.getD i 0)) ∧
      histogram.Values.length = histogram.Counts.length := by
  obtain ⟨acc, hacc⟩ := histogramLoop_isSome c b hn hb c.length (le_refl _) ([], [])
  obtain ⟨i1, i2⟩ := histogramLoop_counts c b c.length (le_refl _) acc hacc
  have hg : ¬ (c.length ≠ b.length + 1 ∨ b.length = 0) := by omega
  refine ⟨{ emptySample with
             Type_ := MetricType.histogram,
             Histogram := some { Counts := acc.2, Values := acc.1 } },
    { Counts := acc.2, Values := acc.1 }, ?_, rfl, i1, i2⟩
  unfold histogramSample
  rw [if_neg hg, hacc]
  rfl

theorem int64OfUint64_small (n : Nat) (h : n < 2 ^ 63) : int64OfUint64 n = (n : Int) := by
  unfold int64OfUint64
  have e : n % 2 ^ 64 = n := Nat.mod_eq_of_lt (by omega)
  rw [e, if_pos h]

theorem int64OfUint64_large (n : Nat) (h1 : 2 ^ 63 ≤ n) (h2 : n < 2 ^ 64) :
    int64OfUint64 n = (n : Int) - 2 ^ 64 := by
  unfold int64OfUint64
  have e : n % 2 ^ 64 = n := Nat.mod_eq_of_lt h2
  rw [e, if_neg (by omega)]

/-! ### The label maps of the emitted events -/

theorem nilIfEmpty_ne_empty {α : Type} (m : Option (List α)) : nilIfEmpty m ≠ some [] := by
  unfold nilIfEmpty
  split
  · exact fun h => Option.noConfusion h
  · rename_i h
    exact fun e => h (by rw [e])

theorem setLabel_ready (E : Env) (k : String) (e : APMEvent) (v : Iface) (hr : LabelsReady e) :
    LabelsReady (setLabel E k e v) := (setLabel_keeps E k e v).2.1 hr

theorem jaegerErrorAttribute_ready (E : Env) (l : JaegerLocals) (kv : String × Value)
    (hr : LabelsReady l.apmEvent) : LabelsReady (jaegerErrorAttribute E l kv).apmEvent := by
  unfold jaegerErrorAttribute
  split
  · dsimp only
    split
    · exact hr
    · exact hr
    · exact hr
    · exact hr
    · exact hr
    · exact setLabel_ready _ _ _ _ hr
  · exact hr

theorem jaegerErrorAttributes_ready (E : Env) (attrs : Attributes) (l : JaegerLocals)
    (hr : LabelsReady l.apmEvent) :
    LabelsReady (attrs.foldl (jaegerErrorAttribute E) l).apmEvent := by
  induction attrs generalizing l with
  | nil => exact hr
  | cons kv attrs ih =>
    rw [List.foldl_cons]
    exact ih _ (jaegerErrorAttribute_ready E l kv hr)

theorem exceptionAttribute_ready (E : Env) (l : ExceptionLocals) (kv : String × Value)
    (hr : LabelsReady l.event) : LabelsReady (exceptionAttribute E l kv).event := by
  unfold exceptionAttribute
  split
  · exact hr
  · exact hr
  · exact hr
  · exact hr
  · exact setLabel_ready _ _ _ _ hr

theorem exceptionAttributes_ready (E : Env) (attrs : Attributes) (l : ExceptionLocals)
    (hr : LabelsReady l.event) :
    LabelsReady (attrs.foldl (exceptionAttribute E) l).event := by
  induction attrs generalizing l with
  | nil => exact hr
  | cons kv attrs ih =>
    rw [List.foldl_cons]
    exact ih _ (exceptionAttribute_ready E l kv hr)

theorem spanEventError_ready (E : Env) (isJaeger : Bool) (spanEvent : ptrace.SpanEvent)
    (parent event e' : APMEvent) (hr : LabelsReady event)
    (h : spanEventError E isJaeger spanEvent parent event = some e') : LabelsReady e' := by
  unfold spanEventError at h
  split at h
  · cases h
    unfold convertJaegerErrorSpanEvent
    dsimp only
    refine jaegerErrorAttributes_ready E spanEvent.Attributes _ ?_
    split <;> exact hr
  · split at h
    · unfold convertExceptionSpanEvent at h
      dsimp only at h
      have ht := exceptionAttributes_ready E spanEvent.Attributes { event := event } hr
      split at h
      · split at h
        · split at h
          · cases h
            exact ht
          · cases h
        · cases h
      · cases h
        exact ht
    · cases h
      exact hr

theorem setErrorContext_ready (out : APMEvent) (error : Error) (parent e' : APMEvent)
    (hr : LabelsReady out) (h : setErrorContext out error parent = some e') :
    LabelsReady e' := by
  unfold setErrorContext at h
  split at h
  · dsimp only at h
    split at h
    · cases h
      split <;> exact hr
    · cases h
      split <;> exact hr
  · cases h

theorem setLogContext_ready (out parent : APMEvent) (hr : LabelsReady out) :
    LabelsReady (setLogContext out parent) := by
  unfold setLogContext
  dsimp only
  split <;> split <;> exact hr

theorem logAttribute_ready (E : Env) (isJaeger : Bool) (event : APMEvent)
    (kv : String × Value) (hr : LabelsReady event) :
    LabelsReady (logAttribute E isJaeger event kv) := by
  unfold logAttribute
  dsimp only
  split
  · exact hr
  · exact setLabel_ready _ _ _ _ hr

theorem logAttributes_ready (E : Env) (isJaeger : Bool) (attrs : Attributes)
    (event : APMEvent) (hr : LabelsReady event) :
    LabelsReady (attrs.foldl (logAttribute E isJaeger) event) := by
  induction attrs generalizing event with
  | nil => exact hr
  | cons kv attrs ih =>
    rw [List.foldl_cons]
    exact ih _ (logAttribute_ready E isJaeger event kv hr)

/-- Both label maps of the event of a span event are present, whatever the parent is. -/
theorem convertSpanEvent_ready (E : Env) (spanEvent : ptrace.SpanEvent)
    (parent : APMEvent) (timeDelta : Int) (event : APMEvent)
    (h : convertSpanEvent E spanEvent parent timeDelta = some event) : LabelsReady event := by
  unfold convertSpanEvent at h
  simp only [Option.bind_eq_bind, Option.bind_eq_some] at h
  obtain ⟨agent, _, e1, h1, h2⟩ := h
  have t1 : LabelsReady e1 := by
    refine spanEventError_ready _ _ _ _ _ _ ?_ h1
    exact ⟨rfl, rfl⟩
  split at h2
  · exact setErrorContext_ready _ _ _ _ (by exact t1) h2
  · cases h2
    exact logAttributes_ready _ _ _ _ (setLogContext_ready _ _ t1)

theorem convertSpanPrimary_labels (E : Env) (otelSpan : ptrace.Span)
    (otelLibrary : InstrumentationScope) (baseEvent : APMEvent) (timeDelta : Int)
    (event : APMEvent)
    (h : convertSpanPrimary E otelSpan otelLibrary baseEvent timeDelta = some event) :
    event.Labels ≠ some [] ∧ event.NumericLabels ≠ some [] := by
  unfold convertSpanPrimary at h
  simp only [Option.bind_eq_bind, Option.bind_eq_some, Option.pure_def,
    Option.some.injEq] at h
  obtain ⟨e1, _, he⟩ := h
  rw [← he]
  exact ⟨nilIfEmpty_ne_empty _, nilIfEmpty_ne_empty _⟩

theorem metricsetEvent_labels (E : Env) (baseEvent : APMEvent) (timeDelta : Int)
    (key : metricsetKey) (m : metricset) :
    (m.attributes ≠ [] →
      (metricsetEvent E baseEvent timeDelta key m).Labels ≠ some [] ∧
      (metricsetEvent E baseEvent timeDelta key m).NumericLabels ≠ some []) ∧
    (m.attributes = [] →
      (metricsetEvent E baseEvent timeDelta key m).Labels = baseEvent.Labels ∧
      (metricsetEvent E baseEvent timeDelta key m).NumericLabels = baseEvent.NumericLabels) := by
  unfold metricsetEvent
  constructor
  · intro hne
    have hl : m.attributes.length > 0 := List.length_pos.mpr hne
    rw [if_pos hl]
    exact ⟨nilIfEmpty_ne_empty _, nilIfEmpty_ne_empty _⟩
  · intro he
    rw [he]
    exact ⟨rfl, rfl⟩

theorem forall₂_exists_left {α β : Type} (R : α → β → Prop) (l : List α) (evs : List β)
    (h : List.Forall₂ R l evs) (ev : β) (hev : ev ∈ evs) : ∃ x, x ∈ l ∧ R x ev := by
  induction h with
  | nil => cases hev
  | cons hx _ ih =>
    rcases List.mem_cons.mp hev with e | e
    · subst e
      exact ⟨_, List.mem_cons_self _ _, hx⟩
    · obtain ⟨x, hx1, hx2⟩ := ih e
      exact ⟨x, List.mem_cons_of_mem _ hx1, hx2⟩

/-! ### Span events of a span without a trace -/

theorem foldlM_none_of_mem {α β : Type} (f : β → α → Option β) (l : List α) (a : α)
    (ha : a ∈ l) (hf : ∀ out, f out a = none) (out : β) : l.foldlM f out = none := by
  induction l generalizing out with
  | nil => cases ha
  | cons x l ih =>
    rw [List.foldlM_cons]
    rcases List.mem_cons.mp ha with e | e
    · subst e
      rw [hf]
      rfl
    · cases hx : f out x with
      | none => rfl
      | some out1 => exact ih e out1

theorem convertSpanEvent_none_of_exception (E : Env) (spanEvent : ptrace.SpanEvent)
    (parent : APMEvent) (timeDelta : Int) (agent : Agent) (ha : parent.Agent = some agent)
    (hj : hasPrefix agent.Name "Jaeger" = false) (he : parent.Error = none)
    (ht : parent.Trace = none) (hc : carriesException spanEvent = true) :
    convertSpanEvent E spanEvent parent timeDelta = none := by
  cases h : convertSpanEvent E spanEvent parent timeDelta with
  | none => rfl
  | some event =>
    exfalso
    unfold convertSpanEvent at h
    simp only [ha, Option.bind_eq_bind, Option.some_bind, Option.bind_eq_some] at h
    obtain ⟨e1, h1, h2⟩ := h
    have herr := spanEventError_error E _ spanEvent parent _ e1 (by exact he) h1
    rw [hj] at herr
    simp only [Bool.false_eq_true, if_false, hc] at herr
    split at h2
    · unfold setErrorContext at h2
      simp only [ht] at h2
      split at h2
      · rename_i hx
        cases hx
      · cases h2
    · rename_i hx
      rw [hx] at herr
      cases herr

theorem convertSpan_isSome_trace (E : Env) (otelSpan : ptrace.Span)
    (otelLibrary : InstrumentationScope) (baseEvent : APMEvent) (timeDelta : Int) (out : Batch)
    (hb : GoodBase baseEvent)
    (ht : hexTraceID otelSpan.TraceID ≠ "" ∨ baseEvent.Trace.isSome = true) :
    ∃ out', convertSpan E otelSpan otelLibrary baseEvent timeDelta out = some out' := by
  obtain ⟨agent, service, language, ha, hj, hs, hl, he⟩ := hb
  obtain ⟨primary, hp⟩ := convertSpanPrimary_isSome E otelSpan otelLibrary baseEvent timeDelta
    agent service ha hj hs
  obtain ⟨s1, s2, s3, _, _⟩ := convertSpanPrimary_spec _ _ _ _ _ _ hp
  have s4 := convertSpanPrimary_language _ _ _ _ _ _ hp (some language) (by rw [hs]; simp [hl])
  obtain ⟨baseEv, hbe⟩ := Option.isSome_iff_exists.mp he
  obtain ⟨psv, hpsv⟩ : ∃ psv, primary.Service = some psv := by
    cases hx : primary.Service with
    | none => rw [hx] at s4; cases s4
    | some psv => exact ⟨psv, rfl⟩
  have hplang : psv.Language = some language := by
    rw [hpsv] at s4
    simpa using s4
  unfold convertSpan
  simp only [Option.bind_eq_bind, hp, Option.some_bind, spanEventParent, hbe]
  apply foldlM_isSome
  intro se _ out1
  obtain ⟨ev, hev⟩ := convertSpanEvent_isSome E se
    { primary with Labels := baseEvent.Labels, NumericLabels := baseEvent.NumericLabels,
                   Event := some { Received := baseEv.Received }, Destination := none }
    timeDelta agent psv language (s3.trans ha) hj hpsv hplang
    (by
      show primary.Trace.isSome = true
      rw [s2]
      split
      · rfl
      · rename_i hne
        rcases ht with h | h
        · exact absurd h hne
        · exact h)
  exact ⟨out1 ++ [ev], by
    unfold appendSpanEvent
    simp only [Option.bind_eq_bind, hev, Option.some_bind, Option.pure_def]⟩

theorem convertSpan_isSome_iff (E : Env) (otelSpan : ptrace.Span)
    (otelLibrary : InstrumentationScope) (baseEvent : APMEvent) (timeDelta : Int) (out : Batch)
    (hb : GoodBase baseEvent) (he : baseEvent.Error = none)
    (hz : otelSpan.TraceID.IsEmpty = true) (ht : baseEvent.Trace = none) :
    (∃ out', convertSpan E otelSpan otelLibrary baseEvent timeDelta out = some out') ↔
      ∀ spanEvent, spanEvent ∈ otelSpan.Events → carriesException spanEvent = false := by
  obtain ⟨agent, service, language, ha, hj, hs, hl, hev⟩ := hb
  obtain ⟨primary, hp⟩ := convertSpanPrimary_isSome E otelSpan otelLibrary baseEvent timeDelta
    agent service ha hj hs
  obtain ⟨_, s2, s3, _, _⟩ := convertSpanPrimary_spec _ _ _ _ _ _ hp
  obtain ⟨r1, _, _, _⟩ := convertSpanPrimary_records _ _ _ _ _ _ hp
  obtain ⟨baseEv, hbe⟩ := Option.isSome_iff_exists.mp hev
  have hid : hexTraceID otelSpan.TraceID = "" := (hexTraceID_eq_empty _).mpr hz
  have hpt : primary.Trace = none := by
    rw [s2, if_neg (by rw [hid]; exact fun h => h rfl), ht]
  obtain ⟨parent, hconv, pa, pe, pt⟩ : ∃ parent : APMEvent,
      (∀ out, convertSpan E otelSpan otelLibrary baseEvent timeDelta out =
        otelSpan.Events.foldlM (appendSpanEvent E parent timeDelta) (out ++ [primary])) ∧
      parent.Agent = some agent ∧ parent.Error = none ∧ parent.Trace = none := by
    refine ⟨{ primary with Labels := baseEvent.Labels, NumericLabels := baseEvent.NumericLabels,
                           Event := some { Received := baseEv.Received }, Destination := none },
      ?_, s3.trans ha, r1.trans he, hpt⟩
    intro out
    unfold convertSpan
    simp only [Option.bind_eq_bind, hp, Option.some_bind, spanEventParent, hbe]
  rw [hconv]
  constructor
  · rintro ⟨out', h⟩ spanEvent hmem
    cases hc : carriesException spanEvent with
    | false => rfl
    | true =>
      exfalso
      have hnone := foldlM_none_of_mem (appendSpanEvent E parent timeDelta) otelSpan.Events
        spanEvent hmem
        (fun out1 => by
          unfold appendSpanEvent
          rw [convertSpanEvent_none_of_exception E spanEvent parent timeDelta agent pa hj pe pt
            hc]
          rfl) (out ++ [primary])
      rw [hnone] at h
      cases h
  · intro hall
    apply foldlM_isSome
    intro se hse out1
    obtain ⟨_, hlog⟩ := convertSpanEvent_rule E se parent timeDelta agent pa pe
    obtain ⟨ev, hev1, _⟩ := hlog (by rw [hj]; exact hall se hse)
    exact ⟨out1 ++ [ev], by
      unfold appendSpanEvent
      simp only [Option.bind_eq_bind, hev1, Option.some_bind, Option.pure_def]⟩

/-! ### The consumer -/

theorem foldlM_isSome_pair {α β : Type} (f : β → α → Option β) (l : List α)
    (hf : ∀ a out, ∃ out', f out a = some out') (out : β) :
    ∃ out', l.foldlM f out = some out' :=
  foldlM_isSome f l (fun a _ out => hf a out) out

theorem convertScopeMetrics_isSome (E : Env) (in_ : ScopeMetrics) (baseEvent : APMEvent)
    (timeDelta : Int) (st : Batch × Int) :
    ∃ st', convertScopeMetrics E in_ baseEvent timeDelta st.1 st.2 = some st' := by
  obtain ⟨ms, h1, _⟩ := addMetrics_eq E in_.Metrics
  unfold convertScopeMetrics
  rw [h1]
  exact ⟨_, rfl⟩

theorem convertResourceMetrics_isSome (E : Env) (resourceMetrics : ResourceMetrics)
    (receiveTimestamp : Int) (st : Batch × Int) :
    ∃ st', convertResourceMetrics E resourceMetrics receiveTimestamp st.1 st.2 = some st' := by
  unfold convertResourceMetrics
  dsimp only
  exact foldlM_isSome_pair _ _ (fun a out => convertScopeMetrics_isSome E a _ _ out) _

theorem convertMetrics_isSome (E : Env) (metrics : List ResourceMetrics)
    (receiveTimestamp : Int) (dropped : Int) :
    ∃ batch dropped', convertMetrics E metrics receiveTimestamp dropped =
      some (batch, dropped') := by
  unfold convertMetrics
  obtain ⟨st, h⟩ := foldlM_isSome_pair
    (fun (st : Batch × Int) resourceMetrics =>
      convertResourceMetrics E resourceMetrics receiveTimestamp st.1 st.2) metrics
    (fun a out => convertResourceMetrics_isSome E a receiveTimestamp out) ([], dropped)
  exact ⟨st.1, st.2, h⟩

/-! ### Concurrent calls of the consumer -/

theorem countP_set_phase (P : Phase → Bool) (l : List Phase) (i : Nat) (q p : Phase)
    (h : l.get? i = some q) :
    (l.set i p).countP P + (if P q then 1 else 0) = l.countP P + (if P p then 1 else 0) := by
  induction l generalizing i with
  | nil => cases h
  | cons x l ih =>
    cases i with
    | zero =>
      simp only [List.get?_cons_zero, Option.some.injEq] at h
      subst h
      simp only [List.set_cons_zero, List.countP_cons]
      omega
    | succ i =>
      simp only [List.get?_cons_succ] at h
      have := ih i h
      simp only [List.set_cons_succ, List.countP_cons]
      omega

theorem consumerStep_capacity (s s' : ConsumerState) (a : Action)
    (h : consumerStep s a = some s') : s'.capacity = s.capacity := by
  cases a with
  | call =>
    cases h
    rfl
  | acquired i =>
    simp only [consumerStep] at h
    split at h
    · cases h; rfl
    · cases h
  | expire i err =>
    simp only [consumerStep] at h
    split at h
    · cases h; rfl
    · cases h
  | translated i =>
    simp only [consumerStep] at h
    split at h
    · cases h; rfl
    · cases h
  | processed i err =>
    simp only [consumerStep] at h
    split at h
    · cases h; rfl
    · cases h
  | panic i =>
    simp only [consumerStep] at h
    split at h
    · cases h; rfl
    · cases h

/-- What every step keeps: the units held are those of the admitted calls, and they are at
most the capacity. -/
theorem consumerStep_invariant (s s' : ConsumerState) (a : Action)
    (h : consumerStep s a = some s')
    (hi : s.held = holdingCalls s ∧ s.held ≤ s.capacity) :
    s'.held = holdingCalls s' ∧ s'.held ≤ s'.capacity := by
  obtain ⟨h1, h2⟩ := hi
  unfold holdingCalls at h1 ⊢
  cases a with
  | call =>
    cases h
    simp only [List.countP_append, List.countP_cons, List.countP_nil, Phase.holdsUnit]
    exact ⟨by simpa using h1, h2⟩
  | acquired i =>
    simp only [consumerStep] at h
    split at h
    · rename_i hc
      cases h
      have := countP_set_phase Phase.holdsUnit s.calls i _ Phase.translating hc.1
      simp only [Phase.holdsUnit] at this
      dsimp only
      constructor
      · simp only [Bool.false_eq_true, if_false, if_true] at this
        omega
      · omega
    · cases h
  | expire i err =>
    simp only [consumerStep] at h
    split at h
    · rename_i hc
      cases h
      have := countP_set_phase Phase.holdsUnit s.calls i _ (Phase.returned (some err)) hc
      simp only [Phase.holdsUnit, Bool.false_eq_true, if_false] at this
      dsimp only
      exact ⟨by omega, h2⟩
    · cases h
  | translated i =>
    simp only [consumerStep] at h
    split at h
    · rename_i hc
      cases h
      have := countP_set_phase Phase.holdsUnit s.calls i _ Phase.processing hc
      simp only [Phase.holdsUnit, if_true] at this
      dsimp only
      exact ⟨by omega, h2⟩
    · cases h
  | processed i err =>
    simp only [consumerStep] at h
    split at h
    · rename_i hc
      cases h
      have := countP_set_phase Phase.holdsUnit s.calls i _ (Phase.returned err) hc
      simp only [Phase.holdsUnit, if_true, Bool.false_eq_true, if_false] at this
      dsimp only
      exact ⟨by omega, by omega⟩
    · cases h
  | panic i =>
    simp only [consumerStep] at h
    split at h
    · rename_i hc
      cases h
      dsimp only
      rcases hc with hc | hc
      · have := countP_set_phase Phase.holdsUnit s.calls i _ Phase.panicked hc
        simp only [Phase.holdsUnit, if_true, Bool.false_eq_true, if_false] at this
        exact ⟨by omega, by omega⟩
      · have := countP_set_phase Phase.holdsUnit s.calls i _ Phase.panicked hc
        simp only [Phase.holdsUnit, if_true, Bool.false_eq_true, if_false] at this
        exact ⟨by omega, by omega⟩
    · cases h

theorem consumerRun_invariant (actions : List Action) (s s' : ConsumerState)
    (h : consumerRun s actions = some s')
    (hi : s.held = holdingCalls s ∧ s.held ≤ s.capacity) :
    s'.capacity = s.capacity ∧ s'.held = holdingCalls s' ∧ s'.held ≤ s'.capacity := by
  induction actions generalizing s with
  | nil =>
    cases h
    exact ⟨rfl, hi⟩
  | cons a rest ih =>
    unfold consumerRun at h
    cases h1 : consumerStep s a with
    | none => rw [h1] at h; cases h
    | some s1 =>
      rw [h1] at h
      obtain ⟨c, r⟩ := ih s1 h (consumerStep_invariant s s1 a h1 hi)
      exact ⟨c.trans (consumerStep_capacity s s1 a h1), r⟩

theorem processingCalls_le_holding (s : ConsumerState) :
    processingCalls s ≤ holdingCalls s := by
  unfold processingCalls holdingCalls
  apply List.countP_mono_left
  intro p _ hp
  cases p <;> first | rfl | cases hp

/-! ### The datapoints that a scope upserts -/

theorem addNumberDataPoints_upserts (E : Env) (name : String) (mt : MetricType)
    (dps : List NumberDataPoint) (st : metricsets × Bool) :
    (dps.foldl (addNumberDataPoint E name mt) st).1 =
      (dps.filterMap (numberUpsert name mt)).foldl
        (fun ms u => upsert E ms u.timestamp u.attributes u.sample) st.1 := by
  induction dps generalizing st with
  | nil => rfl
  | cons dp dps ih =>
    rw [List.foldl_cons, ih]
    unfold addNumberDataPoint numberUpsert
    rcases hns : numberSample dp mt with ⟨sample, ok⟩
    cases ok
    · simp only [List.filterMap_cons, hns]
    · simp only [List.filterMap_cons, hns, List.foldl_cons]

theorem addHistogramDataPoints_upserts (E : Env) (name : String)
    (dps : List HistogramDataPoint) (st : metricsets × Bool) :
    ∃ flag, dps.foldlM (addHistogramDataPoint E name) st =
      some ((dps.filterMap (histogramUpsert name)).foldl
        (fun ms u => upsert E ms u.timestamp u.attributes u.sample) st.1, flag) := by
  induction dps generalizing st with
  | nil => exact ⟨st.2, rfl⟩
  | cons dp dps ih =>
    obtain ⟨sample, ok, h, _⟩ := histogramSample_total dp.BucketCounts dp.ExplicitBounds
    cases ok
    · obtain ⟨flag, hf⟩ := ih (st.1, true)
      refine ⟨flag, ?_⟩
      simp only [List.foldlM_cons, addHistogramDataPoint, h, Option.bind_eq_bind,
        Option.some_bind, hf, List.filterMap_cons, histogramUpsert]
    · obtain ⟨flag, hf⟩ := ih
        (upsert E st.1 (asTime dp.Timestamp) dp.Attributes { sample with Name := name }, st.2)
      refine ⟨flag, ?_⟩
      simp only [List.foldlM_cons, addHistogramDataPoint, h, Option.bind_eq_bind,
        Option.some_bind, hf, List.filterMap_cons, histogramUpsert, List.foldl_cons]

theorem addSummaryDataPoints_upserts (E : Env) (name : String)
    (dps : List SummaryDataPoint) (st : metricsets × Bool) :
    (dps.foldl (addSummaryDataPoint E name) st).1 =
      (dps.map (summaryUpsert name)).foldl
        (fun ms u => upsert E ms u.timestamp u.attributes u.sample) st.1 := by
  induction dps generalizing st with
  | nil => rfl
  | cons dp dps ih =>
    rw [List.foldl_cons, ih]
    rfl

theorem addMetric_upserts (E : Env) (metric : Metric) (ms : metricsets) :
    ∃ flag, addMetric E metric ms =
      some ((metricUpserts metric).foldl
        (fun ms u => upsert E ms u.timestamp u.attributes u.sample) ms, flag) := by
  unfold addMetric metricUpserts
  cases hd : metric.Data with
  | empty => exact ⟨false, rfl⟩
  | exponentialHistogram => exact ⟨false, rfl⟩
  | gauge dps =>
    refine ⟨!(dps.foldl (addNumberDataPoint E metric.Name MetricType.gauge) (ms, false)).2, ?_⟩
    dsimp only
    rw [addNumberDataPoints_upserts]
  | sum dps =>
    refine ⟨!(dps.foldl (addNumberDataPoint E metric.Name MetricType.counter) (ms, false)).2,
      ?_⟩
    dsimp only
    rw [addNumberDataPoints_upserts]
  | summary dps =>
    refine ⟨!(dps.foldl (addSummaryDataPoint E metric.Name) (ms, false)).2, ?_⟩
    dsimp only
    rw [addSummaryDataPoints_upserts]
  | histogram dps =>
    obtain ⟨flag, hf⟩ := addHistogramDataPoints_upserts E metric.Name dps (ms, false)
    refine ⟨!flag, ?_⟩
    dsimp only
    rw [hf]
    rfl

theorem addMetrics_upserts_loop (E : Env) (metrics : List Metric) (st : metricsets × Int) :
    ∃ n, metrics.foldlM (addMetricsStep E) st =
      some ((scopeUpserts metrics).foldl
        (fun ms u => upsert E ms u.timestamp u.attributes u.sample) st.1, n) := by
  induction metrics generalizing st with
  | nil => exact ⟨st.2, rfl⟩
  | cons metric metrics ih =>
    obtain ⟨flag, hf⟩ := addMetric_upserts E metric st.1
    obtain ⟨n, hn⟩ := ih ((metricUpserts metric).foldl
      (fun ms u => upsert E ms u.timestamp u.attributes u.sample) st.1,
      if flag then st.2 else st.2 + 1)
    refine ⟨n, ?_⟩
    simp only [List.foldlM_cons, addMetricsStep, hf, Option.bind_eq_bind, Option.some_bind,
      Option.pure_def, hn, scopeUpserts, List.foldl_append]

theorem addMetrics_upserts (E : Env) (metrics : List Metric) :
    ∃ n, addMetrics E metrics = some (applyUpserts E (scopeUpserts metrics), n) :=
  addMetrics_upserts_loop E metrics ([], 0)

theorem applyUpserts_attributes (E : Env) (ups : List Upsert) (key : metricsetKey) :
    (mapGet? (applyUpserts E ups) key).map (fun m => m.attributes) =
      (firstUpsert E ups key).map (fun u => u.attributes) := by
  induction ups using List.reverseRecOn with
  | nil => rfl
  | append_singleton ups u ih =>
    rw [applyUpserts_append]
    unfold firstUpsert at ih ⊢
    unfold upsert upsertOne
    rw [mapGet?_mapSet, List.find?_append]
    have e : ({ timestamp := u.timestamp, signature := attributeSignature E u.attributes } :
        metricsetKey) = upsertKey E u := rfl
    rw [e]
    by_cases hk : key = upsertKey E u
    · subst hk
      rw [if_pos rfl]
      cases hg : mapGet? (applyUpserts E ups) (upsertKey E u) with
      | some m =>
        rw [hg] at ih
        cases hf : List.find? (fun v => decide (upsertKey E v = upsertKey E u)) ups with
        | some v =>
          rw [hf] at ih
          simpa using ih
        | none =>
          rw [hf] at ih
          cases ih
      | none =>
        rw [hg] at ih
        cases hf : List.find? (fun v => decide (upsertKey E v = upsertKey E u)) ups with
        | some v =>
          rw [hf] at ih
          cases ih
        | none => simp [List.find?]
    · rw [if_neg hk, ih]
      cases hf : List.find? (fun v => decide (upsertKey E v = key)) ups with
      | some v => rfl
      | none =>
        have hk' : ¬ upsertKey E u = key := fun h => hk h.symm
        simp [List.find?, hk']

theorem lastUpsert_mem (E : Env) (ups : List Upsert) (key : metricsetKey) (name : String)
    (s : MetricsetSample) (h : lastUpsert E ups key name = some s) :
    ∃ u, u ∈ ups ∧ upsertKey E u = key ∧ u.sample = s := by
  unfold lastUpsert at h
  split at h
  · rename_i u hu
    have hp := List.find?_some hu
    have hm := List.mem_of_find?_eq_some hu
    simp only [decide_eq_true_eq] at hp
    cases h
    exact ⟨u, List.mem_reverse.mp hm, hp.1, rfl⟩
  · cases h

theorem lastUpsert_isSome (E : Env) (ups : List Upsert) (u : Upsert) (hu : u ∈ ups) :
    ∃ s, lastUpsert E ups (upsertKey E u) u.sample.Name = some s := by
  unfold lastUpsert
  cases hf : ups.reverse.find?
      (fun v => decide (upsertKey E v = upsertKey E u ∧ v.sample.Name = u.sample.Name)) with
  | some v => exact ⟨_, rfl⟩
  | none =>
    have := List.find?_eq_none.mp hf u (List.mem_reverse.mpr hu)
    simp at this

theorem setLabels_congr (E : Env) (attrs : Attributes) (e e' : APMEvent)
    (h1 : e.Labels = e'.Labels) (h2 : e.NumericLabels = e'.NumericLabels) :
    (attrs.foldl (fun event kv => setLabel E kv.1 event (E.ifaceAttributeValue kv.2))
        e).Labels =
      (attrs.foldl (fun event kv => setLabel E kv.1 event (E.ifaceAttributeValue kv.2))
        e').Labels ∧
    (attrs.foldl (fun event kv => setLabel E kv.1 event (E.ifaceAttributeValue kv.2))
        e).NumericLabels =
      (attrs.foldl (fun event kv => setLabel E kv.1 event (E.ifaceAttributeValue kv.2))
        e').NumericLabels := by
  induction attrs generalizing e e' with
  | nil => exact ⟨h1, h2⟩
  | cons kv attrs ih =>
    rw [List.foldl_cons, List.foldl_cons]
    apply ih
    · show (E.setLabel kv.1 (E.ifaceAttributeValue kv.2) (e.Labels, e.NumericLabels)).1 =
        (E.setLabel kv.1 (E.ifaceAttributeValue kv.2) (e'.Labels, e'.NumericLabels)).1
      rw [h1, h2]
    · show (E.setLabel kv.1 (E.ifaceAttributeValue kv.2) (e.Labels, e.NumericLabels)).2 =
        (E.setLabel kv.1 (E.ifaceAttributeValue kv.2) (e'.Labels, e'.NumericLabels)).2
      rw [h1, h2]

/-- The labels of a metricset event depend on the metricset through its attributes only. -/
theorem metricsetEvent_labels_congr (E : Env) (baseEvent : APMEvent) (timeDelta : Int)
    (key : metricsetKey) (m m' : metricset) (h : m.attributes = m'.attributes) :
    (metricsetEvent E baseEvent timeDelta key m).Labels =
      (metricsetEvent E baseEvent timeDelta key m').Labels ∧
    (metricsetEvent E baseEvent timeDelta key m).NumericLabels =
      (metricsetEvent E baseEvent timeDelta key m').NumericLabels := by
  unfold metricsetEvent
  rw [h]
  split
  · dsimp only
    obtain ⟨c1, c2⟩ := setLabels_congr E m'.attributes
      (initEventLabels
        { baseEvent with
          Processor := some Processor.metricset,
          Timestamp := some (timeAdd key.timestamp timeDelta),
          Metricset := some { Samples := m.samples.map (fun s => s.2), Name := "app" } })
      (initEventLabels
        { baseEvent with
          Processor := some Processor.metricset,
          Timestamp := some (timeAdd key.timestamp timeDelta),
          Metricset := some { Samples := m'.samples.map (fun s => s.2), Name := "app" } })
      rfl rfl
    rw [c1, c2]
    exact ⟨rfl, rfl⟩
  · exact ⟨rfl, rfl⟩

/-! ### The translation does not read the receive timestamp -/

theorem foldlM_map_comm {α β : Type} (f : β → α → Option β) (g : β → β)
    (hf : ∀ b a, f (g b) a = (f b a).map g) (l : List α) (b : β) :
    l.foldlM f (g b) = (l.foldlM f b).map g := by
  induction l generalizing b with
  | nil => rfl
  | cons a l ih =>
    rw [List.foldlM_cons, List.foldlM_cons, hf]
    cases h : f b a with
    | none => rfl
    | some b1 => exact ih b1

theorem foldl_map_comm {α β : Type} (f : β → α → β) (g : β → β)
    (hf : ∀ b a, f (g b) a = g (f b a)) (l : List α) (b : β) :
    l.foldl f (g b) = g (l.foldl f b) := by
  induction l generalizing b with
  | nil => rfl
  | cons a l ih => rw [List.foldl_cons, List.foldl_cons, hf, ih]

theorem labelsSet_erase (e : APMEvent) (k v : String) :
    labelsSet (eraseReceived e) k v = (labelsSet e k v).map eraseReceived := by
  unfold labelsSet eraseReceived
  dsimp only
  split <;> rfl

theorem numericLabelsSet_erase (e : APMEvent) (k : String) (v : F64) :
    numericLabelsSet (eraseReceived e) k v = (numericLabelsSet e k v).map eraseReceived := by
  unfold numericLabelsSet eraseReceived
  dsimp only
  split <;> rfl

theorem setLabel_erase (E : Env) (k : String) (e : APMEvent) (v : Iface) :
    setLabel E k (eraseReceived e) v = eraseReceived (setLabel E k e v) := rfl

theorem initEventLabels_erase (e : APMEvent) :
    initEventLabels (eraseReceived e) = eraseReceived (initEventLabels e) := rfl

theorem setRepresentativeCount_erase (e : APMEvent) (count : F64) :
    setRepresentativeCount (eraseReceived e) count =
      eraseReceived (setRepresentativeCount e count) := rfl

theorem parseSamplerAttributes_erase (E : Env) (samplerType : Value)
    (samplerParam : Option Value) (e : APMEvent) :
    parseSamplerAttributes E samplerType samplerParam (eraseReceived e) =
      (parseSamplerAttributes E samplerType samplerParam e).map eraseReceived := by
  unfold parseSamplerAttributes
  split
  · split
    · rfl
    · dsimp only
      split <;> rfl
  · simp only [Option.bind_eq_bind, setRepresentativeCount_erase, labelsSet_erase]
    cases h1 : labelsSet (setRepresentativeCount e (F64.finite 0)) "sampler_type" _ with
    | none => rfl
    | some e1 =>
      simp only [Option.map_some', Option.some_bind]
      split
      · split <;> rfl
      · exact labelsSet_erase _ _ _
      · exact numericLabelsSet_erase _ _ _
      · rfl

theorem applySampler_erase (E : Env) (samplerType samplerParam : Option Value)
    (e : APMEvent) :
    applySampler E samplerType samplerParam (eraseReceived e) =
      (applySampler E samplerType samplerParam e).map eraseReceived := by
  unfold applySampler
  split
  · exact parseSamplerAttributes_erase _ _ _ _
  · rfl

theorem translateTransactionStr_erase (E : Env) (l : TransactionLocals)
    (kDots k stringval : String) :
    translateTransactionStr E l.erase kDots k stringval =
      (translateTransactionStr E l kDots k stringval).map TransactionLocals.erase := by
  unfold translateTransactionStr labelsSet TransactionLocals.erase eraseReceived
    updateNetworkConnection updateNetworkCarrier
  dsimp only
  split <;> first
    | rfl
    | (split <;> rfl)
    | (split <;> first | rfl | (split <;> rfl))

theorem translateTransactionInt_erase (E : Env) (l : TransactionLocals) (kDots k : String)
    (v : Value) :
    translateTransactionInt E l.erase kDots k v =
      (translateTransactionInt E l kDots k v).map TransactionLocals.erase := by
  unfold translateTransactionInt TransactionLocals.erase eraseReceived
  dsimp only
  split <;> first
    | rfl
    | (split <;> rfl)

theorem translateTransactionAttribute_erase (E : Env) (isJaeger : Bool)
    (l : TransactionLocals) (kv : String × Value) :
    translateTransactionAttribute E isJaeger l.erase kv =
      (translateTransactionAttribute E isJaeger l kv).map TransactionLocals.erase := by
  unfold translateTransactionAttribute
  dsimp only
  split
  · rfl
  · split
    · rfl
    · split
      · rfl
      · rfl
      · rfl
      · exact translateTransactionInt_erase _ _ _ _ _
      · exact translateTransactionStr_erase _ _ _ _ _
      · rfl

theorem setTransactionType_erase (l : TransactionLocals) (e : APMEvent) :
    setTransactionType l.erase (eraseReceived e) =
      (setTransactionType l e).map eraseReceived := by
  unfold setTransactionType TransactionLocals.erase eraseReceived
  dsimp only
  split
  · split <;> rfl
  · rfl

theorem setTransactionHTTPStatus_erase (l : TransactionLocals) (e : APMEvent) :
    setTransactionHTTPStatus l.erase (eraseReceived e) =
      (setTransactionHTTPStatus l e).map eraseReceived := by
  unfold setTransactionHTTPStatus TransactionLocals.erase eraseReceived
  dsimp only
  split
  · cases h1 : e.Event with
    | none => rfl
    | some ev =>
      cases h2 : e.Transaction with
      | none => rfl
      | some tx =>
        dsimp only [Option.map_some']
        by_cases ho : ev.Outcome = outcomeUnknown
        · simp only [ho, if_true, Option.map_some']
        · simp only [ho, if_false, Option.map_some']
  · rfl

theorem translateTransactionHTTP_erase (E : Env) (l : TransactionLocals) (e : APMEvent) :
    translateTransactionHTTP E l.erase (eraseReceived e) =
      (translateTransactionHTTP E l e).map eraseReceived := by
  unfold translateTransactionHTTP
  simp only [Option.bind_eq_bind, Option.pure_def]
  have h1 : (if l.erase.http ≠ {} then { eraseReceived e with Http := some l.erase.http }
      else eraseReceived e) =
      eraseReceived (if l.http ≠ {} then { e with Http := some l.http } else e) := by
    show (if l.http ≠ {} then _ else _) = _
    split <;> rfl
  rw [h1, setTransactionHTTPStatus_erase]
  cases setTransactionHTTPStatus l (if l.http ≠ {} then { e with Http := some l.http } else e)
    with
  | none => rfl
  | some e1 => rfl

theorem setTransactionMessage_erase (l : TransactionLocals) (e : APMEvent) :
    setTransactionMessage l.erase (eraseReceived e) =
      (setTransactionMessage l e).map eraseReceived := by
  unfold setTransactionMessage TransactionLocals.erase eraseReceived
  dsimp only
  split <;> rfl

theorem setClientFromSource_erase (E : Env) (e : APMEvent) :
    setClientFromSource E (eraseReceived e) = eraseReceived (setClientFromSource E e) := by
  unfold setClientFromSource eraseReceived
  dsimp only
  split
  · split <;> rfl
  · rfl

theorem setTransactionResult_erase (spanStatus : ptrace.Status) (e : APMEvent) :
    setTransactionResult spanStatus (eraseReceived e) =
      (setTransactionResult spanStatus e).map eraseReceived := by
  unfold setTransactionResult eraseReceived
  dsimp only
  split
  · split <;> rfl
  · rfl

theorem setFramework_erase (library : InstrumentationScope) (e : APMEvent) :
    setFramework library (eraseReceived e) = eraseReceived (setFramework library e) := by
  unfold setFramework eraseReceived
  dsimp only
  split <;> rfl

theorem TranslateTransaction_erase (E : Env) (attributes : Attributes)
    (spanStatus : ptrace.Status) (library : InstrumentationScope) (e : APMEvent) :
    TranslateTransaction E attributes spanStatus library (eraseReceived e) =
      (TranslateTransaction E attributes spanStatus library e).map eraseReceived := by
  unfold TranslateTransaction
  simp only [Option.bind_eq_bind, Option.pure_def]
  show (e.Agent).bind _ = _
  cases e.Agent with
  | none => rfl
  | some agent =>
    simp only [Option.some_bind]
    have hinit : ({ event := eraseReceived e } : TransactionLocals) =
        TransactionLocals.erase { event := e } := rfl
    rw [hinit, foldlM_map_comm _ TransactionLocals.erase
      (translateTransactionAttribute_erase E _)]
    cases attributes.foldlM (translateTransactionAttribute E (hasPrefix agent.Name "Jaeger"))
        { event := e } with
    | none => rfl
    | some l =>
      simp only [Option.map_some', Option.some_bind]
      have hle : l.erase.event = eraseReceived l.event := rfl
      rw [hle, setTransactionType_erase]
      cases setTransactionType l l.event with
      | none => rfl
      | some e1 =>
        simp only [Option.map_some', Option.some_bind]
        have h2 : (if l.erase.isHTTP = true then
              translateTransactionHTTP E l.erase (eraseReceived e1)
            else some (eraseReceived e1)) =
            (if l.isHTTP = true then translateTransactionHTTP E l e1
              else some e1).map eraseReceived := by
          show (if l.isHTTP = true then _ else _) = _
          split
          · exact translateTransactionHTTP_erase E l e1
          · rfl
        rw [h2]
        cases (if l.isHTTP = true then translateTransactionHTTP E l e1 else some e1) with
        | none => rfl
        | some e2 =>
          simp only [Option.map_some', Option.some_bind]
          have h3 : (if l.erase.isMessaging = true then
                setTransactionMessage l.erase (eraseReceived e2)
              else some (eraseReceived e2)) =
              (if l.isMessaging = true then setTransactionMessage l e2
                else some e2).map eraseReceived := by
            show (if l.isMessaging = true then _ else _) = _
            split
            · exact setTransactionMessage_erase l e2
            · rfl
          rw [h3]
          cases (if l.isMessaging = true then setTransactionMessage l e2 else some e2) with
          | none => rfl
          | some e3 =>
            simp only [Option.map_some', Option.some_bind]
            have h4 : applySampler E l.erase.samplerType l.erase.samplerParam
                (setClientFromSource E (eraseReceived e3)) =
                (applySampler E l.samplerType l.samplerParam
                  (setClientFromSource E e3)).map eraseReceived := by
              rw [setClientFromSource_erase]
              exact applySampler_erase E _ _ _
            rw [h4]
            cases applySampler E l.samplerType l.samplerParam (setClientFromSource E e3) with
            | none => rfl
            | some e4 =>
              simp only [Option.map_some', Option.some_bind]
              rw [setTransactionResult_erase]
              cases setTransactionResult spanStatus e4 with
              | none => rfl
              | some e5 =>
                simp only [Option.map_some', Option.some_bind]
                rw [setFramework_erase]

theorem translateSpanStr_erase (l : SpanLocals) (kDots k stringval raw : String) :
    translateSpanStr l.erase kDots k stringval raw =
      (translateSpanStr l kDots k stringval raw).map SpanLocals.erase := by
  unfold translateSpanStr labelsSet SpanLocals.erase eraseReceived
    updateNetworkConnection updateNetworkCarrier
  dsimp only
  split <;> first
    | rfl
    | (split <;> rfl)

theorem translateSpanInt_erase (E : Env) (l : SpanLocals) (kDots k : String) (i : Int) :
    translateSpanInt E l.erase kDots k i = (translateSpanInt E l kDots k i).erase := by
  unfold translateSpanInt
  split <;> rfl

theorem translateSpanAttribute_erase (E : Env) (isJaeger : Bool) (l : SpanLocals)
    (kv : String × Value) :
    translateSpanAttribute E isJaeger l.erase kv =
      (translateSpanAttribute E isJaeger l kv).map SpanLocals.erase := by
  unfold translateSpanAttribute
  dsimp only
  split
  · rfl
  · split
    · rfl
    · split
      · rfl
      · split <;> rfl
      · rfl
      · exact congrArg some (translateSpanInt_erase _ _ _ _ _)
      · exact translateSpanStr_erase _ _ _ _ _
      · rfl

theorem setSpanHTTPOutcome_erase (l : SpanLocals) (e : APMEvent) :
    setSpanHTTPOutcome l.erase (eraseReceived e) =
      (setSpanHTTPOutcome l e).map eraseReceived := by
  unfold setSpanHTTPOutcome SpanLocals.erase eraseReceived
  dsimp only
  split
  · cases h1 : e.Event with
    | none => rfl
    | some ev =>
      dsimp only [Option.map_some']
      by_cases ho : ev.Outcome = outcomeUnknown
      · simp only [ho, if_true, Option.map_some']
      · simp only [ho, if_false, Option.map_some', h1]
  · rfl

theorem translateSpanHTTP_erase (l : SpanLocals) (httpURL : String) (e : APMEvent) :
    translateSpanHTTP l.erase httpURL (eraseReceived e) =
      (translateSpanHTTP l httpURL e).map eraseReceived := by
  unfold translateSpanHTTP
  simp only [Option.bind_eq_bind, Option.pure_def]
  rw [setSpanHTTPOutcome_erase]
  cases setSpanHTTPOutcome l e with
  | none => rfl
  | some e1 =>
    simp only [Option.map_some', Option.some_bind]
    show some _ = some _
    congr 1
    show (_ : APMEvent) = _
    by_cases hh : l.http ≠ {}
    · have : l.erase.http ≠ {} := hh
      simp only [hh, this, if_true, ne_eq, not_false_eq_true]
      rfl
    · have : ¬ l.erase.http ≠ {} := hh
      simp only [hh, this, if_false]
      rfl

theorem setServiceTarget_erase (serviceTarget : ServiceTarget) (e : APMEvent) :
    setServiceTarget serviceTarget (eraseReceived e) =
      (setServiceTarget serviceTarget e).map eraseReceived := by
  unfold setServiceTarget eraseReceived
  dsimp only
  split
  · split <;> rfl
  · rfl

theorem finishSpan_erase (E : Env) (spanKind : ptrace.SpanKind) (l : SpanLocals) :
    finishSpan E spanKind l.erase = (finishSpan E spanKind l).map eraseReceived := by
  unfold finishSpan
  simp only [Option.bind_eq_bind, Option.pure_def]
  have hd : spanDestination E l.erase = spanDestination E l := rfl
  rw [hd]
  have h1 : (if l.erase.isHTTP = true then
        translateSpanHTTP l.erase (spanDestination E l).httpURL l.erase.event
      else some l.erase.event) =
      (if l.isHTTP = true then translateSpanHTTP l (spanDestination E l).httpURL l.event
        else some l.event).map eraseReceived := by
    show (if l.isHTTP = true then _ else _) = _
    split
    · exact translateSpanHTTP_erase l _ l.event
    · rfl
  rw [h1]
  cases (if l.isHTTP = true then translateSpanHTTP l (spanDestination E l).httpURL l.event
      else some l.event) with
  | none => rfl
  | some e1 =>
    simp only [Option.map_some', Option.some_bind]
    show (e1.Span).bind _ = _
    cases e1.Span with
    | none => rfl
    | some span =>
      simp only [Option.some_bind]
      have hc : classifySpan E spanKind l.erase (spanDestination E l)
          (initialClassification l.erase span) =
          classifySpan E spanKind l (spanDestination E l) (initialClassification l span) := rfl
      rw [hc]
      rw [← setServiceTarget_erase]
      congr 1
      split <;> rfl

theorem TranslateSpan_erase (E : Env) (spanKind : ptrace.SpanKind) (attributes : Attributes)
    (e : APMEvent) :
    TranslateSpan E spanKind attributes (eraseReceived e) =
      (TranslateSpan E spanKind attributes e).map eraseReceived := by
  unfold TranslateSpan
  simp only [Option.bind_eq_bind]
  have hinit : ({ event := eraseReceived e } : SpanLocals) = SpanLocals.erase { event := e } :=
    rfl
  have hj : (eraseReceived e).Agent = e.Agent := rfl
  rw [hinit, hj, foldlM_map_comm _ SpanLocals.erase (translateSpanAttribute_erase E _)]
  cases attributes.foldlM (translateSpanAttribute E
      (hasPrefix ((e.Agent.map (fun a => a.Name)).getD "") "Jaeger")) { event := e } with
  | none => rfl
  | some l =>
    simp only [Option.map_some', Option.some_bind]
    rw [finishSpan_erase]
    cases finishSpan E spanKind l with
    | none => rfl
    | some e1 =>
      simp only [Option.map_some', Option.some_bind]
      exact applySampler_erase E _ _ _

theorem foldlM_map_comm' {α β : Type} (f f' : β → α → Option β) (g : β → β)
    (hf : ∀ b a, f (g b) a = (f' b a).map g) (l : List α) (b : β) :
    l.foldlM f (g b) = (l.foldlM f' b).map g := by
  induction l generalizing b with
  | nil => rfl
  | cons a l ih =>
    rw [List.foldlM_cons, List.foldlM_cons, hf]
    cases h : f' b a with
    | none => rfl
    | some b1 => exact ih b1

theorem translateSpanLinks_erase (e : APMEvent) (links : List ptrace.SpanLink) :
    translateSpanLinks (eraseReceived e) links = eraseReceived (translateSpanLinks e links) := by
  unfold translateSpanLinks
  split <;> rfl

theorem spanEnvelope_erase (otelSpan : ptrace.Span) (baseEvent : APMEvent) (timeDelta : Int) :
    spanEnvelope otelSpan (eraseReceived baseEvent) timeDelta =
      eraseReceived (spanEnvelope otelSpan baseEvent timeDelta) := by
  unfold spanEnvelope eraseReceived initEventLabels populateNil
  dsimp only
  cases baseEvent.Event <;> rfl

theorem translateSpanOrTransaction_erase (E : Env) (otelSpan : ptrace.Span)
    (otelLibrary : InstrumentationScope) (e : APMEvent) :
    translateSpanOrTransaction E otelSpan otelLibrary (eraseReceived e) =
      (translateSpanOrTransaction E otelSpan otelLibrary e).map eraseReceived := by
  unfold translateSpanOrTransaction
  dsimp only
  split
  · exact TranslateTransaction_erase E _ _ _
      { e with Processor := some Processor.transaction,
               Transaction := some { Id := hexSpanID otelSpan.SpanID, Name := otelSpan.Name,
                                     Sampled := true,
                                     RepresentativeCount :=
                                       getRepresentativeCountFromTracestateHeader
                                         otelSpan.TraceState } }
  · exact TranslateSpan_erase E _ _
      { e with Processor := some Processor.span,
               Span := some { Id := hexSpanID otelSpan.SpanID, Name := otelSpan.Name,
                              RepresentativeCount :=
                                getRepresentativeCountFromTracestateHeader
                                  otelSpan.TraceState } }

theorem convertSpanPrimary_erase (E : Env) (otelSpan : ptrace.Span)
    (otelLibrary : InstrumentationScope) (baseEvent : APMEvent) (timeDelta : Int) :
    convertSpanPrimary E otelSpan otelLibrary (eraseReceived baseEvent) timeDelta =
      (convertSpanPrimary E otelSpan otelLibrary baseEvent timeDelta).map eraseReceived := by
  unfold convertSpanPrimary
  simp only [Option.bind_eq_bind, Option.pure_def]
  rw [spanEnvelope_erase, translateSpanOrTransaction_erase]
  cases translateSpanOrTransaction E otelSpan otelLibrary
      (spanEnvelope otelSpan baseEvent timeDelta) with
  | none => rfl
  | some e1 =>
    simp only [Option.map_some', Option.some_bind]
    rw [translateSpanLinks_erase]
    rfl

theorem spanEventParent_erase (baseEvent event : APMEvent) :
    spanEventParent (eraseReceived baseEvent) (eraseReceived event) =
      (spanEventParent baseEvent event).map eraseReceived := by
  unfold spanEventParent eraseReceived
  dsimp only
  cases baseEvent.Event <;> rfl

theorem jaegerErrorAttribute_erase (E : Env) (l : JaegerLocals) (kv : String × Value) :
    jaegerErrorAttribute E l.erase kv = (jaegerErrorAttribute E l kv).erase := by
  unfold jaegerErrorAttribute
  split
  · dsimp only
    split <;> rfl
  · rfl

theorem convertJaegerErrorSpanEvent_erase (E : Env) (event : ptrace.SpanEvent)
    (apmEvent : APMEvent) :
    convertJaegerErrorSpanEvent E event (eraseReceived apmEvent) =
      ((convertJaegerErrorSpanEvent E event apmEvent).1,
        eraseReceived (convertJaegerErrorSpanEvent E event apmEvent).2) := by
  unfold convertJaegerErrorSpanEvent
  dsimp only
  have hinit : (if truncate event.Name = "error" then
        ({ apmEvent := eraseReceived apmEvent, isError := true, logMessage := "" } :
          JaegerLocals)
      else { apmEvent := eraseReceived apmEvent, isError := false,
             logMessage := truncate event.Name }) =
      JaegerLocals.erase (if truncate event.Name = "error" then
        { apmEvent := apmEvent, isError := true, logMessage := "" }
      else { apmEvent := apmEvent, isError := false, logMessage := truncate event.Name }) := by
    split <;> rfl
  rw [hinit, foldl_map_comm _ JaegerLocals.erase (jaegerErrorAttribute_erase E)]
  rfl

theorem exceptionAttribute_erase (E : Env) (l : ExceptionLocals) (kv : String × Value) :
    exceptionAttribute E l.erase kv = (exceptionAttribute E l kv).erase := by
  unfold exceptionAttribute
  split <;> rfl

theorem convertExceptionSpanEvent_erase (E : Env) (spanEvent : ptrace.SpanEvent)
    (parent event : APMEvent) :
    convertExceptionSpanEvent E spanEvent (eraseReceived parent) (eraseReceived event) =
      (convertExceptionSpanEvent E spanEvent parent event).map eraseReceived := by
  unfold convertExceptionSpanEvent
  dsimp only
  have hinit : ({ event := eraseReceived event } : ExceptionLocals) =
      ExceptionLocals.erase { event := event } := rfl
  rw [hinit, foldl_map_comm _ ExceptionLocals.erase (exceptionAttribute_erase E)]
  have hp : (eraseReceived parent).Service = parent.Service := rfl
  rw [hp]
  generalize spanEvent.Attributes.foldl (exceptionAttribute E) { event := event } = l
  show (if l.exceptionMessage ≠ "" ∨ l.exceptionType ≠ "" then _ else _) = _
  split
  · cases parent.Service with
    | none => rfl
    | some service =>
      dsimp only
      cases service.Language with
      | none => rfl
      | some language => rfl
  · rfl

theorem spanEventError_erase (E : Env) (isJaeger : Bool) (spanEvent : ptrace.SpanEvent)
    (parent event : APMEvent) :
    spanEventError E isJaeger spanEvent (eraseReceived parent) (eraseReceived event) =
      (spanEventError E isJaeger spanEvent parent event).map eraseReceived := by
  unfold spanEventError
  split
  · rw [convertJaegerErrorSpanEvent_erase]
    rfl
  · split
    · exact convertExceptionSpanEvent_erase _ _ _ _
    · rfl

theorem setErrorContext_erase (out : APMEvent) (error : Error) (parent : APMEvent) :
    setErrorContext (eraseReceived out) error (eraseReceived parent) =
      (setErrorContext out error parent).map eraseReceived := by
  unfold setErrorContext eraseReceived
  dsimp only
  cases out.Trace with
  | none => rfl
  | some outTrace =>
    cases parent.Trace with
    | none => rfl
    | some parentTrace =>
      dsimp only
      cases parent.Transaction <;> cases parent.Span <;> rfl

theorem setLogContext_erase (out parent : APMEvent) :
    setLogContext (eraseReceived out) (eraseReceived parent) =
      eraseReceived (setLogContext out parent) := by
  unfold setLogContext eraseReceived
  dsimp only
  cases parent.Transaction <;> cases parent.Span <;> rfl

theorem logAttribute_erase (E : Env) (isJaeger : Bool) (event : APMEvent)
    (kv : String × Value) :
    logAttribute E isJaeger (eraseReceived event) kv =
      eraseReceived (logAttribute E isJaeger event kv) := by
  unfold logAttribute
  dsimp only
  split <;> rfl

theorem convertSpanEvent_erase (E : Env) (spanEvent : ptrace.SpanEvent) (parent : APMEvent)
    (timeDelta : Int) :
    convertSpanEvent E spanEvent (eraseReceived parent) timeDelta =
      (convertSpanEvent E spanEvent parent timeDelta).map eraseReceived := by
  unfold convertSpanEvent
  simp only [Option.bind_eq_bind]
  show (parent.Agent).bind _ = _
  cases parent.Agent with
  | none => rfl
  | some agent =>
    simp only [Option.some_bind]
    have h1 := spanEventError_erase E (hasPrefix agent.Name "Jaeger") spanEvent parent
      { initEventLabels parent with
        Transaction := none, Span := none,
        Timestamp := some (timeAdd (asTime spanEvent.Timestamp) timeDelta) }
    have h1' : spanEventError E (hasPrefix agent.Name "Jaeger") spanEvent
        (eraseReceived parent)
        { initEventLabels (eraseReceived parent) with
          Transaction := none, Span := none,
          Timestamp := some (timeAdd (asTime spanEvent.Timestamp) timeDelta) } = _ := h1
    rw [h1']
    cases spanEventError E (hasPrefix agent.Name "Jaeger") spanEvent parent
        { initEventLabels parent with
          Transaction := none, Span := none,
          Timestamp := some (timeAdd (asTime spanEvent.Timestamp) timeDelta) } with
    | none => rfl
    | some e1 =>
      simp only [Option.map_some', Option.some_bind]
      rcases e1 with ⟨ts, ev, pr, tr, pid, msg, lb, nl, tx, sp, er, ms, ht, ur, sv, ag, ho, cl,
        so, de, se, nw, ua⟩
      cases er with
      | some error =>
        exact setErrorContext_erase
          { Timestamp := ts, Event := ev, Processor := some Processor.error, Trace := tr,
            ParentId := pid, Message := msg, Labels := lb, NumericLabels := nl,
            Transaction := tx, Span := sp, Error := some error, Metricset := ms, Http := ht,
            Url := ur, Service := sv, Agent := ag, Host := ho, Client := cl, Source := so,
            Destination := de, Session := se, Network := nw, UserAgent := ua } error parent
      | none =>
        show some _ = some _
        congr 1
        have h2 := setLogContext_erase
          { Timestamp := ts, Event := ev, Processor := some Processor.log, Trace := tr,
            ParentId := pid, Message := spanEvent.Name, Labels := lb, NumericLabels := nl,
            Transaction := tx, Span := sp, Error := none, Metricset := ms, Http := ht,
            Url := ur, Service := sv, Agent := ag, Host := ho, Client := cl, Source := so,
            Destination := de, Session := se, Network := nw, UserAgent := ua } parent
        rw [← foldl_map_comm _ eraseReceived (logAttribute_erase E _), ← h2]
        rfl

theorem appendSpanEvent_erase (E : Env) (parent : APMEvent) (timeDelta : Int) (out : Batch)
    (spanEvent : ptrace.SpanEvent) :
    appendSpanEvent E (eraseReceived parent) timeDelta (out.map eraseReceived) spanEvent =
      (appendSpanEvent E parent timeDelta out spanEvent).map (List.map eraseReceived) := by
  unfold appendSpanEvent
  simp only [Option.bind_eq_bind, Option.pure_def]
  rw [convertSpanEvent_erase]
  cases convertSpanEvent E spanEvent parent timeDelta with
  | none => rfl
  | some event =>
    simp only [Option.map_some', Option.some_bind, List.map_append, List.map_cons, List.map_nil]

theorem convertSpan_erase (E : Env) (otelSpan : ptrace.Span)
    (otelLibrary : InstrumentationScope) (baseEvent : APMEvent) (timeDelta : Int)
    (out : Batch) :
    convertSpan E otelSpan otelLibrary (eraseReceived baseEvent) timeDelta
        (out.map eraseReceived) =
      (convertSpan E otelSpan otelLibrary baseEvent timeDelta out).map
        (List.map eraseReceived) := by
  unfold convertSpan
  simp only [Option.bind_eq_bind]
  rw [convertSpanPrimary_erase]
  cases convertSpanPrimary E otelSpan otelLibrary baseEvent timeDelta with
  | none => rfl
  | some event =>
    simp only [Option.map_some', Option.some_bind]
    rw [spanEventParent_erase]
    cases spanEventParent baseEvent event with
    | none => rfl
    | some parent =>
      simp only [Option.map_some', Option.some_bind]
      have hout : out.map eraseReceived ++ [eraseReceived event] =
          (out ++ [event]).map eraseReceived := by
        rw [List.map_append]
        rfl
      rw [hout]
      exact foldlM_map_comm' _ _ (List.map eraseReceived)
        (fun b a => appendSpanEvent_erase E parent timeDelta b a)
        otelSpan.Events (out ++ [event])

theorem foldlM_congr_map {α β γ : Type} (f1 f2 : β → α → Option β) (g : β → γ) (l : List α)
    (h : ∀ a, a ∈ l → ∀ b1 b2, g b1 = g b2 → (f1 b1 a).map g = (f2 b2 a).map g)
    (b1 b2 : β) (hb : g b1 = g b2) : (l.foldlM f1 b1).map g = (l.foldlM f2 b2).map g := by
  induction l generalizing b1 b2 with
  | nil => exact congrArg some hb
  | cons a l ih =>
    rw [List.foldlM_cons, List.foldlM_cons]
    have ha := h a (List.mem_cons_self _ _) b1 b2 hb
    cases h1 : f1 b1 a with
    | none =>
      cases h2 : f2 b2 a with
      | none => rfl
      | some y => rw [h1, h2] at ha; cases ha
    | some x =>
      cases h2 : f2 b2 a with
      | none => rw [h1, h2] at ha; cases ha
      | some y =>
        rw [h1, h2] at ha
        exact ih (fun a' ha' => h a' (List.mem_cons_of_mem _ ha')) x y (Option.some.inj ha)

theorem convertSpan_congr (E : Env) (otelSpan : ptrace.Span)
    (otelLibrary : InstrumentationScope) (b1 b2 : APMEvent) (timeDelta : Int)
    (out1 out2 : Batch) (hb : eraseReceived b1 = eraseReceived b2)
    (ho : out1.map eraseReceived = out2.map eraseReceived) :
    (convertSpan E otelSpan otelLibrary b1 timeDelta out1).map (List.map eraseReceived) =
      (convertSpan E otelSpan otelLibrary b2 timeDelta out2).map (List.map eraseReceived) := by
  rw [← convertSpan_erase, ← convertSpan_erase, hb, ho]

theorem convertScopeSpans_congr (E : Env) (in_ : ptrace.ScopeSpans) (b1 b2 : APMEvent)
    (timeDelta : Int) (out1 out2 : Batch) (hb : eraseReceived b1 = eraseReceived b2)
    (ho : out1.map eraseReceived = out2.map eraseReceived) :
    (convertScopeSpans E in_ b1 timeDelta out1).map (List.map eraseReceived) =
      (convertScopeSpans E in_ b2 timeDelta out2).map (List.map eraseReceived) := by
  unfold convertScopeSpans
  exact foldlM_congr_map _ _ (List.map eraseReceived) in_.Spans
    (fun otelSpan _ o1 o2 h => convertSpan_congr E otelSpan in_.Scope b1 b2 timeDelta o1 o2 hb h)
    out1 out2 ho

theorem convertResourceSpans_congr (E : Env) (resourceSpans : ptrace.ResourceSpans)
    (t1 t2 : Int) (out1 out2 : Batch)
    (hb : eraseReceived (resourceBaseEvent E resourceSpans.Resource t1) =
      eraseReceived (resourceBaseEvent E resourceSpans.Resource t2))
    (hd : resourceTimeDelta resourceSpans.Resource t1 =
      resourceTimeDelta resourceSpans.Resource t2)
    (ho : out1.map eraseReceived = out2.map eraseReceived) :
    (convertResourceSpans E resourceSpans t1 out1).map (List.map eraseReceived) =
      (convertResourceSpans E resourceSpans t2 out2).map (List.map eraseReceived) := by
  unfold convertResourceSpans
  dsimp only
  rw [hd]
  exact foldlM_congr_map _ _ (List.map eraseReceived) resourceSpans.ScopeSpans
    (fun scopeSpans _ o1 o2 h => convertScopeSpans_congr E scopeSpans _ _ _ o1 o2 hb h)
    out1 out2 ho

theorem convertTraces_congr (E : Env) (traces : List ptrace.ResourceSpans) (t1 t2 : Int)
    (hb : ∀ resourceSpans, resourceSpans ∈ traces →
      eraseReceived (resourceBaseEvent E resourceSpans.Resource t1) =
        eraseReceived (resourceBaseEvent E resourceSpans.Resource t2))
    (hd : ∀ resourceSpans, resourceSpans ∈ traces →
      resourceTimeDelta resourceSpans.Resource t1 =
        resourceTimeDelta resourceSpans.Resource t2) :
    (convertTraces E traces t1).map (List.map eraseReceived) =
      (convertTraces E traces t2).map (List.map eraseReceived) := by
  unfold convertTraces
  exact foldlM_congr_map _ _ (List.map eraseReceived) traces
    (fun resourceSpans hm o1 o2 h =>
      convertResourceSpans_congr E resourceSpans t1 t2 o1 o2 (hb _ hm) (hd _ hm) h)
    [] [] rfl

theorem metricsetEvent_erase (E : Env) (baseEvent : APMEvent) (timeDelta : Int)
    (key : metricsetKey) (m : metricset) :
    metricsetEvent E (eraseReceived baseEvent) timeDelta key m =
      eraseReceived (metricsetEvent E baseEvent timeDelta key m) := by
  unfold metricsetEvent
  dsimp only
  split
  · have h := foldl_map_comm
      (fun event (kv : String × Value) => setLabel E kv.1 event (E.ifaceAttributeValue kv.2))
      eraseReceived (fun b a => setLabel_erase E a.1 b (E.ifaceAttributeValue a.2))
      m.attributes
      (initEventLabels
        { baseEvent with
          Processor := some Processor.metricset,
          Timestamp := some (timeAdd key.timestamp timeDelta),
          Metricset := some { Samples := m.samples.map (fun s => s.2), Name := "app" } })
    have h' : m.attributes.foldl
        (fun event (kv : String × Value) => setLabel E kv.1 event (E.ifaceAttributeValue kv.2))
        (initEventLabels
          { eraseReceived baseEvent with
            Processor := some Processor.metricset,
            Timestamp := some (timeAdd key.timestamp timeDelta),
            Metricset := some { Samples := m.samples.map (fun s => s.2), Name := "app" } }) =
        _ := h
    rw [h']
    rfl
  · rfl

/-- The batch and the counter of the metric translation, with `Event.Received` erased from
the events. -/
theorem convertScopeMetrics_congr (E : Env) (in_ : ScopeMetrics) (b1 b2 : APMEvent)
    (timeDelta : Int) (st1 st2 : Batch × Int) (hb : eraseReceived b1 = eraseReceived b2)
    (hs : (st1.1.map eraseReceived, st1.2) = (st2.1.map eraseReceived, st2.2)) :
    (convertScopeMetrics E in_ b1 timeDelta st1.1 st1.2).map
        (fun r => (r.1.map eraseReceived, r.2)) =
      (convertScopeMetrics E in_ b2 timeDelta st2.1 st2.2).map
        (fun r => (r.1.map eraseReceived, r.2)) := by
  obtain ⟨ms, h1, _⟩ := addMetrics_eq E in_.Metrics
  have ho : st1.1.map eraseReceived = st2.1.map eraseReceived := (Prod.mk.inj hs).1
  have hc : st1.2 = st2.2 := (Prod.mk.inj hs).2
  unfold convertScopeMetrics
  rw [h1]
  simp only [Option.bind_eq_bind, Option.some_bind, Option.pure_def, Option.map_some',
    List.map_append, List.map_map, ho, hc]
  have hev : (eraseReceived ∘ fun (kv : metricsetKey × metricset) =>
        metricsetEvent E b1 timeDelta kv.1 kv.2) =
      (eraseReceived ∘ fun (kv : metricsetKey × metricset) =>
        metricsetEvent E b2 timeDelta kv.1 kv.2) := by
    funext kv
    show eraseReceived (metricsetEvent E b1 timeDelta kv.1 kv.2) =
      eraseReceived (metricsetEvent E b2 timeDelta kv.1 kv.2)
    rw [← metricsetEvent_erase, ← metricsetEvent_erase, hb]
  rw [hev]

theorem convertResourceMetrics_congr (E : Env) (resourceMetrics : ResourceMetrics)
    (t1 t2 : Int) (st1 st2 : Batch × Int)
    (hb : eraseReceived (resourceBaseEvent E resourceMetrics.Resource t1) =
      eraseReceived (resourceBaseEvent E resourceMetrics.Resource t2))
    (hd : resourceTimeDelta resourceMetrics.Resource t1 =
      resourceTimeDelta resourceMetrics.Resource t2)
    (hs : (st1.1.map eraseReceived, st1.2) = (st2.1.map eraseReceived, st2.2)) :
    (convertResourceMetrics E resourceMetrics t1 st1.1 st1.2).map
        (fun r => (r.1.map eraseReceived, r.2)) =
      (convertResourceMetrics E resourceMetrics t2 st2.1 st2.2).map
        (fun r => (r.1.map eraseReceived, r.2)) := by
  unfold convertResourceMetrics
  dsimp only
  rw [hd]
  exact foldlM_congr_map _ _ (fun r : Batch × Int => (r.1.map eraseReceived, r.2))
    resourceMetrics.ScopeMetrics
    (fun scopeMetrics _ s1 s2 h => convertScopeMetrics_congr E scopeMetrics _ _ _ s1 s2 hb h)
    (st1.1, st1.2) (st2.1, st2.2) hs

theorem convertMetrics_congr (E : Env) (metrics : List ResourceMetrics) (t1 t2 : Int)
    (dropped : Int)
    (hb : ∀ resourceMetrics, resourceMetrics ∈ metrics →
      eraseReceived (resourceBaseEvent E resourceMetrics.Resource t1) =
        eraseReceived (resourceBaseEvent E resourceMetrics.Resource t2))
    (hd : ∀ resourceMetrics, resourceMetrics ∈ metrics →
      resourceTimeDelta resourceMetrics.Resource t1 =
        resourceTimeDelta resourceMetrics.Resource t2) :
    (convertMetrics E metrics t1 dropped).map (fun r => (r.1.map eraseReceived, r.2)) =
      (convertMetrics E metrics t2 dropped).map (fun r => (r.1.map eraseReceived, r.2)) := by
  unfold convertMetrics
  exact foldlM_congr_map _ _ (fun r : Batch × Int => (r.1.map eraseReceived, r.2)) metrics
    (fun resourceMetrics hm s1 s2 h =>
      convertResourceMetrics_congr E resourceMetrics t1 t2 s1 s2 (hb _ hm) (hd _ hm) h)
    ([], dropped) ([], dropped) rfl

theorem resourceTimeDelta_of_none (resource : Resource) (t : Int)
    (h : exportTimestamp resource = none) : resourceTimeDelta resource t = 0 := by
  unfold resourceTimeDelta
  rw [h]

/-- C1, counterexample: the accepted datapoint with the bucket counts `[0, 1, 0]` and the
bounds `[-3·2^1022, 3·2^1022]`, two finite `float64` values.  The exact midpoint of the
second bucket is `0`, but the code computes `b[0] + (b[1] - b[0]) / 2` in `float64`
arithmetic, where the difference `3·2^1023` overflows: the emitted value is `+Inf`.  With
the bounds `[1, 1 + 2^-52]`, two neighbouring `float64` values, the exact midpoint
`1 + 2^-53` is not a `float64`, and the emitted value is `1`. -/
theorem midpoint_rounding_counterexample :
    (F64.finite (-(3 * 2 ^ 1022))).isFloat64 = true ∧
    (F64.finite (3 * 2 ^ 1022)).isFloat64 = true ∧
    histogramSample [0, 1, 0] [F64.finite (-(3 * 2 ^ 1022)), F64.finite (3 * 2 ^ 1022)] =
      some ({ emptySample with
              Type_ := MetricType.histogram,
              Histogram := some { Values := [F64.posInf], Counts := [1] } }, true) ∧
    specBucketValue [-(3 * 2 ^ 1022), 3 * 2 ^ 1022] 3 1 = 0 ∧
    (F64.finite (1 + 1 / 2 ^ 52)).isFloat64 = true ∧
    histogramValues [0, 1, 0] [F64.finite 1, F64.finite (1 + 1 / 2 ^ 52)] = [F64.finite 1] ∧
    specBucketValue [1, 1 + 1 / 2 ^ 52] 3 1 = 1 + 1 / 2 ^ 53 := by
  refine ⟨by decide!, by decide!, by decide!, by decide!, by decide!, by decide!, by decide!⟩

/-- C1, amended: for bucket counts `c` and bounds `b` with `len(c) = len(b)+1` and
`len(b) ≥ 1`, `histogramSample` succeeds and returns, in increasing bucket order, one
`(value, count)` pair for each bucket with a non-zero count and none for the others (so
`Values` and `Counts` have the same length); the count is the bucket count converted to
`int64`, and the value of bucket `i` is computed in `float64` arithmetic: half the first
bound (the first bound itself when it is not positive) for the first bucket, the last bound
for the last one, and `b[i-1] + (b[i] - b[i-1]) / 2` otherwise, every operation rounded to
the nearest `float64`.  For finite bounds it is the value of exact rational arithmetic
(`b0/2`, `b0`, the last bound, the midpoint `(b[i-1] + b[i]) / 2`) whenever no operation
rounds: the half of a positive first bound is a `float64`, and for an interior bucket the
difference of the two bounds, its half and the midpoint are `float64` values. -/
theorem histogramSample_pairs (c : List Nat) (b : List F64)
    (hn : c.length = b.length + 1) (hb : 1 ≤ b.length) :
    histogramSample c b =
      some ({ emptySample with
              Type_ := MetricType.histogram,
              Histogram := some
                { Values := (nonEmptyBuckets c).map (fun i => float64BucketValue b c.length i),
                  Counts := (nonEmptyBuckets c).map (fun i => int64OfUint64 (c.getD i 0)) } },
            true) ∧
    (∀ q : List ℚ, b = q.map F64.finite → ∀ i, exactBucket q c.length i = true →
      float64BucketValue b c.length i = F64.finite (specBucketValue q c.length i)) := by
  refine ⟨histogramSample_eq c b hn hb, ?_⟩
  intro q hq i hi
  rw [hq]
  exact float64BucketValue_exact q c.length i hi

/-- Witness for C1: the histogram of the end-to-end scenario, counts `[1,1,2,3]` with bounds
`[-1, 2, 3.5]`; no operation rounds, and the value of the third bucket is the midpoint
`2.75`. -/
theorem histogramSample_pairs_witness :
    float64BucketValue [F64.finite (-1), F64.finite 2, F64.finite (7 / 2)] 4 2 =
      F64.finite (specBucketValue [(-1 : ℚ), 2, 7 / 2] 4 2) ∧
    specBucketValue [(-1 : ℚ), 2, 7 / 2] 4 2 = 11 / 4 :=
  ⟨(histogramSample_pairs [1, 1, 2, 3] [F64.finite (-1), F64.finite 2, F64.finite (7 / 2)]
      (by decide) (by decide)).2 [(-1 : ℚ), 2, 7 / 2] rfl 2 (by decide!),
    by decide!⟩

/-- C2: `histogramSample` never panics; it reports failure (`ok = false`) if and only if
`len(bucketCounts) != len(explicitBounds) + 1` or `len(explicitBounds) = 0`, and succeeds on
every other input.  On failure `addMetric` drops the datapoint: the metricsets are left as
they were and only the dropped flag is raised; on success the sample is upserted. -/
theorem histogramSample_fails_iff (E : Env) (name : String) (st : metricsets × Bool)
    (dp : HistogramDataPoint) :
    ∃ sample ok, histogramSample dp.BucketCounts dp.ExplicitBounds = some (sample, ok) ∧
      (ok = false ↔
        (dp.BucketCounts.length ≠ dp.ExplicitBounds.length + 1 ∨
          dp.ExplicitBounds.length = 0)) ∧
      addHistogramDataPoint E name st dp =
        some (if ok then
                (upsert E st.1 (asTime dp.Timestamp) dp.Attributes { sample with Name := name },
                 st.2)
              else (st.1, true)) := by
  obtain ⟨sample, ok, h, hiff⟩ := histogramSample_total dp.BucketCounts dp.ExplicitBounds
  refine ⟨sample, ok, h, hiff, ?_⟩
  unfold addHistogramDataPoint
  rw [h]
  cases ok <;> rfl

/-- C3: for every scope, `convertScopeMetrics` never panics and appends exactly one metricset
event per distinct key `(timestamp, signature)` of the accepted datapoints (gauge, sum,
histogram and summary datapoints that are not dropped) and no other event: the events are the
images of the entries of a map whose keys are, up to order, the distinct accepted keys.  The
signature is the concatenation of `key ++ value.AsString()` over the attributes in order. -/
theorem convertScopeMetrics_one_event_per_key (E : Env) (in_ : ScopeMetrics)
    (baseEvent : APMEvent) (timeDelta : Int) (out : Batch) (dropped : Int) :
    (∃ ms : metricsets, ∃ dropped',
      convertScopeMetrics E in_ baseEvent timeDelta out dropped =
        some (out ++ ms.map (fun kv => metricsetEvent E baseEvent timeDelta kv.1 kv.2),
              dropped') ∧
      (ms.map Prod.fst).Perm (scopeAcceptedKeys E in_.Metrics).dedup) ∧
    (∀ ts attrs, (dataPointKey E ts attrs).timestamp = asTime ts ∧
      (dataPointKey E ts attrs).signature =
        String.join (attrs.map (fun kv => kv.1 ++ E.asString kv.2))) := by
  constructor
  · obtain ⟨ms, h1, h2⟩ := addMetrics_eq E in_.Metrics
    refine ⟨ms,
      (if ((in_.Metrics.filter metricDropped).length : Int) > 0
        then dropped + ((in_.Metrics.filter metricDropped).length : Int) else dropped), ?_, ?_⟩
    · unfold convertScopeMetrics
      rw [h1]
      rfl
    · exact (List.perm_ext_iff_of_nodup h2.1 (List.nodup_dedup _)).mpr
        (fun k => by rw [h2.2 k, List.mem_dedup])
  · intro ts attrs
    refine ⟨rfl, ?_⟩
    unfold dataPointKey attributeSignature String.join
    exact attributeSignature_loop E attrs ""

/-- C4: after any sequence of upserts into an empty metricsets map, every key is held once,
every metricset holds every metric name once, and the metricset of a key holds the sample `s`
under the name `n` exactly when `s` is the sample of the last upsert with that key and that
name (so a name never upserted under the key is absent, and a repeated name keeps the last
sample); hence the `Samples` of the event of every metricset have pairwise distinct names. -/
theorem upsert_last_writer_wins (E : Env) (ups : List Upsert) :
    ((applyUpserts E ups).map Prod.fst).Nodup ∧
    (∀ key m, (key, m) ∈ applyUpserts E ups →
      (m.samples.map Prod.fst).Nodup ∧
      (∀ n s, (n, s) ∈ m.samples ↔ lastUpsert E ups key n = some s)) ∧
    (∀ key m baseEvent timeDelta, (key, m) ∈ applyUpserts E ups →
      ∃ metricset, (metricsetEvent E baseEvent timeDelta key m).Metricset = some metricset ∧
        (metricset.Samples.map (fun s => s.Name)).Nodup) := by
  have wf := applyUpserts_wf E ups
  have key_iff : ∀ key m, (key, m) ∈ applyUpserts E ups →
      ∀ n s, (n, s) ∈ m.samples ↔ lastUpsert E ups key n = some s := by
    intro key m hm n s
    have hget : mapGet? (applyUpserts E ups) key = some m := mapGet?_of_mem _ _ _ wf.1 hm
    have hl := applyUpserts_lookup E ups key n
    unfold lookupSample at hl
    rw [hget] at hl
    rw [← hl]
    exact ⟨fun h => mapGet?_of_mem _ _ _ (wf.2 key m hm) h, fun h => mem_of_mapGet? _ _ _ h⟩
  refine ⟨wf.1, fun key m hm => ⟨wf.2 key m hm, key_iff key m hm⟩, ?_⟩
  intro key m baseEvent timeDelta hm
  refine ⟨_, metricsetEvent_Metricset E baseEvent timeDelta key m, ?_⟩
  have hnames : (m.samples.map (fun s => s.2)).map (fun s => s.Name) =
      m.samples.map Prod.fst := by
    rw [List.map_map]
    apply List.map_congr_left
    intro x hx
    obtain ⟨n, s⟩ := x
    exact lastUpsert_name E ups key n s ((key_iff key m hm n s).mp hx)
  show ((m.samples.map (fun s => s.2)).map (fun s => s.Name)).Nodup
  rw [hnames]
  exact wf.2 key m hm

/-- C5, counterexample: a gauge metric with two non-finite datapoints (NaN and +Inf) produces
no event, and `unsupportedMetricsDropped` grows by 1, not by the number 2 of such
datapoints. -/
theorem unsupported_per_datapoint_counterexample :
    nonFiniteCount twoNonFiniteGauge.Metrics = 2 ∧
    convertScopeMetrics sampleEnv twoNonFiniteGauge {} 0 [] 0 = some ([], 1) := by
  constructor
  · rfl
  · rfl

/-- C5, amended: a gauge or sum datapoint whose double value is NaN, +Inf or -Inf produces no
sample (the metricsets are left as they were, the dropped flag of its metric is raised), a
gauge or sum metric that has such a datapoint counts as dropped whatever the number of such
datapoints, and `convertScopeMetrics` never panics and adds to `unsupportedMetricsDropped`
exactly the number of dropped metrics of the scope: 1 per metric, not 1 per datapoint. -/
theorem unsupported_counted_per_metric (E : Env) (in_ : ScopeMetrics) (baseEvent : APMEvent)
    (timeDelta : Int) (out : Batch) (dropped : Int) :
    (∃ events, convertScopeMetrics E in_ baseEvent timeDelta out dropped =
      some (out ++ events, dropped + ((in_.Metrics.filter metricDropped).length : Int))) ∧
    (∀ name metricType st ts attrs,
      addNumberDataPoint E name metricType st ⟨ts, attrs, NumberValue.double F64.nan⟩ =
        (st.1, true) ∧
      addNumberDataPoint E name metricType st ⟨ts, attrs, NumberValue.double F64.posInf⟩ =
        (st.1, true) ∧
      addNumberDataPoint E name metricType st ⟨ts, attrs, NumberValue.double F64.negInf⟩ =
        (st.1, true)) ∧
    (∀ name dps, metricDropped ⟨name, MetricData.gauge dps⟩ = dps.any (fun dp => !numberAccepted dp) ∧
      metricDropped ⟨name, MetricData.sum dps⟩ = dps.any (fun dp => !numberAccepted dp)) ∧
    (∀ dp, nonFiniteDouble dp = true → numberAccepted dp = false) := by
  refine ⟨?_, fun _ _ _ _ _ => ⟨rfl, rfl, rfl⟩, fun _ _ => ⟨rfl, rfl⟩, ?_⟩
  · obtain ⟨ms, h1, _⟩ := addMetrics_eq E in_.Metrics
    refine ⟨ms.map (fun kv => metricsetEvent E baseEvent timeDelta kv.1 kv.2), ?_⟩
    unfold convertScopeMetrics
    rw [h1]
    simp only [Option.bind_eq_bind, Option.some_bind, Option.pure_def, gt_iff_lt,
      Nat.cast_pos, List.length_pos]
    split
    · rfl
    · rename_i h
      have h0 : List.filter metricDropped in_.Metrics = [] := by simpa using h
      rw [h0]
      simp
  · intro dp h
    unfold nonFiniteDouble at h
    unfold numberAccepted
    split at h
    · rename_i d hd
      rw [hd]
      simp [h]
    · cases h

/-- C6: `numberSample` accepts every Int-valued datapoint (the value is the integer converted
to a `float64`, a finite number, and the type is the one passed in) and every finite
Double-valued datapoint (the value is that double); it rejects the doubles NaN, +Inf, -Inf
and a datapoint whose value type is neither Int nor Double.  These are all the cases, so the
NaN/Inf test is never applied to the Int arm. -/
theorem numberSample_accepts (ts : Nat) (attrs : Attributes) (metricType : MetricType) :
    (∀ i, numberSample ⟨ts, attrs, NumberValue.int i⟩ metricType =
        ({ emptySample with Type_ := metricType, Value := float64OfInt64 i }, true) ∧
      (∃ q, float64OfInt64 i = F64.finite q) ∧
      (i.natAbs < 2 ^ 53 → float64OfInt64 i = F64.finite i)) ∧
    (∀ q, numberSample ⟨ts, attrs, NumberValue.double (F64.finite q)⟩ metricType =
        ({ emptySample with Type_ := metricType, Value := F64.finite q }, true)) ∧
    (numberSample ⟨ts, attrs, NumberValue.double F64.nan⟩ metricType).2 = false ∧
    (numberSample ⟨ts, attrs, NumberValue.double F64.posInf⟩ metricType).2 = false ∧
    (numberSample ⟨ts, attrs, NumberValue.double F64.negInf⟩ metricType).2 = false ∧
    (numberSample ⟨ts, attrs, NumberValue.empty⟩ metricType).2 = false := by
  refine ⟨fun i => ⟨rfl, ?_, ?_⟩, fun q => rfl, rfl, rfl, rfl, rfl⟩
  · unfold float64OfInt64
    simp only
    split
    · exact ⟨_, rfl⟩
    · exact ⟨_, rfl⟩
  · intro h
    unfold float64OfInt64
    simp only
    rw [if_pos h]

/-- C7, counterexample: the resource carries the export timestamp `e = -9·10^18` ns, the
receive time is `r = 1.7·10^18` ns, and the datapoint has the source timestamp `1000`; the
emitted metricset has the timestamp `1000 + (2^63 - 1)`, not `1000 + (r - e)`, because
`r - e` does not fit a `time.Duration` and `Time.Sub` saturates. -/
theorem timestamp_delta_exact_counterexample :
    exportTimestamp skewedResource = some (-9000000000000000000) ∧
    (convertMetrics sampleEnv skewedMetrics skewedReceiveTime 0).map
        (fun r => r.1.map (fun event => event.Timestamp)) =
      some [some (1000 + (2 ^ 63 - 1))] ∧
    (1000 + (2 ^ 63 - 1) : Int) ≠ 1000 + (skewedReceiveTime - (-9000000000000000000)) := by
  refine ⟨rfl, ?_, ?_⟩
  · decide
  · decide

/-- C7, amended: for every resource and receive timestamp `r`, the translators use one time
delta for the resource; it is `r - e` when the resource carries the export timestamp `e` and
`r - e` fits a `time.Duration` (between `-2^63` and `2^63 - 1` nanoseconds), and `0` when the
resource carries no export timestamp.  The timestamp of every metricset event is the
timestamp of its datapoints plus the delta, the timestamp of the primary event of a span is
the span start plus the delta, and the timestamp of the event of a span event is the time of
the span event plus the delta, in exact integer nanoseconds; without an export timestamp the
timestamps are the source timestamps, whatever `r` is. -/
theorem timestamps_shifted_by_delta (E : Env) (resource : Resource) (r : Int) :
    (∀ e, exportTimestamp resource = some e → minDuration ≤ r - e → r - e ≤ maxDuration →
      resourceTimeDelta resource r = r - e) ∧
    (exportTimestamp resource = none → resourceTimeDelta resource r = 0) ∧
    (∀ (resourceMetrics : ResourceMetrics) out dropped,
      resourceMetrics.Resource = resource →
      convertResourceMetrics E resourceMetrics r out dropped =
        resourceMetrics.ScopeMetrics.foldlM
          (fun (st : Batch × Int) scopeMetrics =>
            convertScopeMetrics E scopeMetrics (resourceBaseEvent E resource r)
              (resourceTimeDelta resource r) st.1 st.2)
          (out, dropped)) ∧
    (∀ (resourceSpans : ptrace.ResourceSpans) out,
      resourceSpans.Resource = resource →
      convertResourceSpans E resourceSpans r out =
        resourceSpans.ScopeSpans.foldlM
          (fun out scopeSpans =>
            convertScopeSpans E scopeSpans (resourceBaseEvent E resource r)
              (resourceTimeDelta resource r) out)
          out) ∧
    (∀ baseEvent key m,
      (metricsetEvent E baseEvent (resourceTimeDelta resource r) key m).Timestamp =
        some (key.timestamp + resourceTimeDelta resource r)) ∧
    (∀ otelSpan otelLibrary baseEvent out out',
      convertSpan E otelSpan otelLibrary baseEvent (resourceTimeDelta resource r) out =
        some out' →
      ∃ primary events, out' = out ++ primary :: events ∧
        primary.Timestamp =
          some (asTime otelSpan.StartTimestamp + resourceTimeDelta resource r) ∧
        List.Forall₂
          (fun (spanEvent : ptrace.SpanEvent) (event : APMEvent) =>
            event.Timestamp = some (asTime spanEvent.Timestamp + resourceTimeDelta resource r))
          otelSpan.Events events) := by
  refine ⟨?_, ?_, ?_, ?_, ?_, ?_⟩
  · intro e he h1 h2
    unfold resourceTimeDelta
    rw [he]
    exact timeSub_exact r e h1 h2
  · intro he
    unfold resourceTimeDelta
    rw [he]
  · intro resourceMetrics out dropped hres
    subst hres
    rfl
  · intro resourceSpans out hres
    subst hres
    rfl
  · intro baseEvent key m
    exact metricsetEvent_Timestamp E baseEvent _ key m
  · intro otelSpan otelLibrary baseEvent out out' h
    obtain ⟨primary, parent, evs, hp, _, he, hf⟩ := convertSpan_eq _ _ _ _ _ _ _ h
    refine ⟨primary, evs, he, (convertSpanPrimary_spec _ _ _ _ _ _ hp).1, ?_⟩
    exact hf.imp (fun _ _ hse => convertSpanEvent_Timestamp _ _ _ _ _ hse)

/-- C8: the primary event of a span is the first event that `convertSpan` appends.  It is a
transaction (processor `transaction`, `Transaction.Id` the hex span id, `Sampled` true) when
the span has an empty parent span id or is of kind SERVER or CONSUMER, and a span (processor
`span`, `Span.Id` the hex span id) in every other case; so it is a transaction if and only if
the span is a root, a SERVER or a CONSUMER span.  The primary event is produced whenever the
base event has a non-Jaeger agent and a service. -/
theorem convertSpan_primary_kind (E : Env) (otelSpan : ptrace.Span)
    (otelLibrary : InstrumentationScope) (baseEvent : APMEvent) (timeDelta : Int) :
    (isTransactionSpan otelSpan = true ↔
      (otelSpan.ParentSpanID.IsEmpty = true ∨ otelSpan.Kind = ptrace.SpanKind.Server ∨
        otelSpan.Kind = ptrace.SpanKind.Consumer)) ∧
    (∀ out out', convertSpan E otelSpan otelLibrary baseEvent timeDelta out = some out' →
      ∃ primary rest, out' = out ++ primary :: rest ∧
        convertSpanPrimary E otelSpan otelLibrary baseEvent timeDelta = some primary) ∧
    (∀ primary, convertSpanPrimary E otelSpan otelLibrary baseEvent timeDelta = some primary →
      (isTransactionSpan otelSpan = true →
        primary.Processor = some Processor.transaction ∧
        ∃ tx, primary.Transaction = some tx ∧ tx.Id = hexSpanID otelSpan.SpanID ∧
          tx.Sampled = true) ∧
      (isTransactionSpan otelSpan = false →
        primary.Processor = some Processor.span ∧
        ∃ span, primary.Span = some span ∧ span.Id = hexSpanID otelSpan.SpanID) ∧
      (primary.Processor = some Processor.transaction ↔ isTransactionSpan otelSpan = true)) ∧
    (∀ agent service, baseEvent.Agent = some agent →
      hasPrefix agent.Name "Jaeger" = false → baseEvent.Service = some service →
      ∃ primary, convertSpanPrimary E otelSpan otelLibrary baseEvent timeDelta =
        some primary) := by
  refine ⟨?_, ?_, ?_, ?_⟩
  · unfold isTransactionSpan
    simp only [Bool.or_eq_true, decide_eq_true_eq]
    tauto
  · intro out out' h
    obtain ⟨primary, _, evs, hp, _, he, _⟩ := convertSpan_eq _ _ _ _ _ _ _ h
    exact ⟨primary, evs, he, hp⟩
  · intro primary hp
    obtain ⟨_, _, _, htx, hsp⟩ := convertSpanPrimary_spec _ _ _ _ _ _ hp
    refine ⟨?_, ?_, ?_⟩
    · intro hk
      obtain ⟨h1, tx, h2, h3, h4, _⟩ := htx hk
      exact ⟨h1, tx, h2, h3, h4⟩
    · intro hk
      obtain ⟨h1, sp, h2, h3, _⟩ := hsp hk
      exact ⟨h1, sp, h2, h3⟩
    · constructor
      · intro hproc
        cases hk : isTransactionSpan otelSpan with
        | true => rfl
        | false =>
          rw [(hsp hk).1] at hproc
          cases hproc
      · intro hk
        exact (htx hk).1
  · intro agent service ha hj hs
    exact convertSpanPrimary_isSome E otelSpan otelLibrary baseEvent timeDelta agent service
      ha hj hs

/-- C9: whenever `ConsumeTraces` builds its batch, the number of events of the batch is the
total number of spans plus the total number of span events over all resources and scopes
(whatever the span events are); and the batch is built for every input whose resources give
a base event with a non-Jaeger agent, a service with its language and the `Event` record and
whose spans have a trace id that is not all zero. -/
theorem convertTraces_event_count (E : Env) (traces : List ptrace.ResourceSpans)
    (receiveTimestamp : Int) :
    (∀ batch, convertTraces E traces receiveTimestamp = some batch →
      batch.length = totalSpans traces + totalSpanEvents traces) ∧
    (GoodTraces E traces receiveTimestamp →
      ∃ batch, convertTraces E traces receiveTimestamp = some batch) := by
  refine ⟨?_, convertTraces_isSome E traces receiveTimestamp⟩
  intro batch h
  rw [convertTraces_length E traces receiveTimestamp batch h, allSpans_sum, sum_succ_length]
  rfl

/-- C10, the code at the failing input: a root span (a transaction) with one span link and
an `exception` span event with `exception.type = "E"` and `exception.message = "m"`, for an
`otlp` agent.  The error event has the empty `ParentId`, not the id `0102030405060708` of the
transaction: `translateSpanLinks` has given the transaction event a `Span` record with an
empty id, and `setErrorContext` lets `parent.Span.Id` overwrite the `ParentId`.  For the same
span without the link the `ParentId` is the transaction id, and for the same span with an
all-zero trace id `convertSpan` panics in `setErrorContext`. -/
theorem error_parent_id_of_linked_transaction :
    (convertSpan sampleEnv linkedRootSpan { Name := "", Version := "" } sampleBaseEvent 0 []).map
        (fun batch => batch.map
          (fun event => (event.Processor, event.ParentId,
            event.Transaction.map (fun tx => tx.Id)))) =
      some [(some Processor.transaction, "", some "0102030405060708"),
            (some Processor.error, "", some "0102030405060708")] ∧
    (convertSpan sampleEnv sampleRootSpan { Name := "", Version := "" } sampleBaseEvent 0 []).map
        (fun batch => batch.map
          (fun event => (event.Processor, event.ParentId,
            event.Transaction.map (fun tx => tx.Id)))) =
      some [(some Processor.transaction, "", some "0102030405060708"),
            (some Processor.error, "0102030405060708", some "0102030405060708")] ∧
    convertSpan sampleEnv zeroTraceSpan { Name := "", Version := "" } sampleBaseEvent 0 [] =
      none := by
  refine ⟨?_, ?_, ?_⟩
  · decide
  · decide
  · decide

/-- C11, counterexample: for the `otlp` agent of `sampleEnv`, a root span whose only span
event is named `exception` and has no attributes.  `convertSpan` emits two events, the
transaction and a Log event with the message `exception`: the span event is not dropped. -/
theorem bare_exception_not_dropped_counterexample :
    sampleBaseEvent.Agent = some { Name := "otlp" } ∧
    bareExceptionSpan.Events = [{ Timestamp := 2000, Name := "exception", Attributes := [] }] ∧
    (convertSpan sampleEnv bareExceptionSpan { Name := "", Version := "" } sampleBaseEvent 0
        []).map (fun batch => batch.map (fun event => (event.Processor, event.Message))) =
      some [(some Processor.transaction, ""), (some Processor.log, "exception")] := by
  refine ⟨rfl, rfl, ?_⟩
  decide

/-- C11, amended: for a span of a non-Jaeger agent (and a base event without an error
record), a span event named `exception` that carries neither a non-empty `exception.type` nor
a non-empty `exception.message` is not dropped.  `convertSpan` appends the primary event and
then one event for every span event, in order, and the event of such a span event is a Log
event whose message is `exception`. -/
theorem bare_exception_becomes_log (E : Env) (otelSpan : ptrace.Span)
    (otelLibrary : InstrumentationScope) (baseEvent : APMEvent) (timeDelta : Int)
    (agent : Agent) (ha : baseEvent.Agent = some agent)
    (hj : hasPrefix agent.Name "Jaeger" = false) (he : baseEvent.Error = none)
    (out out' : Batch)
    (h : convertSpan E otelSpan otelLibrary baseEvent timeDelta out = some out') :
    ∃ primary events, out' = out ++ primary :: events ∧
      events.length = otelSpan.Events.length ∧
      List.Forall₂ (fun (spanEvent : ptrace.SpanEvent) (event : APMEvent) =>
        spanEvent.Name = "exception" →
        lastStr spanEvent.Attributes "exception.type" = "" →
        lastStr spanEvent.Attributes "exception.message" = "" →
        event.Processor = some Processor.log ∧ event.Message = "exception" ∧
          event.Error = none)
        otelSpan.Events events := by
  obtain ⟨primary, events, hout, hf⟩ :=
    convertSpan_span_events E otelSpan otelLibrary baseEvent timeDelta agent ha he out out' h
  refine ⟨primary, events, hout, hf.length_eq.symm, hf.imp ?_⟩
  intro spanEvent event hrule hn ht hm
  have hc : (if hasPrefix agent.Name "Jaeger" then (jaegerSpanEventError E spanEvent).isSome
      else carriesException spanEvent) = false := by
    rw [hj]
    simp only [Bool.false_eq_true, if_false]
    unfold carriesException
    simp only [hn, ht, hm, ne_eq, not_true_eq_false, or_self, and_false, decide_False]
  obtain ⟨g1, g2, g3⟩ := hrule.2 hc
  rw [hj] at g3
  exact ⟨g1, g3.trans hn, g2⟩

/-- Witness for C11: the span `bareExceptionSpan` of the `otlp` agent. -/
theorem bare_exception_becomes_log_witness :
    sampleBaseEvent.Agent = some { Name := "otlp" } ∧
    hasPrefix "otlp" "Jaeger" = false ∧
    sampleBaseEvent.Error = none ∧
    ∃ primary events,
      (convertSpan sampleEnv bareExceptionSpan { Name := "", Version := "" } sampleBaseEvent 0
        []).getD [] = [] ++ primary :: events ∧
      events.length = bareExceptionSpan.Events.length ∧
      List.Forall₂ (fun (spanEvent : ptrace.SpanEvent) (event : APMEvent) =>
        spanEvent.Name = "exception" →
        lastStr spanEvent.Attributes "exception.type" = "" →
        lastStr spanEvent.Attributes "exception.message" = "" →
        event.Processor = some Processor.log ∧ event.Message = "exception" ∧
          event.Error = none)
        bareExceptionSpan.Events events :=
  ⟨rfl, by decide, rfl,
    bare_exception_becomes_log sampleEnv bareExceptionSpan { Name := "", Version := "" }
      sampleBaseEvent 0 { Name := "otlp" } rfl (by decide) rfl [] _
      (eq_some_getD _ _ (by decide))⟩

/-- C12, counterexample: a root span with a span event named `exception` that carries only a
stack trace and a span event named `retry` with the attribute `message`.  For the `otlp` agent
the `exception` span event gives a Log event, not an Error event.  For a Jaeger agent the
`exception` span event, which does not denote an error, gives a Log event too, and the Log
event of the second span event has the message `connection reset`, not the name `retry`. -/
theorem span_event_rule_counterexample :
    spanEventsSpan.Events.map (fun spanEvent => spanEvent.Name) = ["exception", "retry"] ∧
    (convertSpan sampleEnv spanEventsSpan { Name := "", Version := "" } sampleBaseEvent 0
        []).map (fun batch => batch.map (fun event => (event.Processor, event.Message))) =
      some [(some Processor.transaction, ""), (some Processor.log, "exception"),
            (some Processor.log, "retry")] ∧
    jaegerBaseEvent.Agent = some { Name := "Jaeger/Go" } ∧
    (convertSpan sampleEnv spanEventsSpan { Name := "", Version := "" } jaegerBaseEvent 0
        []).map (fun batch => batch.map (fun event => (event.Processor, event.Message))) =
      some [(some Processor.transaction, ""), (some Processor.log, "exception"),
            (some Processor.log, "connection reset")] := by
  refine ⟨rfl, ?_, rfl, ?_⟩
  · decide
  · decide

/-- C12, amended: for every span (of a base event with an agent and without an error
record), `convertSpan` appends the primary event and then one event for every span event, in
order.  For a non-Jaeger agent the event is an Error event if the span event is named
`exception` and carries a non-empty `exception.message` or `exception.type`, and otherwise a
Log event whose message is the name of the span event.  For an agent whose name begins with
`Jaeger` the event is an Error event if `convertJaegerErrorSpanEvent` finds an error in the
span event, and otherwise a Log event whose message is the truncated value of the last
attribute `message`, or the name of the span event when there is no such attribute. -/
theorem span_event_error_or_log (E : Env) (otelSpan : ptrace.Span)
    (otelLibrary : InstrumentationScope) (baseEvent : APMEvent) (timeDelta : Int)
    (agent : Agent) (ha : baseEvent.Agent = some agent) (he : baseEvent.Error = none)
    (out out' : Batch)
    (h : convertSpan E otelSpan otelLibrary baseEvent timeDelta out = some out') :
    ∃ primary events, out' = out ++ primary :: events ∧
      List.Forall₂ (fun (spanEvent : ptrace.SpanEvent) (event : APMEvent) =>
        (hasPrefix agent.Name "Jaeger" = false →
          (carriesException spanEvent = true →
            event.Processor = some Processor.error ∧ event.Error.isSome = true) ∧
          (carriesException spanEvent = false →
            event.Processor = some Processor.log ∧ event.Error = none ∧
              event.Message = spanEvent.Name)) ∧
        (hasPrefix agent.Name "Jaeger" = true →
          ((jaegerSpanEventError E spanEvent).isSome = true →
            event.Processor = some Processor.error ∧ event.Error.isSome = true) ∧
          ((jaegerSpanEventError E spanEvent).isSome = false →
            event.Processor = some Processor.log ∧ event.Error = none ∧
              event.Message = jaegerLogMessage spanEvent)))
        otelSpan.Events events := by
  obtain ⟨primary, events, hout, hf⟩ :=
    convertSpan_span_events E otelSpan otelLibrary baseEvent timeDelta agent ha he out out' h
  refine ⟨primary, events, hout, hf.imp ?_⟩
  intro spanEvent event hrule
  constructor
  · intro hj
    rw [hj] at hrule
    exact hrule
  · intro hj
    rw [hj] at hrule
    exact hrule

/-- Witness for C12: the span `spanEventsSpan` of a Jaeger agent. -/
theorem span_event_error_or_log_witness :
    jaegerBaseEvent.Agent = some { Name := "Jaeger/Go" } ∧
    jaegerBaseEvent.Error = none ∧
    ∃ primary events,
      (convertSpan sampleEnv spanEventsSpan { Name := "", Version := "" } jaegerBaseEvent 0
        []).getD [] = [] ++ primary :: events ∧
      List.Forall₂ (fun (spanEvent : ptrace.SpanEvent) (event : APMEvent) =>
        (hasPrefix "Jaeger/Go" "Jaeger" = false →
          (carriesException spanEvent = true →
            event.Processor = some Processor.error ∧ event.Error.isSome = true) ∧
          (carriesException spanEvent = false →
            event.Processor = some Processor.log ∧ event.Error = none ∧
              event.Message = spanEvent.Name)) ∧
        (hasPrefix "Jaeger/Go" "Jaeger" = true →
          ((jaegerSpanEventError sampleEnv spanEvent).isSome = true →
            event.Processor = some Processor.error ∧ event.Error.isSome = true) ∧
          ((jaegerSpanEventError sampleEnv spanEvent).isSome = false →
            event.Processor = some Processor.log ∧ event.Error = none ∧
              event.Message = jaegerLogMessage spanEvent)))
        spanEventsSpan.Events events :=
  ⟨rfl, rfl,
    span_event_error_or_log sampleEnv spanEventsSpan { Name := "", Version := "" }
      jaegerBaseEvent 0 { Name := "Jaeger/Go" } rfl rfl [] _ (eq_some_getD _ _ (by decide))⟩

/-- C13, counterexample: the root span `linkedRootSpan` has one span link.  Its primary event
(the first event of the batch) is a transaction (processor `transaction`, `Transaction` set)
and has the `Span` record populated as well: `translateSpanLinks` stores the links in
`Span.Links`. -/
theorem linked_transaction_has_span_counterexample :
    linkedRootSpan.Links.length = 1 ∧
    (convertSpan sampleEnv linkedRootSpan { Name := "", Version := "" } sampleBaseEvent 0
        []).map (fun batch => batch.map (fun event =>
          (event.Processor, event.Transaction.isSome, event.Span.isSome))) =
      some [(some Processor.transaction, true, true), (some Processor.error, true, false)] := by
  refine ⟨rfl, ?_⟩
  decide

/-- C13, amended: for a base event without the records Transaction, Span, Error and
Metricset, the primary event that `convertSpan` emits for a span has Error and Metricset
unset and is tagged `transaction` or `span`.  When the processor is `transaction`,
Transaction is set, and Span is unset if the span has no span links and is otherwise a record
that holds only the links.  When the processor is `span`, Span is set and Transaction is
unset. -/
theorem primary_event_records (E : Env) (otelSpan : ptrace.Span)
    (otelLibrary : InstrumentationScope) (baseEvent : APMEvent) (timeDelta : Int)
    (hb : baseEvent.Transaction = none ∧ baseEvent.Span = none ∧ baseEvent.Error = none ∧
      baseEvent.Metricset = none)
    (out out' : Batch)
    (h : convertSpan E otelSpan otelLibrary baseEvent timeDelta out = some out') :
    ∃ primary events, out' = out ++ primary :: events ∧
      primary.Error = none ∧ primary.Metricset = none ∧
      (primary.Processor = some Processor.transaction ∨
        primary.Processor = some Processor.span) ∧
      (primary.Processor = some Processor.transaction →
        primary.Transaction.isSome = true ∧
        primary.Span =
          if otelSpan.Links.length = 0 then none
          else some { Links := otelSpan.Links.map (fun link =>
            { SpanId := hexSpanID link.SpanID, TraceId := hexTraceID link.TraceID }) }) ∧
      (primary.Processor = some Processor.span →
        primary.Span.isSome = true ∧ primary.Transaction = none) := by
  obtain ⟨hb1, hb2, hb3, hb4⟩ := hb
  obtain ⟨primary, _, events, hp, _, hout, _⟩ := convertSpan_eq _ _ _ _ _ _ _ h
  obtain ⟨_, _, _, s4, s5⟩ := convertSpanPrimary_spec _ _ _ _ _ _ hp
  obtain ⟨r1, r2, r3, r4⟩ := convertSpanPrimary_records _ _ _ _ _ _ hp
  refine ⟨primary, events, hout, r1.trans hb3, r2.trans hb4, ?_, ?_, ?_⟩
  · cases hk : isTransactionSpan otelSpan with
    | true => exact Or.inl (s4 hk).1
    | false => exact Or.inr (s5 hk).1
  · intro hproc
    cases hk : isTransactionSpan otelSpan with
    | true =>
      obtain ⟨_, tx, htx, _⟩ := s4 hk
      exact ⟨by rw [htx]; rfl, r3 hk hb2⟩
    | false =>
      rw [(s5 hk).1] at hproc
      cases hproc
  · intro hproc
    cases hk : isTransactionSpan otelSpan with
    | true =>
      rw [(s4 hk).1] at hproc
      cases hproc
    | false =>
      obtain ⟨_, sp, hsp, _⟩ := s5 hk
      exact ⟨by rw [hsp]; rfl, r4 hk hb1⟩

/-- Witness for C13: the span `linkedRootSpan` with the base event of `sampleEnv`. -/
theorem primary_event_records_witness :
    (sampleBaseEvent.Transaction = none ∧ sampleBaseEvent.Span = none ∧
      sampleBaseEvent.Error = none ∧ sampleBaseEvent.Metricset = none) ∧
    ∃ primary events,
      (convertSpan sampleEnv linkedRootSpan { Name := "", Version := "" } sampleBaseEvent 0
        []).getD [] = [] ++ primary :: events ∧
      primary.Error = none ∧ primary.Metricset = none ∧
      (primary.Processor = some Processor.transaction ∨
        primary.Processor = some Processor.span) ∧
      (primary.Processor = some Processor.transaction →
        primary.Transaction.isSome = true ∧
        primary.Span =
          if linkedRootSpan.Links.length = 0 then none
          else some { Links := linkedRootSpan.Links.map (fun link =>
            { SpanId := hexSpanID link.SpanID, TraceId := hexTraceID link.TraceID }) }) ∧
      (primary.Processor = some Processor.span →
        primary.Span.isSome = true ∧ primary.Transaction = none) :=
  ⟨⟨rfl, rfl, rfl, rfl⟩,
    primary_event_records sampleEnv linkedRootSpan { Name := "", Version := "" }
      sampleBaseEvent 0 ⟨rfl, rfl, rfl, rfl⟩ [] _ (eq_some_getD _ _ (by decide))⟩

/-- C14, counterexample: the root span `plainEventSpan` has the span event `tick` without
attributes.  The event of the span event is a Log event, and it has the `Transaction` record
populated, with the id of the transaction of the span (`setLogContext`).  The same holds for
the call of `convertSpanEvent` with the parent `sampleParent`. -/
theorem log_event_has_transaction_counterexample :
    (convertSpan sampleEnv plainEventSpan { Name := "", Version := "" } sampleBaseEvent 0
        []).map (fun batch => batch.map (fun event =>
          (event.Processor, event.Transaction.map (fun tx => tx.Id), event.Span.isSome))) =
      some [(some Processor.transaction, some "0102030405060708", false),
            (some Processor.log, some "0102030405060708", false)] ∧
    (convertSpanEvent sampleEnv plainSpanEvent sampleParent 0).map (fun event =>
        (event.Processor, event.Transaction)) =
      some (some Processor.log, some { Id := "0102030405060708" }) := by
  refine ⟨?_, ?_⟩
  · decide
  · decide

/-- C14, amended: every Log event (processor `log`) that `convertSpanEvent` returns has the
Error record unset and the Metricset record of the parent, and it is populated from the
parent: Transaction is a record that holds only the id of the transaction of the parent when
the parent has one (and is unset otherwise), and Span is a record that holds only the id of
the span of the parent when the parent has one (and is unset otherwise). -/
theorem log_event_records (E : Env) (spanEvent : ptrace.SpanEvent) (parent : APMEvent)
    (timeDelta : Int) (event : APMEvent)
    (h : convertSpanEvent E spanEvent parent timeDelta = some event)
    (hp : event.Processor = some Processor.log) :
    event.Error = none ∧ event.Metricset = parent.Metricset ∧
    event.Transaction = parent.Transaction.map (fun tx => { Id := tx.Id }) ∧
    event.Span = parent.Span.map (fun span => { Id := span.Id }) :=
  convertSpanEvent_log E spanEvent parent timeDelta event h hp

/-- Witness for C14: the span event `plainSpanEvent` with the parent `sampleParent`. -/
theorem log_event_records_witness :
    convertSpanEvent sampleEnv plainSpanEvent sampleParent 0 =
      some ((convertSpanEvent sampleEnv plainSpanEvent sampleParent 0).getD {}) ∧
    ((convertSpanEvent sampleEnv plainSpanEvent sampleParent 0).getD {}).Processor =
      some Processor.log ∧
    ((convertSpanEvent sampleEnv plainSpanEvent sampleParent 0).getD {}).Error = none ∧
    ((convertSpanEvent sampleEnv plainSpanEvent sampleParent 0).getD {}).Metricset =
      sampleParent.Metricset ∧
    ((convertSpanEvent sampleEnv plainSpanEvent sampleParent 0).getD {}).Transaction =
      sampleParent.Transaction.map (fun tx => { Id := tx.Id }) ∧
    ((convertSpanEvent sampleEnv plainSpanEvent sampleParent 0).getD {}).Span =
      sampleParent.Span.map (fun span => { Id := span.Id }) :=
  ⟨eq_some_getD _ _ (by decide), by decide,
    log_event_records sampleEnv plainSpanEvent sampleParent 0 _
      (eq_some_getD _ _ (by decide)) (by decide)⟩

/-- C15: the batch that `ConsumeTraces` builds is the concatenation, over the resources in
input order, over the scopes of each resource in input order and over the spans of each
scope in input order, of the events of the span (`tracesBatch`), and `ConsumeTraces` panics
exactly when one of these translations does.  The events of a span are its primary event
followed by the events of its span events, in the order of the span events.  In a
concatenation the events of an element follow all events of the elements before it and
precede all events of the elements after it. -/
theorem convertTraces_order (E : Env) (traces : List ptrace.ResourceSpans)
    (receiveTimestamp : Int) :
    convertTraces E traces receiveTimestamp = tracesBatch E traces receiveTimestamp ∧
    (∀ otelSpan otelLibrary baseEvent timeDelta batch,
      spanEvents E otelSpan otelLibrary baseEvent timeDelta = some batch →
      ∃ primary parent events,
        convertSpanPrimary E otelSpan otelLibrary baseEvent timeDelta = some primary ∧
        spanEventParent baseEvent primary = some parent ∧
        batch = primary :: events ∧
        List.Forall₂ (fun spanEvent event =>
          convertSpanEvent E spanEvent parent timeDelta = some event)
          otelSpan.Events events) ∧
    (∀ (α : Type) (g : α → Option Batch) (before : List α) (a : α) (after : List α)
      (batch : Batch), concatBatches g (before ++ a :: after) = some batch →
      ∃ b1 b2 b3, concatBatches g before = some b1 ∧ g a = some b2 ∧
        concatBatches g after = some b3 ∧ batch = b1 ++ (b2 ++ b3)) :=
  ⟨convertTraces_tracesBatch E traces receiveTimestamp,
    fun otelSpan otelLibrary baseEvent timeDelta batch h =>
      spanEvents_eq E otelSpan otelLibrary baseEvent timeDelta batch h,
    fun _ g before a after batch h => concatBatches_append g before a after batch h⟩

/-- C16: `TranslateSpan` classifies a span by the precedence Database, Messaging, RPC, HTTP,
default.  With `span` the incoming and `span'` the resulting span record (`SpanClassified`):
the type is `db` if a database attribute is among the attributes; otherwise `messaging` if a
messaging attribute is; otherwise `external` with the RPC system as subtype if an RPC
attribute is; otherwise `external` with the subtype `http` if an HTTP attribute is; otherwise,
when the incoming type was empty, `app` with subtype `internal` for the kind INTERNAL and
`unknown` for every other kind (and the incoming type when it was not empty).  Consequently
the span record of every Span event that `convertSpan` emits as a primary event has a type
among `db`, `messaging`, `external`, `app` and `unknown`. -/
theorem TranslateSpan_classification (E : Env) (spanKind : ptrace.SpanKind)
    (attributes : Attributes) (event event' : APMEvent)
    (h : TranslateSpan E spanKind attributes event = some event') :
    (∃ span span', event.Span = some span ∧ event'.Span = some span' ∧
      (if attributes.any isDatabaseAttribute then span'.Type_ = "db"
       else if attributes.any isMessagingAttribute then span'.Type_ = "messaging"
       else if attributes.any isRPCAttribute then
         span'.Type_ = "external" ∧ span'.Subtype = rpcSystemOf attributes
       else if attributes.any isHTTPAttribute then
         span'.Type_ = "external" ∧ span'.Subtype = "http"
       else if span.Type_ = "" then
         (if spanKind = ptrace.SpanKind.Internal then
           span'.Type_ = "app" ∧ span'.Subtype = "internal"
          else span'.Type_ = "unknown" ∧ span'.Subtype = span.Subtype)
       else span'.Type_ = span.Type_ ∧ span'.Subtype = span.Subtype)) ∧
    (∀ otelSpan otelLibrary baseEvent timeDelta out out',
      convertSpan E otelSpan otelLibrary baseEvent timeDelta out = some out' →
      ∃ primary events, out' = out ++ primary :: events ∧
        (primary.Processor = some Processor.span →
          ∃ span, primary.Span = some span ∧
            SpanClassified otelSpan.Kind otelSpan.Attributes {} span ∧
            (span.Type_ = "db" ∨ span.Type_ = "messaging" ∨ span.Type_ = "external" ∨
              span.Type_ = "app" ∨ span.Type_ = "unknown"))) := by
  constructor
  · obtain ⟨span, span', g1, g2, g3, _⟩ := TranslateSpan_kind E spanKind attributes event event' h
    exact ⟨span, span', g1, g2, g3⟩
  · intro otelSpan otelLibrary baseEvent timeDelta out out' hc
    obtain ⟨primary, _, events, hp, _, hout, _⟩ := convertSpan_eq _ _ _ _ _ _ _ hc
    refine ⟨primary, events, hout, ?_⟩
    intro hproc
    obtain ⟨_, _, _, s4, _⟩ := convertSpanPrimary_spec _ _ _ _ _ _ hp
    have hk : isTransactionSpan otelSpan = false := by
      cases hk : isTransactionSpan otelSpan with
      | false => rfl
      | true =>
        rw [(s4 hk).1] at hproc
        cases hproc
    obtain ⟨_, span, hs, hcl⟩ := (convertSpanPrimary_kind _ _ _ _ _ _ hp).2 hk
    exact ⟨span, hs, hcl, SpanClassified_type _ _ _ _ rfl hcl⟩

/-- Witness for C16: a client span with an HTTP status code, a database attribute and an HTTP
attribute. -/
theorem TranslateSpan_classification_witness :
    TranslateSpan sampleEnv ptrace.SpanKind.Client sampleClientAttributes sampleSpanEvent =
      some ((TranslateSpan sampleEnv ptrace.SpanKind.Client sampleClientAttributes
        sampleSpanEvent).getD {}) ∧
    (∃ span span', sampleSpanEvent.Span = some span ∧
      ((TranslateSpan sampleEnv ptrace.SpanKind.Client sampleClientAttributes
        sampleSpanEvent).getD {}).Span = some span' ∧
      (if sampleClientAttributes.any isDatabaseAttribute then span'.Type_ = "db"
       else if sampleClientAttributes.any isMessagingAttribute then span'.Type_ = "messaging"
       else if sampleClientAttributes.any isRPCAttribute then
         span'.Type_ = "external" ∧ span'.Subtype = rpcSystemOf sampleClientAttributes
       else if sampleClientAttributes.any isHTTPAttribute then
         span'.Type_ = "external" ∧ span'.Subtype = "http"
       else if span.Type_ = "" then
         (if ptrace.SpanKind.Client = ptrace.SpanKind.Internal then
           span'.Type_ = "app" ∧ span'.Subtype = "internal"
          else span'.Type_ = "unknown" ∧ span'.Subtype = span.Subtype)
       else span'.Type_ = span.Type_ ∧ span'.Subtype = span.Subtype)) :=
  ⟨eq_some_getD _ _ (by decide),
    (TranslateSpan_classification sampleEnv ptrace.SpanKind.Client sampleClientAttributes
      sampleSpanEvent _ (eq_some_getD _ _ (by decide))).1⟩

/-- C17: after `TranslateTransaction`, the type of the transaction is the value that the last
string attribute `type` gave it (`explicitType`) when that value is not empty: the value of
the attribute itself when it has at most 1024 code points, its first 1024 code points when
it is longer (as for every string attribute), and the type of the incoming transaction when
there is no such attribute.  Otherwise the type is `messaging` if a messaging destination
attribute is among the attributes, else `request` if an HTTP or an RPC attribute is, else
`unknown`.  For the transaction record that `convertSpan` creates the incoming type is
empty. -/
theorem TranslateTransaction_type (E : Env) (attributes : Attributes)
    (spanStatus : ptrace.Status) (library : InstrumentationScope) (event event' : APMEvent)
    (h : TranslateTransaction E attributes spanStatus library event = some event') :
    (∃ tx tx', event.Transaction = some tx ∧ event'.Transaction = some tx' ∧
      tx'.Type_ =
        if explicitType tx.Type_ attributes ≠ "" then explicitType tx.Type_ attributes
        else if attributes.any isTransactionMessagingAttribute then "messaging"
        else if attributes.any (isTransactionHTTPAttribute E) ||
            attributes.any isTransactionRPCAttribute then "request"
        else "unknown") ∧
    (∀ type before after s,
      (∀ kv, kv ∈ after → ¬ (kv.1 = "type" ∧ ∃ s', kv.2 = Value.str s')) →
      explicitType type (before ++ ("type", Value.str s) :: after) = truncate s ∧
      (s.length ≤ keywordLength →
        explicitType type (before ++ ("type", Value.str s) :: after) = s)) ∧
    (∀ type attrs,
      (∀ kv, kv ∈ attrs → ¬ (kv.1 = "type" ∧ ∃ s', kv.2 = Value.str s')) →
      explicitType type attrs = type) ∧
    (∀ otelSpan otelLibrary baseEvent timeDelta primary,
      convertSpanPrimary E otelSpan otelLibrary baseEvent timeDelta = some primary →
      isTransactionSpan otelSpan = true →
      ∃ tx, primary.Transaction = some tx ∧ tx.Type_ =
        if explicitType "" otelSpan.Attributes = "" then
          impliedTransactionType E otelSpan.Attributes
        else explicitType "" otelSpan.Attributes) := by
  refine ⟨?_, ?_, ?_, ?_⟩
  · obtain ⟨hsome, k⟩ := TranslateTransaction_kind E attributes spanStatus library event event' h
    have c := congrArg EventKind.TransactionType k
    simp only [APMEvent.kind] at c
    cases hx : event.Transaction with
    | none =>
      rw [hx] at hsome
      cases hsome
    | some tx =>
      cases hy : event'.Transaction with
      | none =>
        rw [hx, hy] at c
        cases c
      | some tx' =>
        rw [hx, hy] at c
        simp only [Option.map_some', Option.some.injEq] at c
        refine ⟨tx, tx', rfl, rfl, ?_⟩
        rw [c]
        unfold impliedTransactionType
        by_cases ht : explicitType tx.Type_ attributes = ""
        · simp only [ht, if_true, ne_eq, not_true_eq_false, if_false]
        · simp only [ht, if_false, ne_eq, not_false_eq_true, if_true]
  · intro type before after s hafter
    refine ⟨explicitType_last type before after s hafter, fun hs => ?_⟩
    rw [explicitType_last type before after s hafter, truncate_of_length_le s hs]
  · intro type attrs hnone
    exact explicitType_none type attrs hnone
  · intro otelSpan otelLibrary baseEvent timeDelta primary hp hk
    exact ((convertSpanPrimary_kind _ _ _ _ _ _ hp).1 hk).2

/-- Witness for C17: a transaction with the attributes `type = job` and `http.method`. -/
theorem TranslateTransaction_type_witness :
    TranslateTransaction sampleEnv [("type", Value.str "job"), ("http.method", Value.str "GET")]
        { Code := ptrace.StatusCode.Unset, Message := "" } { Name := "", Version := "" }
        sampleTransactionEvent =
      some ((TranslateTransaction sampleEnv
        [("type", Value.str "job"), ("http.method", Value.str "GET")]
        { Code := ptrace.StatusCode.Unset, Message := "" } { Name := "", Version := "" }
        sampleTransactionEvent).getD {}) ∧
    (∃ tx tx', sampleTransactionEvent.Transaction = some tx ∧
      ((TranslateTransaction sampleEnv
        [("type", Value.str "job"), ("http.method", Value.str "GET")]
        { Code := ptrace.StatusCode.Unset, Message := "" } { Name := "", Version := "" }
        sampleTransactionEvent).getD {}).Transaction = some tx' ∧
      tx'.Type_ =
        if explicitType tx.Type_ [("type", Value.str "job"), ("http.method", Value.str "GET")]
            ≠ "" then
          explicitType tx.Type_ [("type", Value.str "job"), ("http.method", Value.str "GET")]
        else if List.any [("type", Value.str "job"), ("http.method", Value.str "GET")]
            isTransactionMessagingAttribute then "messaging"
        else if List.any [("type", Value.str "job"), ("http.method", Value.str "GET")]
              (isTransactionHTTPAttribute sampleEnv) ||
            List.any [("type", Value.str "job"), ("http.method", Value.str "GET")]
              isTransactionRPCAttribute then "request"
        else "unknown") :=
  ⟨eq_some_getD _ _ (by decide),
    (TranslateTransaction_type sampleEnv
      [("type", Value.str "job"), ("http.method", Value.str "GET")]
      { Code := ptrace.StatusCode.Unset, Message := "" } { Name := "", Version := "" }
      sampleTransactionEvent _ (eq_some_getD _ _ (by decide))).1⟩

/-- C18: the outcome of the primary event of a span is `success` for the OTLP status OK and
`failure` for the status ERROR, whatever the attributes are.  For the status UNSET it is
`unknown` unless the attributes carry a positive HTTP status code `c`; then, for a
transaction, it is `failure` if `c ≥ 500` and `success` otherwise, and for a span it is
`failure` if `c ≥ 400` and `success` otherwise. -/
theorem primary_event_outcome (E : Env) (otelSpan : ptrace.Span)
    (otelLibrary : InstrumentationScope) (baseEvent : APMEvent) (timeDelta : Int)
    (primary : APMEvent)
    (h : convertSpanPrimary E otelSpan otelLibrary baseEvent timeDelta = some primary) :
    ∃ ev, primary.Event = some ev ∧
      (otelSpan.Status.Code = ptrace.StatusCode.Ok → ev.Outcome = "success") ∧
      (otelSpan.Status.Code = ptrace.StatusCode.Error → ev.Outcome = "failure") ∧
      (otelSpan.Status.Code = ptrace.StatusCode.Unset →
        (isTransactionSpan otelSpan = true →
          ev.Outcome =
            if transactionStatusCodeOf E otelSpan.Attributes > 0 then
              (if transactionStatusCodeOf E otelSpan.Attributes ≥ 500 then "failure"
               else "success")
            else "unknown") ∧
        (isTransactionSpan otelSpan = false →
          ev.Outcome =
            if spanStatusCodeOf otelSpan.Attributes > 0 then
              (if spanStatusCodeOf otelSpan.Attributes ≥ 400 then "failure" else "success")
            else "unknown")) := by
  obtain ⟨k1, k2⟩ := convertSpanPrimary_kind _ _ _ _ _ _ h
  cases hk : isTransactionSpan otelSpan with
  | true =>
    obtain ⟨⟨ev, hev, ho⟩, _⟩ := k1 hk
    refine ⟨ev, hev, ?_, ?_, ?_⟩
    · intro hs
      rw [ho]
      simp [spanStatusOutcome, hs, outcomeSuccess, outcomeUnknown]
    · intro hs
      rw [ho]
      simp [spanStatusOutcome, hs, outcomeFailure, outcomeUnknown]
    · intro hs
      refine ⟨fun _ => ?_, fun hf => Bool.noConfusion hf⟩
      rw [ho]
      simp [spanStatusOutcome, hs, outcomeUnknown, serverHTTPStatusCodeOutcome,
        outcomeFailure, outcomeSuccess]
  | false =>
    obtain ⟨⟨ev, hev, ho⟩, _⟩ := k2 hk
    refine ⟨ev, hev, ?_, ?_, ?_⟩
    · intro hs
      rw [ho]
      simp [spanStatusOutcome, hs, outcomeSuccess, outcomeUnknown]
    · intro hs
      rw [ho]
      simp [spanStatusOutcome, hs, outcomeFailure, outcomeUnknown]
    · intro hs
      refine ⟨fun hf => Bool.noConfusion hf, fun _ => ?_⟩
      rw [ho]
      simp [spanStatusOutcome, hs, outcomeUnknown, clientHTTPStatusCodeOutcome,
        outcomeFailure, outcomeSuccess]

/-- Witness for C18: a server span with the HTTP status code 503 and an unset status; the
outcome of its transaction is `failure`. -/
theorem primary_event_outcome_witness :
    convertSpanPrimary sampleEnv sampleServerSpan { Name := "", Version := "" }
        sampleBaseEvent 0 =
      some ((convertSpanPrimary sampleEnv sampleServerSpan { Name := "", Version := "" }
        sampleBaseEvent 0).getD {}) ∧
    ∃ ev, ((convertSpanPrimary sampleEnv sampleServerSpan { Name := "", Version := "" }
        sampleBaseEvent 0).getD {}).Event = some ev ∧
      (sampleServerSpan.Status.Code = ptrace.StatusCode.Ok → ev.Outcome = "success") ∧
      (sampleServerSpan.Status.Code = ptrace.StatusCode.Error → ev.Outcome = "failure") ∧
      (sampleServerSpan.Status.Code = ptrace.StatusCode.Unset →
        (isTransactionSpan sampleServerSpan = true →
          ev.Outcome =
            if transactionStatusCodeOf sampleEnv sampleServerSpan.Attributes > 0 then
              (if transactionStatusCodeOf sampleEnv sampleServerSpan.Attributes ≥ 500 then
                "failure"
               else "success")
            else "unknown") ∧
        (isTransactionSpan sampleServerSpan = false →
          ev.Outcome =
            if spanStatusCodeOf sampleServerSpan.Attributes > 0 then
              (if spanStatusCodeOf sampleServerSpan.Attributes ≥ 400 then "failure"
               else "success")
            else "unknown")) :=
  ⟨eq_some_getD _ _ (by decide),
    primary_event_outcome sampleEnv sampleServerSpan { Name := "", Version := "" }
      sampleBaseEvent 0 _ (eq_some_getD _ _ (by decide))⟩

/-- C19: for every integer status code `c`, `httpStatusCodeResult c` is `HTTP Dxx` with
`D = c / 100` when `100 ≤ c ≤ 599`, and `HTTP ` followed by the decimal rendering of `c` for
every other `c` (zero, negative codes and codes from 600 on included).  The table
`standardStatusCodeResults` is indexed only when `c / 100` (truncated toward zero) is one of
1, 2, 3, 4, 5, so the index `c / 100 - 1` lies within its five entries. -/
theorem httpStatusCodeResult_spec (c : Int) :
    (100 ≤ c ∧ c ≤ 599 →
      httpStatusCodeResult c = "HTTP " ++ toString (c / 100) ++ "xx" ∧
      0 ≤ Int.tdiv c 100 - 1 ∧
      (Int.tdiv c 100 - 1).toNat < standardStatusCodeResults.length ∧
      standardStatusCodeResults[(Int.tdiv c 100 - 1).toNat]? = some (httpStatusCodeResult c)) ∧
    (¬ (100 ≤ c ∧ c ≤ 599) → httpStatusCodeResult c = "HTTP " ++ toString c) ∧
    ((Int.tdiv c 100 = 1 ∨ Int.tdiv c 100 = 2 ∨ Int.tdiv c 100 = 3 ∨ Int.tdiv c 100 = 4 ∨
        Int.tdiv c 100 = 5) ↔ (100 ≤ c ∧ c ≤ 599)) ∧
    httpStatusCodeResult 0 = "HTTP 0" ∧ httpStatusCodeResult (-150) = "HTTP -150" ∧
    httpStatusCodeResult 600 = "HTTP 600" ∧ httpStatusCodeResult 404 = "HTTP 4xx" := by
  refine ⟨?_, ?_, tdiv_hundred_class c, by decide, by decide, by decide, by decide⟩
  · intro hc
    have hd : Int.tdiv c 100 = c / 100 := Int.tdiv_eq_ediv (by omega) (by decide)
    have hk : c / 100 = 1 ∨ c / 100 = 2 ∨ c / 100 = 3 ∨ c / 100 = 4 ∨ c / 100 = 5 := by omega
    unfold httpStatusCodeResult
    dsimp only
    rw [hd]
    rcases hk with hk | hk | hk | hk | hk <;> rw [hk, if_pos (by decide)] <;> decide
  · intro hc
    unfold httpStatusCodeResult
    dsimp only
    rw [if_neg (fun h => hc ((tdiv_hundred_class c).mp h))]
    rfl

/-- C20, the code: `getRepresentativeCountFromTracestateHeader` at the failing input
`ot=p:99x`, and on every tracestate.  The `p` value `99x` is not an unsigned decimal integer,
and the function returns `0`, not `1`: `strconv.ParseUint(pValue, 10, 6)` reports a range
error and returns 63 as soon as the digits read exceed 63, before it reaches the `x`, and the
error is ignored.  In general, with the `p` value that the function reads
(`tracestatePValue`): for a decimal integer `p` the result is `2^p` when `p ≤ 62` and `0`
when `p > 62`; it is `1` when the `p` value is empty (no `ot` entry, no `p` field or an empty
value); for a `p` value that is not an unsigned decimal integer it is `1` when the digits
before the first other character form a number of at most 63 (none included), and `0` when
they form a larger number.  The result is never negative, and the loop of
`getValueForKeyInString` has reached its `break` within the iterations that the model
allows. -/
theorem tracestate_p_value_count (tracestate : String) :
    (tracestatePValue "ot=p:99x" = "99x" ∧
      getRepresentativeCountFromTracestateHeader "ot=p:99x" = F64.finite 0 ∧
      getRepresentativeCountFromTracestateHeader "ot=p:99x" ≠ F64.finite 1 ∧
      getRepresentativeCountFromTracestateHeader "ot=p:x" = F64.finite 1 ∧
      getRepresentativeCountFromTracestateHeader "ot=p:3;r:5" = F64.finite 8 ∧
      getRepresentativeCountFromTracestateHeader "a=b,ot=p:63" = F64.finite 0 ∧
      getRepresentativeCountFromTracestateHeader "a=b" = F64.finite 1) ∧
    (∀ p, (tracestatePValue tracestate).data ≠ [] →
      (∀ c, c ∈ (tracestatePValue tracestate).data → isDigit c = true) →
      decimalFrom 0 (tracestatePValue tracestate).data = p →
      (p ≤ 62 → getRepresentativeCountFromTracestateHeader tracestate = F64.finite (2 ^ p)) ∧
      (62 < p → getRepresentativeCountFromTracestateHeader tracestate = F64.finite 0)) ∧
    (tracestatePValue tracestate = "" →
      getRepresentativeCountFromTracestateHeader tracestate = F64.finite 1) ∧
    (getValueForKeyInString tracestate "ot" ',' '=' = "" → tracestatePValue tracestate = "") ∧
    (∀ digits c rest, (tracestatePValue tracestate).data = digits ++ c :: rest →
      (∀ d, d ∈ digits → isDigit d = true) → isDigit c = false →
      (decimalFrom 0 digits ≤ 63 →
        getRepresentativeCountFromTracestateHeader tracestate = F64.finite 1) ∧
      (63 < decimalFrom 0 digits →
        getRepresentativeCountFromTracestateHeader tracestate = F64.finite 0)) ∧
    (∃ q : ℚ, getRepresentativeCountFromTracestateHeader tracestate = F64.finite q ∧ 0 ≤ q) ∧
    (∀ key separator assignChar fuel, tracestate.data.length < fuel →
      getValueForKeyLoop key separator assignChar fuel tracestate.data =
        getValueForKeyLoop key separator assignChar (tracestate.data.length + 1)
          tracestate.data) := by
  refine ⟨⟨by decide, by decide, by decide, by decide, by decide, by decide, by decide⟩,
    ?_, ?_, ?_, ?_, ?_, ?_⟩
  · intro p _ hd hp
    have hv := parseUintLoop_digits _ 0 (by omega) hd
    rw [hp] at hv
    constructor
    · intro h
      rw [if_neg (by omega)] at hv
      rw [representativeCount_eq, hv, if_neg (by omega)]
    · intro h
      have h2 : parseUintLoop 63 (tracestatePValue tracestate).data 0 > 62 := by
        rw [hv]
        split <;> omega
      rw [representativeCount_eq, if_pos h2]
  · intro h
    rw [representativeCount_eq, h]
    rfl
  · intro h
    unfold tracestatePValue
    rw [h, getValueForKeyInString_empty]
  · intro digits c rest hs hd hc
    have hv := parseUintLoop_stop digits c rest 0 (by omega) hd hc
    rw [← hs] at hv
    constructor
    · intro h
      rw [if_neg (by omega)] at hv
      rw [representativeCount_eq, hv, if_neg (by omega), pow_zero]
    · intro h
      rw [if_pos h] at hv
      rw [representativeCount_eq, hv, if_pos (by omega)]
  · rw [representativeCount_eq]
    split
    · exact ⟨0, rfl, le_refl 0⟩
    · exact ⟨2 ^ parseUintLoop 63 (tracestatePValue tracestate).data 0, rfl, by positivity⟩
  · intro key separator assignChar fuel hf
    exact getValueForKeyLoop_fuel key separator assignChar fuel _ tracestate.data hf
      (Nat.lt_succ_self _)

/-- C21, counterexample: a root span of a Jaeger agent with `sampler.type = "probabilistic"`
and `sampler.param = 2.0`, without tracestate.  The parameter is not in `(0, 1]`, so this is
one of the other cases of the claim; but the `RepresentativeCount` of the transaction is 1
(the count derived from the tracestate), not 0, and the event has no labels at all:
`parseSamplerAttributes` does nothing for a probabilistic sampler with a parameter out of
range.  For `sampler.type = "const"` with the integer parameter 1 the count is 0 and the only
label is `sampler_type`: a parameter that is neither a boolean nor a double is not kept. -/
theorem probabilistic_out_of_range_counterexample :
    (convertSpanPrimary sampleEnv (jaegerRootSpan "probabilistic" (Value.double (F64.finite 2)))
        { Name := "", Version := "" } jaegerBaseEvent 0).map
      (fun event =>
        (decide (primaryCount (jaegerRootSpan "probabilistic" (Value.double (F64.finite 2)))
            event = some (F64.finite 1)),
          event.Labels.isSome, event.NumericLabels.isSome)) = some (true, false, false) ∧
    (convertSpanPrimary sampleEnv (jaegerClientSpan "const" (Value.int 1))
        { Name := "", Version := "" } jaegerBaseEvent 0).map
      (fun event =>
        (decide (primaryCount (jaegerClientSpan "const" (Value.int 1)) event =
            some (F64.finite 0)),
          event.Labels.map (fun labels => labels.map (fun x => (x.1, x.2.Value))),
          event.NumericLabels.isSome)) =
      some (true, some [("sampler_type", "const")], false) := by
  constructor <;> decide

/-- C21, amended: let the base event name a Jaeger agent and let the span carry
`sampler.type` and `sampler.param` (the last entries with these keys).  The primary event that
`convertSpan` emits has the following `RepresentativeCount` in its transaction or span record.
If `sampler.type` is the string `probabilistic`: `1/q` when `sampler.param` is a double `q`
with `0 < q <= 1`, replacing the count derived from the tracestate; and the count derived
from the tracestate, unchanged, in every other case (a double out of the range, or a
parameter that is not a double), and the sampler adds no label.  If `sampler.type` is anything
else: the count is 0, the label `sampler_type` holds the type, and `sampler_param` is kept as
a label when the parameter is a boolean and as a numeric label when it is a double (a
parameter of another type is not kept).  The primary event is produced whenever the base
event has a service. -/
theorem jaeger_sampler_count (E : Env) (otelSpan : ptrace.Span)
    (otelLibrary : InstrumentationScope) (baseEvent : APMEvent) (timeDelta : Int)
    (out out' : Batch) (agent : Agent) (samplerType samplerParam : Value)
    (h : convertSpan E otelSpan otelLibrary baseEvent timeDelta out = some out')
    (ha : baseEvent.Agent = some agent) (hj : hasPrefix agent.Name "Jaeger" = true)
    (ht : lastAttr "sampler.type" none otelSpan.Attributes = some samplerType)
    (hp : lastAttr "sampler.param" none otelSpan.Attributes = some samplerParam) :
    (∃ primary events, out' = out ++ primary :: events ∧
      (samplerType.Str = "probabilistic" →
        primaryCount otelSpan primary =
          some (if samplerParam.Double.inUnitInterval then F64.inv samplerParam.Double
                else getRepresentativeCountFromTracestateHeader otelSpan.TraceState)) ∧
      (samplerType.Str ≠ "probabilistic" →
        primaryCount otelSpan primary = some (F64.finite 0) ∧
        ∃ labels, primary.Labels = some labels ∧
          mapGet? labels "sampler_type" = some { Value := samplerType.Str } ∧
          (∀ b, samplerParam = Value.bool b →
            mapGet? labels "sampler_param" = some { Value := formatBool b }) ∧
          (∀ d, samplerParam = Value.double d →
            ∃ numericLabels, primary.NumericLabels = some numericLabels ∧
              mapGet? numericLabels "sampler_param" = some { Value := d }))) ∧
    (∀ q : ℚ,
      ((Value.double (F64.finite q)).Double.inUnitInterval = true ↔ (0 < q ∧ q ≤ 1)) ∧
      (0 < q → F64.inv (Value.double (F64.finite q)).Double = F64.finite (1 / q))) ∧
    (∀ v : Value, (∀ d, v ≠ Value.double d) → v.Double.inUnitInterval = false) ∧
    (∀ (e e' : APMEvent),
      parseSamplerAttributes E samplerType (some samplerParam) e = some e' →
      samplerType.Str = "probabilistic" →
      e'.Labels = e.Labels ∧ e'.NumericLabels = e.NumericLabels) ∧
    (∀ (e e' : APMEvent),
      parseSamplerAttributes E samplerType (some samplerParam) e = some e' →
      samplerType.Str ≠ "probabilistic" →
      (∀ b, samplerParam ≠ Value.bool b) → (∀ d, samplerParam ≠ Value.double d) →
      e'.NumericLabels = e.NumericLabels ∧
      ∃ labels0, e.Labels = some labels0 ∧
        e'.Labels = some (mapSet labels0 "sampler_type" { Value := samplerType.Str })) ∧
    (∀ service, baseEvent.Service = some service →
      ∃ primary, convertSpanPrimary E otelSpan otelLibrary baseEvent timeDelta =
        some primary) := by
  refine ⟨?_, inUnitInterval_double, inUnitInterval_not_double, ?_, ?_, ?_⟩
  · obtain ⟨primary, _, events, hprim, _, hout, _⟩ := convertSpan_eq _ _ _ _ _ _ _ h
    exact ⟨primary, events, hout,
      convertSpanPrimary_sampling E otelSpan otelLibrary baseEvent timeDelta primary agent
        samplerType samplerParam hprim ha hj ht hp⟩
  · intro e e' hs hprob
    exact ((applySampler_counts E samplerType samplerParam e e' hs).1 hprob).2
  · intro e e' hs hother hb hd
    obtain ⟨_, labels, l1, _, _, _, l5⟩ :=
      (applySampler_counts E samplerType samplerParam e e' hs).2 hother
    obtain ⟨n1, labels0, n2, n3⟩ := l5 hb hd
    exact ⟨n1, labels0, n2, n3 ▸ l1⟩
  · intro service hs
    exact convertSpanPrimary_isSome_sampler E otelSpan otelLibrary baseEvent timeDelta agent
      service samplerType samplerParam ha hj hs ht hp

/-- Witness for C21: a root span of a Jaeger agent with `sampler.type = "probabilistic"` and
`sampler.param = 0.25`; the representative count is 4. -/
theorem jaeger_sampler_count_witness :
    convertSpan sampleEnv (jaegerRootSpan "probabilistic" (Value.double (F64.finite (mkRat 1 4))))
        { Name := "", Version := "" } jaegerBaseEvent 0 [] =
      some ((convertSpan sampleEnv
        (jaegerRootSpan "probabilistic" (Value.double (F64.finite (mkRat 1 4))))
        { Name := "", Version := "" } jaegerBaseEvent 0 []).getD []) ∧
    jaegerBaseEvent.Agent = some { Name := "Jaeger/Go" } ∧
    hasPrefix "Jaeger/Go" "Jaeger" = true ∧
    ∃ primary events,
      (convertSpan sampleEnv
        (jaegerRootSpan "probabilistic" (Value.double (F64.finite (mkRat 1 4))))
        { Name := "", Version := "" } jaegerBaseEvent 0 []).getD [] = [] ++ primary :: events ∧
      (Value.str "probabilistic").Str = "probabilistic" ∧
      primaryCount (jaegerRootSpan "probabilistic" (Value.double (F64.finite (mkRat 1 4))))
        primary = some (F64.finite 4) := by
  refine ⟨eq_some_getD _ _ (by decide), rfl, by decide, ?_⟩
  obtain ⟨⟨primary, events, hout, hprob, _⟩, hq, _⟩ :=
    jaeger_sampler_count sampleEnv
      (jaegerRootSpan "probabilistic" (Value.double (F64.finite (mkRat 1 4))))
      { Name := "", Version := "" } jaegerBaseEvent 0 [] _ { Name := "Jaeger/Go" }
      (Value.str "probabilistic") (Value.double (F64.finite (mkRat 1 4)))
      (eq_some_getD _ _ (by decide)) rfl (by decide) rfl rfl
  have hquarter : mkRat 1 4 = (1 / 4 : ℚ) := by
    rw [Rat.mkRat_eq_div]
    norm_num
  refine ⟨primary, events, hout, rfl, ?_⟩
  rw [hprob rfl, if_pos ((hq (mkRat 1 4)).1.mpr (by rw [hquarter]; norm_num)),
    (hq (mkRat 1 4)).2 (by rw [hquarter]; norm_num), hquarter]
  norm_num

/-- C22, counterexample: a root span (a transaction) and a client span of a Jaeger agent with
`sampler.type = "probabilistic"` and `sampler.param = 0.0`, without tracestate.  The
`RepresentativeCount` of the emitted transaction and of the emitted span is 1, the count
derived from the (absent) tracestate, and not 0. -/
theorem probability_zero_counterexample :
    (convertSpanPrimary sampleEnv (jaegerRootSpan "probabilistic" (Value.double (F64.finite 0)))
        { Name := "", Version := "" } jaegerBaseEvent 0).map
      (fun event =>
        (event.Processor,
          decide (event.counts.1 = some (F64.finite 1)),
          decide (event.counts.1 = some (F64.finite 0)))) =
      some (some Processor.transaction, true, false) ∧
    (convertSpanPrimary sampleEnv
        (jaegerClientSpan "probabilistic" (Value.double (F64.finite 0)))
        { Name := "", Version := "" } jaegerBaseEvent 0).map
      (fun event =>
        (event.Processor,
          decide (event.counts.2 = some (F64.finite 1)),
          decide (event.counts.2 = some (F64.finite 0)))) =
      some (some Processor.span, true, false) := by
  constructor <;> decide

/-- C22, amended: for a span or transaction of a Jaeger agent with
`sampler.type = "probabilistic"` and `sampler.param = 0.0` (the last entries with these
keys), the `RepresentativeCount` of the primary event that `convertSpan` emits is the count
derived from the tracestate of the span, unchanged by the sampler: 1 when the span has no
tracestate, and in general `2^p` for the `p` value of the tracestate.  The same holds for
every parameter that is not in `(0, 1]`.  The primary event is produced whenever the base
event has a service. -/
theorem jaeger_probability_zero_count (E : Env) (otelSpan : ptrace.Span)
    (otelLibrary : InstrumentationScope) (baseEvent : APMEvent) (timeDelta : Int)
    (out out' : Batch) (agent : Agent) (samplerType samplerParam : Value)
    (h : convertSpan E otelSpan otelLibrary baseEvent timeDelta out = some out')
    (ha : baseEvent.Agent = some agent) (hj : hasPrefix agent.Name "Jaeger" = true)
    (ht : lastAttr "sampler.type" none otelSpan.Attributes = some samplerType)
    (hp : lastAttr "sampler.param" none otelSpan.Attributes = some samplerParam)
    (hprob : samplerType.Str = "probabilistic")
    (hzero : samplerParam.Double.inUnitInterval = false) :
    (∃ primary events, out' = out ++ primary :: events ∧
      primaryCount otelSpan primary =
        some (getRepresentativeCountFromTracestateHeader otelSpan.TraceState) ∧
      (otelSpan.TraceState = "" → primaryCount otelSpan primary = some (F64.finite 1))) ∧
    (Value.double (F64.finite 0)).Double.inUnitInterval = false ∧
    (∀ service, baseEvent.Service = some service →
      ∃ primary, convertSpanPrimary E otelSpan otelLibrary baseEvent timeDelta =
        some primary) := by
  refine ⟨?_, by decide, ?_⟩
  · obtain ⟨primary, _, events, hprim, _, hout, _⟩ := convertSpan_eq _ _ _ _ _ _ _ h
    have hc := (convertSpanPrimary_sampling E otelSpan otelLibrary baseEvent timeDelta primary
      agent samplerType samplerParam hprim ha hj ht hp).1 hprob
    have hc' : primaryCount otelSpan primary =
        some (getRepresentativeCountFromTracestateHeader otelSpan.TraceState) := by
      rw [hc, hzero]
      rfl
    refine ⟨primary, events, hout, hc', ?_⟩
    intro hts
    rw [hc', hts]
    have h1 : getRepresentativeCountFromTracestateHeader "" = F64.finite (2 ^ 0) := by decide
    rw [h1, pow_zero]
  · intro service hs
    exact convertSpanPrimary_isSome_sampler E otelSpan otelLibrary baseEvent timeDelta agent
      service samplerType samplerParam ha hj hs ht hp

/-- Witness for C22: a client span of a Jaeger agent with `sampler.type = "probabilistic"`
and `sampler.param = 0.0`. -/
theorem jaeger_probability_zero_count_witness :
    convertSpan sampleEnv (jaegerClientSpan "probabilistic" (Value.double (F64.finite 0)))
        { Name := "", Version := "" } jaegerBaseEvent 0 [] =
      some ((convertSpan sampleEnv
        (jaegerClientSpan "probabilistic" (Value.double (F64.finite 0)))
        { Name := "", Version := "" } jaegerBaseEvent 0 []).getD []) ∧
    jaegerBaseEvent.Agent = some { Name := "Jaeger/Go" } ∧
    hasPrefix "Jaeger/Go" "Jaeger" = true ∧
    (Value.double (F64.finite 0)).Double.inUnitInterval = false ∧
    ∃ primary events,
      (convertSpan sampleEnv
        (jaegerClientSpan "probabilistic" (Value.double (F64.finite 0)))
        { Name := "", Version := "" } jaegerBaseEvent 0 []).getD [] = [] ++ primary :: events ∧
      primaryCount (jaegerClientSpan "probabilistic" (Value.double (F64.finite 0))) primary =
        some (getRepresentativeCountFromTracestateHeader
          (jaegerClientSpan "probabilistic" (Value.double (F64.finite 0))).TraceState) ∧
      ((jaegerClientSpan "probabilistic" (Value.double (F64.finite 0))).TraceState = "" →
        primaryCount (jaegerClientSpan "probabilistic" (Value.double (F64.finite 0))) primary =
          some (F64.finite 1)) :=
  ⟨eq_some_getD _ _ (by decide), rfl, by decide, by decide,
    (jaeger_probability_zero_count sampleEnv
      (jaegerClientSpan "probabilistic" (Value.double (F64.finite 0)))
      { Name := "", Version := "" } jaegerBaseEvent 0 [] _ { Name := "Jaeger/Go" }
      (Value.str "probabilistic") (Value.double (F64.finite 0))
      (eq_some_getD _ _ (by decide)) rfl (by decide) rfl rfl rfl (by decide)).1⟩

/-- C23, counterexample: a client span with `peer.service = "svc"`,
`peer.address = "10.1.2.3:5432"` and `db.instance = "orders"`.  `destination.service.name` is
`svc`, but `destination.service.resource` is the value of `peer.address` and
`service.target.name` is the value of `db.instance`. -/
theorem peer_service_overridden_counterexample :
    (TranslateSpan sampleEnv ptrace.SpanKind.Client peerServiceAttributes sampleSpanEvent).map
        (fun event =>
          ((event.Span.bind (fun span => span.DestinationService)).map
              (fun ds => (ds.Name, ds.Resource)),
            (event.Service.bind (fun service => service.Target)).map (fun st => st.Name))) =
      some (some ("svc", "10.1.2.3:5432"), some "orders") ∧
    peerServiceOf peerServiceAttributes = "svc" := by
  constructor <;> decide

/-- C23, amended: for every span with a non-empty `peer.service` attribute `p` (the last
string entry with the key, truncated to 1024 code points), `TranslateSpan` yields
`destination.service.name = p`, whatever the classification and the other attributes.
`destination.service.resource` is `peer.address` when that is not empty and `p` otherwise,
with `/` and the messaging destination appended for a messaging span that has one.
`service.target.name` is `db.name` (or `db.instance`) for a database span that has it, the
messaging destination for a messaging span that has one which is not temporary,
`rpc.service` for an RPC span that has it, the resource of the URL for an HTTP span with a
URL, and `p` in every other case.  So the resource is `p` when there is no `peer.address` and
no messaging destination, and the target name is `p` for a span without database, messaging,
RPC and HTTP attributes. -/
theorem peer_service_target (E : Env) (spanKind : ptrace.SpanKind)
    (attributes : Attributes) (event event' : APMEvent)
    (h : TranslateSpan E spanKind attributes event = some event')
    (hp : peerServiceOf attributes ≠ "") :
    (∃ span' ds service' st,
      event'.Span = some span' ∧ span'.DestinationService = some ds ∧
      event'.Service = some service' ∧ service'.Target = some st ∧
      ds.Name = peerServiceOf attributes ∧
      ds.Resource = peerServiceResource attributes ∧
      st.Name = peerServiceTargetName E attributes) ∧
    (peerAddressOf attributes = "" → queueNameOf attributes = "" →
      peerServiceResource attributes = peerServiceOf attributes) ∧
    (attributes.any isDatabaseAttribute = false → attributes.any isMessagingAttribute = false →
      attributes.any isRPCAttribute = false → attributes.any isHTTPAttribute = false →
      peerServiceTargetName E attributes = peerServiceOf attributes) ∧
    (∀ agent, event.Agent = some agent → hasPrefix agent.Name "Jaeger" = false →
      SpanReady event → ∃ e, TranslateSpan E spanKind attributes event = some e) := by
  refine ⟨TranslateSpan_peerService E spanKind attributes event event' h hp, ?_, ?_, ?_⟩
  · intro ha hq
    unfold peerServiceResource peerResource
    rw [ha, hq]
    simp
  · intro h1 h2 h3 h4
    unfold peerServiceTargetName
    rw [h1, h2, h3, h4]
    rfl
  · intro agent ha hj hr
    exact TranslateSpan_isSome E spanKind attributes event agent ha hj hr

/-- Witness for C23: the database span with `peer.service`, `peer.address` and
`db.instance`. -/
theorem peer_service_target_witness :
    TranslateSpan sampleEnv ptrace.SpanKind.Client peerServiceAttributes sampleSpanEvent =
      some ((TranslateSpan sampleEnv ptrace.SpanKind.Client peerServiceAttributes
        sampleSpanEvent).getD {}) ∧
    peerServiceOf peerServiceAttributes ≠ "" ∧
    ∃ span' ds service' st,
      ((TranslateSpan sampleEnv ptrace.SpanKind.Client peerServiceAttributes
        sampleSpanEvent).getD {}).Span = some span' ∧
      span'.DestinationService = some ds ∧
      ((TranslateSpan sampleEnv ptrace.SpanKind.Client peerServiceAttributes
        sampleSpanEvent).getD {}).Service = some service' ∧
      service'.Target = some st ∧
      ds.Name = peerServiceOf peerServiceAttributes ∧
      ds.Resource = peerServiceResource peerServiceAttributes ∧
      st.Name = peerServiceTargetName sampleEnv peerServiceAttributes :=
  ⟨eq_some_getD _ _ (by decide), by decide,
    (peer_service_target sampleEnv ptrace.SpanKind.Client peerServiceAttributes
      sampleSpanEvent _ (eq_some_getD _ _ (by decide)) (by decide)).1⟩

/-- C24, counterexample: a client span with `net.peer.ip = "10.0.0.1"`,
`peer.address = "dbhost"` and `net.peer.port = 5432`, without `net.peer.name` and without
HTTP attributes.  The destination address is `dbhost`, the value of `peer.address`, and not
the value `10.0.0.1` of `net.peer.ip`: `peer.address` comes before `net.peer.ip` in the
fallback. -/
theorem peer_address_before_ip_counterexample :
    (TranslateSpan sampleEnv ptrace.SpanKind.Client peerFallbackAttributes sampleSpanEvent).map
        (fun event => event.Destination) =
      some (some { Address := "dbhost", Port := 5432 }) ∧
    netPeerNameOf peerFallbackAttributes = "" ∧
    netPeerIPOf peerFallbackAttributes = "10.0.0.1" ∧
    httpURLOf peerFallbackAttributes = "" ∧ httpTargetOf peerFallbackAttributes = "" := by
  refine ⟨?_, ?_, ?_, ?_, ?_⟩ <;> decide

/-- C24, amended: `TranslateSpan` sets `Destination` to the destination address and port of
the span when the address is not empty, and leaves it as it was otherwise; so the primary
event that `convertSpan` emits for a span that does not become a transaction has this
destination, or that of the base event.  For a span without `http.url` and `http.target` the
address is the first that is not empty of: `net.peer.name`; `peer.address`, provided it
contains no colon or parses as an IP address; `net.peer.ip` (so `peer.address` comes before
`net.peer.ip`); and the port is the `uint32` of the integer attribute `net.peer.port`, which
is the attribute itself when it is between `0` and `2^32 - 1`.  `TranslateSpan` returns for
every event of a non-Jaeger agent that has initialized labels, the span record, the service
and the `Event` record. -/
theorem destination_address_fallback (E : Env) (spanKind : ptrace.SpanKind)
    (attributes : Attributes) (event event' : APMEvent)
    (h : TranslateSpan E spanKind attributes event = some event') :
    event'.Destination =
      (if spanDestAddrOf E attributes ≠ "" then
        some { Address := spanDestAddrOf E attributes,
               Port := uint32OfInt (spanDestPortOf E attributes) }
       else event.Destination) ∧
    (∀ otelSpan otelLibrary baseEvent timeDelta out out',
      isTransactionSpan otelSpan = false →
      convertSpan E otelSpan otelLibrary baseEvent timeDelta out = some out' →
      ∃ primary events, out' = out ++ primary :: events ∧
        primary.Destination =
          (if spanDestAddrOf E otelSpan.Attributes ≠ "" then
            some { Address := spanDestAddrOf E otelSpan.Attributes,
                   Port := uint32OfInt (spanDestPortOf E otelSpan.Attributes) }
           else baseEvent.Destination)) ∧
    (httpURLOf attributes = "" → httpTargetOf attributes = "" →
      spanDestAddrOf E attributes = peerDestinationAddress E attributes ∧
      spanDestPortOf E attributes = netPeerPortOf attributes) ∧
    (netPeerNameOf attributes ≠ "" →
      peerDestinationAddress E attributes = netPeerNameOf attributes) ∧
    (netPeerNameOf attributes = "" → peerAddressOf attributes ≠ "" →
      ((peerAddressOf attributes).data.contains ':' = false ∨
        E.parseIP (peerAddressOf attributes) = true) →
      peerDestinationAddress E attributes = peerAddressOf attributes) ∧
    (netPeerNameOf attributes = "" →
      (peerAddressOf attributes = "" ∨
        ((peerAddressOf attributes).data.contains ':' = true ∧
          E.parseIP (peerAddressOf attributes) = false)) →
      peerDestinationAddress E attributes = netPeerIPOf attributes) ∧
    (∀ i : Int, 0 ≤ i → i < 2 ^ 32 → uint32OfInt i = i.toNat) ∧
    (∀ agent, event.Agent = some agent → hasPrefix agent.Name "Jaeger" = false →
      SpanReady event → ∃ e, TranslateSpan E spanKind attributes event = some e) := by
  refine ⟨TranslateSpan_destination E spanKind attributes event event' h, ?_, ?_, ?_, ?_, ?_,
    ?_, ?_⟩
  · intro otelSpan otelLibrary baseEvent timeDelta out out' hk hc
    obtain ⟨primary, _, events, hprim, _, hout, _⟩ := convertSpan_eq _ _ _ _ _ _ _ hc
    obtain ⟨e1, h1, ht⟩ := convertSpanPrimary_span_target _ _ _ _ _ _ hprim hk
    refine ⟨primary, events, hout, ?_⟩
    have hd : primary.Destination = e1.Destination := congrArg EventTarget.Destination ht
    rw [hd, TranslateSpan_destination E _ _ _ e1 h1]
    rfl
  · intro hu ht
    unfold spanDestAddrOf spanDestPortOf spanURLOf
    rw [hu, ht]
    exact ⟨rfl, rfl⟩
  · intro hn
    unfold peerDestinationAddress
    rw [if_pos hn]
  · intro hn ha hc
    unfold peerDestinationAddress
    rw [if_neg (fun hc => hc hn), if_pos ⟨ha, hc⟩]
  · intro hn hc
    unfold peerDestinationAddress
    rw [if_neg (fun hc => hc hn), if_neg]
    rintro ⟨ha, hor⟩
    rcases hc with hc | ⟨hc1, hc2⟩
    · exact ha hc
    · rcases hor with hor | hor
      · rw [hc1] at hor
        cases hor
      · rw [hc2] at hor
        cases hor
  · intro i h0 h1
    unfold uint32OfInt
    rw [Int.emod_eq_of_lt h0 h1]
  · intro agent ha hj hr
    exact TranslateSpan_isSome E spanKind attributes event agent ha hj hr

/-- Witness for C24: the client span with `net.peer.ip`, `peer.address` and
`net.peer.port`. -/
theorem destination_address_fallback_witness :
    TranslateSpan sampleEnv ptrace.SpanKind.Client peerFallbackAttributes sampleSpanEvent =
      some ((TranslateSpan sampleEnv ptrace.SpanKind.Client peerFallbackAttributes
        sampleSpanEvent).getD {}) ∧
    ((TranslateSpan sampleEnv ptrace.SpanKind.Client peerFallbackAttributes
        sampleSpanEvent).getD {}).Destination =
      (if spanDestAddrOf sampleEnv peerFallbackAttributes ≠ "" then
        some { Address := spanDestAddrOf sampleEnv peerFallbackAttributes,
               Port := uint32OfInt (spanDestPortOf sampleEnv peerFallbackAttributes) }
       else sampleSpanEvent.Destination) :=
  ⟨eq_some_getD _ _ (by decide),
    (destination_address_fallback sampleEnv ptrace.SpanKind.Client peerFallbackAttributes
      sampleSpanEvent _ (eq_some_getD _ _ (by decide))).1⟩

/-- C25, the code at the failing input and in general.  The failing input is a client span
with `http.url = "http://h:0/x"` and `net.peer.port = 80`, run with the model `urlEnv` of
`net/url`: the URL has the explicit port `0`, which is not the default port of `http`, and
yet `destination.service.name` is `http://h` without the port, not `http://h:0`
(`destination.service.resource` is `h:0`).  The port of the URL is not positive, so the
destination port stays the `net.peer.port` 80, which is the default port of the scheme, and
the code removes the port from the name.  (With the port 8080 in the place of 0 the name is
`http://h:8080` and the resource `h:8080`.)  In general, for a span that is classified as
HTTP (it has an HTTP attribute and no database, messaging or RPC attribute), has no
`peer.service` and has the full URL `u`, `TranslateSpan` sets the destination service of
the span to the type `external` with the name and the resource of `httpDestinationService`
for the destination port of the span (unless both are empty); the primary event that
`convertSpan` emits for such a span that does not become a transaction has this destination
service.  With `s` the scheme, `host` the host of `u` as written (with its port, if any),
`hostname` the host without the port and `n` the number of the port: if `u` has no port and
`s` has a default port (80 for `http`, 443 for `https`), the name is the URL `s://host` and
the resource `host:default`; if `u` has a port and `n` is the default port of `s`, the name
is `s://hostname` and the resource `host`; if `u` has a port and `n` is positive and not the
default port, the name is `s://host` and the resource `host`; if `u` has a port and `n` is
not positive, the destination port is `net.peer.port`, and the name is `s://hostname` when
that is the default port of `s` and `s://host` otherwise, with the resource `host`.  On the
URLs `http://h/x`, `https://h:443/x` and `http://h:8080/x` the model `urlEnv` gives
`http://h` with `h:80`, `https://h` with `h:443`, and `http://h:8080` with `h:8080`. -/
theorem http_destination_service (E : Env) (spanKind : ptrace.SpanKind)
    (attributes : Attributes) (event event' : APMEvent) (u : GoURL)
    (h : TranslateSpan E spanKind attributes event = some event')
    (hdb : attributes.any isDatabaseAttribute = false)
    (hmsg : attributes.any isMessagingAttribute = false)
    (hrpc : attributes.any isRPCAttribute = false)
    (hhttp : attributes.any isHTTPAttribute = true)
    (hps : peerServiceOf attributes = "")
    (hu : spanURLOf E attributes = some u) :
    ((TranslateSpan urlEnv ptrace.SpanKind.Client portZeroAttributes sampleSpanEvent).map
        APMEvent.destinationService = some (some ("http://h", "h:0")) ∧
      (urlEnv.urlParse "http://h:0/x").map
          (fun u => (u.Scheme, u.Host, urlEnv.urlPort u, urlEnv.urlHostname u)) =
        some ("http", "h:0", "0", "h") ∧
      portZeroAttributes.any isDatabaseAttribute = false ∧
      portZeroAttributes.any isMessagingAttribute = false ∧
      portZeroAttributes.any isRPCAttribute = false ∧
      portZeroAttributes.any isHTTPAttribute = true ∧
      peerServiceOf portZeroAttributes = "" ∧
      netPeerPortOf portZeroAttributes = 80 ∧
      (TranslateSpan urlEnv ptrace.SpanKind.Client
          [("http.url", Value.str "http://h:8080/x"), ("net.peer.port", Value.int 80)]
          sampleSpanEvent).map APMEvent.destinationService =
        some (some ("http://h:8080", "h:8080"))) ∧
    (∃ span, event.Span = some span ∧
      event'.Span.map (fun span => span.DestinationService) =
        some (if (httpDestinationService E u (spanDestPortOf E attributes)).1 = "" ∧
            (httpDestinationService E u (spanDestPortOf E attributes)).2 = "" then
          span.DestinationService
        else
          some { Type_ := "external",
                 Name := (httpDestinationService E u (spanDestPortOf E attributes)).1,
                 Resource := (httpDestinationService E u (spanDestPortOf E attributes)).2 })) ∧
    (∀ otelSpan otelLibrary baseEvent timeDelta out out',
      otelSpan.Attributes = attributes → isTransactionSpan otelSpan = false →
      convertSpan E otelSpan otelLibrary baseEvent timeDelta out = some out' →
      ∃ primary events, out' = out ++ primary :: events ∧
        primary.Span.map (fun span => span.DestinationService) =
          some (if (httpDestinationService E u (spanDestPortOf E attributes)).1 = "" ∧
              (httpDestinationService E u (spanDestPortOf E attributes)).2 = "" then
            none
          else
            some { Type_ := "external",
                   Name := (httpDestinationService E u (spanDestPortOf E attributes)).1,
                   Resource := (httpDestinationService E u (spanDestPortOf E attributes)).2 })) ∧
    (httpURLOf attributes ≠ "" → E.urlParse (httpURLOf attributes) = some u) ∧
    (E.urlPort u = "" → 0 < schemeDefaultPort u.Scheme →
      httpDestinationService E u (spanDestPortOf E attributes) =
        (E.urlString { Scheme := u.Scheme, Host := u.Host },
          u.Host ++ ":" ++ itoa (schemeDefaultPort u.Scheme))) ∧
    (E.urlPort u ≠ "" → (E.atoi (E.urlPort u)).1 = schemeDefaultPort u.Scheme →
      0 < schemeDefaultPort u.Scheme →
      httpDestinationService E u (spanDestPortOf E attributes) =
        (E.urlString { Scheme := u.Scheme, Host := truncate (E.urlHostname u) }, u.Host)) ∧
    (E.urlPort u ≠ "" → 0 < (E.atoi (E.urlPort u)).1 →
      (E.atoi (E.urlPort u)).1 ≠ schemeDefaultPort u.Scheme →
      httpDestinationService E u (spanDestPortOf E attributes) =
        (E.urlString { Scheme := u.Scheme, Host := u.Host }, u.Host)) ∧
    (E.urlPort u ≠ "" → (E.atoi (E.urlPort u)).1 ≤ 0 →
      httpDestinationService E u (spanDestPortOf E attributes) =
        (if netPeerPortOf attributes = schemeDefaultPort u.Scheme then
          E.urlString { Scheme := u.Scheme, Host := truncate (E.urlHostname u) }
         else E.urlString { Scheme := u.Scheme, Host := u.Host }, u.Host)) ∧
    (schemeDefaultPort "http" = 80 ∧ schemeDefaultPort "https" = 443) ∧
    ((TranslateSpan urlEnv ptrace.SpanKind.Client (httpURLAttributes "http://h/x")
        sampleSpanEvent).map APMEvent.destinationService = some (some ("http://h", "h:80")) ∧
      (TranslateSpan urlEnv ptrace.SpanKind.Client (httpURLAttributes "https://h:443/x")
        sampleSpanEvent).map APMEvent.destinationService = some (some ("https://h", "h:443")) ∧
      (TranslateSpan urlEnv ptrace.SpanKind.Client (httpURLAttributes "http://h:8080/x")
        sampleSpanEvent).map APMEvent.destinationService =
          some (some ("http://h:8080", "h:8080"))) ∧
    (∀ agent, event.Agent = some agent → hasPrefix agent.Name "Jaeger" = false →
      SpanReady event → ∃ e, TranslateSpan E spanKind attributes event = some e) := by
  have hport : spanDestPortOf E attributes =
      if urlPortNumber E u > 0 then urlPortNumber E u else netPeerPortOf attributes := by
    unfold spanDestPortOf
    rw [hu]
  refine ⟨⟨by decide, by decide, by decide, by decide, by decide, by decide, by decide,
      by decide, by decide⟩,
    TranslateSpan_http E spanKind attributes event event' u h hdb hmsg hrpc hhttp hps hu,
    ?_, ?_, ?_, ?_, ?_, ?_, ⟨rfl, rfl⟩, ⟨by decide, by decide, by decide⟩, ?_⟩
  · intro otelSpan otelLibrary baseEvent timeDelta out out' hattr hk hc
    obtain ⟨primary, _, events, hprim, _, hout, _⟩ := convertSpan_eq _ _ _ _ _ _ _ hc
    obtain ⟨e1, h1, ht⟩ := convertSpanPrimary_span_target _ _ _ _ _ _ hprim hk
    rw [hattr] at h1
    obtain ⟨span, s1, s2⟩ := TranslateSpan_http E _ attributes _ e1 u h1 hdb hmsg hrpc hhttp hps hu
    have t1 : primary.Span.map (fun span => span.DestinationService) =
        e1.Span.map (fun span => span.DestinationService) :=
      congrArg EventTarget.DestinationService ht
    have hspan : span.DestinationService = none := by
      have hs : (spanInputEvent otelSpan baseEvent timeDelta).Span =
          some { Id := hexSpanID otelSpan.SpanID, Name := otelSpan.Name,
                 RepresentativeCount :=
                   getRepresentativeCountFromTracestateHeader otelSpan.TraceState } := rfl
      rw [hs] at s1
      cases s1
      rfl
    refine ⟨primary, events, hout, ?_⟩
    rw [t1, s2, hspan]
  · intro hne
    unfold spanURLOf at hu
    rw [if_pos hne] at hu
    exact hu
  · intro hp hd
    have hn : urlPortNumber E u = schemeDefaultPort u.Scheme := by
      unfold urlPortNumber
      rw [hp]
      rfl
    rw [hport, hn, if_pos hd]
    unfold httpDestinationService
    rw [if_pos rfl, if_neg (fun hc => hc hp)]
  · intro hp hn hd
    have hn' : urlPortNumber E u = schemeDefaultPort u.Scheme := by
      unfold urlPortNumber
      rw [if_pos hp, hn]
    rw [hport, hn', if_pos hd]
    unfold httpDestinationService
    rw [if_pos rfl, if_pos hp]
  · intro hp hpos hne
    have hn' : urlPortNumber E u = (E.atoi (E.urlPort u)).1 := by
      unfold urlPortNumber
      rw [if_pos hp]
    rw [hport, hn', if_pos hpos]
    unfold httpDestinationService
    rw [if_neg hne]
  · intro hp hle
    have hn' : urlPortNumber E u = (E.atoi (E.urlPort u)).1 := by
      unfold urlPortNumber
      rw [if_pos hp]
    rw [hport, hn', if_neg (not_lt.mpr hle)]
    unfold httpDestinationService
    by_cases hd : netPeerPortOf attributes = schemeDefaultPort u.Scheme
    · rw [if_pos hd, if_pos hp, if_pos hd]
    · rw [if_neg hd, if_neg hd]
  · intro agent ha hj hr
    exact TranslateSpan_isSome E spanKind attributes event agent ha hj hr

/-- Witness for C25: a client span with `http.url = "http://h:8080/x"`, run with the model
`urlEnv`. -/
theorem http_destination_service_witness :
    TranslateSpan urlEnv ptrace.SpanKind.Client (httpURLAttributes "http://h:8080/x")
        sampleSpanEvent =
      some ((TranslateSpan urlEnv ptrace.SpanKind.Client (httpURLAttributes "http://h:8080/x")
        sampleSpanEvent).getD {}) ∧
    spanURLOf urlEnv (httpURLAttributes "http://h:8080/x") =
      some { Scheme := "http", Host := "h:8080", Rest := "/x" } ∧
    (httpURLAttributes "http://h:8080/x").any isHTTPAttribute = true ∧
    ∃ span, sampleSpanEvent.Span = some span ∧
      ((TranslateSpan urlEnv ptrace.SpanKind.Client (httpURLAttributes "http://h:8080/x")
        sampleSpanEvent).getD {}).Span.map (fun span => span.DestinationService) =
        some (if (httpDestinationService urlEnv
              { Scheme := "http", Host := "h:8080", Rest := "/x" }
              (spanDestPortOf urlEnv (httpURLAttributes "http://h:8080/x"))).1 = "" ∧
            (httpDestinationService urlEnv
              { Scheme := "http", Host := "h:8080", Rest := "/x" }
              (spanDestPortOf urlEnv (httpURLAttributes "http://h:8080/x"))).2 = "" then
          span.DestinationService
        else
          some { Type_ := "external",
                 Name := (httpDestinationService urlEnv
                   { Scheme := "http", Host := "h:8080", Rest := "/x" }
                   (spanDestPortOf urlEnv (httpURLAttributes "http://h:8080/x"))).1,
                 Resource := (httpDestinationService urlEnv
                   { Scheme := "http", Host := "h:8080", Rest := "/x" }
                   (spanDestPortOf urlEnv (httpURLAttributes "http://h:8080/x"))).2 }) :=
  ⟨eq_some_getD _ _ (by decide), by decide, by decide,
    (http_destination_service urlEnv ptrace.SpanKind.Client
      (httpURLAttributes "http://h:8080/x") sampleSpanEvent _
      { Scheme := "http", Host := "h:8080", Rest := "/x" }
      (eq_some_getD _ _ (by decide)) (by decide) (by decide) (by decide) (by decide)
      (by decide) (by decide)).2.1⟩

/-- C26: for a span without database attributes and without `peer.service` that carries the
messaging system `s` and the messaging destination `q`, both not empty (the last string
entries with the keys `messaging.system` and `messaging.destination` or
`message_bus.destination`, truncated to 1024 code points; such a span is classified as a
messaging span), `TranslateSpan` yields `service.target.type = s`,
`destination.service.name = s`, `destination.service.resource = s/q`, and
`service.target.name = q` unless the boolean attribute `messaging.temp_destination` is true,
in which case `service.target.name` is empty.  This holds with and without `peer.address`,
and the primary event that `convertSpan` emits for such a span that does not become a
transaction has this destination service and this service target.
An entry that is the last one with its key and has at most 1024 code points gives the
attribute its value unchanged, and `TranslateSpan` returns for every event of a non-Jaeger
agent that has initialized labels, the span record, the service and the `Event` record. -/
theorem messaging_span_target (E : Env) (spanKind : ptrace.SpanKind)
    (attributes : Attributes) (event event' : APMEvent)
    (h : TranslateSpan E spanKind attributes event = some event')
    (hdb : attributes.any isDatabaseAttribute = false)
    (hps : peerServiceOf attributes = "")
    (hs : messageSystemOf attributes ≠ "") (hq : queueNameOf attributes ≠ "") :
    (∃ span' service',
      event'.Span = some span' ∧
      span'.Type_ = "messaging" ∧
      span'.DestinationService =
        some { Type_ := "messaging", Name := messageSystemOf attributes,
               Resource := messageSystemOf attributes ++ "/" ++ queueNameOf attributes } ∧
      event'.Service = some service' ∧
      service'.Target =
        some { Type_ := messageSystemOf attributes,
               Name := if tempDestinationOf attributes then "" else queueNameOf attributes }) ∧
    (∀ otelSpan otelLibrary baseEvent timeDelta out out',
      otelSpan.Attributes = attributes → isTransactionSpan otelSpan = false →
      convertSpan E otelSpan otelLibrary baseEvent timeDelta out = some out' →
      ∃ primary events, out' = out ++ primary :: events ∧
        primary.Span.map (fun span => span.DestinationService) =
          some (some { Type_ := "messaging", Name := messageSystemOf attributes,
                       Resource :=
                         messageSystemOf attributes ++ "/" ++ queueNameOf attributes }) ∧
        primary.Service.map (fun service => service.Target) =
          some (some { Type_ := messageSystemOf attributes,
                       Name := if tempDestinationOf attributes then ""
                               else queueNameOf attributes })) ∧
    (∀ before after s, attributes = before ++ ("messaging.system", Value.str s) :: after →
      (∀ kv, kv ∈ after → ¬ (kv.1 ∈ ["messaging.system"] ∧ ∃ s', kv.2 = Value.str s')) →
      s.length ≤ 1024 → messageSystemOf attributes = s) ∧
    (∀ before after q, attributes = before ++ ("messaging.destination", Value.str q) :: after →
      (∀ kv, kv ∈ after →
        ¬ (kv.1 ∈ ["message_bus.destination", "messaging.destination"] ∧
          ∃ s', kv.2 = Value.str s')) →
      q.length ≤ 1024 → queueNameOf attributes = q) ∧
    (∀ before after b,
      attributes = before ++ ("messaging.temp_destination", Value.bool b) :: after →
      (∀ kv, kv ∈ after →
        ¬ (kv.1 = "messaging.temp_destination" ∧ ∃ b', kv.2 = Value.bool b')) →
      tempDestinationOf attributes = b) ∧
    (∀ agent, event.Agent = some agent → hasPrefix agent.Name "Jaeger" = false →
      SpanReady event → ∃ e, TranslateSpan E spanKind attributes event = some e) := by
  refine ⟨?_, ?_, ?_, ?_, ?_, ?_⟩
  · obtain ⟨span', service', s1, s2, s3, s4⟩ :=
      TranslateSpan_messaging E spanKind attributes event event' h hdb hps hs hq
    obtain ⟨span, span'', g1, g2, g3, _⟩ := TranslateSpan_kind E spanKind attributes event event' h
    rw [s1] at g2
    cases g2
    unfold SpanClassified at g3
    rw [hdb, messageSystem_isMessaging attributes hs] at g3
    exact ⟨span', service', s1, g3, s2, s3, s4⟩
  · intro otelSpan otelLibrary baseEvent timeDelta out out' hattr hk hc
    obtain ⟨primary, _, events, hprim, _, hout, _⟩ := convertSpan_eq _ _ _ _ _ _ _ hc
    obtain ⟨e1, h1, ht⟩ := convertSpanPrimary_span_target _ _ _ _ _ _ hprim hk
    rw [hattr] at h1
    obtain ⟨span', service', s1, s2, s3, s4⟩ :=
      TranslateSpan_messaging E _ attributes _ e1 h1 hdb hps hs hq
    have t1 : primary.Span.map (fun span => span.DestinationService) =
        e1.Span.map (fun span => span.DestinationService) :=
      congrArg EventTarget.DestinationService ht
    have t2 : primary.Service.map (fun service => service.Target) =
        e1.Service.map (fun service => service.Target) :=
      congrArg EventTarget.ServiceTarget ht
    refine ⟨primary, events, hout, ?_, ?_⟩
    · rw [t1, s1, Option.map_some', s2]
    · rw [t2, s3, Option.map_some', s4]
  · intro before after s ha hafter hlen
    rw [ha]
    unfold messageSystemOf
    rw [strAttr_last _ _ _ _ _ _ (by simp) hafter]
    exact truncate_of_length_le s hlen
  · intro before after q ha hafter hlen
    rw [ha]
    unfold queueNameOf
    rw [strAttr_last _ _ _ _ _ _ (by simp) hafter]
    exact truncate_of_length_le q hlen
  · intro before after b ha hafter
    rw [ha]
    exact boolAttr_last _ _ _ _ _ hafter
  · intro agent ha hj hr
    exact TranslateSpan_isSome E spanKind attributes event agent ha hj hr

/-- Witness for C26: a producer span with `messaging.system = "kafka"` and
`messaging.destination = "orders"`. -/
theorem messaging_span_target_witness :
    TranslateSpan sampleEnv ptrace.SpanKind.Producer messagingAttributes sampleSpanEvent =
      some ((TranslateSpan sampleEnv ptrace.SpanKind.Producer messagingAttributes
        sampleSpanEvent).getD {}) ∧
    messagingAttributes.any isDatabaseAttribute = false ∧
    peerServiceOf messagingAttributes = "" ∧
    messageSystemOf messagingAttributes = "kafka" ∧
    queueNameOf messagingAttributes = "orders" ∧
    ∃ span' service',
      ((TranslateSpan sampleEnv ptrace.SpanKind.Producer messagingAttributes
        sampleSpanEvent).getD {}).Span = some span' ∧
      span'.Type_ = "messaging" ∧
      span'.DestinationService =
        some { Type_ := "messaging", Name := messageSystemOf messagingAttributes,
               Resource :=
                 messageSystemOf messagingAttributes ++ "/" ++
                   queueNameOf messagingAttributes } ∧
      ((TranslateSpan sampleEnv ptrace.SpanKind.Producer messagingAttributes
        sampleSpanEvent).getD {}).Service = some service' ∧
      service'.Target =
        some { Type_ := messageSystemOf messagingAttributes,
               Name := if tempDestinationOf messagingAttributes then ""
                       else queueNameOf messagingAttributes } :=
  ⟨eq_some_getD _ _ (by decide), by decide, by decide, by decide, by decide,
    (messaging_span_target sampleEnv ptrace.SpanKind.Producer messagingAttributes
      sampleSpanEvent _ (eq_some_getD _ _ (by decide)) (by decide) (by decide) (by decide)
      (by decide)).1⟩

/-- C27: `truncate(s) = s` for every string of at most 1024 runes, in particular of exactly
1024 runes; for a string of more than 1024 runes, `truncate(s)` is the prefix of `s` made of
its first 1024 runes.  Runes are counted and not bytes: a string of 1024 two-byte characters
(2048 bytes) is returned as it is, and a string of 1025 of them is cut to its first 1024
characters.  `truncate` is idempotent. -/
theorem truncate_spec (s : String) :
    (s.length ≤ 1024 → truncate s = s) ∧
    (s.length = 1024 → truncate s = s) ∧
    (1024 < s.length →
      truncate s = String.mk (s.data.take 1024) ∧ (truncate s).length = 1024 ∧
      (truncate s).data <+: s.data) ∧
    (truncate s).length = min s.length 1024 ∧
    truncate (truncate s) = truncate s ∧
    ((accents 1024).utf8ByteSize = 2048 ∧ truncate (accents 1024) = accents 1024) ∧
    truncate (accents 1025) = accents 1024 := by
  have hlen : (truncate s).length = min s.length 1024 := by
    rw [truncate_eq_take]
    show (s.data.take keywordLength).length = _
    rw [List.length_take, Nat.min_comm]
    rfl
  refine ⟨truncate_of_length_le s, fun h => truncate_of_length_le s (Nat.le_of_eq h), ?_, hlen,
    ?_, ⟨?_, ?_⟩, ?_⟩
  · intro h
    refine ⟨truncate_eq_take s, ?_, ?_⟩
    · rw [hlen]
      omega
    · rw [truncate_eq_take]
      exact List.take_prefix _ _
  · apply truncate_of_length_le
    rw [hlen]
    exact Nat.min_le_right _ _
  · unfold accents
    rw [utf8ByteSize_replicate]
    rfl
  · apply truncate_of_length_le
    show (List.replicate 1024 'é').length ≤ keywordLength
    rw [List.length_replicate]
    exact Nat.le_refl _
  · rw [truncate_eq_take]
    unfold accents
    show String.mk (List.take 1024 (List.replicate 1025 'é')) = _
    rw [List.take_replicate]
    rfl

/-- C28, counterexample: a root span and a client span whose name has 1025 code points.  The
transaction and the span that are emitted carry the name with all its 1025 code points, not
the name truncated to 1024 code points: `convertSpan` stores `otelSpan.Name()` as it is. -/
theorem long_name_kept_counterexample :
    (∃ primary tx,
      convertSpanPrimary sampleEnv longNameSpan { Name := "", Version := "" } sampleBaseEvent 0 =
        some primary ∧
      primary.Transaction = some tx ∧ tx.Name.length = 1025 ∧
      tx.Name ≠ truncate longNameSpan.Name) ∧
    (∃ primary span,
      convertSpanPrimary sampleEnv longNameClientSpan { Name := "", Version := "" }
        sampleBaseEvent 0 = some primary ∧
      primary.Span = some span ∧ span.Name.length = 1025 ∧
      span.Name ≠ truncate longNameClientSpan.Name) ∧
    (truncate longNameSpan.Name).length = 1024 := by
  have hlen : longNameSpan.Name.length = 1025 := by
    show (List.replicate 1025 'a').length = 1025
    rw [List.length_replicate]
  have htr : (truncate longNameSpan.Name).length = 1024 := by
    rw [truncate_eq_take]
    show (List.take keywordLength (List.replicate 1025 'a')).length = 1024
    rw [List.length_take, List.length_replicate]
    rfl
  refine ⟨?_, ?_, htr⟩
  · obtain ⟨primary, hp⟩ := convertSpanPrimary_isSome sampleEnv longNameSpan
      { Name := "", Version := "" } sampleBaseEvent 0 { Name := "otlp" }
      { Name := "unknown", Language := some { Name := "unknown" } } rfl (by decide) rfl
    obtain ⟨_, _, _, htx, _⟩ := convertSpanPrimary_spec _ _ _ _ _ _ hp
    obtain ⟨_, tx, h1, _, _, h2⟩ := htx (by decide)
    refine ⟨primary, tx, hp, h1, ?_, ?_⟩
    · rw [h2]
      exact hlen
    · intro hc
      have := congrArg String.length hc
      rw [h2, hlen, htr] at this
      cases this
  · obtain ⟨primary, hp⟩ := convertSpanPrimary_isSome sampleEnv longNameClientSpan
      { Name := "", Version := "" } sampleBaseEvent 0 { Name := "otlp" }
      { Name := "unknown", Language := some { Name := "unknown" } } rfl (by decide) rfl
    obtain ⟨_, _, _, _, hsp⟩ := convertSpanPrimary_spec _ _ _ _ _ _ hp
    obtain ⟨_, sp, h1, _, h2⟩ := hsp (by decide)
    refine ⟨primary, sp, hp, h1, ?_, ?_⟩
    · rw [h2]
      exact hlen
    · intro hc
      have := congrArg String.length hc
      rw [h2] at this
      have hn : longNameClientSpan.Name = longNameSpan.Name := rfl
      rw [hn, hlen, htr] at this
      cases this

/-- C28, amended: whenever `convertSpan` appends the events of a span, the first of them is
the primary event, and the `Name` of its transaction (for a root, SERVER or CONSUMER span) or
of its span record (for every other span) is the name of the OTLP span as it is, without any
truncation; it is the truncated name exactly when the name has at most 1024 code points. -/
theorem primary_event_name (E : Env) (otelSpan : ptrace.Span)
    (otelLibrary : InstrumentationScope) (baseEvent : APMEvent) (timeDelta : Int)
    (out out' : Batch)
    (h : convertSpan E otelSpan otelLibrary baseEvent timeDelta out = some out') :
    ∃ primary events, out' = out ++ primary :: events ∧
      (isTransactionSpan otelSpan = true →
        ∃ tx, primary.Transaction = some tx ∧ tx.Name = otelSpan.Name ∧
          (tx.Name = truncate otelSpan.Name ↔ otelSpan.Name.length ≤ 1024)) ∧
      (isTransactionSpan otelSpan = false →
        ∃ span, primary.Span = some span ∧ span.Name = otelSpan.Name ∧
          (span.Name = truncate otelSpan.Name ↔ otelSpan.Name.length ≤ 1024)) := by
  obtain ⟨primary, _, events, hp, _, hout, _⟩ := convertSpan_eq _ _ _ _ _ _ _ h
  obtain ⟨_, _, _, htx, hsp⟩ := convertSpanPrimary_spec _ _ _ _ _ _ hp
  have hiff : otelSpan.Name = truncate otelSpan.Name ↔ otelSpan.Name.length ≤ 1024 := by
    constructor
    · intro hc
      have hl := congrArg String.length hc
      rw [truncate_eq_take] at hl
      have hl' : otelSpan.Name.data.length =
          (List.take keywordLength otelSpan.Name.data).length := hl
      rw [List.length_take] at hl'
      show otelSpan.Name.data.length ≤ 1024
      have hk : keywordLength = 1024 := rfl
      omega
    · intro hc
      exact (truncate_of_length_le _ hc).symm
  refine ⟨primary, events, hout, ?_, ?_⟩
  · intro hk
    obtain ⟨_, tx, h1, _, _, h2⟩ := htx hk
    exact ⟨tx, h1, h2, by rw [h2]; exact hiff⟩
  · intro hk
    obtain ⟨_, sp, h1, _, h2⟩ := hsp hk
    exact ⟨sp, h1, h2, by rw [h2]; exact hiff⟩

/-- Witness for C28: the root span `sampleRootSpan`. -/
theorem primary_event_name_witness :
    convertSpan sampleEnv sampleRootSpan { Name := "", Version := "" } sampleBaseEvent 0 [] =
      some ((convertSpan sampleEnv sampleRootSpan { Name := "", Version := "" }
        sampleBaseEvent 0 []).getD []) ∧
    ∃ primary events,
      (convertSpan sampleEnv sampleRootSpan { Name := "", Version := "" }
        sampleBaseEvent 0 []).getD [] = [] ++ primary :: events ∧
      (isTransactionSpan sampleRootSpan = true →
        ∃ tx, primary.Transaction = some tx ∧ tx.Name = sampleRootSpan.Name ∧
          (tx.Name = truncate sampleRootSpan.Name ↔ sampleRootSpan.Name.length ≤ 1024)) ∧
      (isTransactionSpan sampleRootSpan = false →
        ∃ span, primary.Span = some span ∧ span.Name = sampleRootSpan.Name ∧
          (span.Name = truncate sampleRootSpan.Name ↔ sampleRootSpan.Name.length ≤ 1024)) :=
  ⟨eq_some_getD _ _ (by decide),
    primary_event_name sampleEnv sampleRootSpan { Name := "", Version := "" } sampleBaseEvent 0
      [] _ (eq_some_getD _ _ (by decide))⟩

/-- C29: `hexSpanID` returns the empty string if and only if all bytes of the id are zero;
otherwise it returns 16 characters, all of them among `0123456789abcdef`, which are the two
digits of every byte (high half, low half), in byte order.  `hexTraceID` does the same for
ids of 16 bytes with 32 characters.  In `convertSpan`, the primary event of a span with an
all-zero trace id keeps the `Trace` of the base event (none when the base event has none), and
otherwise gets the trace id in hexadecimal; the primary event of a span with an all-zero
parent span id keeps the `ParentId` of the base event (empty when that one is empty), and
otherwise gets the parent span id in hexadecimal. -/
theorem hex_ids_spec (E : Env) :
    (∀ id : SpanID,
      (hexSpanID id = "" ↔ ∀ b, b ∈ id.bytes → b = 0) ∧
      (hexSpanID id ≠ "" →
        (hexSpanID id).length = 16 ∧
        (hexSpanID id).data = (id.bytes.map byteDigits).flatten ∧
        ∀ c, c ∈ (hexSpanID id).data → c ∈ "0123456789abcdef".data)) ∧
    (∀ id : TraceID,
      (hexTraceID id = "" ↔ ∀ b, b ∈ id.bytes → b = 0) ∧
      (hexTraceID id ≠ "" →
        (hexTraceID id).length = 32 ∧
        (hexTraceID id).data = (id.bytes.map byteDigits).flatten ∧
        ∀ c, c ∈ (hexTraceID id).data → c ∈ "0123456789abcdef".data)) ∧
    (∀ otelSpan otelLibrary baseEvent timeDelta out out',
      convertSpan E otelSpan otelLibrary baseEvent timeDelta out = some out' →
      ∃ primary events, out' = out ++ primary :: events ∧
        primary.Trace =
          (if otelSpan.TraceID.IsEmpty then baseEvent.Trace
           else some { Id := hexTraceID otelSpan.TraceID }) ∧
        primary.ParentId =
          (if otelSpan.ParentSpanID.IsEmpty then baseEvent.ParentId
           else hexSpanID otelSpan.ParentSpanID)) ∧
    (convertSpan sampleEnv zeroIdsSpan { Name := "", Version := "" } sampleBaseEvent 0 []).map
        (fun batch => batch.map (fun event => (event.Trace.isSome, event.ParentId))) =
      some [(false, "")] := by
  refine ⟨?_, ?_, ?_, by decide⟩
  · intro id
    constructor
    · rw [hexSpanID_eq_empty, SpanID.IsEmpty, all_zero_iff]
    · intro hne
      have he : ¬ id.IsEmpty = true := fun hc => hne ((hexSpanID_eq_empty id).mpr hc)
      have hx : hexSpanID id = hexEncodeToString id.bytes := by
        unfold hexSpanID
        rw [if_neg he]
      rw [hx]
      refine ⟨?_, hexEncodeToString_data _, hexEncodeToString_digits _⟩
      rw [hexEncodeToString_length, id.size]
  · intro id
    constructor
    · rw [hexTraceID_eq_empty, TraceID.IsEmpty, all_zero_iff]
    · intro hne
      have he : ¬ id.IsEmpty = true := fun hc => hne ((hexTraceID_eq_empty id).mpr hc)
      have hx : hexTraceID id = hexEncodeToString id.bytes := by
        unfold hexTraceID
        rw [if_neg he]
      rw [hx]
      refine ⟨?_, hexEncodeToString_data _, hexEncodeToString_digits _⟩
      rw [hexEncodeToString_length, id.size]
  · intro otelSpan otelLibrary baseEvent timeDelta out out' h
    obtain ⟨primary, _, events, hp, _, hout, _⟩ := convertSpan_eq _ _ _ _ _ _ _ h
    obtain ⟨_, htr, _⟩ := convertSpanPrimary_spec _ _ _ _ _ _ hp
    refine ⟨primary, events, hout, ?_, convertSpanPrimary_ParentId _ _ _ _ _ _ hp⟩
    rw [htr]
    by_cases he : otelSpan.TraceID.IsEmpty = true
    · rw [if_pos he, if_neg (fun hc => hc ((hexTraceID_eq_empty _).mpr he))]
    · rw [if_neg he, if_pos (fun hc => he ((hexTraceID_eq_empty _).mp hc))]

/-- C30: for every span id and every trace id that is not all zero, decoding the string of
`hexSpanID` or `hexTraceID` as hexadecimal (`hexDecode`, the `hex.DecodeString` of Go) gives
the bytes of the id back; hence two different non-zero ids never get the same string.  (For
an all-zero id the string is empty and decodes to no bytes at all.) -/
theorem hex_ids_roundtrip :
    (∀ id : SpanID, id.IsEmpty = false → hexDecode (hexSpanID id).data = some id.bytes) ∧
    (∀ id : TraceID, id.IsEmpty = false → hexDecode (hexTraceID id).data = some id.bytes) ∧
    (∀ id1 id2 : SpanID, id1.IsEmpty = false → id2.IsEmpty = false →
      hexSpanID id1 = hexSpanID id2 → id1 = id2) ∧
    (∀ id1 id2 : TraceID, id1.IsEmpty = false → id2.IsEmpty = false →
      hexTraceID id1 = hexTraceID id2 → id1 = id2) ∧
    (∀ id : SpanID, id.IsEmpty = true → hexDecode (hexSpanID id).data = some []) ∧
    hexSpanID sampleSpanID = "0102030405060708" := by
  have hs : ∀ id : SpanID, id.IsEmpty = false →
      hexDecode (hexSpanID id).data = some id.bytes := by
    intro id he
    unfold hexSpanID
    rw [he]
    exact hexDecode_hexEncodeToString _
  have ht : ∀ id : TraceID, id.IsEmpty = false →
      hexDecode (hexTraceID id).data = some id.bytes := by
    intro id he
    unfold hexTraceID
    rw [he]
    exact hexDecode_hexEncodeToString _
  refine ⟨hs, ht, ?_, ?_, ?_, by decide⟩
  · intro id1 id2 h1 h2 heq
    have e1 := hs id1 h1
    rw [heq, hs id2 h2] at e1
    obtain ⟨b1, s1⟩ := id1
    obtain ⟨b2, s2⟩ := id2
    cases Option.some.inj e1
    rfl
  · intro id1 id2 h1 h2 heq
    have e1 := ht id1 h1
    rw [heq, ht id2 h2] at e1
    obtain ⟨b1, s1⟩ := id1
    obtain ⟨b2, s2⟩ := id2
    cases Option.some.inj e1
    rfl
  · intro id he
    unfold hexSpanID
    rw [he]
    rfl

/-- C31, the code at the failing input and in general.  The failing input, for the `otlp`
agent of `sampleEnv` and a base event without labels: the root span `plainEventSpan` (one
span event `tick` without attributes) gives a transaction event without label maps and a Log
event whose `Labels` and `NumericLabels` are present and empty; the root span
`sampleRootSpan` (one `exception` span event) gives an Error event with present and empty
maps.  `convertSpanEvent` initializes both maps of the event and, unlike `convertSpan` and
`convertScopeMetrics`, never resets an empty map to nil.  In general: whenever `convertSpan`
appends the events of a span, the primary event has `Labels` either nil or non-empty and
`NumericLabels` either nil or non-empty, and every event of a span event has both maps
present (they are empty when nothing was stored in them); `convertSpan` does append the
events when the base event has a non-Jaeger agent, a service with its language and the
`Event` record and the trace id is not all zero.  `convertScopeMetrics` always appends its
metricset events, and a metricset event has an empty `Labels` (`NumericLabels`) map only if
the base event of the resource has one: with datapoint attributes an empty map is reset to
nil, without them the maps are those of the base event. -/
theorem span_event_labels_not_reset (E : Env) (otelSpan : ptrace.Span)
    (otelLibrary : InstrumentationScope) (baseEvent : APMEvent) (timeDelta : Int)
    (out : Batch) (in_ : ScopeMetrics) (dropped : Int) :
    ((convertSpan sampleEnv plainEventSpan { Name := "", Version := "" } sampleBaseEvent 0
          []).map
        (fun batch => batch.map
          (fun event => (event.Processor, event.Labels.map List.length,
            event.NumericLabels.map List.length))) =
      some [(some Processor.transaction, none, none), (some Processor.log, some 0, some 0)] ∧
     (convertSpan sampleEnv sampleRootSpan { Name := "", Version := "" } sampleBaseEvent 0
          []).map
        (fun batch => batch.map
          (fun event => (event.Processor, event.Labels.map List.length,
            event.NumericLabels.map List.length))) =
      some [(some Processor.transaction, none, none),
        (some Processor.error, some 0, some 0)]) ∧
    (∀ out', convertSpan E otelSpan otelLibrary baseEvent timeDelta out = some out' →
      ∃ primary events, out' = out ++ primary :: events ∧
        events.length = otelSpan.Events.length ∧
        primary.Labels ≠ some [] ∧ primary.NumericLabels ≠ some [] ∧
        ∀ event, event ∈ events →
          event.Labels.isSome = true ∧ event.NumericLabels.isSome = true) ∧
    (GoodBase baseEvent → otelSpan.TraceID.IsEmpty = false →
      ∃ out', convertSpan E otelSpan otelLibrary baseEvent timeDelta out = some out') ∧
    (∃ events dropped',
      convertScopeMetrics E in_ baseEvent timeDelta out dropped =
        some (out ++ events, dropped') ∧
      ∀ event, event ∈ events →
        event.Processor = some Processor.metricset ∧
        (event.Labels = some [] → baseEvent.Labels = some []) ∧
        (event.NumericLabels = some [] → baseEvent.NumericLabels = some [])) := by
  refine ⟨⟨by decide, by decide⟩, ?_, ?_, ?_⟩
  · intro out' h
    obtain ⟨primary, parent, evs, hp, _, he, hf⟩ := convertSpan_eq _ _ _ _ _ _ _ h
    obtain ⟨l1, l2⟩ := convertSpanPrimary_labels _ _ _ _ _ _ hp
    refine ⟨primary, evs, he, hf.length_eq.symm, l1, l2, ?_⟩
    intro event hev
    obtain ⟨spanEvent, _, hx⟩ := forall₂_exists_left _ _ _ hf event hev
    exact convertSpanEvent_ready _ _ _ _ _ hx
  · intro hb ht
    exact convertSpan_isSome E otelSpan otelLibrary baseEvent timeDelta out hb
      (hexTraceID_ne_empty _ ht)
  · obtain ⟨ms, h1, _⟩ := addMetrics_eq E in_.Metrics
    refine ⟨ms.map (fun kv => metricsetEvent E baseEvent timeDelta kv.1 kv.2),
      (if ((in_.Metrics.filter metricDropped).length : Int) > 0
        then dropped + ((in_.Metrics.filter metricDropped).length : Int) else dropped), ?_, ?_⟩
    · unfold convertScopeMetrics
      rw [h1]
      rfl
    · intro event hev
      obtain ⟨kv, _, rfl⟩ := List.mem_map.mp hev
      obtain ⟨m1, m2⟩ := metricsetEvent_labels E baseEvent timeDelta kv.1 kv.2
      refine ⟨?_, ?_, ?_⟩
      · unfold metricsetEvent
        split
        · have hP : ∀ (attrs : Attributes) (e : APMEvent),
              (attrs.foldl (fun event kv => setLabel E kv.1 event (E.ifaceAttributeValue kv.2))
                e).Processor = e.Processor := by
            intro attrs
            induction attrs with
            | nil => intro e; rfl
            | cons a attrs ih => intro e; rw [List.foldl_cons, ih]; rfl
          simp only [hP]
          rfl
        · rfl
      · intro h
        by_cases ha : kv.2.attributes = []
        · rw [← (m2 ha).1]
          exact h
        · exact absurd h (m1 ha).1
      · intro h
        by_cases ha : kv.2.attributes = []
        · rw [← (m2 ha).2]
          exact h
        · exact absurd h (m1 ha).2

/-- C32, the code at the failing input and in general.  When the semaphore admits the call,
`ConsumeTraces` on a trace input with the span `zeroTraceSpan` (all-zero trace id, one
`exception` span event) panics in the translation: the processor is never invoked and the
call returns nothing.  In general: if `c.sem.Acquire` fails with the error `e`, both methods
return `e`, their only action is the call of `Acquire`, and the counter is unchanged.
Otherwise `ConsumeMetrics` always translates, invokes `ProcessBatch` exactly once, with a
non-nil batch (the empty batch for an input without resources), between `Acquire` and
`Release`, and returns exactly what `ProcessBatch` returned; `ConsumeTraces` does the same
whenever the translation returns (it does for every input of `GoodTraces`), and when the
translation panics it releases the semaphore and invokes the processor not at all. -/
theorem consume_invokes_processor (E : Env) (W : Collaborators)
    (metrics : List ResourceMetrics) (traces : List ptrace.ResourceSpans) (dropped : Int) :
    (ConsumeTraces sampleEnv failingProcessor zeroTraceInput 0 =
        { outcome := Outcome.panicked,
          effects := [Effect.acquire, Effect.now, Effect.debug, Effect.release],
          unsupportedMetricsDropped := 0 } ∧
      processBatchCalls
        (ConsumeTraces sampleEnv failingProcessor zeroTraceInput 0).effects = 0) ∧
    (∀ e, W.acquire = some e →
      ConsumeMetrics E W metrics dropped =
        { outcome := Outcome.returned (some e), effects := [Effect.acquire],
          unsupportedMetricsDropped := dropped } ∧
      ConsumeTraces E W traces dropped =
        { outcome := Outcome.returned (some e), effects := [Effect.acquire],
          unsupportedMetricsDropped := dropped }) ∧
    (W.acquire = none →
      ∃ batch dropped', convertMetrics E metrics W.now dropped = some (batch, dropped') ∧
        ConsumeMetrics E W metrics dropped =
          { outcome := Outcome.returned (W.processBatch (some batch)),
            effects := [Effect.acquire, Effect.now, Effect.debug,
                        Effect.processBatch (some batch), Effect.release],
            unsupportedMetricsDropped := dropped' } ∧
        processBatchCalls (ConsumeMetrics E W metrics dropped).effects = 1 ∧
        (metrics = [] → batch = [])) ∧
    (W.acquire = none →
      (∀ batch, convertTraces E traces W.now = some batch →
        ConsumeTraces E W traces dropped =
          { outcome := Outcome.returned (W.processBatch (some batch)),
            effects := [Effect.acquire, Effect.now, Effect.debug,
                        Effect.processBatch (some batch), Effect.release],
            unsupportedMetricsDropped := dropped } ∧
        processBatchCalls (ConsumeTraces E W traces dropped).effects = 1 ∧
        (traces = [] → batch = [])) ∧
      (GoodTraces E traces W.now → ∃ batch, convertTraces E traces W.now = some batch) ∧
      (convertTraces E traces W.now = none →
        ConsumeTraces E W traces dropped =
          { outcome := Outcome.panicked,
            effects := [Effect.acquire, Effect.now, Effect.debug, Effect.release],
            unsupportedMetricsDropped := dropped })) := by
  refine ⟨⟨by decide, by decide⟩, ?_, ?_, ?_⟩
  · intro e he
    unfold ConsumeMetrics ConsumeTraces
    rw [he]
    exact ⟨rfl, rfl⟩
  · intro ha
    obtain ⟨batch, dropped', h⟩ := convertMetrics_isSome E metrics W.now dropped
    have hc : ConsumeMetrics E W metrics dropped =
        { outcome := Outcome.returned (W.processBatch (some batch)),
          effects := [Effect.acquire, Effect.now, Effect.debug,
                      Effect.processBatch (some batch), Effect.release],
          unsupportedMetricsDropped := dropped' } := by
      unfold ConsumeMetrics
      rw [ha]
      dsimp only
      rw [h]
    refine ⟨batch, dropped', h, hc, by rw [hc]; rfl, ?_⟩
    intro hm
    rw [hm] at h
    cases h
    rfl
  · intro ha
    refine ⟨?_, convertTraces_isSome E traces W.now, ?_⟩
    · intro batch h
      have hc : ConsumeTraces E W traces dropped =
          { outcome := Outcome.returned (W.processBatch (some batch)),
            effects := [Effect.acquire, Effect.now, Effect.debug,
                        Effect.processBatch (some batch), Effect.release],
            unsupportedMetricsDropped := dropped } := by
        unfold ConsumeTraces
        rw [ha]
        dsimp only
        rw [h]
      refine ⟨hc, by rw [hc]; rfl, ?_⟩
      intro ht
      rw [ht] at h
      cases h
      rfl
    · intro h
      unfold ConsumeTraces
      rw [ha]
      dsimp only
      rw [h]

/-- C33, counterexample: the resource `exportedResource` carries the export timestamp `0`, so
the time delta is the receive timestamp itself.  With the receive timestamps `0` and `500`
the metric translation gives the event timestamps `[123]` and `[623]`, and the trace
translation gives `[1000, 2000]` and `[1500, 2500]`: the outputs differ in `Timestamp`, which
erasing `Event.Received` does not touch. -/
theorem export_timestamp_counterexample :
    (convertMetrics sampleEnv exportedMetrics 0 0).map
        (fun r => r.1.map (fun event => (eraseReceived event).Timestamp)) = some [some 123] ∧
    (convertMetrics sampleEnv exportedMetrics 500 0).map
        (fun r => r.1.map (fun event => (eraseReceived event).Timestamp)) = some [some 623] ∧
    (convertTraces sampleEnv exportedTraces 0).map
        (fun batch => batch.map (fun event => (eraseReceived event).Timestamp)) =
      some [some 1000, some 2000] ∧
    (convertTraces sampleEnv exportedTraces 500).map
        (fun batch => batch.map (fun event => (eraseReceived event).Timestamp)) =
      some [some 1500, some 2500] := by
  refine ⟨by decide, by decide, by decide, by decide⟩

/-- C33, amended: let the resource metadata of every resource be the same for the two
receive timestamps `t1` and `t2` apart from `Event.Received`, and let every resource of the
input have the same time delta for both (this is so when no resource carries
`telemetry.sdk.elastic_export_timestamp`: the delta is then zero).  Then the trace
translation with `t1` and with `t2` gives the same batch once `Event.Received` is erased from
every event (and it panics for both or for none), and the metric translation gives the same
batch, in the same order, and the same counter.  The helpers that are not among the sources,
among them the one that builds the error of an `exception` span event, are functions of
their arguments here. -/
theorem translation_independent_of_receive_time (E : Env)
    (traces : List ptrace.ResourceSpans) (metrics : List ResourceMetrics) (t1 t2 : Int)
    (dropped : Int)
    (hE : ∀ resource, eraseReceived (resourceBaseEvent E resource t1) =
      eraseReceived (resourceBaseEvent E resource t2))
    (hT : ∀ resourceSpans, resourceSpans ∈ traces →
      resourceTimeDelta resourceSpans.Resource t1 =
        resourceTimeDelta resourceSpans.Resource t2)
    (hM : ∀ resourceMetrics, resourceMetrics ∈ metrics →
      resourceTimeDelta resourceMetrics.Resource t1 =
        resourceTimeDelta resourceMetrics.Resource t2) :
    (convertTraces E traces t1).map (List.map eraseReceived) =
      (convertTraces E traces t2).map (List.map eraseReceived) ∧
    (convertMetrics E metrics t1 dropped).map (fun r => (r.1.map eraseReceived, r.2)) =
      (convertMetrics E metrics t2 dropped).map (fun r => (r.1.map eraseReceived, r.2)) ∧
    (∃ batch counter, convertMetrics E metrics t1 dropped = some (batch, counter)) ∧
    (∀ resource : Resource, exportTimestamp resource = none →
      resourceTimeDelta resource t1 = 0 ∧ resourceTimeDelta resource t2 = 0) :=
  ⟨convertTraces_congr E traces t1 t2 (fun r _ => hE r.Resource) hT,
    convertMetrics_congr E metrics t1 t2 dropped (fun r _ => hE r.Resource) hM,
    convertMetrics_isSome E metrics t1 dropped,
    fun resource h =>
      ⟨resourceTimeDelta_of_none resource t1 h, resourceTimeDelta_of_none resource t2 h⟩⟩

/-- Witness for C33: a root span with an `exception` span event and a gauge datapoint, for a
resource without export timestamp, received at the times `0` and `1000`. -/
theorem translation_independent_of_receive_time_witness :
    (convertTraces sampleEnv plainTraces 0).map (List.map eraseReceived) =
      (convertTraces sampleEnv plainTraces 1000).map (List.map eraseReceived) ∧
    (convertTraces sampleEnv plainTraces 0).isSome = true :=
  ⟨(translation_independent_of_receive_time sampleEnv plainTraces plainMetrics 0 1000 0
      (fun _ => rfl)
      (fun r hr => by
        simp only [plainTraces, List.mem_singleton] at hr
        subst hr
        rfl)
      (fun r hr => by
        simp only [plainMetrics, List.mem_singleton] at hr
        subst hr
        rfl)).1,
    by decide⟩

/-- C34, counterexample: the histogram datapoint with the bucket counts `[1, 1, 1]` and the
explicit bounds `[2, 1]` is accepted (three counts for two bounds).  Its values are
`[1, 1.5, 1]`: `2/2` for the first bucket, the midpoint `2 + (1 - 2)/2` for the second and
the bound `1` for the last; the last value is less than the one before it.  Sorted finite
bounds do not suffice either: with the bounds `[-3·2^1022, 3·2^1022]` the difference of the
bounds overflows, and the values are `[-3·2^1022, +Inf, 3·2^1022]`. -/
theorem unsorted_bounds_counterexample :
    (histogramSample [1, 1, 1] [F64.finite 2, F64.finite 1]).map (fun r => r.2) = some true ∧
    histogramValues [1, 1, 1] [F64.finite 2, F64.finite 1] =
      [F64.finite 1, F64.finite (3 / 2), F64.finite 1] ∧
    nonDecreasing (histogramValues [1, 1, 1] [F64.finite 2, F64.finite 1]) = false ∧
    nonDecreasing [F64.finite (-(3 * 2 ^ 1022)), F64.finite (3 * 2 ^ 1022)] = true ∧
    histogramValues [1, 1, 1] [F64.finite (-(3 * 2 ^ 1022)), F64.finite (3 * 2 ^ 1022)] =
      [F64.finite (-(3 * 2 ^ 1022)), F64.posInf, F64.finite (3 * 2 ^ 1022)] ∧
    nonDecreasing
      (histogramValues [1, 1, 1] [F64.finite (-(3 * 2 ^ 1022)), F64.finite (3 * 2 ^ 1022)]) =
        false := by
  refine ⟨by decide, by decide!, by decide!, by decide!, by decide!, by decide!⟩

/-- C34, amended: for every histogram datapoint that `histogramSample` accepts and whose
explicit bounds are finite `float64` values in non-decreasing order (every bound is less than
or equal to the next one), the values of the returned histogram are non-decreasing in index
order, provided the `float64` difference of every two neighbouring bounds is finite (it does
not overflow).  That is so whenever no bound is negative. -/
theorem histogram_values_sorted (c : List Nat) (b : List F64)
    (hn : c.length = b.length + 1) (hb : 1 ≤ b.length)
    (hf : b.all F64.isFinite = true) (hr : b.all F64.isFloat64 = true)
    (hs : nonDecreasing b = true) :
    (∃ sample, histogramSample c b = some (sample, true)) ∧
    (differencesFinite b = true → nonDecreasing (histogramValues c b) = true) ∧
    (b.all (fun x => F64.le (F64.finite 0) x) = true → differencesFinite b = true) := by
  obtain ⟨q, rfl⟩ := exists_rat_of_finite b hf
  have hq := (nonDecreasing_finite q).mp hs
  have hfl := isFloat64_all q hr
  refine ⟨⟨_, histogramSample_eq c _ hn hb⟩, ?_, ?_⟩
  · intro ho
    rw [List.length_map] at hn hb
    exact histogramValues_nonDecreasing c q hn hb hfl hq ho
  · intro h0
    apply differencesFinite_of_nonneg q hfl hq
    intro x hx
    rw [List.all_eq_true] at h0
    exact of_decide_eq_true (h0 _ (List.mem_map_of_mem _ hx))

/-- Witness for C34: the histogram of the end-to-end scenario with the bounds `[-1, 2, 4]`. -/
theorem histogram_values_sorted_witness :
    nonDecreasing
      (histogramValues [1, 1, 2, 3] [F64.finite (-1), F64.finite 2, F64.finite 4]) = true :=
  (histogram_values_sorted [1, 1, 2, 3] [F64.finite (-1), F64.finite 2, F64.finite 4]
    (by decide) (by decide) (by decide) (by decide!) (by decide)).2.1 (by decide!)

/-- C35, the code at the failing input and in general.  The failing input, for the attribute
strings of `sampleEnv` (`AsString` of a string value is the string): the scope
`collidingScope` has two gauge datapoints at the time `123` with different attributes,
`a = "bc"` and `ab = "c"`; both have the signature `abc`, and the scope gives one metricset
event with both samples and with the label `a = "bc"` of the first datapoint only.  The
scope `reorderedScope` has two gauge datapoints at the time `123` with the same attributes
`a = "1"`, `b = "2"` stored in a different order; their signatures `a1b2` and `b2a1` differ,
and the scope gives two metricset events.  In general: within one scope the accepted
datapoints are upserted in input order, and the scope emits one metricset event for every
entry of the resulting map, in which every key `(timestamp, signature)` occurs once.  Every
accepted datapoint contributes to the metricset of its key, which holds a sample under the
name of its metric; every sample of a metricset is the sample of an accepted datapoint with
the key of the metricset; so two accepted datapoints contribute to the same metricset if and
only if they have the same timestamp and the same attribute signature (the concatenation of
the keys and the string forms of the values, in stored order).  Equal attribute lists have
equal signatures, but not the other way round.  The attributes of a metricset, from which
the labels of its event are built, are those of the first accepted datapoint with its
key. -/
theorem metricset_grouping (E : Env) (in_ : ScopeMetrics) (baseEvent : APMEvent)
    (timeDelta : Int) (out : Batch) (dropped : Int) :
    ((convertScopeMetrics sampleEnv collidingScope sampleBaseEvent 0 [] 0).map
        (fun r => r.1.map metricsetSummary) =
      some [([("a", "bc")], ["m1", "m2"])] ∧
     (convertScopeMetrics sampleEnv reorderedScope sampleBaseEvent 0 [] 0).map
        (fun r => r.1.map metricsetSummary) =
      some [([("a", "1"), ("b", "2")], ["m1"]), ([("b", "2"), ("a", "1")], ["m2"])]) ∧
    (∃ dropped',
      convertScopeMetrics E in_ baseEvent timeDelta out dropped =
        some (out ++ (applyUpserts E (scopeUpserts in_.Metrics)).map
          (fun kv => metricsetEvent E baseEvent timeDelta kv.1 kv.2), dropped')) ∧
    ((applyUpserts E (scopeUpserts in_.Metrics)).map Prod.fst).Nodup ∧
    (∀ u, u ∈ scopeUpserts in_.Metrics →
      ∃ m s, (upsertKey E u, m) ∈ applyUpserts E (scopeUpserts in_.Metrics) ∧
        (u.sample.Name, s) ∈ m.samples) ∧
    (∀ key m, (key, m) ∈ applyUpserts E (scopeUpserts in_.Metrics) →
      (∀ n s, (n, s) ∈ m.samples →
        ∃ u, u ∈ scopeUpserts in_.Metrics ∧ upsertKey E u = key ∧ u.sample = s) ∧
      (∃ u, u ∈ scopeUpserts in_.Metrics ∧
        firstUpsert E (scopeUpserts in_.Metrics) key = some u ∧ upsertKey E u = key ∧
        m.attributes = u.attributes ∧
        (metricsetEvent E baseEvent timeDelta key m).Labels =
          (metricsetEvent E baseEvent timeDelta key
            { attributes := u.attributes, samples := [] }).Labels ∧
        (metricsetEvent E baseEvent timeDelta key m).NumericLabels =
          (metricsetEvent E baseEvent timeDelta key
            { attributes := u.attributes, samples := [] }).NumericLabels)) ∧
    (∀ u v : Upsert, upsertKey E u = upsertKey E v ↔
      u.timestamp = v.timestamp ∧
        attributeSignature E u.attributes = attributeSignature E v.attributes) ∧
    (∀ u v : Upsert, u.timestamp = v.timestamp → u.attributes = v.attributes →
      upsertKey E u = upsertKey E v) := by
  obtain ⟨n, hn⟩ := addMetrics_upserts E in_.Metrics
  have wf := applyUpserts_wf E (scopeUpserts in_.Metrics)
  have key_iff : ∀ key m, (key, m) ∈ applyUpserts E (scopeUpserts in_.Metrics) →
      ∀ name s, (name, s) ∈ m.samples ↔
        lastUpsert E (scopeUpserts in_.Metrics) key name = some s := by
    intro key m hm name s
    have hget := mapGet?_of_mem _ _ _ wf.1 hm
    have hl := applyUpserts_lookup E (scopeUpserts in_.Metrics) key name
    unfold lookupSample at hl
    rw [hget] at hl
    rw [← hl]
    exact ⟨fun h => mapGet?_of_mem _ _ _ (wf.2 key m hm) h, fun h => mem_of_mapGet? _ _ _ h⟩
  refine ⟨⟨by decide, by decide⟩, ⟨_, by unfold convertScopeMetrics; rw [hn]; rfl⟩, wf.1,
    ?_, ?_, ?_, ?_⟩
  · intro u hu
    obtain ⟨s, hs⟩ := lastUpsert_isSome E _ u hu
    have hl := applyUpserts_lookup E (scopeUpserts in_.Metrics) (upsertKey E u) u.sample.Name
    rw [hs] at hl
    unfold lookupSample at hl
    cases hg : mapGet? (applyUpserts E (scopeUpserts in_.Metrics)) (upsertKey E u) with
    | none => rw [hg] at hl; cases hl
    | some m =>
      rw [hg] at hl
      exact ⟨m, s, mem_of_mapGet? _ _ _ hg, mem_of_mapGet? _ _ _ hl⟩
  · intro key m hm
    constructor
    · intro name s hs
      exact lastUpsert_mem E _ key name s ((key_iff key m hm name s).mp hs)
    · have hget := mapGet?_of_mem _ _ _ wf.1 hm
      have ha := applyUpserts_attributes E (scopeUpserts in_.Metrics) key
      rw [hget] at ha
      cases hf : firstUpsert E (scopeUpserts in_.Metrics) key with
      | none => rw [hf] at ha; cases ha
      | some u =>
        rw [hf] at ha
        have hattr : m.attributes = u.attributes := by simpa using ha
        have hp := List.find?_some hf
        have hmem := List.mem_of_find?_eq_some hf
        simp only [decide_eq_true_eq] at hp
        obtain ⟨c1, c2⟩ := metricsetEvent_labels_congr E baseEvent timeDelta key m
          { attributes := u.attributes, samples := [] } hattr
        exact ⟨u, hmem, rfl, hp, hattr, c1, c2⟩
  · intro u v
    unfold upsertKey
    constructor
    · intro h
      exact ⟨congrArg metricsetKey.timestamp h, congrArg metricsetKey.signature h⟩
    · rintro ⟨h1, h2⟩
      rw [h1, h2]
  · intro u v h1 h2
    unfold upsertKey
    rw [h1, h2]

/-- C36: on one consumer with a semaphore of capacity `N`, after any sequence of steps of any
number of concurrent calls, the units held are exactly those of the calls that were admitted
and have not returned (a call holds its unit while it translates and while it is inside
`ProcessBatch`), at most `N` calls are admitted, at most `N` calls are inside `ProcessBatch`,
and when `N` units are held no waiting call can be admitted, while a waiting call can be
admitted when a unit is free.  In the code the unit is released after `ProcessBatch` has
returned: the actions of an admitted call of `ConsumeMetrics` are `Acquire`, `Now`, `Debug`,
`ProcessBatch`, `Release` in this order.  With capacity 1: while call 0 is blocked in
`ProcessBatch`, call 1 cannot be admitted; when its deadline expires it returns the error
`context deadline exceeded`; and after call 0 has completed, a third call is admitted and
returns nil. -/
theorem semaphore_bounds_calls (capacity : Nat) (actions : List Action)
    (s : ConsumerState) (h : consumerRun (newConsumer capacity) actions = some s) :
    s.capacity = capacity ∧ s.held = holdingCalls s ∧ holdingCalls s ≤ capacity ∧
    processingCalls s ≤ capacity ∧
    (s.held = capacity → ∀ i, consumerStep s (Action.acquired i) = none) ∧
    (∀ i, s.calls.get? i = some Phase.waiting → s.held < capacity →
      ∃ s', consumerStep s (Action.acquired i) = some s' ∧ s'.held = s.held + 1) ∧
    (∀ (E : Env) (W : Collaborators) (metrics : List ResourceMetrics) (dropped : Int),
      W.acquire = none →
      ∃ batch, (ConsumeMetrics E W metrics dropped).effects =
        [Effect.acquire, Effect.now, Effect.debug, Effect.processBatch (some batch),
         Effect.release]) ∧
    ((consumerRun (newConsumer 1) blockedScenario).map (fun s => (s.held, s.calls)) =
        some (1, [Phase.processing, Phase.waiting]) ∧
      (consumerRun (newConsumer 1) blockedScenario).bind
        (fun s => consumerStep s (Action.acquired 1)) = none ∧
      (consumerRun (newConsumer 1) (blockedScenario ++ resumedScenario)).map
          (fun s => (s.held, s.calls)) =
        some (0, [Phase.returned none, Phase.returned (some deadlineExceeded),
                  Phase.returned none])) := by
  obtain ⟨hc, hh, hle⟩ := consumerRun_invariant actions (newConsumer capacity) s h
    ⟨rfl, Nat.zero_le _⟩
  have hcap : s.capacity = capacity := hc
  refine ⟨hcap, hh, by omega, ?_, ?_, ?_, ?_, by decide, by decide, by decide⟩
  · have := processingCalls_le_holding s
    omega
  · intro hfull i
    simp only [consumerStep]
    rw [if_neg]
    rintro ⟨_, hlt⟩
    omega
  · intro i hw hlt
    simp only [consumerStep]
    rw [if_pos ⟨hw, by omega⟩]
    exact ⟨_, rfl, rfl⟩
  · intro E W metrics dropped ha
    obtain ⟨batch, dropped', hm⟩ := convertMetrics_isSome E metrics W.now dropped
    refine ⟨batch, ?_⟩
    unfold ConsumeMetrics
    rw [ha]
    dsimp only
    rw [hm]

/-- Witness for C36: the scenario in which call 0 is blocked in `ProcessBatch` and call 1
waits, on a consumer with capacity 1. -/
theorem semaphore_bounds_calls_witness :
    holdingCalls ((consumerRun (newConsumer 1) blockedScenario).getD (newConsumer 1)) ≤ 1 :=
  (semaphore_bounds_calls 1 blockedScenario _
    (eq_some_getD _ _ (by decide))).2.2.1

/-- C37, counterexample: the bounds `[-Inf, 0]` are strictly increasing, and the datapoint
with the bucket counts `[1, 1, 1]` is accepted.  Its values are `[-Inf, NaN, 0]`: the
midpoint of the second bucket is `-Inf + (0 - (-Inf))/2 = -Inf + Inf = NaN`, and no
comparison with NaN holds, so the values are not non-decreasing.  Finite bounds can fail as
well: the bounds `[-3·2^1022, 3·2^1022]` are strictly increasing `float64` values, their
difference overflows, and the values are `[-3·2^1022, +Inf, 3·2^1022]`. -/
theorem infinite_bound_counterexample :
    strictlyIncreasing [F64.negInf, F64.finite 0] = true ∧
    (histogramSample [1, 1, 1] [F64.negInf, F64.finite 0]).map (fun r => r.2) = some true ∧
    histogramValues [1, 1, 1] [F64.negInf, F64.finite 0] =
      [F64.negInf, F64.nan, F64.finite 0] ∧
    nonDecreasing (histogramValues [1, 1, 1] [F64.negInf, F64.finite 0]) = false ∧
    strictlyIncreasing [F64.finite (-(3 * 2 ^ 1022)), F64.finite (3 * 2 ^ 1022)] = true ∧
    [F64.finite (-(3 * 2 ^ 1022)), F64.finite (3 * 2 ^ 1022)].all F64.isFloat64 = true ∧
    nonDecreasing
      (histogramValues [1, 1, 1] [F64.finite (-(3 * 2 ^ 1022)), F64.finite (3 * 2 ^ 1022)]) =
        false := by
  refine ⟨by decide, by decide, by decide, by decide, by decide!, by decide!, by decide!⟩

/-- C37, amended: if the explicit bounds of an accepted histogram datapoint are finite
`float64` values, strictly increasing, and the `float64` difference of every two neighbouring
bounds is finite, then the values that `histogramSample` returns are non-decreasing.  They
are the values of the non-empty buckets in index order; the value of bucket `i` is less than
or equal to the value of every later bucket `j`, and less than it when `j ≥ i + 2`; the value
of an interior bucket lies between its two bounds (it can be equal to one of them, so the
values of two neighbouring buckets can be equal). -/
theorem histogram_values_increasing (c : List Nat) (b : List F64)
    (hn : c.length = b.length + 1) (hb : 1 ≤ b.length)
    (hf : b.all F64.isFinite = true) (hr : b.all F64.isFloat64 = true)
    (hs : strictlyIncreasing b = true) (ho : differencesFinite b = true) :
    (∃ sample, histogramSample c b = some (sample, true)) ∧
    nonDecreasing (histogramValues c b) = true ∧
    histogramValues c b = (nonEmptyBuckets c).map (fun i => float64BucketValue b c.length i) ∧
    (∀ i j, i < j → j < c.length →
      F64.le (float64BucketValue b c.length i) (float64BucketValue b c.length j) = true ∧
      (i + 2 ≤ j →
        F64.lt (float64BucketValue b c.length i) (float64BucketValue b c.length j) = true)) ∧
    (∀ i, 1 ≤ i → i + 1 < c.length →
      F64.le (b.getD (i - 1) (F64.finite 0)) (float64BucketValue b c.length i) = true ∧
      F64.le (float64BucketValue b c.length i) (b.getD i (F64.finite 0)) = true) := by
  obtain ⟨q, rfl⟩ := exists_rat_of_finite b hf
  have hq := (strictlyIncreasing_finite q).mp hs
  have hle : q.Pairwise (· ≤ ·) := hq.imp (fun h => le_of_lt h)
  have hfl := isFloat64_all q hr
  have hn' : c.length = q.length + 1 := by rw [List.length_map] at hn; exact hn
  have hb' : 1 ≤ q.length := by rw [List.length_map] at hb; exact hb
  refine ⟨⟨_, histogramSample_eq c _ hn hb⟩, histogramValues_nonDecreasing c q hn' hb' hfl hle ho,
    histogramValues_eq c _ hn hb, ?_, ?_⟩
  · intro i j hij hj
    obtain ⟨vi, vj, e1, e2, h1, h2⟩ :=
      float64BucketValue_mono q c.length i j hn' hb' hij hj hfl hle ho
    rw [e1, e2]
    exact ⟨decide_eq_true h1, fun h => decide_eq_true (h2 hq h)⟩
  · intro i h1 h2
    obtain ⟨v, e, v1, v2⟩ := float64BucketValue_bounds q c.length i hn' hb' (by omega) hfl hle ho
    rw [e, getD_map_finite, getD_map_finite]
    exact ⟨decide_eq_true (v1 h1), decide_eq_true (v2 (by omega))⟩

/-- Witness for C37: the histogram of the end-to-end scenario with the bounds `[-1, 2, 4]`. -/
theorem histogram_values_increasing_witness :
    nonDecreasing
      (histogramValues [1, 1, 2, 3] [F64.finite (-1), F64.finite 2, F64.finite 4]) = true :=
  (histogram_values_increasing [1, 1, 2, 3] [F64.finite (-1), F64.finite 2, F64.finite 4]
    (by decide) (by decide) (by decide) (by decide!) (by decide) (by decide!)).2.1

/-- C38, counterexample: the accepted histogram datapoint with the bucket counts `[2^63, 1]`
and the bound `1`.  The conversion `int64(count)` of the count `2^63` is `-2^63`: the emitted
count is negative and is not the bucket count. -/
theorem large_count_counterexample :
    (histogramSample [2 ^ 63, 1] [F64.finite 1]).map (fun r => r.2) = some true ∧
    histogramCounts [2 ^ 63, 1] [F64.finite 1] = [-(2 ^ 63), 1] ∧
    int64OfUint64 (2 ^ 63) = -(2 ^ 63) ∧
    int64OfUint64 (2 ^ 63) ≠ ((2 ^ 63 : Nat) : Int) := by
  refine ⟨by decide, by decide, by decide, by decide⟩

/-- C38, amended: for every accepted histogram datapoint whose bucket counts are unsigned
64-bit numbers, `histogramSample` emits as many counts as values, one for every non-zero
bucket count in index order, and the emitted count is `int64(count)`: for a count below
`2^63` it is the count itself and strictly positive; for a count of at least `2^63` it is
`count - 2^64`, a negative number. -/
theorem histogram_counts_int64 (c : List Nat) (b : List F64)
    (hn : c.length = b.length + 1) (hb : 1 ≤ b.length) (hc : ∀ n, n ∈ c → n < 2 ^ 64) :
    (∃ sample, histogramSample c b = some (sample, true)) ∧
    histogramCounts c b = (nonEmptyBuckets c).map (fun i => int64OfUint64 (c.getD i 0)) ∧
    (histogramValues c b).length = (histogramCounts c b).length ∧
    (∀ i, i ∈ nonEmptyBuckets c → c.getD i 0 ≠ 0 ∧
      (c.getD i 0 < 2 ^ 63 →
        int64OfUint64 (c.getD i 0) = (c.getD i 0 : Int) ∧ 0 < int64OfUint64 (c.getD i 0)) ∧
      (2 ^ 63 ≤ c.getD i 0 →
        int64OfUint64 (c.getD i 0) = (c.getD i 0 : Int) - 2 ^ 64 ∧
          int64OfUint64 (c.getD i 0) < 0)) := by
  obtain ⟨sample, histogram, h1, h2, h3, h4⟩ := histogramCounts_eq c b hn hb
  have hC : histogramCounts c b = histogram.Counts := by
    unfold histogramCounts
    rw [h1]
    simp only [h2, Option.map_some', Option.getD_some]
  have hV : histogramValues c b = histogram.Values := by
    unfold histogramValues
    rw [h1]
    simp only [h2, Option.map_some', Option.getD_some]
  refine ⟨⟨sample, h1⟩, by rw [hC, h3], by rw [hC, hV, h4], ?_⟩
  intro i hi
  obtain ⟨hi1, hi2⟩ := List.mem_filter.mp hi
  have hil : i < c.length := List.mem_range.mp hi1
  have hne : c.getD i 0 ≠ 0 := of_decide_eq_true hi2
  have hlt : c.getD i 0 < 2 ^ 64 := by
    apply hc
    rw [List.getD_eq_getElem _ _ hil]
    exact List.getElem_mem _
  refine ⟨hne, fun h => ?_, fun h => ?_⟩
  · rw [int64OfUint64_small _ h]
    exact ⟨rfl, by omega⟩
  · rw [int64OfUint64_large _ h hlt]
    exact ⟨rfl, by omega⟩

/-- Witness for C38: the bucket counts `[1, 0, 2^63]` with the bounds `[1, 2]`. -/
theorem histogram_counts_int64_witness :
    histogramCounts [1, 0, 2 ^ 63] [F64.finite 1, F64.finite 2] =
      (nonEmptyBuckets [1, 0, 2 ^ 63]).map
        (fun i => int64OfUint64 (([1, 0, 2 ^ 63] : List Nat).getD i 0)) :=
  (histogram_counts_int64 [1, 0, 2 ^ 63] [F64.finite 1, F64.finite 2] (by decide) (by decide)
    (by decide)).2.1

/-- C39, the code at the failing input and in general.  The base event `sampleBaseEvent` has
an agent (`otlp`) and a service with its language, and no trace.  The root span
`zeroTraceSpan` has an all-zero trace id and one `exception` span event with a type and a
message: its primary event is a transaction without `Trace`, and `convertSpan` panics,
because `setErrorContext` writes `out.Trace.Id` of an event whose `Trace` is nil.  In
general, for a base event with a non-Jaeger agent, a service with its language and the
`Event` record: `convertSpan` returns whenever the trace id is not all zero or the base event
has a trace; and for an all-zero trace id and a base event without trace and error record it
returns if and only if no span event is an `exception` event with a non-empty
`exception.message` or `exception.type`. -/
theorem convertSpan_without_trace (E : Env) (otelSpan : ptrace.Span)
    (otelLibrary : InstrumentationScope) (baseEvent : APMEvent) (timeDelta : Int)
    (out : Batch) :
    (sampleBaseEvent.Agent.map (fun a => a.Name) = some "otlp" ∧
      (sampleBaseEvent.Service.bind (fun s => s.Language)).isSome = true ∧
      sampleBaseEvent.Trace = none ∧
      zeroTraceSpan.TraceID.IsEmpty = true ∧
      zeroTraceSpan.Events = [sampleException] ∧ carriesException sampleException = true ∧
      (convertSpanPrimary sampleEnv zeroTraceSpan { Name := "", Version := "" }
          sampleBaseEvent 0).map (fun event => (event.Processor, event.Trace)) =
        some (some Processor.transaction, none) ∧
      convertSpan sampleEnv zeroTraceSpan { Name := "", Version := "" } sampleBaseEvent 0 [] =
        none) ∧
    (GoodBase baseEvent →
      (otelSpan.TraceID.IsEmpty = false ∨ baseEvent.Trace.isSome = true) →
      ∃ out', convertSpan E otelSpan otelLibrary baseEvent timeDelta out = some out') ∧
    (GoodBase baseEvent → baseEvent.Error = none → otelSpan.TraceID.IsEmpty = true →
      baseEvent.Trace = none →
      ((∃ out', convertSpan E otelSpan otelLibrary baseEvent timeDelta out = some out') ↔
        ∀ spanEvent, spanEvent ∈ otelSpan.Events → carriesException spanEvent = false)) := by
  refine ⟨⟨by decide, by decide, by decide, by decide, rfl, by decide, by decide,
    by decide⟩, ?_, ?_⟩
  · intro hb ht
    refine convertSpan_isSome_trace E otelSpan otelLibrary baseEvent timeDelta out hb ?_
    rcases ht with h | h
    · exact Or.inl (hexTraceID_ne_empty _ h)
    · exact Or.inr h
  · intro hb he hz ht
    exact convertSpan_isSome_iff E otelSpan otelLibrary baseEvent timeDelta out hb he hz ht

/-- C40: `ToHTTPHeaders` returns nil for a list without elements (a nil or an empty slice).
For every other list it returns a map that holds every key once; its keys are exactly the
`Key` fields that occur in the list, as they are written (the function does not change
them); and every key maps to the `Value` of the last element of the list with that key. -/
theorem ToHTTPHeaders_spec (h : List HTTPHeader) :
    ToHTTPHeaders [] = none ∧
    (h ≠ [] → ∃ headers, ToHTTPHeaders h = some headers ∧
      (headers.map Prod.fst).Nodup ∧
      (∀ k, k ∈ headers.map Prod.fst ↔ ∃ v, v ∈ h ∧ v.Key = k) ∧
      (∀ k, mapGet? headers k = lastHeaderValue h k) ∧
      (∀ v, v ∈ h → ∃ values, mapGet? headers v.Key = some values)) := by
  refine ⟨rfl, fun hne => ?_⟩
  obtain ⟨s1, s2, s3⟩ := headersLoop_spec h [] List.nodup_nil
  have hlen : ¬ h.length = 0 := fun e => hne (List.length_eq_zero.mp e)
  refine ⟨_, by unfold ToHTTPHeaders; rw [if_neg hlen], s1, fun k => ?_, fun k => ?_,
    fun v hv => ?_⟩
  · rw [s2 k]
    simp
  · rw [s3 k]
    cases lastHeaderValue h k <;> rfl
  · have hk : v.Key ∈ (h.foldl (fun headers v => mapSet headers v.Key v.Value) []).map
        Prod.fst := (s2 v.Key).mpr (Or.inr ⟨v, hv, rfl⟩)
    obtain ⟨⟨k, values⟩, hmem, hkey⟩ := List.mem_map.mp hk
    exact ⟨values, by rw [← hkey]; exact mapGet?_of_mem _ _ _ s1 hmem⟩

end Otlp
